import Mathlib

/-!
# PODEM test generation: circuit graph, five-valued simulation, backtracking search

A shallow embedding of `ClassGate.{h,cc}`, `ClassCircuit.{h,cc}` and `PODEM.cc`.

* A `Gate*` is an index into the circuit's gate vector (`Circuit.gates`); gates are only ever
  appended, so an index denotes the same gate for the whole life of the circuit.
* `char`/`int` logic values, gate types and fault types are integers (`Int`); every value the
  program writes lies in `-1 .. 10`, so no wrap-around is involved.
* A failed `assert`, an access through an invalid pointer or index and `inputVals[0]` on an empty
  vector end the run: the function returns `none`.
* Recursion and loops without a syntactic bound (`simGateRecursive`, the `while` of `backtrace`,
  `podemRecursion`, the growing loop of the fanout pass) take a fuel argument and return `none`
  when it is used up.
-/

namespace PODEM

/-! ## Macros of `ClassGate.h` -/

abbrev GATE_NAND : Int := 0
abbrev GATE_NOR : Int := 1
abbrev GATE_AND : Int := 2
abbrev GATE_OR : Int := 3
abbrev GATE_XOR : Int := 4
abbrev GATE_XNOR : Int := 5
abbrev GATE_BUFF : Int := 6
abbrev GATE_NOT : Int := 7
abbrev GATE_PI : Int := 9
abbrev GATE_FANOUT : Int := 10

abbrev LOGIC_UNSET : Int := -1
abbrev LOGIC_ZERO : Int := 0
abbrev LOGIC_ONE : Int := 1
abbrev LOGIC_D : Int := 2
abbrev LOGIC_DBAR : Int := 3
abbrev LOGIC_X : Int := 4

abbrev NOFAULT : Int := -1
abbrev FAULT_SA0 : Int := 0
abbrev FAULT_SA1 : Int := 1

/-! ## `class Gate` -/

/-- The data members of `class Gate`, in the order of `ClassGate.h`. `gateInputs` and
`gateOutputs` hold gate indices where the source holds `Gate*`. -/
structure Gate where
  gateID : Int
  gateType : Int
  gateInputs : List Nat
  gateOutputs : List Nat
  outputName : String
  gateValue : Int
  inputName : List String
  faultType : Int
  deriving DecidableEq

/-- The constructor `Gate::Gate(name, ID, gt)`. The source leaves `faultType` uninitialised
(`main` calls `clearFaults` before any use); the embedding starts it at `NOFAULT`. -/
def Gate.new (name : String) (ID : Int) (gt : Int) : Gate :=
  { gateID := ID, gateType := gt, gateInputs := [], gateOutputs := [], outputName := name,
    gateValue := LOGIC_UNSET, inputName := [], faultType := NOFAULT }

/-- `Gate::set_gateOutput`. -/
def Gate.set_gateOutput (g : Gate) (x : Nat) : Gate :=
  { g with gateOutputs := g.gateOutputs ++ [x] }

/-- `Gate::set_gateInput`. -/
def Gate.set_gateInput (g : Gate) (x : Nat) : Gate :=
  { g with gateInputs := g.gateInputs ++ [x] }

/-- The loop shared by `Gate::replace_gateOutput` and `Gate::replace_gateInput`: overwrite the
first entry equal to `oldGate`; `none` is the `assert(false)` reached when there is none. -/
def replaceFirst (oldGate newGate : Nat) : List Nat → Option (List Nat)
  | [] => none
  | x :: xs =>
    if x = oldGate then some (newGate :: xs)
    else (replaceFirst oldGate newGate xs).map (fun r => x :: r)

/-- `Gate::replace_gateOutput`. -/
def Gate.replace_gateOutput (g : Gate) (oldGate newGate : Nat) : Option Gate :=
  (replaceFirst oldGate newGate g.gateOutputs).map (fun l => { g with gateOutputs := l })

/-- `Gate::replace_gateInput`. -/
def Gate.replace_gateInput (g : Gate) (oldGate newGate : Nat) : Option Gate :=
  (replaceFirst oldGate newGate g.gateInputs).map (fun l => { g with gateInputs := l })

/-- `Gate::set_gateInputName`. -/
def Gate.set_gateInputName (g : Gate) (n : String) : Gate :=
  { g with inputName := g.inputName ++ [n] }

/-- `Gate::setValue`. -/
def Gate.setValue (g : Gate) (val : Int) : Gate :=
  { g with gateValue := val }

/-- `Gate::set_faultType`; `none` is the failed assertion on the argument. -/
def Gate.set_faultType (g : Gate) (f : Int) : Option Gate :=
  if f = NOFAULT ∨ f = FAULT_SA0 ∨ f = FAULT_SA1 then some { g with faultType := f } else none

/-! ## `class Circuit` -/

/-- The data members of `class Circuit`; `outputGates` and `inputGates` hold gate indices. -/
structure Circuit where
  gates : List Gate
  outputGates : List Nat
  inputGates : List Nat
  outputNames : List String
  deriving DecidableEq

/-- `Circuit::Circuit()`. -/
def Circuit.empty : Circuit :=
  { gates := [], outputGates := [], inputGates := [], outputNames := [] }

/-- `Circuit::newGate`. -/
def Circuit.newGate (c : Circuit) (name : String) (ID : Int) (gt : Int) : Circuit :=
  { c with
    gates := c.gates ++ [Gate.new name ID gt]
    inputGates := if gt = GATE_PI then c.inputGates ++ [c.gates.length] else c.inputGates }

/-- `Circuit::addOutputName`. -/
def Circuit.addOutputName (c : Circuit) (n : String) : Circuit :=
  { c with outputNames := c.outputNames ++ [n] }

/-- Write through a gate pointer: replace the gate stored at index `p`. -/
def Circuit.putGate (c : Circuit) (p : Nat) (g : Gate) : Circuit :=
  { c with gates := c.gates.set p g }

/-- The parser's `findGateByName(out)->set_gateInputName(n)`-style access: apply a member
function to the gate at index `p`; `none` for an invalid pointer. -/
def Circuit.onGate (c : Circuit) (p : Nat) (f : Gate → Gate) : Option Circuit :=
  match c.gates[p]? with
  | none => none
  | some g => some (c.putGate p (f g))

/-- `g->getValue()` through a pointer. -/
def Circuit.getValue (c : Circuit) (p : Nat) : Option Int :=
  (c.gates[p]?).map Gate.gateValue

/-- `g->setValue(val)` through a pointer. -/
def Circuit.setValue (c : Circuit) (p : Nat) (val : Int) : Option Circuit :=
  c.onGate p (fun g => g.setValue val)

/-- The loop of `Circuit::findGateByName` over the gates from index `i` on; `res` is `some`
exactly when `found` is true. The outer `none` is the failed `assert(!found)`. -/
def findGateLoop (name : String) : List Gate → Nat → Option Nat → Option (Option Nat)
  | [], _, res => some res
  | g :: gs, i, res =>
    if g.outputName = name then
      if res.isSome then none else findGateLoop name gs (i + 1) (some i)
    else findGateLoop name gs (i + 1) res

/-- `Circuit::findGateByName`: the loop, then `assert(found)`. -/
def Circuit.findGateByName (c : Circuit) (name : String) : Option Nat :=
  match findGateLoop name c.gates 0 none with
  | some (some i) => some i
  | _ => none

/-- First loop of `Circuit::setupCircuit`: resolve the output names. -/
def resolveOutputs (c : Circuit) : List String → Option Circuit
  | [] => some c
  | n :: ns =>
    match c.findGateByName n with
    | none => none
    | some p => resolveOutputs { c with outputGates := c.outputGates ++ [p] } ns

/-- Inner loop of the second loop of `setupCircuit`: for every input name of gate `g`, link the
named gate and `g` in both directions. -/
def linkNames (g : Nat) : Circuit → List String → Option Circuit
  | c, [] => some c
  | c, n :: ns =>
    match c.findGateByName n with
    | none => none
    | some inGate =>
      match c.onGate inGate (fun x => x.set_gateOutput g) with
      | none => none
      | some c1 =>
        match c1.onGate g (fun x => x.set_gateInput inGate) with
        | none => none
        | some c2 => linkNames g c2 ns

/-- Second loop of `setupCircuit`, over the gate indices in `is`. -/
def linkGates : Circuit → List Nat → Option Circuit
  | c, [] => some c
  | c, i :: is =>
    match c.gates[i]? with
    | none => none
    | some g =>
      match linkNames i c g.inputName with
      | none => none
      | some c1 => linkGates c1 is

/-- One round `j` of the inner loop of the fanout pass for gate `g` and its former successor
`h = go[j]`: append a `FANOUT` gate and splice it between `g` and `h`. -/
def insertFanout (c : Circuit) (g : Nat) (name : String) (h : Nat) (j : Nat) : Option Circuit :=
  let newFanoutGate := c.gates.length
  let c0 := c.newGate (name ++ "_" ++ toString j) (Int.ofNat c.gates.length) GATE_FANOUT
  match c0.gates[g]? with
  | none => none
  | some gg =>
    match gg.replace_gateOutput h newFanoutGate with
    | none => none
    | some gg1 =>
      match (c0.putGate g gg1).onGate newFanoutGate (fun x => x.set_gateInput g) with
      | none => none
      | some c2 =>
        match c2.gates[h]? with
        | none => none
        | some hh =>
          match hh.replace_gateInput g newFanoutGate with
          | none => none
          | some hh1 => (c2.putGate h hh1).onGate newFanoutGate (fun x => x.set_gateOutput h)

/-- Inner loop of the fanout pass over the copy `go` of the successor list of `g`. -/
def splitOutputs (g : Nat) (name : String) : Circuit → List Nat → Nat → Option Circuit
  | c, [], _ => some c
  | c, h :: rest, j =>
    match insertFanout c g name h j with
    | none => none
    | some c1 => splitOutputs g name c1 rest (j + 1)

/-- Third loop of `setupCircuit` (the fanout pass), from index `i` on. The bound `gates.size()`
is read again at every round, and grows when gates are appended. -/
def fanoutPass : Nat → Nat → Circuit → Option Circuit
  | 0, i, c => if i < c.gates.length then none else some c
  | fuel + 1, i, c =>
    if i < c.gates.length then
      match c.gates[i]? with
      | none => none
      | some g =>
        if g.gateType ≠ GATE_FANOUT ∧ g.gateOutputs.length > 1 then
          match splitOutputs i g.outputName c g.gateOutputs 0 with
          | none => none
          | some c1 => fanoutPass fuel (i + 1) c1
        else fanoutPass fuel (i + 1) c
    else some c

/-- The first `assert` of `checkPointerConsistency`, for gate `g`: each of its inputs lists `g`
among its outputs. -/
def inputsConsistent (c : Circuit) (g : Nat) (gate : Gate) : Bool :=
  gate.gateInputs.all (fun p =>
    match c.gates[p]? with
    | none => false
    | some x => decide (g ∈ x.gateOutputs))

/-- The second `assert` of `checkPointerConsistency`, for gate `g`. -/
def outputsConsistent (c : Circuit) (g : Nat) (gate : Gate) : Bool :=
  gate.gateOutputs.all (fun s =>
    match c.gates[s]? with
    | none => false
    | some x => decide (g ∈ x.gateInputs))

/-- The third `assert` of `checkPointerConsistency`, for one gate. -/
def fanoutConsistent (c : Circuit) (gate : Gate) : Bool :=
  if gate.gateOutputs.length > 1 then
    gate.gateOutputs.all (fun s =>
      match c.gates[s]? with
      | none => false
      | some x => decide (x.gateType = GATE_FANOUT))
  else true

/-- `Circuit::checkPointerConsistency`: `true` when no assertion fails. -/
def Circuit.checkPointerConsistency (c : Circuit) : Bool :=
  (c.gates.enum.all (fun ig =>
    inputsConsistent c ig.1 ig.2 && outputsConsistent c ig.1 ig.2))
  && c.gates.all (fun gate => fanoutConsistent c gate)

/-- The three loops of `Circuit::setupCircuit`, before its final consistency check. -/
def Circuit.buildLinks (fuel : Nat) (c : Circuit) : Option Circuit :=
  match resolveOutputs c c.outputNames with
  | none => none
  | some c1 =>
    match linkGates c1 (List.range c1.gates.length) with
    | none => none
    | some c2 => fanoutPass fuel 0 c2

/-- `Circuit::setupCircuit`. -/
def Circuit.setupCircuit (fuel : Nat) (c : Circuit) : Option Circuit :=
  match c.buildLinks fuel with
  | none => none
  | some c3 => if c3.checkPointerConsistency then some c3 else none

/-- The loop of `Circuit::setPIValues` over the remaining primary inputs and values; the
five-way choice is written out in the source as it is here. -/
def setPILoop : Circuit → List Nat → List Int → Option Circuit
  | c, p :: ps, v :: vs =>
    match c.onGate p (fun gate =>
        if gate.faultType = FAULT_SA0 ∧ v = LOGIC_ONE then gate.setValue LOGIC_D
        else if gate.faultType = FAULT_SA0 ∧ v = LOGIC_DBAR then gate.setValue LOGIC_ZERO
        else if gate.faultType = FAULT_SA1 ∧ v = LOGIC_ZERO then gate.setValue LOGIC_DBAR
        else if gate.faultType = FAULT_SA1 ∧ v = LOGIC_D then gate.setValue LOGIC_ONE
        else gate.setValue v) with
    | none => none
    | some c1 => setPILoop c1 ps vs
  | c, _, _ => some c

/-- `Circuit::setPIValues`; `none` is the failed assertion on the number of values. -/
def Circuit.setPIValues (c : Circuit) (inputVals : List Int) : Option Circuit :=
  if inputVals.length ≠ c.inputGates.length then none
  else setPILoop c c.inputGates inputVals

/-- `Circuit::clearFaults`. -/
def Circuit.clearFaults (c : Circuit) : Circuit :=
  { c with gates := c.gates.map (fun g => { g with faultType := NOFAULT }) }

/-! ## Logic and fault simulation (`PODEM.cc`) -/

/-- `LogicNot`: the five-valued complement; any other argument gives `LOGIC_UNSET` (after the
error message the source prints). -/
def LogicNot (logicVal : Int) : Int :=
  if logicVal = LOGIC_ONE then LOGIC_ZERO
  else if logicVal = LOGIC_ZERO then LOGIC_ONE
  else if logicVal = LOGIC_D then LOGIC_DBAR
  else if logicVal = LOGIC_DBAR then LOGIC_D
  else if logicVal = LOGIC_X then LOGIC_X
  else LOGIC_UNSET

/-- `evalGate(in, c, i)`: NAND, NOR, AND and OR gates with controlling value `c` and inversion
`i`. The four `find` calls are the four membership tests. -/
def evalGate (ins : List Int) (c i : Int) : Int :=
  let anyC := decide (c ∈ ins)
  let anyUnknown := decide (LOGIC_X ∈ ins)
  let anyD := decide (LOGIC_D ∈ ins)
  let anyDBar := decide (LOGIC_DBAR ∈ ins)
  if anyC || (anyD && anyDBar) then (if i ≠ 0 then LogicNot c else c)
  else if anyUnknown then LOGIC_X
  else if anyD then (if i ≠ 0 then LOGIC_DBAR else LOGIC_D)
  else if anyDBar then (if i ≠ 0 then LOGIC_D else LOGIC_DBAR)
  else LogicNot (if i ≠ 0 then LogicNot c else c)

/-- The counting loop of `EvalXORGate`, started with the counters `(onesFaultFree, onesFaulty)`;
`none` is the `default:` branch, which makes the function return at once. -/
def countOnes : List Int → Nat → Nat → Option (Nat × Nat)
  | [], onesFaultFree, onesFaulty => some (onesFaultFree, onesFaulty)
  | v :: vs, onesFaultFree, onesFaulty =>
    if v = LOGIC_ZERO then countOnes vs onesFaultFree onesFaulty
    else if v = LOGIC_ONE then countOnes vs (onesFaultFree + 1) (onesFaulty + 1)
    else if v = LOGIC_D then countOnes vs (onesFaultFree + 1) onesFaulty
    else if v = LOGIC_DBAR then countOnes vs onesFaultFree (onesFaulty + 1)
    else none

/-- `EvalXORGate(in, inv)`. -/
def EvalXORGate (ins : List Int) (inv : Int) : Int :=
  if LOGIC_X ∈ ins then LOGIC_X
  else
    match countOnes ins 0 0 with
    | none => LOGIC_X
    | some (onesFaultFree, onesFaulty) =>
      let XORVal : Int :=
        if onesFaultFree % 2 = 0 ∧ onesFaulty % 2 = 0 then LOGIC_ZERO
        else if onesFaultFree % 2 = 1 ∧ onesFaulty % 2 = 1 then LOGIC_ONE
        else if onesFaultFree % 2 = 1 ∧ onesFaulty % 2 = 0 then LOGIC_D
        else LOGIC_DBAR
      if inv ≠ 0 then LogicNot XORVal else XORVal

/-- The first loop of `simGate`: the values of the gates in `pred`. -/
def inputValues (c : Circuit) : List Nat → Option (List Int)
  | [] => some []
  | p :: ps =>
    match c.getValue p with
    | none => none
    | some v => (inputValues c ps).map (fun vs => v :: vs)

/-- The `switch` of `simGate` on the gate type, given the input values. `none` is the
`default:` branch (`assert(false)`, reached for `GATE_PI` and unknown types) and `inputVals[0]`
on an empty vector. -/
def simGateType (gateType : Int) (inputVals : List Int) : Option Int :=
  if gateType = GATE_NAND then some (evalGate inputVals 0 1)
  else if gateType = GATE_NOR then some (evalGate inputVals 1 1)
  else if gateType = GATE_AND then some (evalGate inputVals 0 0)
  else if gateType = GATE_OR then some (evalGate inputVals 1 0)
  else if gateType = GATE_BUFF then inputVals.head?
  else if gateType = GATE_NOT then inputVals.head?.map LogicNot
  else if gateType = GATE_XOR then some (EvalXORGate inputVals 0)
  else if gateType = GATE_XNOR then some (EvalXORGate inputVals 1)
  else if gateType = GATE_FANOUT then inputVals.head?
  else none

/-- `simGate(g)`. -/
def simGate (c : Circuit) (g : Nat) : Option Int :=
  match c.gates[g]? with
  | none => none
  | some gate =>
    match inputValues c gate.gateInputs with
    | none => none
    | some inputVals => simGateType gate.gateType inputVals

/-- The value `setValueCheckFault` stores on a gate with fault `faultType` for `gateValue`. -/
def faultedValue (faultType : Int) (gateValue : Int) : Int :=
  if faultType = FAULT_SA0 ∧ gateValue = LOGIC_ONE then LOGIC_D
  else if faultType = FAULT_SA0 ∧ gateValue = LOGIC_DBAR then LOGIC_ZERO
  else if faultType = FAULT_SA1 ∧ gateValue = LOGIC_ZERO then LOGIC_DBAR
  else if faultType = FAULT_SA1 ∧ gateValue = LOGIC_D then LOGIC_ONE
  else gateValue

/-- `setValueCheckFault(g, gateValue)`. -/
def setValueCheckFault (c : Circuit) (g : Nat) (gateValue : Int) : Option Circuit :=
  c.onGate g (fun gate => gate.setValue (faultedValue gate.faultType gateValue))

/-- A `for` loop that applies a circuit-updating call to each gate of a list in turn. -/
def forGates (f : Circuit → Nat → Option Circuit) : Circuit → List Nat → Option Circuit
  | c, [] => some c
  | c, p :: ps =>
    match f c p with
    | none => none
    | some c1 => forGates f c1 ps

/-- `simGateRecursive(g)`; `fuel` bounds the recursion depth. -/
def simGateRecursive : Nat → Circuit → Nat → Option Circuit
  | 0, _, _ => none
  | fuel + 1, c, g =>
    match c.gates[g]? with
    | none => none
    | some gate =>
      if gate.gateValue ≠ LOGIC_UNSET then some c
      else
        match forGates (fun c1 p => simGateRecursive fuel c1 p) c gate.gateInputs with
        | none => none
        | some c1 =>
          match simGate c1 g with
          | none => none
          | some gateValue => setValueCheckFault c1 g gateValue

/-- First loop of `simFullCircuit`: every gate that is not a primary input becomes UNSET. -/
def Circuit.unsetNonPI (c : Circuit) : Circuit :=
  { c with gates := c.gates.map (fun g =>
      if g.gateType ≠ GATE_PI then g.setValue LOGIC_UNSET else g) }

/-- `simFullCircuit(myCircuit)`; `fuel` is handed to `simGateRecursive`. -/
def simFullCircuit (fuel : Nat) (c : Circuit) : Option Circuit :=
  forGates (fun c1 p => simGateRecursive fuel c1 p) c.unsetNonPI c.outputGates

/-- `eventDrivenSim(myCircuit, q)`: the body in the source holds comments only, so the call
returns with no gate touched. -/
def eventDrivenSim (myCircuit : Circuit) (_q : List Nat) : Circuit :=
  myCircuit

/-- `checkTest`: its first statement is `return true;`. -/
def checkTest (_myCircuit : Circuit) : Bool :=
  true

/-- `printPIValue`. -/
def printPIValue (v : Int) : String :=
  if v = LOGIC_ZERO then "0"
  else if v = LOGIC_ONE then "1"
  else if v = LOGIC_UNSET then "U"
  else if v = LOGIC_X then "X"
  else if v = LOGIC_D then "1"
  else if v = LOGIC_DBAR then "0"
  else ""

/-! ## PODEM -/

/-- The global variables of `PODEM.cc` together with the circuit they refer to. -/
structure Podem where
  myCircuit : Circuit
  dFrontier : List Nat
  faultLocation : Nat
  faultActivationVal : Int
  deriving DecidableEq

/-- Inner loop of `updateDFrontier`: does one of the gates in `Ginputs` hold D or D-bar? -/
def anyFaultEffect (c : Circuit) : List Nat → Option Bool
  | [] => some false
  | p :: ps =>
    match c.getValue p with
    | none => none
    | some v => if v = LOGIC_D ∨ v = LOGIC_DBAR then some true else anyFaultEffect c ps

/-- Outer loop of `updateDFrontier` over the gates from index `i` on; `acc` is `dFrontier`. -/
def scanFrontier (c : Circuit) : List Gate → Nat → List Nat → Option (List Nat)
  | [], _, acc => some acc
  | G :: rest, i, acc =>
    if G.gateValue ≠ LOGIC_X then scanFrontier c rest (i + 1) acc
    else
      match anyFaultEffect c G.gateInputs with
      | none => none
      | some true => scanFrontier c rest (i + 1) (acc ++ [i])
      | some false => scanFrontier c rest (i + 1) acc

/-- `updateDFrontier(myCircuit)`. -/
def updateDFrontier (s : Podem) : Option Podem :=
  (scanFrontier s.myCircuit s.myCircuit.gates 0 []).map (fun l => { s with dFrontier := l })

/-- The search loops of `getObjective` and `backtrace`: the first gate of the list whose value
is X, if there is one. -/
def firstX (c : Circuit) : List Nat → Option (Option Nat)
  | [] => some none
  | p :: ps =>
    match c.getValue p with
    | none => none
    | some v => if v = LOGIC_X then some (some p) else firstX c ps

/-- The objective value `getObjective` picks for a D-frontier gate of the given type. -/
def objectiveValue (gateType : Int) : Int :=
  if gateType = GATE_AND ∨ gateType = GATE_NAND then LOGIC_ONE
  else if gateType = GATE_OR ∨ gateType = GATE_NOR then LOGIC_ZERO
  else if gateType = GATE_XOR ∨ gateType = GATE_XNOR then LOGIC_ZERO
  else LOGIC_X

/-- `getObjective(g, v, myCircuit)`. The outer `none` is an aborted run. The result holds the
globals after the call and, when the source returns `true`, `some (g, v)`, where `g` is `none`
if the source never assigned it; `none` in that place is the return value `false`. -/
def getObjective (s : Podem) : Option (Podem × Option (Option Nat × Int)) :=
  match s.myCircuit.getValue s.faultLocation with
  | none => none
  | some fv =>
    if fv = LOGIC_X then some (s, some (some s.faultLocation, s.faultActivationVal))
    else if fv = LOGIC_ONE ∨ fv = LOGIC_ZERO then some (s, none)
    else
      match updateDFrontier s with
      | none => none
      | some s1 =>
        match s1.dFrontier with
        | [] => some (s1, none)
        | d :: _ =>
          match s1.myCircuit.gates[d]? with
          | none => none
          | some dgate =>
            match firstX s1.myCircuit dgate.gateInputs with
            | none => none
            | some g => some (s1, some (g, objectiveValue dgate.gateType))

/-- The test `backtrace` makes on a gate type to count an inversion. -/
def isInverting (gatetype : Int) : Bool :=
  gatetype = GATE_NOR || gatetype = GATE_NOT || gatetype = GATE_NAND || gatetype = GATE_XNOR

/-- The `while` loop of `backtrace`, with loop variables `pi` and `num_inversions`; `fuel`
bounds the number of rounds. -/
def backtraceLoop (c : Circuit) : Nat → Nat → Nat → Option (Nat × Nat)
  | 0, _, _ => none
  | fuel + 1, pi, num_inversions =>
    match c.gates[pi]? with
    | none => none
    | some gate =>
      if gate.gateType ≠ GATE_PI then
        match firstX c gate.gateInputs with
        | none => none
        | some found =>
          let pi1 := found.getD pi
          match c.gates[pi1]? with
          | none => none
          | some gate1 =>
            backtraceLoop c fuel pi1
              (if isInverting gate1.gateType then num_inversions + 1 else num_inversions)
      else some (pi, num_inversions)

/-- `backtrace(pi, piVal, objGate, objVal, myCircuit)`: returns `(pi, piVal)`. -/
def backtrace (fuel : Nat) (c : Circuit) (objGate : Nat) (objVal : Int) : Option (Nat × Int) :=
  match c.gates[objGate]? with
  | none => none
  | some gate =>
    match backtraceLoop c fuel objGate (if isInverting gate.gateType then 1 else 0) with
    | none => none
    | some (pi, num_inversions) =>
      some (pi, if num_inversions % 2 = 1 then LogicNot objVal else objVal)

/-- The first loop of `podemRecursion` (and the loop of `checkTest`): is D or D-bar on one of
the gates of the list? -/
def anyOutputDetects (c : Circuit) : List Nat → Option Bool
  | [] => some false
  | p :: ps =>
    match c.getValue p with
    | none => none
    | some val => if val = LOGIC_D ∨ val = LOGIC_DBAR then some true else anyOutputDetects c ps

/-- Replace the circuit inside the globals. -/
def Podem.withCircuit (s : Podem) (c : Circuit) : Podem :=
  { s with myCircuit := c }

/-- The two statements `setValueCheckFault(pi, v); simFullCircuit(myCircuit);`. -/
def assignAndSimulate (k : Nat) (s : Podem) (pi : Nat) (v : Int) : Option Podem :=
  match setValueCheckFault s.myCircuit pi v with
  | none => none
  | some c1 => (simFullCircuit k c1).map s.withCircuit

/-- `podemRecursion(myCircuit)`: returns the return value and the globals after the call.
`fuel` bounds the depth of the recursion, `k` is the fuel of `backtrace` and
`simFullCircuit`. An objective gate that was never assigned ends the run. -/
def podemRecursion (k : Nat) : Nat → Podem → Option (Bool × Podem)
  | 0, _ => none
  | fuel + 1, s =>
    match anyOutputDetects s.myCircuit s.myCircuit.outputGates with
    | none => none
    | some true => some (true, s)
    | some false =>
      match getObjective s with
      | none => none
      | some (s1, none) => some (false, s1)
      | some (_, some (none, _)) => none
      | some (s1, some (some g, v)) =>
        match backtrace k s1.myCircuit g v with
        | none => none
        | some (pi, piVal) =>
          match assignAndSimulate k s1 pi piVal with
          | none => none
          | some s2 =>
            match podemRecursion k fuel s2 with
            | none => none
            | some (true, s3) => some (true, s3)
            | some (false, s3) =>
              match assignAndSimulate k s3 pi (LogicNot piVal) with
              | none => none
              | some s4 =>
                match podemRecursion k fuel s4 with
                | none => none
                | some (true, s5) => some (true, s5)
                | some (false, s5) =>
                  (setValueCheckFault s5.myCircuit pi LOGIC_X).map
                    (fun c6 => (false, s5.withCircuit c6))

/-- `g->set_faultType(f)` through a pointer. -/
def Circuit.set_faultType (c : Circuit) (p : Nat) (f : Int) : Option Circuit :=
  match c.gates[p]? with
  | none => none
  | some g =>
    match g.set_faultType f with
    | none => none
    | some g1 => some (c.putGate p g1)

/-- The loop of `main` that sets every gate value to X. -/
def Circuit.setAllX (c : Circuit) : Circuit :=
  { c with gates := c.gates.map (fun g => g.setValue LOGIC_X) }

/-- The statements of `main` that prepare one fault: clear the old fault, look the fault
location up by name, put the fault on it, derive the activation value, set every gate to X and
clear the D-frontier. -/
def setupFault (c : Circuit) (faultLocStr : String) (faultType : Int) : Option Podem :=
  let c1 := c.clearFaults
  match c1.findGateByName faultLocStr with
  | none => none
  | some faultLocation =>
    match c1.set_faultType faultLocation faultType with
    | none => none
    | some c2 =>
      some
        { myCircuit := c2.setAllX
          dFrontier := []
          faultLocation := faultLocation
          faultActivationVal := if faultType = FAULT_SA0 then LOGIC_ONE else LOGIC_ZERO }

/-- The line `main` writes to the output file for a successful run: `printPIValue` of every
primary input, in order. -/
def printTest (c : Circuit) : List Nat → Option String
  | [] => some ""
  | p :: ps =>
    match c.getValue p with
    | none => none
    | some v => (printTest c ps).map (fun rest => printPIValue v ++ rest)

/-! ## Notions used to state the properties -/

/-- The controlling value `c` that `simGate` hands to `evalGate` for a gate type; the other
gate types have none. -/
def controllingValue (gateType : Int) : Option Int :=
  if gateType = GATE_NAND ∨ gateType = GATE_AND then some 0
  else if gateType = GATE_NOR ∨ gateType = GATE_OR then some 1
  else none

/-- The calls the parser makes for the netlist
`INPUT(A)  INPUT(B)  OUTPUT(Y)  Y = AND(A, B)`. -/
def andNetlist : Option Circuit :=
  let c := ((Circuit.empty.newGate "A" 0 GATE_PI).newGate "B" 1 GATE_PI).addOutputName "Y"
  (c.newGate "Y" 2 GATE_AND).onGate 2 (fun g => (g.set_gateInputName "A").set_gateInputName "B")

/-- The circuit `Y = AND(A, B)` after `setupCircuit`. -/
def andCircuit : Option Circuit :=
  andNetlist.bind (Circuit.setupCircuit 3)

/-- The globals at the first call of `podemRecursion` for the fault `Y` stuck-at `faultType`
on `andCircuit`. -/
def andStart (faultType : Int) : Option Podem :=
  andCircuit.bind (fun c => setupFault c "Y" faultType)

/-- The circuit `Y = AND(A, B)` as `setupCircuit` leaves it (`A`, `B`, `Y` are the gates 0, 1,
2), holding the values `vA`, `vB`, `vY`, with fault type `fY` on `Y`. -/
def andState (vA vB vY : Int) (fY : Int) : Circuit :=
  { gates :=
      [ { gateID := 0, gateType := GATE_PI, gateInputs := [], gateOutputs := [2],
          outputName := "A", gateValue := vA, inputName := [], faultType := NOFAULT },
        { gateID := 1, gateType := GATE_PI, gateInputs := [], gateOutputs := [2],
          outputName := "B", gateValue := vB, inputName := [], faultType := NOFAULT },
        { gateID := 2, gateType := GATE_AND, gateInputs := [0, 1], gateOutputs := [],
          outputName := "Y", gateValue := vY, inputName := ["A", "B"], faultType := fY } ]
    outputGates := [2]
    inputGates := [0, 1]
    outputNames := ["Y"] }

/-- The globals of a PODEM run on `andState` for a fault on `Y` (gate 2). -/
def andPodem (vA vB vY : Int) (fY : Int) (faultActivationVal : Int) : Podem :=
  { myCircuit := andState vA vB vY fY
    dFrontier := []
    faultLocation := 2
    faultActivationVal := faultActivationVal }

/-- A gate with its value field blanked: what the netlist says about it. -/
def Gate.net (g : Gate) : Gate :=
  g.setValue 0

/-- Two circuit states over the same netlist: they differ in gate values at most. -/
def SameNet (c c1 : Circuit) : Prop :=
  c1.outputGates = c.outputGates ∧ c1.inputGates = c.inputGates ∧
    c1.outputNames = c.outputNames ∧ c1.gates.map Gate.net = c.gates.map Gate.net

/-- One of the five logic values 0, 1, D, D-bar, X. -/
def IsLogic (v : Int) : Prop :=
  v = LOGIC_ZERO ∨ v = LOGIC_ONE ∨ v = LOGIC_D ∨ v = LOGIC_DBAR ∨ v = LOGIC_X

instance (v : Int) : Decidable (IsLogic v) := by
  unfold IsLogic
  infer_instance

/-- The predecessor list of gate `g` (empty for an index outside the circuit). -/
def Circuit.preds (c : Circuit) (g : Nat) : List Nat :=
  match c.gates[g]? with
  | some gate => gate.gateInputs
  | none => []

/-- `FanIn preds g h`: gate `h` lies in the transitive fan-in of gate `g`, that is, there is a
path from `h` to `g` along predecessor links (`g` itself included). -/
inductive FanIn (preds : Nat → List Nat) : Nat → Nat → Prop
  | self (g : Nat) : FanIn preds g g
  | step {g p h : Nat} : p ∈ preds g → FanIn preds p h → FanIn preds g h

/-- The gate types of `ClassGate.h`. -/
def gateTypes : List Int :=
  [GATE_NAND, GATE_NOR, GATE_AND, GATE_OR, GATE_XOR, GATE_XNOR, GATE_BUFF, GATE_NOT, GATE_PI,
    GATE_FANOUT]

/-- A finalized combinational circuit: every stored gate pointer points into the circuit, every
gate has one of the gate types of `ClassGate.h`, the gates of type `GATE_PI` are exactly the
gates without predecessors and are all listed in `inputGates`, and the circuit is acyclic:
`level` decreases strictly from every gate to each of its predecessors. -/
def WellFormed (c : Circuit) (level : Nat → Nat) : Prop :=
  (∀ po ∈ c.outputGates, po < c.gates.length) ∧
  (∀ p ∈ c.inputGates, p < c.gates.length) ∧
  ∀ ig ∈ c.gates.enum,
    ig.2.gateType ∈ gateTypes ∧
    (ig.2.gateType = GATE_PI → ig.2.gateInputs = [] ∧ ig.1 ∈ c.inputGates) ∧
    (ig.2.gateType ≠ GATE_PI → ig.2.gateInputs ≠ []) ∧
    ∀ p ∈ ig.2.gateInputs, p < c.gates.length ∧ level p < level ig.1

instance (c : Circuit) (level : Nat → Nat) : Decidable (WellFormed c level) := by
  unfold WellFormed
  infer_instance

/-- Every gate holds one of the five logic values, or is a gate other than a primary input
that holds UNSET. -/
def ValidValues (c : Circuit) : Prop :=
  ∀ gate ∈ c.gates,
    IsLogic gate.gateValue ∨ (gate.gateValue = LOGIC_UNSET ∧ gate.gateType ≠ GATE_PI)

instance (c : Circuit) : Decidable (ValidValues c) := by
  unfold ValidValues
  infer_instance

/-- The gate holds the value that `simGate` and `setValueCheckFault` derive from the current
values of its predecessors, none of which is UNSET. -/
def ClosedAt (c : Circuit) (gate : Gate) : Prop :=
  ∃ vals v, inputValues c gate.gateInputs = some vals ∧ LOGIC_UNSET ∉ vals ∧
    simGateType gate.gateType vals = some v ∧ gate.gateValue = faultedValue gate.faultType v

/-- Every gate that is not a primary input and holds a value other than UNSET satisfies
`ClosedAt`. -/
def Closed (c : Circuit) : Prop :=
  ∀ (g : Nat) (gate : Gate), c.gates[g]? = some gate → gate.gateType ≠ GATE_PI →
    gate.gateValue ≠ LOGIC_UNSET → ClosedAt c gate

/-- `c1` has the netlist of `c`, and every gate that holds a value other than UNSET in `c`
is the same in `c1`. -/
def Evolves (c c1 : Circuit) : Prop :=
  SameNet c c1 ∧
    ∀ (g : Nat) (gate : Gate), c.gates[g]? = some gate → gate.gateValue ≠ LOGIC_UNSET →
      c1.gates[g]? = some gate

/-- `level` decreases strictly from every gate to each of its predecessors. -/
def Acyclic (preds : Nat → List Nat) (level : Nat → Nat) : Prop :=
  ∀ g, ∀ p ∈ preds g, level p < level g

/-- What a run of `simGateRecursive` on the gates `gs`, one after the other, from state `c` to
state `c1` guarantees: no value other than UNSET was overwritten, the values are valid and
consistent with the predecessors, every gate of `gs` holds a value, and no gate outside the
fan-in of `gs` was touched. -/
def SimPost (c : Circuit) (gs : List Nat) (c1 : Circuit) : Prop :=
  Evolves c c1 ∧ ValidValues c1 ∧ Closed c1 ∧
    (∀ g ∈ gs, ∃ gate, c1.gates[g]? = some gate ∧ gate.gateValue ≠ LOGIC_UNSET) ∧
    ∀ h, (∀ g ∈ gs, ¬ FanIn c.preds g h) → c1.gates[h]? = c.gates[h]?

/-- Every primary input holds one of the five logic values. -/
def InputsSet (c : Circuit) : Prop :=
  ∀ gate ∈ c.gates, gate.gateType = GATE_PI → IsLogic gate.gateValue

instance (c : Circuit) : Decidable (InputsSet c) := by
  unfold InputsSet
  infer_instance

/-- One of the values 0, 1, X of the fault-free algebra. -/
def IsFaultFree (v : Int) : Prop :=
  v = LOGIC_ZERO ∨ v = LOGIC_ONE ∨ v = LOGIC_X

instance (v : Int) : Decidable (IsFaultFree v) := by
  unfold IsFaultFree
  infer_instance

/-- The value that the loop of `setPIValues` over `ps` and `vs` hands to gate `g` last, if
any. -/
def assignedValue : List Nat → List Int → Nat → Option Int
  | p :: ps, v :: vs, g =>
    match assignedValue ps vs g with
    | some w => some w
    | none => if p = g then some v else none
  | _, _, _ => none

/-- `a` and `b` are states of one netlist in which `b` carries no fault at all and `a` carries
no fault except possibly on gate `n`. -/
def FaultFreeTwin (n : Nat) (a b : Circuit) : Prop :=
  a.outputGates = b.outputGates ∧ a.inputGates = b.inputGates ∧
    a.gates.length = b.gates.length ∧
    ∀ (g : Nat) (gb : Gate), b.gates[g]? = some gb →
      gb.faultType = NOFAULT ∧
      ∃ ga, a.gates[g]? = some ga ∧ ga.gateType = gb.gateType ∧
        ga.gateInputs = gb.gateInputs ∧ (g ≠ n → ga.faultType = NOFAULT)

/-- Two circuit states over the same graph: same gate types, predecessor lists, primary inputs
and outputs; values and fault types may differ. -/
def SameGraph (c c1 : Circuit) : Prop :=
  c1.outputGates = c.outputGates ∧ c1.inputGates = c.inputGates ∧
    c1.gates.map (fun g => (g.gateType, g.gateInputs))
      = c.gates.map (fun g => (g.gateType, g.gateInputs))

/-- Levels for `andState`: the inputs `A` and `B` at level 0, the gate `Y` at level 1. -/
def andLevel (g : Nat) : Nat :=
  if g = 2 then 1 else 0

/-- `Refines x y`: the value `y` agrees with `x` unless `x` is X. -/
def Refines (x y : Int) : Prop :=
  x ≠ LOGIC_X → y = x

/-- Replace the value of every gate of the list that holds X by `fill` of that gate, written
with `setValueCheckFault`. -/
def fillX (fill : Nat → Int) : Circuit → List Nat → Option Circuit
  | c, [] => some c
  | c, p :: ps =>
    match c.getValue p with
    | none => none
    | some v =>
      if v = LOGIC_X then
        match setValueCheckFault c p (fill p) with
        | none => none
        | some c1 => fillX fill c1 ps
      else fillX fill c ps

/-- The standing assumptions on the globals during a PODEM run: the circuit is well formed,
its primary inputs hold logic values, and the activation value is fault-free. -/
def PodemInv (level : Nat → Nat) (s : Podem) : Prop :=
  WellFormed s.myCircuit level ∧ InputsSet s.myCircuit ∧ IsFaultFree s.faultActivationVal

/-- What every step of the search preserves: the netlist, the fault location and the
activation value. -/
def PodemStep (s r : Podem) : Prop :=
  SameNet s.myCircuit r.myCircuit ∧ r.faultLocation = s.faultLocation ∧
    r.faultActivationVal = s.faultActivationVal

/-- What a call of `podemRecursion` from `s` that returns `b` with globals `r` guarantees. When
it returns `true`, D or D-bar is on a primary output, and the circuit either was not touched or
is the result of `simFullCircuit` on a state of the same netlist. -/
def PodemPost (k : Nat) (s : Podem) (b : Bool) (r : Podem) : Prop :=
  PodemStep s r ∧ InputsSet r.myCircuit ∧
    (b = true →
      anyOutputDetects r.myCircuit r.myCircuit.outputGates = some true ∧
      (r = s ∨ ∃ cprev, SameNet s.myCircuit cprev ∧ InputsSet cprev ∧
        simFullCircuit k cprev = some r.myCircuit))

/-- Every primary input holds what `setValueCheckFault` stores for one of the values 0, 1, X. -/
def InputsAssigned (c : Circuit) : Prop :=
  ∀ gate ∈ c.gates, gate.gateType = GATE_PI →
    ∃ v, IsFaultFree v ∧ gate.gateValue = faultedValue gate.faultType v

/-- No gate other than `n` carries a fault. -/
def SingleFault (n : Nat) (c : Circuit) : Prop :=
  ∀ (g : Nat) (gate : Gate), c.gates[g]? = some gate → g ≠ n → gate.faultType = NOFAULT

/-- Every gate holds X. -/
def AllX (c : Circuit) : Prop :=
  ∀ gate ∈ c.gates, gate.gateValue = LOGIC_X

/-- The standing facts of a PODEM run for a fault on a gate `n` from which no path leads to a
primary output. -/
def Unobservable (level : Nat → Nat) (n : Nat) (t : Podem) : Prop :=
  WellFormed t.myCircuit level ∧ InputsAssigned t.myCircuit ∧ SingleFault n t.myCircuit ∧
    (∀ po ∈ t.myCircuit.outputGates, ¬ FanIn t.myCircuit.preds po n) ∧
    t.faultLocation = n ∧ t.dFrontier = [] ∧ n < t.myCircuit.gates.length

/-- The calls the parser makes for the netlist
`INPUT(A)  INPUT(B)  OUTPUT(Y)  Y = BUFF(A)  Z = NOT(B)`, in which `Z` drives nothing. -/
def danglingNetlist : Option Circuit :=
  let c := ((Circuit.empty.newGate "A" 0 GATE_PI).newGate "B" 1 GATE_PI).addOutputName "Y"
  match (c.newGate "Y" 2 GATE_BUFF).onGate 2 (fun g => g.set_gateInputName "A") with
  | none => none
  | some c1 => (c1.newGate "Z" 3 GATE_NOT).onGate 3 (fun g => g.set_gateInputName "B")

/-- The circuit of `danglingNetlist` as `setupCircuit` leaves it (`A`, `B`, `Y`, `Z` are the
gates 0 to 3), holding the given values, with fault type `fZ` on `Z`. -/
def danglingState (vA vB vY vZ : Int) (fZ : Int) : Circuit :=
  { gates :=
      [ { gateID := 0, gateType := GATE_PI, gateInputs := [], gateOutputs := [2],
          outputName := "A", gateValue := vA, inputName := [], faultType := NOFAULT },
        { gateID := 1, gateType := GATE_PI, gateInputs := [], gateOutputs := [3],
          outputName := "B", gateValue := vB, inputName := [], faultType := NOFAULT },
        { gateID := 2, gateType := GATE_BUFF, gateInputs := [0], gateOutputs := [],
          outputName := "Y", gateValue := vY, inputName := ["A"], faultType := NOFAULT },
        { gateID := 3, gateType := GATE_NOT, gateInputs := [1], gateOutputs := [],
          outputName := "Z", gateValue := vZ, inputName := ["B"], faultType := fZ } ]
    outputGates := [2]
    inputGates := [0, 1]
    outputNames := ["Y"] }

/-- Levels for `danglingState`: the inputs at level 0, `Y` and `Z` at level 1. -/
def danglingLevel (g : Nat) : Nat :=
  if g < 2 then 0 else 1

/-! ## Notions used for `setupCircuit` -/

/-- The successor list of gate `g` (empty for an index outside the circuit). -/
def Circuit.succs (c : Circuit) (g : Nat) : List Nat :=
  match c.gates[g]? with
  | some gate => gate.gateOutputs
  | none => []

/-- The type of gate `g`, if `g` is a gate of the circuit. -/
def Circuit.typeOf (c : Circuit) (g : Nat) : Option Int :=
  (c.gates[g]?).map Gate.gateType

/-- A circuit as the parser leaves it: no gate has predecessor or successor pointers yet, and
no gate has the type `GATE_FANOUT`. -/
def Parsed (c : Circuit) : Prop :=
  ∀ gate ∈ c.gates,
    gate.gateInputs = [] ∧ gate.gateOutputs = [] ∧ gate.gateType ≠ GATE_FANOUT

instance (c : Circuit) : Decidable (Parsed c) := by
  unfold Parsed
  infer_instance

/-- Predecessor and successor lists agree with multiplicity: `g` occurs in the predecessor
list of `h` as often as `h` occurs in the successor list of `g`. -/
def Linked (c : Circuit) : Prop :=
  ∀ g h, (c.preds h).count g = (c.succs g).count h

/-- The gates appended by the fanout pass to a circuit that had `n0` gates: each has type
`FANOUT`, one predecessor and one successor; the first `n0` gates are not of type `FANOUT`. -/
def BranchesOk (n0 : Nat) (c : Circuit) : Prop :=
  n0 ≤ c.gates.length ∧ Linked c ∧
  (∀ g, n0 ≤ g → g < c.gates.length →
    c.typeOf g = some GATE_FANOUT ∧ (c.preds g).length = 1 ∧ (c.succs g).length = 1) ∧
  ∀ g < n0, c.typeOf g ≠ some GATE_FANOUT

/-- Invariant of the outer loop of the fanout pass at index `i`, for a circuit that had `n0`
gates with successor lists `out0` before the pass: gates not yet visited and gates with at most
one successor have their old successor list, and a visited gate that had several successors
has appended gates as successors only. -/
def SplitInv (n0 : Nat) (out0 : Nat → List Nat) (i : Nat) (c : Circuit) : Prop :=
  BranchesOk n0 c ∧
  (∀ g < n0, (i ≤ g ∨ (out0 g).length ≤ 1) → c.succs g = out0 g) ∧
  (∀ g < n0, g < i → 1 < (out0 g).length → ∀ s ∈ c.succs g, n0 ≤ s) ∧
  ∀ g < n0, ∀ s ∈ out0 g, s < n0

/-- Invariant of the inner loop of the fanout pass for gate `i`, started in state `cs`: the
successor list of `i` consists of the appended gates `F` followed by the old successors `rest`
still to be treated; the successor lists of the other old gates are as in `cs`. -/
def InnerInv (n0 i : Nat) (cs c : Circuit) (F rest : List Nat) : Prop :=
  BranchesOk n0 c ∧ i < n0 ∧
  (∀ g < n0, g ≠ i → c.succs g = cs.succs g) ∧
  c.succs i = F ++ rest ∧ (∀ f ∈ F, n0 ≤ f) ∧ ∀ s ∈ rest, s < n0

/-- The circuit the parser builds for the netlist `INPUT(A)  OUTPUT(Y)  Y = AND(A, A)`, in
which `A` feeds the same gate on two inputs. -/
def twiceNetlist : Circuit :=
  { gates :=
      [ Gate.new "A" 0 GATE_PI,
        { Gate.new "Y" 1 GATE_AND with inputName := ["A", "A"] } ]
    outputGates := []
    inputGates := [0]
    outputNames := ["Y"] }

/-- The state of `twiceNetlist` after `setupCircuit`: the branches `A_0` and `A_1` are the
gates 2 and 3. -/
def twiceCircuit : Circuit :=
  { gates :=
      [ { Gate.new "A" 0 GATE_PI with gateOutputs := [2, 3] },
        { Gate.new "Y" 1 GATE_AND with gateInputs := [2, 3], inputName := ["A", "A"] },
        { Gate.new "A_0" 2 GATE_FANOUT with gateInputs := [0], gateOutputs := [1] },
        { Gate.new "A_1" 3 GATE_FANOUT with gateInputs := [0], gateOutputs := [1] } ]
    outputGates := [1]
    inputGates := [0]
    outputNames := ["Y"] }

/-- The output name and the declared input names of every gate, in gate order. -/
def Circuit.names (c : Circuit) : List (String × List String) :=
  c.gates.map (fun g => (g.outputName, g.inputName))

/-- Every declared gate input name resolves: `findGateByName` returns a gate for it. -/
def InputNamesResolve (c : Circuit) : Prop :=
  ∀ gate ∈ c.gates, ∀ n ∈ gate.inputName, (c.findGateByName n).isSome = true

instance (c : Circuit) : Decidable (InputNamesResolve c) := by
  unfold InputNamesResolve
  infer_instance

/-- Every output name resolves. -/
def OutputNamesResolve (c : Circuit) : Prop :=
  ∀ n ∈ c.outputNames, (c.findGateByName n).isSome = true

instance (c : Circuit) : Decidable (OutputNamesResolve c) := by
  unfold OutputNamesResolve
  infer_instance

/-! ## Notions used for the gate-level contracts -/

/-- `Circuit::getGate(int i)`. The comparison `i >= gates.size()` is made in the unsigned
64-bit type of `gates.size()`, to which `i` is converted; `none` is the failed assertion. -/
def Circuit.getGate (c : Circuit) (i : Int) : Option Gate :=
  let u : Nat := (i % 2 ^ 64).toNat
  if u ≥ c.gates.length then none else c.gates[u]?

/-- `Circuit::getNumberGates()`: the size of the gate vector, converted to `int`. -/
def Circuit.getNumberGates (c : Circuit) : Int :=
  Int.bmod (c.gates.length : Int) (2 ^ 32)

/-- Primary-input assignment as the specification words it: `setValueCheckFault` on the `i`-th
primary input with the `i`-th value, for every `i` in turn. -/
def assignInputs : Circuit → List Nat → List Int → Option Circuit
  | c, p :: ps, v :: vs =>
    match setValueCheckFault c p v with
    | none => none
    | some c1 => assignInputs c1 ps vs
  | c, _, _ => some c

/-- The value of a signal in the fault-free circuit, for a logic value read as a pair
(fault-free bit, faulty bit): 1 and D have the fault-free bit 1, the value 0 and D-bar the
fault-free bit 0. -/
def faultFreeBit (v : Int) : Bool :=
  decide (v = LOGIC_ONE ∨ v = LOGIC_D)

/-- The value of a signal in the faulty circuit: 1 and D-bar have the faulty bit 1. -/
def faultyBit (v : Int) : Bool :=
  decide (v = LOGIC_ONE ∨ v = LOGIC_DBAR)

/-- One of the four X-free logic values 0, 1, D, D-bar. -/
def IsKnown (v : Int) : Prop :=
  v = LOGIC_ZERO ∨ v = LOGIC_ONE ∨ v = LOGIC_D ∨ v = LOGIC_DBAR

instance (v : Int) : Decidable (IsKnown v) := by
  unfold IsKnown
  infer_instance

/-- The exclusive or of a list of bits. -/
def xorBits (bs : List Bool) : Bool :=
  bs.foldr Bool.xor false


/-- The D-frontier condition on a gate `G` of circuit `c`: its value is X and one of its
direct predecessors holds D or D-bar. -/
def isFrontierGate (c : Circuit) (G : Gate) : Bool :=
  decide (G.gateValue = LOGIC_X) &&
    G.gateInputs.any (fun p =>
      decide (c.getValue p = some LOGIC_D ∨ c.getValue p = some LOGIC_DBAR))

/-- Every predecessor pointer stored in a gate points into the circuit. -/
def PredsValid (c : Circuit) : Prop :=
  ∀ gate ∈ c.gates, ∀ p ∈ gate.gateInputs, p < c.gates.length

instance (c : Circuit) : Decidable (PredsValid c) := by
  unfold PredsValid
  infer_instance

/-- The globals of a PODEM run on the circuit `Y = AND(A, B)` for a stuck-at-0 fault on the
primary input `A` (gate 0), with the values `vA`, `vB`, `vY` on the three gates. -/
def andInputFault (vA vB vY : Int) : Podem :=
  { myCircuit :=
      { gates :=
          [ { gateID := 0, gateType := GATE_PI, gateInputs := [], gateOutputs := [2],
              outputName := "A", gateValue := vA, inputName := [], faultType := FAULT_SA0 },
            { gateID := 1, gateType := GATE_PI, gateInputs := [], gateOutputs := [2],
              outputName := "B", gateValue := vB, inputName := [], faultType := NOFAULT },
            { gateID := 2, gateType := GATE_AND, gateInputs := [0, 1], gateOutputs := [],
              outputName := "Y", gateValue := vY, inputName := ["A", "B"],
              faultType := NOFAULT } ]
        outputGates := [2]
        inputGates := [0, 1]
        outputNames := ["Y"] }
    dFrontier := []
    faultLocation := 0
    faultActivationVal := LOGIC_ONE }

/-- The value `y` of an input in a more informed assignment: the same as `x`, or 0 or 1 where
`x` is X. -/
def Informs (x y : Int) : Prop :=
  y = x ∨ (x = LOGIC_X ∧ (y = LOGIC_ZERO ∨ y = LOGIC_ONE))

instance (x y : Int) : Decidable (Informs x y) := by
  unfold Informs
  infer_instance


/-! ## Notions used for the search -/

/-- The gates of the types BUFF, NOT and FANOUT have exactly one predecessor. -/
def UnaryOk (c : Circuit) : Prop :=
  ∀ gate ∈ c.gates,
    gate.gateType = GATE_BUFF ∨ gate.gateType = GATE_NOT ∨ gate.gateType = GATE_FANOUT →
    gate.gateInputs.length = 1

instance (c : Circuit) : Decidable (UnaryOk c) := by
  unfold UnaryOk
  infer_instance

/-- The gate types with several inputs: AND, NAND, OR, NOR, XOR, XNOR. -/
def frontierTypes : List Int :=
  [GATE_AND, GATE_NAND, GATE_OR, GATE_NOR, GATE_XOR, GATE_XNOR]

/-- The gate types that count as one inversion on a backtrace path. -/
def invertingTypes : List Int :=
  [GATE_NOT, GATE_NAND, GATE_NOR, GATE_XNOR]

/-- The number of gates of an inverting type among the gates of a path. -/
def Circuit.inversions (c : Circuit) (path : List Nat) : Nat :=
  path.countP (fun q =>
    match c.gates[q]? with
    | some gate => decide (gate.gateType ∈ invertingTypes)
    | none => false)

/-- The path that starts at gate `g` and goes, from each gate that is not a primary input, to
its first predecessor (in predecessor-list order) whose value is X, until a primary input is
reached; `none` if a gate on the way has no such predecessor or `fuel` gates did not suffice. -/
def firstXPath (c : Circuit) : Nat → Nat → Option (List Nat)
  | 0, _ => none
  | fuel + 1, g =>
    match c.gates[g]? with
    | none => none
    | some gate =>
      if gate.gateType = GATE_PI then some [g]
      else
        match gate.gateInputs.find? (fun p => decide (c.getValue p = some LOGIC_X)) with
        | none => none
        | some p => (firstXPath c fuel p).map (fun path => g :: path)

/-- A state in which `podemRecursion` is entered: the all-X state of a finalized acyclic
circuit, or a state produced by `simFullCircuit` on such a circuit whose primary inputs hold
logic values. -/
def Evaluated (level : Nat → Nat) (c : Circuit) : Prop :=
  (WellFormed c level ∧ AllX c) ∨
    ∃ c0 K0, WellFormed c0 level ∧ InputsSet c0 ∧ simFullCircuit K0 c0 = some c

instance (c : Circuit) : Decidable (AllX c) := by
  unfold AllX
  infer_instance


/-- The globals of a PODEM run on `danglingState` for a stuck-at-0 fault on `Z` (gate 3). -/
def danglingPodem (vA vB vY vZ : Int) : Podem :=
  { myCircuit := danglingState vA vB vY vZ FAULT_SA0
    dFrontier := []
    faultLocation := 3
    faultActivationVal := LOGIC_ONE }


/-- What holds of the globals throughout a PODEM run for a fault on gate `n` of a finalized
circuit: the circuit is well formed, its unary gates have one predecessor, every primary input
holds what `setValueCheckFault` stores for 0, 1 or X, no gate other than `n` carries a fault,
and the activation value is 0 or 1. -/
def BaseInv (level : Nat → Nat) (n : Nat) (t : Podem) : Prop :=
  WellFormed t.myCircuit level ∧ UnaryOk t.myCircuit ∧ InputsAssigned t.myCircuit ∧
    SingleFault n t.myCircuit ∧ t.faultLocation = n ∧ n < t.myCircuit.gates.length ∧
    (t.faultActivationVal = LOGIC_ZERO ∨ t.faultActivationVal = LOGIC_ONE)

/-- A gate that holds UNSET lies in the transitive fan-in of no primary output. -/
def UnsetOutside (c : Circuit) : Prop :=
  ∀ (g : Nat) (gate : Gate), c.gates[g]? = some gate → gate.gateValue = LOGIC_UNSET →
    ∀ po ∈ c.outputGates, ¬ FanIn c.preds po g

/-- What holds of the globals whenever `podemRecursion` is entered: `BaseInv`, and the gate
values are those of the all-X state or of a state produced by `simFullCircuit` (valid,
consistent with the predecessors, UNSET only outside the output cones). -/
def SearchInv (level : Nat → Nat) (n : Nat) (t : Podem) : Prop :=
  BaseInv level n t ∧ ValidValues t.myCircuit ∧ Closed t.myCircuit ∧ UnsetOutside t.myCircuit

/-- The number of primary inputs that hold X. -/
def Circuit.xInputs (c : Circuit) : Nat :=
  c.gates.countP (fun g => decide (g.gateType = GATE_PI ∧ g.gateValue = LOGIC_X))



/-- The five logic values. -/
def logicValues : List Int :=
  [LOGIC_ZERO, LOGIC_ONE, LOGIC_D, LOGIC_DBAR, LOGIC_X]

/-- Every primary input holds what `setValueCheckFault` stores for one of the five logic
values. -/
def InputsWritten (c : Circuit) : Prop :=
  ∀ gate ∈ c.gates, gate.gateType = GATE_PI →
    ∃ v ∈ logicValues, gate.gateValue = faultedValue gate.faultType v

instance (c : Circuit) : Decidable (InputsWritten c) := by
  unfold InputsWritten
  infer_instance

/-- No gate carries a fault. -/
def NoFault (c : Circuit) : Prop :=
  ∀ gate ∈ c.gates, gate.faultType = NOFAULT

instance (c : Circuit) : Decidable (NoFault c) := by
  unfold NoFault
  infer_instance



/-! ## Notions used for the names after the fanout pass -/

/-- The output names of the gates, in gate order. -/
def Circuit.outNames (c : Circuit) : List String :=
  c.gates.map Gate.outputName

/-- The name the fanout pass gives to branch `j` of a stem with output name `name`. -/
def branchName (name : String) (j : Nat) : String :=
  name ++ "_" ++ toString j

/-- The first two loops of `Circuit::setupCircuit`: the state the fanout pass starts from. -/
def Circuit.linkAll (c : Circuit) : Option Circuit :=
  match resolveOutputs c c.outputNames with
  | none => none
  | some c1 => linkGates c1 (List.range c1.gates.length)

/-- The names the fanout pass gives to the gates it appends for a gate of the linked circuit:
one per successor when the gate is split, none otherwise. -/
def Gate.branchNames (gate : Gate) : List String :=
  if gate.gateType ≠ GATE_FANOUT ∧ 1 < gate.gateOutputs.length then
    (List.range gate.gateOutputs.length).map (branchName gate.outputName)
  else []

/-- The names of the gates the fanout pass appends while it visits the first `k` gates of the
linked circuit `c`, in the order of their creation. -/
def Circuit.branchNames (c : Circuit) (k : Nat) : List String :=
  (c.gates.take k).flatMap Gate.branchNames

/-- No gate of the linked circuit has a name that the fanout pass will give to a branch. -/
def FreshBranchNames (c : Circuit) : Prop :=
  ∀ gate ∈ c.gates, ∀ n ∈ gate.branchNames, n ∉ c.outNames

instance (c : Circuit) : Decidable (FreshBranchNames c) := by
  unfold FreshBranchNames
  infer_instance

/-- The circuit the parser builds for the netlist
`INPUT(A)  INPUT(A_0)  OUTPUT(Y)  OUTPUT(Z)  Y = AND(A, A_0)  Z = NOT(A)`, in which the name of
the second input is the name the fanout pass gives to the first branch of `A`. -/
def clashNetlist : Circuit :=
  { gates :=
      [ Gate.new "A" 0 GATE_PI,
        Gate.new "A_0" 1 GATE_PI,
        { Gate.new "Y" 2 GATE_AND with inputName := ["A", "A_0"] },
        { Gate.new "Z" 3 GATE_NOT with inputName := ["A"] } ]
    outputGates := []
    inputGates := [0, 1]
    outputNames := ["Y", "Z"] }

/-- The state of `twiceNetlist` after the linking loops of `setupCircuit`: `A` lists `Y` twice
as successor, `Y` lists `A` twice as predecessor. -/
def twiceLinked : Circuit :=
  { gates :=
      [ { Gate.new "A" 0 GATE_PI with gateOutputs := [1, 1] },
        { Gate.new "Y" 1 GATE_AND with gateInputs := [0, 0], inputName := ["A", "A"] } ]
    outputGates := [1]
    inputGates := [0]
    outputNames := ["Y"] }


/-! ## Notions used for the function of the split circuit -/

/-- `IsBranch c p q`: in `c`, the gate `q` stands for the predecessor `p`: it is `p` itself,
or a gate of type `FANOUT` whose sole predecessor is `p`. -/
def IsBranch (c : Circuit) (p q : Nat) : Prop :=
  q = p ∨ (c.typeOf q = some GATE_FANOUT ∧ c.preds q = [p])

instance (c : Circuit) (p q : Nat) : Decidable (IsBranch c p q) := by
  unfold IsBranch
  infer_instance

/-- Every gate of `a` has in `c` as many predecessors as in `a`, and its `k`-th predecessor
in `c` stands for its `k`-th predecessor in `a`. -/
def PredsKept (a c : Circuit) : Prop :=
  ∀ g < a.gates.length, List.Forall₂ (IsBranch c) (a.preds g) (c.preds g)

/-- What the fanout pass keeps of the circuit `a` it started from: the predecessors in the
sense of `PredsKept`, the types of the gates of `a`, and predecessors among the gates of `a`
for every appended gate. -/
def KeptInv (a c : Circuit) : Prop :=
  PredsKept a c ∧ (∀ g < a.gates.length, c.typeOf g = a.typeOf g) ∧
    ∀ f, a.gates.length ≤ f → ∀ p ∈ c.preds f, p < a.gates.length

/-- Levels for the split circuit `c` from levels for the circuit with `n0` gates it was made
from: an old gate keeps twice its level, and a branch lies just above its stem. -/
def splitLevel (level : Nat → Nat) (c : Circuit) (n0 : Nat) (g : Nat) : Nat :=
  if g < n0 then 2 * level g
  else
    match c.preds g with
    | p :: _ => 2 * level p + 1
    | [] => 0

/-- `SplitOf a c`: the graph of `c` is the graph of `a` with fanout branches spliced in. The
gates of `a` keep their types and, in the sense of `PredsKept`, their predecessors; every
further gate of `c` has type `FANOUT` and one predecessor, a gate of `a`; the primary inputs
and outputs are the same. -/
def SplitOf (a c : Circuit) : Prop :=
  KeptInv a c ∧ a.gates.length ≤ c.gates.length ∧
    (∀ g, ∀ p ∈ c.preds g, p < c.gates.length) ∧
    (∀ g, a.gates.length ≤ g → g < c.gates.length →
      c.typeOf g = some GATE_FANOUT ∧ (c.preds g).length = 1) ∧
    (∀ g < a.gates.length, c.typeOf g ≠ some GATE_FANOUT) ∧
    c.inputGates = a.inputGates ∧ c.outputGates = a.outputGates



/-! ## Circuits with a two-input BUFF gate -/

/-- The circuit the parser builds for the netlist
`INPUT(A)  INPUT(B)  OUTPUT(Y)  Y = BUFF(B, A)`, in which a gate of type BUFF is declared with
two inputs. -/
def buffNetlist : Circuit :=
  { gates :=
      [ Gate.new "A" 0 GATE_PI,
        Gate.new "B" 1 GATE_PI,
        { Gate.new "Y" 2 GATE_BUFF with inputName := ["B", "A"] } ]
    outputGates := []
    inputGates := [0, 1]
    outputNames := ["Y"] }

/-- The circuit of `buffNetlist` as `setupCircuit` leaves it (`A`, `B`, `Y` are the gates 0 to
2), holding the given values, with fault type `fA` on `A`. -/
def buffState (vA vB vY : Int) (fA : Int) : Circuit :=
  { gates :=
      [ { gateID := 0, gateType := GATE_PI, gateInputs := [], gateOutputs := [2],
          outputName := "A", gateValue := vA, inputName := [], faultType := fA },
        { gateID := 1, gateType := GATE_PI, gateInputs := [], gateOutputs := [2],
          outputName := "B", gateValue := vB, inputName := [], faultType := NOFAULT },
        { gateID := 2, gateType := GATE_BUFF, gateInputs := [1, 0], gateOutputs := [],
          outputName := "Y", gateValue := vY, inputName := ["B", "A"],
          faultType := NOFAULT } ]
    outputGates := [2]
    inputGates := [0, 1]
    outputNames := ["Y"] }

/-- Levels for `buffState`: the inputs at level 0, the gate `Y` at level 1. -/
def buffLevel (g : Nat) : Nat :=
  if g = 2 then 1 else 0

/-- The globals of a PODEM run on `buffState` for `A` stuck-at-0. -/
def buffPodem (vA vB vY : Int) (dFrontier : List Nat) : Podem :=
  { myCircuit := buffState vA vB vY FAULT_SA0
    dFrontier := dFrontier
    faultLocation := 0
    faultActivationVal := LOGIC_ONE }

/-- C9: the five-valued complement `LogicNot` is an involution on 0, 1, D, D-bar and X; it
swaps 0 with 1 and D with D-bar and fixes X. -/
theorem C9_LogicNot_involution (v : Int)
    (hv : v ∈ [LOGIC_ZERO, LOGIC_ONE, LOGIC_D, LOGIC_DBAR, LOGIC_X]) :
    LogicNot (LogicNot v) = v ∧
      LogicNot LOGIC_ZERO = LOGIC_ONE ∧ LogicNot LOGIC_ONE = LOGIC_ZERO ∧
      LogicNot LOGIC_D = LOGIC_DBAR ∧ LogicNot LOGIC_DBAR = LOGIC_D ∧
      LogicNot LOGIC_X = LOGIC_X := by
  simp only [List.mem_cons, List.mem_singleton, List.not_mem_nil, or_false] at hv
  rcases hv with h | h | h | h | h <;> subst h <;> decide

/-- C9 at the value D. -/
theorem C9_LogicNot_involution_witness :
    LogicNot (LogicNot LOGIC_D) = LOGIC_D ∧
      LogicNot LOGIC_ZERO = LOGIC_ONE ∧ LogicNot LOGIC_ONE = LOGIC_ZERO ∧
      LogicNot LOGIC_D = LOGIC_DBAR ∧ LogicNot LOGIC_DBAR = LOGIC_D ∧
      LogicNot LOGIC_X = LOGIC_X :=
  C9_LogicNot_involution LOGIC_D (by decide)

/-! ## Propagation of unknown through one gate -/

theorem inputValues_length {c : Circuit} :
    ∀ {ps : List Nat} {vs : List Int}, inputValues c ps = some vs → vs.length = ps.length := by
  intro ps
  induction ps with
  | nil => intro vs h; simp [inputValues] at h; subst h; rfl
  | cons p ps ih =>
    intro vs h
    simp only [inputValues] at h
    cases hp : c.getValue p with
    | none => simp [hp] at h
    | some v =>
      simp only [hp] at h
      cases hr : inputValues c ps with
      | none => simp [hr] at h
      | some r =>
        simp only [hr, Option.map_some', Option.some.injEq] at h
        subst h
        simp [ih hr]

theorem evalGate_unknown (ins : List Int) (c i : Int)
    (hrange : ∀ v ∈ ins, v = LOGIC_ZERO ∨ v = LOGIC_ONE ∨ v = LOGIC_X)
    (hX : LOGIC_X ∈ ins) (hc : c ∉ ins) : evalGate ins c i = LOGIC_X := by
  have hD : LOGIC_D ∉ ins := fun h => by
    rcases hrange _ h with h | h | h <;> exact absurd h (by decide)
  simp [evalGate, hc, hD, hX]

theorem EvalXORGate_unknown (ins : List Int) (inv : Int) (hX : LOGIC_X ∈ ins) :
    EvalXORGate ins inv = LOGIC_X := by
  simp [EvalXORGate, hX]

theorem faultedValue_X (faultType : Int) : faultedValue faultType LOGIC_X = LOGIC_X := by
  simp [faultedValue]

/-- C10: a gate of type AND, NAND, OR, NOR, XOR, XNOR, BUFF, NOT or FANOUT (the last three with
exactly one input) whose input values are 0, 1 or X, with at least one X and no controlling
value of the gate among them, is evaluated to X by `simGate`, and `setValueCheckFault` then
stores X on it whatever its fault type is. -/
theorem C10_unknown_propagates (c : Circuit) (g : Nat) (gate : Gate) (inputVals : List Int)
    (hg : c.gates[g]? = some gate)
    (htype : gate.gateType ∈ [GATE_AND, GATE_NAND, GATE_OR, GATE_NOR, GATE_XOR, GATE_XNOR,
      GATE_BUFF, GATE_NOT, GATE_FANOUT])
    (hunary : gate.gateType ∈ [GATE_BUFF, GATE_NOT, GATE_FANOUT] → gate.gateInputs.length = 1)
    (hvals : inputValues c gate.gateInputs = some inputVals)
    (hrange : ∀ v ∈ inputVals, v = LOGIC_ZERO ∨ v = LOGIC_ONE ∨ v = LOGIC_X)
    (hX : LOGIC_X ∈ inputVals)
    (hctl : ∀ cv, controllingValue gate.gateType = some cv → cv ∉ inputVals) :
    simGate c g = some LOGIC_X ∧
      ∃ c1, setValueCheckFault c g LOGIC_X = some c1 ∧ c1.getValue g = some LOGIC_X := by
  have hlt : g < c.gates.length := (List.getElem?_eq_some.mp hg).1
  constructor
  · have hone : gate.gateInputs.length = 1 → inputVals.head? = some LOGIC_X := by
      intro h1
      have hl := inputValues_length hvals
      rw [h1] at hl
      match inputVals, hl, hX with
      | [v], _, hX => simp at hX; simp [hX]
    simp only [simGate, hg, hvals]
    simp only [List.mem_cons, List.mem_singleton, List.not_mem_nil, or_false] at htype hunary
    rcases htype with h | h | h | h | h | h | h | h | h
    · have := hctl 0 (by simp [controllingValue, h])
      simp [simGateType, h, evalGate_unknown inputVals 0 0 hrange hX this]
    · have := hctl 0 (by simp [controllingValue, h])
      simp [simGateType, h, evalGate_unknown inputVals 0 1 hrange hX this]
    · have := hctl 1 (by simp [controllingValue, h])
      simp [simGateType, h, evalGate_unknown inputVals 1 0 hrange hX this]
    · have := hctl 1 (by simp [controllingValue, h])
      simp [simGateType, h, evalGate_unknown inputVals 1 1 hrange hX this]
    · simp [simGateType, h, EvalXORGate_unknown inputVals 0 hX]
    · simp [simGateType, h, EvalXORGate_unknown inputVals 1 hX]
    · simp [simGateType, h, hone (hunary (Or.inl h))]
    · simp [simGateType, h, hone (hunary (Or.inr (Or.inl h))), LogicNot]
    · simp [simGateType, h, hone (hunary (Or.inr (Or.inr h)))]
  · refine ⟨c.putGate g (gate.setValue (faultedValue gate.faultType LOGIC_X)),
      by simp [setValueCheckFault, Circuit.onGate, hg], ?_⟩
    simp [Circuit.getValue, Circuit.putGate, List.getElem?_set, hlt, Gate.setValue, faultedValue_X]

/-- C10 on `Y = AND(A, B)` with `A = 1`, `B = X` and a stuck-at-0 fault on `Y`. -/
theorem C10_unknown_propagates_witness :
    simGate (andState LOGIC_ONE LOGIC_X LOGIC_UNSET FAULT_SA0) 2 = some LOGIC_X ∧
      ∃ c1, setValueCheckFault (andState LOGIC_ONE LOGIC_X LOGIC_UNSET FAULT_SA0) 2 LOGIC_X
          = some c1 ∧ c1.getValue 2 = some LOGIC_X :=
  C10_unknown_propagates (andState LOGIC_ONE LOGIC_X LOGIC_UNSET FAULT_SA0) 2
    { gateID := 2, gateType := GATE_AND, gateInputs := [0, 1], gateOutputs := [],
      outputName := "Y", gateValue := LOGIC_UNSET, inputName := ["A", "B"],
      faultType := FAULT_SA0 }
    [LOGIC_ONE, LOGIC_X] (by decide) (by decide) (by decide) (by decide) (by decide)
    (by decide) (by decide)

/-! ## The two scenarios on `Y = AND(A, B)` -/

/-- C3: on `Y = AND(A, B)` with `Y` the only primary output, fault stuck-at-0 on `Y` and all
values X: the first `getObjective` returns `(Y, 1)`, `backtrace` returns `(A, 1)` and, one level
down, `(B, 1)`; after both assignments and simulation `Y` holds D; `podemRecursion` returns
`true`, and the primary-input vector printed with `printPIValue` is `11`. -/
theorem C3_and_stuck_at_0 :
    andCircuit = some (andState LOGIC_UNSET LOGIC_UNSET LOGIC_UNSET NOFAULT) ∧
    andStart FAULT_SA0 = some (andPodem LOGIC_X LOGIC_X LOGIC_X FAULT_SA0 LOGIC_ONE) ∧
    getObjective (andPodem LOGIC_X LOGIC_X LOGIC_X FAULT_SA0 LOGIC_ONE)
      = some (andPodem LOGIC_X LOGIC_X LOGIC_X FAULT_SA0 LOGIC_ONE, some (some 2, LOGIC_ONE)) ∧
    backtrace 2 (andState LOGIC_X LOGIC_X LOGIC_X FAULT_SA0) 2 LOGIC_ONE = some (0, LOGIC_ONE) ∧
    assignAndSimulate 2 (andPodem LOGIC_X LOGIC_X LOGIC_X FAULT_SA0 LOGIC_ONE) 0 LOGIC_ONE
      = some (andPodem LOGIC_ONE LOGIC_X LOGIC_X FAULT_SA0 LOGIC_ONE) ∧
    getObjective (andPodem LOGIC_ONE LOGIC_X LOGIC_X FAULT_SA0 LOGIC_ONE)
      = some (andPodem LOGIC_ONE LOGIC_X LOGIC_X FAULT_SA0 LOGIC_ONE, some (some 2, LOGIC_ONE)) ∧
    backtrace 2 (andState LOGIC_ONE LOGIC_X LOGIC_X FAULT_SA0) 2 LOGIC_ONE = some (1, LOGIC_ONE) ∧
    assignAndSimulate 2 (andPodem LOGIC_ONE LOGIC_X LOGIC_X FAULT_SA0 LOGIC_ONE) 1 LOGIC_ONE
      = some (andPodem LOGIC_ONE LOGIC_ONE LOGIC_D FAULT_SA0 LOGIC_ONE) ∧
    podemRecursion 2 3 (andPodem LOGIC_X LOGIC_X LOGIC_X FAULT_SA0 LOGIC_ONE)
      = some (true, andPodem LOGIC_ONE LOGIC_ONE LOGIC_D FAULT_SA0 LOGIC_ONE) ∧
    printTest (andState LOGIC_ONE LOGIC_ONE LOGIC_D FAULT_SA0) [0, 1] = some "11" := by
  decide

/-- C4: on `Y = AND(A, B)` with fault stuck-at-1 on `Y` and all values X, the activation value
is 0 and `podemRecursion` returns `true`; in the final state `A` holds 0 (and `B` is still X),
so at least one of the two primary inputs holds logic 0. -/
theorem C4_and_stuck_at_1 :
    andStart FAULT_SA1 = some (andPodem LOGIC_X LOGIC_X LOGIC_X FAULT_SA1 LOGIC_ZERO) ∧
    podemRecursion 2 2 (andPodem LOGIC_X LOGIC_X LOGIC_X FAULT_SA1 LOGIC_ZERO)
      = some (true, andPodem LOGIC_ZERO LOGIC_X LOGIC_DBAR FAULT_SA1 LOGIC_ZERO) ∧
    (∃ p ∈ (andState LOGIC_ZERO LOGIC_X LOGIC_DBAR FAULT_SA1).inputGates,
      (andState LOGIC_ZERO LOGIC_X LOGIC_DBAR FAULT_SA1).getValue p = some LOGIC_ZERO) ∧
    printTest (andState LOGIC_ZERO LOGIC_X LOGIC_DBAR FAULT_SA1) [0, 1] = some "0X" := by
  decide

/-! ## Event-driven simulation -/

/-- C5, evaluated on `Y = AND(A, B)` without fault: from the all-X state with `A` changed to 0
and the queue holding `Y`, the successor of `A`, `simFullCircuit` puts 0 on `Y`, while
`eventDrivenSim` returns with `Y` still at X. -/
theorem C5_eventDrivenSim_leaves_stale_value :
    simFullCircuit 2 (andState LOGIC_ZERO LOGIC_X LOGIC_X NOFAULT)
      = some (andState LOGIC_ZERO LOGIC_X LOGIC_ZERO NOFAULT) ∧
    eventDrivenSim (andState LOGIC_ZERO LOGIC_X LOGIC_X NOFAULT) [2]
      = andState LOGIC_ZERO LOGIC_X LOGIC_X NOFAULT ∧
    (eventDrivenSim (andState LOGIC_ZERO LOGIC_X LOGIC_X NOFAULT) [2]).getValue 2
      = some LOGIC_X ∧
    (andState LOGIC_ZERO LOGIC_X LOGIC_ZERO NOFAULT).getValue 2 = some LOGIC_ZERO := by
  decide

/-! ## Netlist and value bookkeeping -/

theorem Gate.net_setValue (g : Gate) (v : Int) : (g.setValue v).net = g.net := rfl

theorem Gate.eq_of_net {g g1 : Gate} (h : g1.net = g.net) (hv : g1.gateValue = g.gateValue) :
    g1 = g := by
  cases g; cases g1
  simp only [Gate.net, Gate.setValue, Gate.mk.injEq] at h
  simp only [Gate.mk.injEq] at hv ⊢
  simp_all

theorem Gate.eq_setValue_of_net {g g1 : Gate} (h : g1.net = g.net) :
    g1 = g.setValue g1.gateValue :=
  Gate.eq_of_net (by rw [Gate.net_setValue]; exact h) rfl

theorem SameNet.net_refl (c : Circuit) : SameNet c c := ⟨rfl, rfl, rfl, rfl⟩

theorem SameNet.net_symm {c c1 : Circuit} (h : SameNet c c1) : SameNet c1 c :=
  ⟨h.1.symm, h.2.1.symm, h.2.2.1.symm, h.2.2.2.symm⟩

theorem SameNet.net_trans {c c1 c2 : Circuit} (h : SameNet c c1) (h1 : SameNet c1 c2) :
    SameNet c c2 :=
  ⟨h1.1.trans h.1, h1.2.1.trans h.2.1, h1.2.2.1.trans h.2.2.1, h1.2.2.2.trans h.2.2.2⟩

theorem SameNet.net_length {c c1 : Circuit} (h : SameNet c c1) : c1.gates.length = c.gates.length := by
  have := congrArg List.length h.2.2.2
  simpa using this

theorem SameNet.net_get {c c1 : Circuit} (h : SameNet c c1) {g : Nat} {gate : Gate}
    (hg : c.gates[g]? = some gate) :
    ∃ gate1, c1.gates[g]? = some gate1 ∧ gate1.net = gate.net := by
  have h2 := congrArg (fun l => l[g]?) h.2.2.2
  simp only [List.getElem?_map, hg, Option.map_some'] at h2
  cases h1 : c1.gates[g]? with
  | none => simp [h1] at h2
  | some gate1 =>
    simp only [h1, Option.map_some', Option.some.injEq] at h2
    exact ⟨gate1, rfl, h2⟩

theorem SameNet.get_fields {c c1 : Circuit} (h : SameNet c c1) {g : Nat} {gate : Gate}
    (hg : c.gates[g]? = some gate) :
    ∃ gate1, c1.gates[g]? = some gate1 ∧ gate1.gateType = gate.gateType ∧
      gate1.gateInputs = gate.gateInputs ∧ gate1.faultType = gate.faultType ∧
      gate1.gateOutputs = gate.gateOutputs ∧ gate1 = gate.setValue gate1.gateValue := by
  obtain ⟨gate1, h1, hn⟩ := h.net_get hg
  have e1 : gate1.net.gateType = gate.net.gateType := congrArg Gate.gateType hn
  have e2 : gate1.net.gateInputs = gate.net.gateInputs := congrArg Gate.gateInputs hn
  have e3 : gate1.net.faultType = gate.net.faultType := congrArg Gate.faultType hn
  have e4 : gate1.net.gateOutputs = gate.net.gateOutputs := congrArg Gate.gateOutputs hn
  exact ⟨gate1, h1, e1, e2, e3, e4, Gate.eq_setValue_of_net hn⟩

theorem SameNet.net_preds {c c1 : Circuit} (h : SameNet c c1) : c1.preds = c.preds := by
  funext g
  unfold Circuit.preds
  cases hg : c.gates[g]? with
  | none =>
    have : c1.gates[g]? = none := by
      rw [List.getElem?_eq_none_iff] at hg ⊢
      rw [h.net_length]; exact hg
    simp [this]
  | some gate =>
    obtain ⟨gate1, h1, _, hi, _⟩ := h.get_fields hg
    simp [h1, hi]

theorem getElem?_putGate (c : Circuit) (p : Nat) (x : Gate) (g : Nat) :
    (c.putGate p x).gates[g]? = if p = g then (if p < c.gates.length then some x else none)
      else c.gates[g]? := by
  simp [Circuit.putGate, List.getElem?_set]

theorem sameNet_putGate {c : Circuit} {p : Nat} {gate : Gate} (hp : c.gates[p]? = some gate)
    (v : Int) : SameNet c (c.putGate p (gate.setValue v)) := by
  refine ⟨rfl, rfl, rfl, ?_⟩
  apply List.ext_getElem?
  intro g
  simp only [List.getElem?_map, getElem?_putGate]
  have hlt : p < c.gates.length := (List.getElem?_eq_some.mp hp).1
  by_cases hpg : p = g
  · subst hpg; simp [hlt, hp, Gate.net_setValue]
  · simp [hpg]

theorem preds_eq {c : Circuit} {g : Nat} {gate : Gate} (hg : c.gates[g]? = some gate) :
    c.preds g = gate.gateInputs := by
  simp [Circuit.preds, hg]

theorem Evolves.ev_refl (c : Circuit) : Evolves c c := ⟨SameNet.net_refl c, fun _ _ h _ => h⟩

theorem Evolves.ev_trans {c c1 c2 : Circuit} (h : Evolves c c1) (h1 : Evolves c1 c2) :
    Evolves c c2 :=
  ⟨h.1.net_trans h1.1, fun g gate hg hv => h1.2 g gate (h.2 g gate hg hv) hv⟩

theorem getValue_eq {c : Circuit} {g : Nat} {gate : Gate} (hg : c.gates[g]? = some gate) :
    c.getValue g = some gate.gateValue := by
  simp [Circuit.getValue, hg]

/-! ### `inputValues` -/

theorem inputValues_eq_some {c : Circuit} :
    ∀ {ps : List Nat} {vs : List Int}, inputValues c ps = some vs ↔
      List.Forall₂ (fun p v => c.getValue p = some v) ps vs := by
  intro ps
  induction ps with
  | nil =>
    intro vs
    constructor
    · intro h; simp [inputValues] at h; subst h; exact List.Forall₂.nil
    · intro h; cases h; rfl
  | cons p ps ih =>
    intro vs
    constructor
    · intro h
      simp only [inputValues] at h
      cases hp : c.getValue p with
      | none => simp [hp] at h
      | some v =>
        simp only [hp] at h
        cases hr : inputValues c ps with
        | none => simp [hr] at h
        | some r =>
          simp only [hr, Option.map_some', Option.some.injEq] at h
          subst h
          exact List.Forall₂.cons hp (ih.mp hr)
    · intro h
      cases h with
      | cons h1 h2 =>
        simp [inputValues, h1, ih.mpr h2]

theorem inputValues_congr {c c1 : Circuit} {ps : List Nat}
    (h : ∀ p ∈ ps, c1.getValue p = c.getValue p) : inputValues c1 ps = inputValues c ps := by
  induction ps with
  | nil => rfl
  | cons p ps ih =>
    simp only [inputValues]
    rw [h p (List.mem_cons_self _ _), ih (fun q hq => h q (List.mem_cons_of_mem _ hq))]

theorem inputValues_mem {c : Circuit} {ps : List Nat} {vs : List Int}
    (h : inputValues c ps = some vs) {v : Int} (hv : v ∈ vs) :
    ∃ p ∈ ps, c.getValue p = some v := by
  rw [inputValues_eq_some] at h
  induction h with
  | nil => simp at hv
  | cons h1 _ ih =>
    rcases List.mem_cons.mp hv with h | h
    · subst h; exact ⟨_, List.mem_cons_self _ _, h1⟩
    · obtain ⟨p, hp, hpv⟩ := ih h
      exact ⟨p, List.mem_cons_of_mem _ hp, hpv⟩

theorem inputValues_mem_of {c : Circuit} {ps : List Nat} {vs : List Int}
    (h : inputValues c ps = some vs) {p : Nat} (hp : p ∈ ps) :
    ∃ v ∈ vs, c.getValue p = some v := by
  rw [inputValues_eq_some] at h
  induction h with
  | nil => simp at hp
  | cons h1 _ ih =>
    rcases List.mem_cons.mp hp with h | h
    · subst h; exact ⟨_, List.mem_cons_self _ _, h1⟩
    · obtain ⟨v, hv, hpv⟩ := ih h
      exact ⟨v, List.mem_cons_of_mem _ hv, hpv⟩

theorem inputValues_total {c : Circuit} {ps : List Nat} (h : ∀ p ∈ ps, p < c.gates.length) :
    ∃ vs, inputValues c ps = some vs := by
  induction ps with
  | nil => exact ⟨[], rfl⟩
  | cons p ps ih =>
    obtain ⟨vs, hvs⟩ := ih (fun q hq => h q (List.mem_cons_of_mem _ hq))
    have hp := h p (List.mem_cons_self _ _)
    refine ⟨c.gates[p].gateValue :: vs, ?_⟩
    simp [inputValues, Circuit.getValue, List.getElem?_eq_getElem hp, hvs]

/-! ### Gate evaluation stays inside the five logic values -/

theorem IsLogic.ne_unset {v : Int} (h : IsLogic v) : v ≠ LOGIC_UNSET := by
  intro h1
  subst h1
  exact absurd h (by decide)

theorem LogicNot_isLogic {v : Int} (h : IsLogic v) : IsLogic (LogicNot v) := by
  rcases h with h | h | h | h | h <;> subst h <;> decide

theorem evalGate_isLogic (ins : List Int) {c : Int} (hc : c = 0 ∨ c = 1) (i : Int) :
    IsLogic (evalGate ins c i) := by
  unfold evalGate
  rcases hc with hc | hc <;> subst hc <;> simp only [] <;> split_ifs <;> decide

theorem EvalXORGate_isLogic (ins : List Int) (inv : Int) : IsLogic (EvalXORGate ins inv) := by
  unfold EvalXORGate
  split
  · decide
  · split
    · decide
    · simp only []
      split_ifs <;> decide

theorem faultedValue_isLogic (faultType : Int) {v : Int} (h : IsLogic v) :
    IsLogic (faultedValue faultType v) := by
  unfold faultedValue
  split_ifs <;> first | decide | exact h

theorem simGateType_isLogic {gateType : Int} {vals : List Int} {v : Int}
    (h : simGateType gateType vals = some v) (hvals : ∀ x ∈ vals, IsLogic x) : IsLogic v := by
  have hhead : ∀ x, vals.head? = some x → IsLogic x := fun x hx =>
    hvals x (List.mem_of_mem_head? hx)
  unfold simGateType at h
  split_ifs at h
  · cases h; exact evalGate_isLogic _ (Or.inl rfl) _
  · cases h; exact evalGate_isLogic _ (Or.inr rfl) _
  · cases h; exact evalGate_isLogic _ (Or.inl rfl) _
  · cases h; exact evalGate_isLogic _ (Or.inr rfl) _
  · exact hhead v h
  · cases hh : vals.head? with
    | none => simp [hh] at h
    | some x =>
      simp only [hh, Option.map_some', Option.some.injEq] at h
      subst h
      exact LogicNot_isLogic (hhead x hh)
  · cases h; exact EvalXORGate_isLogic _ _
  · cases h; exact EvalXORGate_isLogic _ _
  · exact hhead v h

/-! ### The effect of `simGateRecursive` -/

theorem fanIn_level {preds : Nat → List Nat} {level : Nat → Nat} (hac : Acyclic preds level)
    {g h : Nat} (hf : FanIn preds g h) : level h ≤ level g := by
  induction hf with
  | self g => exact le_refl _
  | step hp _ ih => exact le_trans ih (le_of_lt (hac _ _ hp))

theorem fanIn_trans {preds : Nat → List Nat} {g h k : Nat} (h1 : FanIn preds g h)
    (h2 : FanIn preds h k) : FanIn preds g k := by
  induction h1 with
  | self g => exact h2
  | step hp _ ih => exact FanIn.step hp (ih h2)

theorem validValues_get {c : Circuit} (hv : ValidValues c) {g : Nat} {gate : Gate}
    (hg : c.gates[g]? = some gate) :
    IsLogic gate.gateValue ∨ (gate.gateValue = LOGIC_UNSET ∧ gate.gateType ≠ GATE_PI) :=
  hv gate (List.getElem?_mem hg)

theorem validValues_putGate {c : Circuit} (hv : ValidValues c) (p : Nat) {gate : Gate}
    {v : Int} (h : IsLogic v) : ValidValues (c.putGate p (gate.setValue v)) := by
  intro x hx
  rcases List.mem_or_eq_of_mem_set hx with hx | hx
  · exact hv x hx
  · subst hx; exact Or.inl h

theorem getValue_putGate_ne {c : Circuit} {p q : Nat} (x : Gate) (h : p ≠ q) :
    (c.putGate p x).getValue q = c.getValue q := by
  simp [Circuit.getValue, getElem?_putGate, h]

theorem SimPost.post_refl {c : Circuit} (hv : ValidValues c) (hcl : Closed c) : SimPost c [] c :=
  ⟨Evolves.ev_refl c, hv, hcl, fun _ h => absurd h (List.not_mem_nil _), fun _ _ => rfl⟩

theorem forGates_sim_spec {level : Nat → Nat} (f : Circuit → Nat → Option Circuit)
    (hf : ∀ (c : Circuit) (g : Nat) (c1 : Circuit), Acyclic c.preds level → ValidValues c →
      Closed c → f c g = some c1 → SimPost c [g] c1) :
    ∀ (ps : List Nat) (c c1 : Circuit), Acyclic c.preds level → ValidValues c → Closed c →
      forGates f c ps = some c1 → SimPost c ps c1 := by
  intro ps
  induction ps with
  | nil =>
    intro c c1 _ hv hcl h
    simp only [forGates, Option.some.injEq] at h
    subst h
    exact SimPost.post_refl hv hcl
  | cons p ps ih =>
    intro c c1 hac hv hcl h
    simp only [forGates] at h
    cases hp : f c p with
    | none => simp [hp] at h
    | some c2 =>
      simp only [hp] at h
      obtain ⟨hev, hv2, hcl2, hset2, hfr2⟩ := hf c p c2 hac hv hcl hp
      have hpr : c2.preds = c.preds := hev.1.net_preds
      obtain ⟨hev3, hv3, hcl3, hset3, hfr3⟩ := ih c2 c1 (hpr ▸ hac) hv2 hcl2 h
      refine ⟨hev.ev_trans hev3, hv3, hcl3, ?_, ?_⟩
      · intro g hg
        rcases List.mem_cons.mp hg with hg | hg
        · subst hg
          obtain ⟨gate, hgate, hne⟩ := hset2 g (List.mem_singleton.mpr rfl)
          exact ⟨gate, hev3.2 g gate hgate hne, hne⟩
        · exact hset3 g hg
      · intro h hh
        rw [hfr3 h (fun g hg => hpr ▸ hh g (List.mem_cons_of_mem _ hg))]
        exact hfr2 h (fun g hg => by
          rw [List.mem_singleton.mp hg]; exact hh p (List.mem_cons_self _ _))

theorem simGateRecursive_spec {level : Nat → Nat} :
    ∀ (fuel : Nat) (c : Circuit) (g : Nat) (c1 : Circuit), Acyclic c.preds level →
      ValidValues c → Closed c → simGateRecursive fuel c g = some c1 → SimPost c [g] c1 := by
  intro fuel
  induction fuel with
  | zero => intro c g c1 _ _ _ h; simp [simGateRecursive] at h
  | succ fuel ih =>
    intro c g c1 hac hv hcl h
    simp only [simGateRecursive] at h
    cases hg : c.gates[g]? with
    | none => simp [hg] at h
    | some gate =>
      simp only [hg] at h
      by_cases hset : gate.gateValue = LOGIC_UNSET
      · simp only [hset, ne_eq, not_true_eq_false, ↓reduceIte] at h
        cases hfg : forGates (fun c1 p => simGateRecursive fuel c1 p) c gate.gateInputs with
        | none => simp [hfg] at h
        | some c2 =>
          simp only [hfg] at h
          obtain ⟨hev, hv2, hcl2, hset2, hfr2⟩ :=
            forGates_sim_spec (fun c1 p => simGateRecursive fuel c1 p) ih gate.gateInputs c c2
              hac hv hcl hfg
          -- the gate itself was not touched by the calls on its predecessors
          have hnotin : ∀ p ∈ gate.gateInputs, ¬ FanIn c.preds p g := by
            intro p hp hfan
            have h1 := fanIn_level hac hfan
            have h2 := hac g p (by rw [preds_eq hg]; exact hp)
            omega
          have hg2 : c2.gates[g]? = some gate := by rw [hfr2 g hnotin]; exact hg
          have hself : g ∉ gate.gateInputs := by
            intro hp
            have := hac g g (by rw [preds_eq hg]; exact hp)
            omega
          cases hsg : simGate c2 g with
          | none => simp [hsg] at h
          | some v =>
            simp only [hsg, setValueCheckFault, Circuit.onGate, hg2, Option.some.injEq] at h
            simp only [simGate, hg2] at hsg
            cases hiv : inputValues c2 gate.gateInputs with
            | none => simp [hiv] at hsg
            | some vals =>
              simp only [hiv] at hsg
              have hvals : ∀ x ∈ vals, IsLogic x := by
                intro x hx
                obtain ⟨p, hp, hpx⟩ := inputValues_mem hiv hx
                obtain ⟨gp, hgp, hne⟩ := hset2 p hp
                rw [getValue_eq hgp, Option.some.injEq] at hpx
                rcases validValues_get hv2 hgp with hl | hl
                · exact hpx ▸ hl
                · exact absurd hl.1 hne
              have hlog : IsLogic v := simGateType_isLogic hsg hvals
              have hfv := faultedValue_isLogic gate.faultType hlog
              have hsame : SameNet c2 c1 := h ▸ sameNet_putGate hg2 _
              have hget : ∀ q, q ≠ g → c1.gates[q]? = c2.gates[q]? := by
                intro q hq
                rw [← h, getElem?_putGate]
                simp [Ne.symm hq]
              have hlt : g < c2.gates.length := (List.getElem?_eq_some.mp hg2).1
              have hgetg : c1.gates[g]? =
                  some (gate.setValue (faultedValue gate.faultType v)) := by
                rw [← h, getElem?_putGate]
                simp [hlt]
              have hval : ∀ q, q ≠ g → c1.getValue q = c2.getValue q := by
                intro q hq
                simp [Circuit.getValue, hget q hq]
              refine ⟨⟨hev.1.net_trans hsame, ?_⟩, ?_, ?_, ?_, ?_⟩
              · intro q gq hq hqv
                have hqg : q ≠ g := by
                  intro e; subst e; rw [hg] at hq; cases hq; exact hqv hset
                rw [hget q hqg]
                exact hev.2 q gq hq hqv
              · rw [← h]; exact validValues_putGate hv2 g hfv
              · intro q gq hq hqt hqv
                by_cases hqg : q = g
                · subst hqg
                  rw [hgetg] at hq
                  cases hq
                  refine ⟨vals, v, ?_, ?_, hsg, rfl⟩
                  · rw [← hiv]
                    exact inputValues_congr (fun p hp => hval p (fun e => hself (e ▸ hp)))
                  · intro hmem
                    exact (hvals _ hmem).ne_unset rfl
                · rw [hget q hqg] at hq
                  obtain ⟨vals1, v1, h1, h2, h3, h4⟩ := hcl2 q gq hq hqt hqv
                  refine ⟨vals1, v1, ?_, h2, h3, h4⟩
                  rw [← h1]
                  apply inputValues_congr
                  intro p hp
                  apply hval
                  intro e
                  subst e
                  obtain ⟨x, hx, hpx⟩ := inputValues_mem_of h1 hp
                  rw [getValue_eq hg2, Option.some.injEq] at hpx
                  rw [← hpx, hset] at hx
                  exact h2 hx
              · intro q hq
                rw [List.mem_singleton.mp hq]
                exact ⟨_, hgetg, hfv.ne_unset⟩
              · intro q hq
                have hqg : q ≠ g := by
                  intro e; subst e
                  exact hq q (List.mem_singleton.mpr rfl) (FanIn.self q)
                rw [hget q hqg]
                apply hfr2
                intro p hp hfan
                exact hq g (List.mem_singleton.mpr rfl)
                  (FanIn.step (by rw [preds_eq hg]; exact hp) hfan)
      · simp only [ne_eq, hset, not_false_eq_true, ↓reduceIte, Option.some.injEq] at h
        subst h
        refine ⟨Evolves.ev_refl c, hv, hcl, ?_, fun _ _ => rfl⟩
        intro q hq
        rw [List.mem_singleton.mp hq]
        exact ⟨gate, hg, hset⟩

/-! ### Well-formed circuits -/

theorem WellFormed.wf_get {c : Circuit} {level : Nat → Nat} (hwf : WellFormed c level) {g : Nat}
    {gate : Gate} (hg : c.gates[g]? = some gate) :
    gate.gateType ∈ gateTypes ∧
    (gate.gateType = GATE_PI → gate.gateInputs = [] ∧ g ∈ c.inputGates) ∧
    (gate.gateType ≠ GATE_PI → gate.gateInputs ≠ []) ∧
    ∀ p ∈ gate.gateInputs, p < c.gates.length ∧ level p < level g :=
  hwf.2.2 (g, gate) (List.mk_mem_enum_iff_getElem?.mpr hg)

theorem WellFormed.acyclic {c : Circuit} {level : Nat → Nat} (hwf : WellFormed c level) :
    Acyclic c.preds level := by
  intro g p hp
  unfold Circuit.preds at hp
  cases hg : c.gates[g]? with
  | none => simp [hg] at hp
  | some gate =>
    simp only [hg] at hp
    exact ((hwf.wf_get hg).2.2.2 p hp).2

theorem WellFormed.of_sameNet {c c1 : Circuit} {level : Nat → Nat} (hwf : WellFormed c level)
    (h : SameNet c c1) : WellFormed c1 level := by
  refine ⟨?_, ?_, ?_⟩
  · rw [h.1, h.net_length]; exact hwf.1
  · rw [h.2.1, h.net_length]; exact hwf.2.1
  · rintro ⟨g, gate1⟩ hig
    have hg1 : c1.gates[g]? = some gate1 := List.mk_mem_enum_iff_getElem?.mp hig
    obtain ⟨gate, hg, ht, hi, _⟩ := h.net_symm.get_fields hg1
    have := hwf.wf_get hg
    rw [ht, hi] at this
    simpa [h.2.1, h.net_length] using this

theorem simGateType_total {gateType : Int} {vals : List Int} (ht : gateType ∈ gateTypes)
    (hpi : gateType ≠ GATE_PI) (hne : vals ≠ []) : ∃ v, simGateType gateType vals = some v := by
  obtain ⟨x, xs, rfl⟩ := List.exists_cons_of_ne_nil hne
  simp only [gateTypes, List.mem_cons, List.mem_singleton, List.not_mem_nil, or_false] at ht
  rcases ht with h | h | h | h | h | h | h | h | h | h
  all_goals first
    | exact absurd h hpi
    | (subst h; simp [simGateType])

/-! ### `simFullCircuit` -/

theorem getElem?_unsetNonPI (c : Circuit) (g : Nat) :
    c.unsetNonPI.gates[g]? = (c.gates[g]?).map (fun gate =>
      if gate.gateType ≠ GATE_PI then gate.setValue LOGIC_UNSET else gate) := by
  simp [Circuit.unsetNonPI]

theorem sameNet_unsetNonPI (c : Circuit) : SameNet c c.unsetNonPI := by
  refine ⟨rfl, rfl, rfl, ?_⟩
  simp only [Circuit.unsetNonPI, List.map_map]
  apply List.map_congr_left
  intro gate _
  simp only [Function.comp]
  split_ifs <;> rfl

theorem validValues_unsetNonPI {c : Circuit} (h : InputsSet c) : ValidValues c.unsetNonPI := by
  intro gate hgate
  simp only [Circuit.unsetNonPI, List.mem_map] at hgate
  obtain ⟨g0, hg0, rfl⟩ := hgate
  by_cases ht : g0.gateType = GATE_PI
  · simp only [ht, ne_eq, not_true_eq_false, ↓reduceIte]
    exact Or.inl (h g0 hg0 ht)
  · simp only [ne_eq, ht, not_false_eq_true, ↓reduceIte]
    exact Or.inr ⟨rfl, ht⟩

theorem closed_unsetNonPI (c : Circuit) : Closed c.unsetNonPI := by
  intro g gate hg ht hv
  rw [getElem?_unsetNonPI] at hg
  cases h0 : c.gates[g]? with
  | none => simp [h0] at hg
  | some g0 =>
    simp only [h0, Option.map_some', Option.some.injEq] at hg
    subst hg
    by_cases ht0 : g0.gateType = GATE_PI
    · simp [ht0] at ht
    · simp [ht0, Gate.setValue] at hv

/-- The state `simFullCircuit` leaves: same netlist, primary inputs untouched, valid and
consistent values, a value on every primary output, and UNSET on every other gate outside the
fan-in of the primary outputs. -/
theorem simFullCircuit_spec {level : Nat → Nat} {K : Nat} {c c1 : Circuit}
    (hac : Acyclic c.preds level) (hin : InputsSet c) (h : simFullCircuit K c = some c1) :
    SameNet c c1 ∧ ValidValues c1 ∧ Closed c1 ∧
    (∀ po ∈ c.outputGates, ∃ gate, c1.gates[po]? = some gate ∧ gate.gateValue ≠ LOGIC_UNSET) ∧
    (∀ (g : Nat) (gate : Gate), c.gates[g]? = some gate → gate.gateType = GATE_PI →
      c1.gates[g]? = some gate) ∧
    (∀ (g : Nat) (gate : Gate), c1.gates[g]? = some gate → gate.gateType ≠ GATE_PI →
      (∀ po ∈ c.outputGates, ¬ FanIn c.preds po g) → gate.gateValue = LOGIC_UNSET) := by
  unfold simFullCircuit at h
  have hs0 := sameNet_unsetNonPI c
  have hpr : c.unsetNonPI.preds = c.preds := hs0.net_preds
  obtain ⟨hev, hv, hcl, hset, hfr⟩ :=
    forGates_sim_spec (fun c1 p => simGateRecursive K c1 p)
      (fun c g c1 => simGateRecursive_spec K c g c1) c.unsetNonPI.outputGates c.unsetNonPI c1
      (hpr ▸ hac) (validValues_unsetNonPI hin) (closed_unsetNonPI c) h
  refine ⟨hs0.net_trans hev.1, hv, hcl, hset, ?_, ?_⟩
  · intro g gate hg ht
    apply hev.2 g gate
    · rw [getElem?_unsetNonPI, hg]; simp [ht]
    · exact (hin gate (List.getElem?_mem hg) ht).ne_unset
  · intro g gate hg ht hno
    rw [hfr g (fun po hpo => hpr ▸ hno po hpo), getElem?_unsetNonPI] at hg
    cases h0 : c.gates[g]? with
    | none => simp [h0] at hg
    | some g0 =>
      simp only [h0, Option.map_some', Option.some.injEq] at hg
      subst hg
      by_cases ht0 : g0.gateType = GATE_PI
      · simp [ht0] at ht
      · simp [ht0, Gate.setValue]

theorem forGates_sim_total {level : Nat → Nat} (fuel : Nat)
    (ih : ∀ (c : Circuit) (g : Nat), WellFormed c level → ValidValues c → Closed c →
      g < c.gates.length → level g < fuel → ∃ c1, simGateRecursive fuel c g = some c1) :
    ∀ (ps : List Nat) (c : Circuit), WellFormed c level → ValidValues c → Closed c →
      (∀ p ∈ ps, p < c.gates.length ∧ level p < fuel) →
      ∃ c1, forGates (fun c1 p => simGateRecursive fuel c1 p) c ps = some c1 := by
  intro ps
  induction ps with
  | nil => intro c _ _ _ _; exact ⟨c, rfl⟩
  | cons p ps ihp =>
    intro c hwf hv hcl hps
    obtain ⟨hp1, hp2⟩ := hps p (List.mem_cons_self _ _)
    obtain ⟨c2, hc2⟩ := ih c p hwf hv hcl hp1 hp2
    obtain ⟨hev, hv2, hcl2, _, _⟩ := simGateRecursive_spec fuel c p c2 hwf.acyclic hv hcl hc2
    obtain ⟨c3, hc3⟩ := ihp c2 (hwf.of_sameNet hev.1) hv2 hcl2 (fun q hq => by
      rw [hev.1.net_length]; exact hps q (List.mem_cons_of_mem _ hq))
    exact ⟨c3, by simp [forGates, hc2, hc3]⟩

theorem simGateRecursive_total {level : Nat → Nat} :
    ∀ (fuel : Nat) (c : Circuit) (g : Nat), WellFormed c level → ValidValues c → Closed c →
      g < c.gates.length → level g < fuel → ∃ c1, simGateRecursive fuel c g = some c1 := by
  intro fuel
  induction fuel with
  | zero => intro c g _ _ _ _ h; omega
  | succ fuel ih =>
    intro c g hwf hv hcl hg hlev
    have hgate := List.getElem?_eq_getElem hg
    generalize c.gates[g] = gate at hgate
    simp only [simGateRecursive, hgate]
    by_cases hset : gate.gateValue = LOGIC_UNSET
    · simp only [hset, ne_eq, not_true_eq_false, ↓reduceIte]
      obtain ⟨htype, _, hne, hins⟩ := hwf.wf_get hgate
      have hpi : gate.gateType ≠ GATE_PI := by
        rcases validValues_get hv hgate with hl | hl
        · exact absurd hset hl.ne_unset
        · exact hl.2
      obtain ⟨c2, hc2⟩ := forGates_sim_total fuel ih gate.gateInputs c hwf hv hcl
        (fun p hp => ⟨(hins p hp).1, by have := (hins p hp).2; omega⟩)
      obtain ⟨hev, hv2, hcl2, hset2, hfr2⟩ :=
        forGates_sim_spec (fun c1 p => simGateRecursive fuel c1 p)
          (fun c g c1 => simGateRecursive_spec fuel c g c1) gate.gateInputs c c2
          hwf.acyclic hv hcl hc2
      obtain ⟨gate2, hg2, ht2, hi2, _⟩ := hev.1.get_fields hgate
      obtain ⟨vals, hvals⟩ := @inputValues_total c2 gate2.gateInputs (by
        intro p hp
        rw [hev.1.net_length]
        exact (hins p (hi2 ▸ hp)).1)
      have hvne : vals ≠ [] := by
        intro e
        have := inputValues_length hvals
        rw [e, hi2] at this
        exact hne hpi (List.length_eq_zero.mp this.symm)
      obtain ⟨v, hv⟩ := simGateType_total (ht2 ▸ htype) (ht2 ▸ hpi) hvne
      simp [hc2, simGate, hg2, hvals, hv, setValueCheckFault, Circuit.onGate]
    · simp [hset]

theorem simFullCircuit_total {level : Nat → Nat} {K : Nat} {c : Circuit}
    (hwf : WellFormed c level) (hin : InputsSet c)
    (hK : ∀ g < c.gates.length, level g < K) : ∃ c1, simFullCircuit K c = some c1 := by
  unfold simFullCircuit
  have hs0 := sameNet_unsetNonPI c
  apply forGates_sim_total K (simGateRecursive_total K) _ _ (hwf.of_sameNet hs0)
    (validValues_unsetNonPI hin) (closed_unsetNonPI c)
  intro p hp
  have hp1 : p < c.gates.length := hwf.1 p hp
  exact ⟨by rw [hs0.net_length]; exact hp1, hK p hp1⟩

/-! ### Induction along the predecessor relation -/

theorem acyclic_induction {preds : Nat → List Nat} {level : Nat → Nat}
    (hac : Acyclic preds level) (P : Nat → Prop)
    (step : ∀ g, (∀ p ∈ preds g, P p) → P g) : ∀ g, P g := by
  have key : ∀ m g, level g = m → P g := by
    intro m
    induction m using Nat.strong_induction_on with
    | _ m ih =>
      intro g hg
      apply step
      intro p hp
      exact ih (level p) (hg ▸ hac g p hp) p rfl
  intro g
  exact key _ g rfl

/-! ### `setPIValues` -/

theorem setPI_choice (gate : Gate) (v : Int) :
    (if gate.faultType = FAULT_SA0 ∧ v = LOGIC_ONE then gate.setValue LOGIC_D
      else if gate.faultType = FAULT_SA0 ∧ v = LOGIC_DBAR then gate.setValue LOGIC_ZERO
      else if gate.faultType = FAULT_SA1 ∧ v = LOGIC_ZERO then gate.setValue LOGIC_DBAR
      else if gate.faultType = FAULT_SA1 ∧ v = LOGIC_D then gate.setValue LOGIC_ONE
      else gate.setValue v) = gate.setValue (faultedValue gate.faultType v) := by
  unfold faultedValue
  split_ifs <;> rfl

theorem setPILoop_spec :
    ∀ (ps : List Nat) (vs : List Int) (c c1 : Circuit), setPILoop c ps vs = some c1 →
      SameNet c c1 ∧ ∀ (g : Nat) (gate : Gate), c.gates[g]? = some gate →
        c1.gates[g]? = some (match assignedValue ps vs g with
          | some v => gate.setValue (faultedValue gate.faultType v)
          | none => gate) := by
  intro ps
  induction ps with
  | nil =>
    intro vs c c1 h
    simp only [setPILoop, Option.some.injEq] at h
    subst h
    exact ⟨SameNet.net_refl c, fun g gate hg => by simp [assignedValue, hg]⟩
  | cons p ps ih =>
    intro vs c c1 h
    cases vs with
    | nil =>
      simp only [setPILoop, Option.some.injEq] at h
      subst h
      exact ⟨SameNet.net_refl c, fun g gate hg => by simp [assignedValue, hg]⟩
    | cons v vs =>
      simp only [setPILoop, Circuit.onGate] at h
      cases hp : c.gates[p]? with
      | none => simp [hp] at h
      | some gp =>
        simp only [hp, setPI_choice] at h
        obtain ⟨hs, hget⟩ := ih vs _ c1 h
        refine ⟨(sameNet_putGate hp _).net_trans hs, ?_⟩
        intro g gate hg
        have hlt : p < c.gates.length := (List.getElem?_eq_some.mp hp).1
        by_cases hpg : p = g
        · subst hpg
          rw [hp] at hg
          cases hg
          have := hget p (gp.setValue (faultedValue gp.faultType v))
            (by rw [getElem?_putGate]; simp [hlt])
          rw [this]
          simp only [assignedValue]
          cases assignedValue ps vs p <;> simp [Gate.setValue]
        · have := hget g gate (by rw [getElem?_putGate]; simp [hpg, hg])
          rw [this]
          simp only [assignedValue]
          cases assignedValue ps vs g <;> simp [hpg]

theorem setPILoop_total :
    ∀ (ps : List Nat) (vs : List Int) (c : Circuit), (∀ p ∈ ps, p < c.gates.length) →
      ∃ c1, setPILoop c ps vs = some c1 := by
  intro ps
  induction ps with
  | nil => intro vs c _; exact ⟨c, by simp [setPILoop]⟩
  | cons p ps ih =>
    intro vs c h
    cases vs with
    | nil => exact ⟨c, by simp [setPILoop]⟩
    | cons v vs =>
      have hp := h p (List.mem_cons_self _ _)
      simp only [setPILoop, Circuit.onGate, List.getElem?_eq_getElem hp]
      apply ih
      intro q hq
      simp only [Circuit.putGate, List.length_set]
      exact h q (List.mem_cons_of_mem _ hq)

theorem assignedValue_mem :
    ∀ (ps : List Nat) (vs : List Int) (g : Nat) (v : Int), assignedValue ps vs g = some v →
      v ∈ vs := by
  intro ps
  induction ps with
  | nil => intro vs g v h; simp [assignedValue] at h
  | cons p ps ih =>
    intro vs g v h
    cases vs with
    | nil => simp [assignedValue] at h
    | cons w ws =>
      simp only [assignedValue] at h
      cases hr : assignedValue ps ws g with
      | some x =>
        simp only [hr, Option.some.injEq] at h
        subst h
        exact List.mem_cons_of_mem _ (ih ws g x hr)
      | none =>
        simp only [hr] at h
        split_ifs at h
        cases h
        exact List.mem_cons_self _ _

theorem assignedValue_of_mem :
    ∀ (ps : List Nat) (vs : List Int) (g : Nat), vs.length = ps.length → g ∈ ps →
      ∃ v, assignedValue ps vs g = some v := by
  intro ps
  induction ps with
  | nil => intro vs g _ h; simp at h
  | cons p ps ih =>
    intro vs g hl hg
    cases vs with
    | nil => simp at hl
    | cons w ws =>
      simp only [assignedValue]
      cases hr : assignedValue ps ws g with
      | some x => exact ⟨x, rfl⟩
      | none =>
        rcases List.mem_cons.mp hg with h | h
        · subst h; exact ⟨w, by simp⟩
        · obtain ⟨v, hv⟩ := ih ws g (by simpa using hl) h
          rw [hr] at hv
          cases hv

/-! ### Gate evaluation on the fault-free values 0, 1, X -/

theorem IsFaultFree.isLogic {v : Int} (h : IsFaultFree v) : IsLogic v := by
  rcases h with h | h | h <;> subst h <;> decide

theorem LogicNot_faultFree {v : Int} (h : IsFaultFree v) : IsFaultFree (LogicNot v) := by
  rcases h with h | h | h <;> subst h <;> decide

theorem evalGate_faultFree {ins : List Int} {c : Int} (hc : c = 0 ∨ c = 1) (i : Int)
    (h : ∀ x ∈ ins, IsFaultFree x) : IsFaultFree (evalGate ins c i) := by
  have hD : LOGIC_D ∉ ins := fun hm => absurd (h _ hm) (by decide)
  have hB : LOGIC_DBAR ∉ ins := fun hm => absurd (h _ hm) (by decide)
  unfold evalGate
  simp only [hD, hB, decide_False, Bool.and_false, Bool.or_false, decide_eq_true_eq]
  rcases hc with hc | hc <;> subst hc <;> split_ifs <;> first | decide | contradiction

theorem countOnes_binary :
    ∀ (vs : List Int) (m n : Nat), (∀ x ∈ vs, x = LOGIC_ZERO ∨ x = LOGIC_ONE) →
      ∃ k, countOnes vs m n = some (m + k, n + k) := by
  intro vs
  induction vs with
  | nil => intro m n _; exact ⟨0, rfl⟩
  | cons v vs ih =>
    intro m n h
    have hvs : ∀ x ∈ vs, x = LOGIC_ZERO ∨ x = LOGIC_ONE :=
      fun x hx => h x (List.mem_cons_of_mem _ hx)
    rcases h v (List.mem_cons_self _ _) with hv | hv
    · subst hv
      obtain ⟨k, hk⟩ := ih m n hvs
      exact ⟨k, by simp [countOnes, hk]⟩
    · subst hv
      obtain ⟨k, hk⟩ := ih (m + 1) (n + 1) hvs
      exact ⟨k + 1, by simp [countOnes, hk]; omega⟩

theorem EvalXORGate_faultFree {ins : List Int} (inv : Int) (h : ∀ x ∈ ins, IsFaultFree x) :
    IsFaultFree (EvalXORGate ins inv) := by
  unfold EvalXORGate
  by_cases hX : LOGIC_X ∈ ins
  · simp only [hX, ↓reduceIte]; decide
  · simp only [hX, ↓reduceIte]
    have hbin : ∀ x ∈ ins, x = LOGIC_ZERO ∨ x = LOGIC_ONE := by
      intro x hx
      rcases h x hx with h1 | h1 | h1
      · exact Or.inl h1
      · exact Or.inr h1
      · exact absurd (h1 ▸ hx) hX
    obtain ⟨k, hk⟩ := countOnes_binary ins 0 0 hbin
    simp only [hk, Nat.zero_add]
    rcases Nat.mod_two_eq_zero_or_one k with hk2 | hk2 <;>
      simp only [hk2, and_self, zero_ne_one, one_ne_zero, ↓reduceIte] <;>
      split_ifs <;> decide

theorem simGateType_faultFree {gateType : Int} {vals : List Int} {v : Int}
    (h : simGateType gateType vals = some v) (hvals : ∀ x ∈ vals, IsFaultFree x) :
    IsFaultFree v := by
  have hhead : ∀ x, vals.head? = some x → IsFaultFree x := fun x hx =>
    hvals x (List.mem_of_mem_head? hx)
  unfold simGateType at h
  split_ifs at h
  · cases h; exact evalGate_faultFree (Or.inl rfl) _ hvals
  · cases h; exact evalGate_faultFree (Or.inr rfl) _ hvals
  · cases h; exact evalGate_faultFree (Or.inl rfl) _ hvals
  · cases h; exact evalGate_faultFree (Or.inr rfl) _ hvals
  · exact hhead v h
  · cases hh : vals.head? with
    | none => simp [hh] at h
    | some x =>
      simp only [hh, Option.map_some', Option.some.injEq] at h
      subst h
      exact LogicNot_faultFree (hhead x hh)
  · cases h; exact EvalXORGate_faultFree _ hvals
  · cases h; exact EvalXORGate_faultFree _ hvals
  · exact hhead v h

theorem faultedValue_noFault (v : Int) : faultedValue NOFAULT v = v := by
  have h0 : NOFAULT ≠ FAULT_SA0 := by decide
  have h1 : NOFAULT ≠ FAULT_SA1 := by decide
  simp [faultedValue, h0, h1]

theorem faultedValue_faultFree {faultType v : Int} (h : IsFaultFree v)
    (hD : faultedValue faultType v ≠ LOGIC_D) (hB : faultedValue faultType v ≠ LOGIC_DBAR) :
    faultedValue faultType v = v := by
  unfold faultedValue at hD hB ⊢
  rcases h with h | h | h <;> subst h <;> split_ifs at hD hB ⊢ <;> simp_all

/-! ### Circuits over the same graph -/

theorem SameNet.to_sameGraph {c c1 : Circuit} (h : SameNet c c1) : SameGraph c c1 := by
  refine ⟨h.1, h.2.1, ?_⟩
  have := congrArg (List.map (fun g : Gate => (g.gateType, g.gateInputs))) h.2.2.2
  simpa [List.map_map, Function.comp, Gate.net, Gate.setValue] using this

theorem SameGraph.graph_refl (c : Circuit) : SameGraph c c := ⟨rfl, rfl, rfl⟩

theorem SameGraph.graph_symm {c c1 : Circuit} (h : SameGraph c c1) : SameGraph c1 c :=
  ⟨h.1.symm, h.2.1.symm, h.2.2.symm⟩

theorem SameGraph.graph_trans {c c1 c2 : Circuit} (h : SameGraph c c1) (h1 : SameGraph c1 c2) :
    SameGraph c c2 :=
  ⟨h1.1.trans h.1, h1.2.1.trans h.2.1, h1.2.2.trans h.2.2⟩

theorem SameGraph.graph_length {c c1 : Circuit} (h : SameGraph c c1) :
    c1.gates.length = c.gates.length := by
  have := congrArg List.length h.2.2
  simpa using this

theorem SameGraph.graph_get {c c1 : Circuit} (h : SameGraph c c1) {g : Nat} {gate : Gate}
    (hg : c.gates[g]? = some gate) :
    ∃ gate1, c1.gates[g]? = some gate1 ∧ gate1.gateType = gate.gateType ∧
      gate1.gateInputs = gate.gateInputs := by
  have h2 := congrArg (fun l => l[g]?) h.2.2
  simp only [List.getElem?_map, hg, Option.map_some'] at h2
  cases h1 : c1.gates[g]? with
  | none => simp [h1] at h2
  | some gate1 =>
    simp only [h1, Option.map_some', Option.some.injEq, Prod.mk.injEq] at h2
    exact ⟨gate1, rfl, h2.1, h2.2⟩

theorem SameGraph.graph_preds {c c1 : Circuit} (h : SameGraph c c1) : c1.preds = c.preds := by
  funext g
  unfold Circuit.preds
  cases hg : c.gates[g]? with
  | none =>
    have : c1.gates[g]? = none := by
      rw [List.getElem?_eq_none_iff] at hg ⊢
      rw [h.graph_length]; exact hg
    simp [this]
  | some gate =>
    obtain ⟨gate1, h1, _, hi⟩ := h.graph_get hg
    simp [h1, hi]

theorem WellFormed.of_sameGraph {c c1 : Circuit} {level : Nat → Nat} (hwf : WellFormed c level)
    (h : SameGraph c c1) : WellFormed c1 level := by
  refine ⟨?_, ?_, ?_⟩
  · rw [h.1, h.graph_length]; exact hwf.1
  · rw [h.2.1, h.graph_length]; exact hwf.2.1
  · rintro ⟨g, gate1⟩ hig
    have hg1 : c1.gates[g]? = some gate1 := List.mk_mem_enum_iff_getElem?.mp hig
    obtain ⟨gate, hg, ht, hi⟩ := h.graph_symm.graph_get hg1
    have := hwf.wf_get hg
    rw [ht, hi] at this
    simpa [h.2.1, h.graph_length] using this

theorem sameGraph_clearFaults (c : Circuit) : SameGraph c c.clearFaults := by
  refine ⟨rfl, rfl, ?_⟩
  simp [Circuit.clearFaults, List.map_map, Function.comp]

theorem sameGraph_setAllX (c : Circuit) : SameGraph c c.setAllX := by
  refine ⟨rfl, rfl, ?_⟩
  simp [Circuit.setAllX, List.map_map, Function.comp, Gate.setValue]

theorem set_faultType_spec {c c1 : Circuit} {p : Nat} {f : Int}
    (h : c.set_faultType p f = some c1) :
    (f = NOFAULT ∨ f = FAULT_SA0 ∨ f = FAULT_SA1) ∧
    ∃ gate, c.gates[p]? = some gate ∧ c1 = c.putGate p { gate with faultType := f } := by
  unfold Circuit.set_faultType at h
  cases hp : c.gates[p]? with
  | none => simp [hp] at h
  | some gate =>
    simp only [hp, Gate.set_faultType] at h
    split_ifs at h with hf
    simp only [Option.some.injEq] at h
    exact ⟨hf, gate, rfl, h.symm⟩

theorem sameGraph_set_faultType {c c1 : Circuit} {p : Nat} {f : Int}
    (h : c.set_faultType p f = some c1) : SameGraph c c1 := by
  obtain ⟨_, gate, hp, rfl⟩ := set_faultType_spec h
  refine ⟨rfl, rfl, ?_⟩
  apply List.ext_getElem?
  intro g
  simp only [List.getElem?_map, getElem?_putGate]
  have hlt : p < c.gates.length := (List.getElem?_eq_some.mp hp).1
  by_cases hpg : p = g
  · subst hpg; simp [hlt, hp]
  · simp [hpg]

/-! ### A circuit and its fault-free twin -/

theorem faultFreeTwin_inject {c cf : Circuit} {n : Nat} {ft : Int}
    (h : c.clearFaults.set_faultType n ft = some cf) : FaultFreeTwin n cf c.clearFaults := by
  obtain ⟨_, gate, hp, rfl⟩ := set_faultType_spec h
  have hlt : n < c.clearFaults.gates.length := (List.getElem?_eq_some.mp hp).1
  refine ⟨rfl, rfl, by simp [Circuit.putGate], ?_⟩
  intro g gb hg
  constructor
  · simp only [Circuit.clearFaults, List.getElem?_map] at hg
    cases h0 : c.gates[g]? with
    | none => simp [h0] at hg
    | some g0 =>
      simp only [h0, Option.map_some', Option.some.injEq] at hg
      subst hg
      rfl
  · by_cases hng : n = g
    · subst hng
      rw [hp] at hg
      cases hg
      exact ⟨{ gate with faultType := ft }, by rw [getElem?_putGate]; simp [hlt], rfl, rfl,
        fun h => absurd rfl h⟩
    · refine ⟨gb, by rw [getElem?_putGate]; simp [hng, hg], rfl, rfl, fun _ => ?_⟩
      simp only [Circuit.clearFaults, List.getElem?_map] at hg
      cases h0 : c.gates[g]? with
      | none => simp [h0] at hg
      | some g0 =>
        simp only [h0, Option.map_some', Option.some.injEq] at hg
        subst hg
        rfl

theorem FaultFreeTwin.twin_sameNet {n : Nat} {a b a1 b1 : Circuit} (h : FaultFreeTwin n a b)
    (ha : SameNet a a1) (hb : SameNet b b1) : FaultFreeTwin n a1 b1 := by
  refine ⟨by rw [ha.1, hb.1]; exact h.1, by rw [ha.2.1, hb.2.1]; exact h.2.1,
    by rw [ha.net_length, hb.net_length]; exact h.2.2.1, ?_⟩
  intro g gb1 hg1
  obtain ⟨gb, hgb, htb, hib, hfb, _⟩ := hb.net_symm.get_fields hg1
  obtain ⟨hnf, ga, hga, hta, hia, hfa⟩ := h.2.2.2 g gb hgb
  obtain ⟨ga1, hga1, hta1, hia1, hfa1, _⟩ := ha.get_fields hga
  refine ⟨by rw [← hfb]; exact hnf, ga1, hga1, ?_, ?_, fun hne => ?_⟩
  · rw [hta1, hta, htb]
  · rw [hia1, hia, hib]
  · rw [hfa1]; exact hfa hne

theorem inputValues_twin {a b : Circuit} :
    ∀ (ps : List Nat) (va vb : List Int), inputValues a ps = some va →
      inputValues b ps = some vb → LOGIC_UNSET ∉ va → LOGIC_UNSET ∉ vb →
      (∀ p ∈ ps, ∀ x y, a.getValue p = some x → b.getValue p = some y → x ≠ LOGIC_UNSET →
        y ≠ LOGIC_UNSET → x = y ∧ IsFaultFree y) →
      va = vb ∧ ∀ y ∈ vb, IsFaultFree y := by
  intro ps
  induction ps with
  | nil =>
    intro va vb ha hb _ _ _
    simp only [inputValues, Option.some.injEq] at ha hb
    subst ha; subst hb
    exact ⟨rfl, fun _ h => absurd h (List.not_mem_nil _)⟩
  | cons p ps ih =>
    intro va vb ha hb hua hub hrel
    simp only [inputValues] at ha hb
    cases hpa : a.getValue p with
    | none => simp [hpa] at ha
    | some x =>
      cases hpb : b.getValue p with
      | none => simp [hpb] at hb
      | some y =>
        simp only [hpa, hpb] at ha hb
        cases hra : inputValues a ps with
        | none => simp [hra] at ha
        | some ra =>
          cases hrb : inputValues b ps with
          | none => simp [hrb] at hb
          | some rb =>
            simp only [hra, hrb, Option.map_some', Option.some.injEq] at ha hb
            subst ha; subst hb
            simp only [List.mem_cons, not_or] at hua hub
            obtain ⟨hxy, hy⟩ := hrel p (List.mem_cons_self _ _) x y hpa hpb
              (fun e => hua.1 e.symm) (fun e => hub.1 e.symm)
            obtain ⟨hr, hrf⟩ := ih ra rb hra hrb hua.2 hub.2
              (fun q hq => hrel q (List.mem_cons_of_mem _ hq))
            refine ⟨by rw [hxy, hr], ?_⟩
            intro z hz
            rcases List.mem_cons.mp hz with hz | hz
            · exact hz ▸ hy
            · exact hrf z hz

/-- In two consistent states of a circuit and its fault-free twin whose primary inputs carry
the same fault-free values (seen through the fault on the first), every gate that holds a value
in both holds the same one, unless the fault site shows D or D-bar. -/
theorem twin_values_agree {level : Nat → Nat} {n : Nat} {a b : Circuit}
    (hac : Acyclic b.preds level) (htw : FaultFreeTwin n a b) (hca : Closed a) (hcb : Closed b)
    (hpi : ∀ (g : Nat) (ga gb : Gate), a.gates[g]? = some ga → b.gates[g]? = some gb →
      gb.gateType = GATE_PI →
      IsFaultFree gb.gateValue ∧ ga.gateValue = faultedValue ga.faultType gb.gateValue)
    (hn : ∀ gn, a.gates[n]? = some gn →
      gn.gateValue ≠ LOGIC_D ∧ gn.gateValue ≠ LOGIC_DBAR) :
    ∀ (g : Nat) (ga gb : Gate), a.gates[g]? = some ga → b.gates[g]? = some gb →
      ga.gateValue ≠ LOGIC_UNSET → gb.gateValue ≠ LOGIC_UNSET →
      ga.gateValue = gb.gateValue ∧ IsFaultFree gb.gateValue := by
  intro g
  induction g using acyclic_induction hac with
  | _ g ih =>
    intro ga gb hga hgb hua hub
    obtain ⟨hnf, ga1, hga1, hta, hia, hfa⟩ := htw.2.2.2 g gb hgb
    rw [hga] at hga1
    cases hga1
    have hfix : ∀ v, IsFaultFree v → ga.gateValue = faultedValue ga.faultType v →
        ga.gateValue = v := by
      intro v hv he
      by_cases hgn : g = n
      · subst hgn
        obtain ⟨h1, h2⟩ := hn ga hga
        rw [he] at h1 h2 ⊢
        exact faultedValue_faultFree hv h1 h2
      · rw [he, hfa hgn, faultedValue_noFault]
    by_cases hpit : gb.gateType = GATE_PI
    · obtain ⟨hff, he⟩ := hpi g ga gb hga hgb hpit
      exact ⟨hfix _ hff he, hff⟩
    · obtain ⟨valsA, vA, hA1, hA2, hA3, hA4⟩ := hca g ga hga (hta ▸ hpit) hua
      obtain ⟨valsB, vB, hB1, hB2, hB3, hB4⟩ := hcb g gb hgb hpit hub
      rw [hia] at hA1
      obtain ⟨hvals, hffs⟩ := inputValues_twin gb.gateInputs valsA valsB hA1 hB1 hA2 hB2 (by
        intro p hp x y hx hy hxu hyu
        cases hpa : a.gates[p]? with
        | none => simp [Circuit.getValue, hpa] at hx
        | some pa =>
          cases hpb : b.gates[p]? with
          | none => simp [Circuit.getValue, hpb] at hy
          | some pb =>
            rw [getValue_eq hpa, Option.some.injEq] at hx
            rw [getValue_eq hpb, Option.some.injEq] at hy
            subst hx; subst hy
            exact ih p (by rw [preds_eq hgb]; exact hp) pa pb hpa hpb hxu hyu)
      rw [hta, hvals, hB3, Option.some.injEq] at hA3
      subst hA3
      have hffv : IsFaultFree vB := simGateType_faultFree hB3 hffs
      rw [hnf, faultedValue_noFault] at hB4
      rw [hB4]
      exact ⟨hfix vB hffv hA4, hffv⟩

theorem setPIValues_spec {c c1 : Circuit} {level : Nat → Nat} {inputVals : List Int}
    (hwf : WellFormed c level) (h : c.setPIValues inputVals = some c1)
    (hvals : ∀ v ∈ inputVals, IsFaultFree v) :
    SameNet c c1 ∧ ∀ (g : Nat) (gate : Gate), c.gates[g]? = some gate →
      gate.gateType = GATE_PI →
      ∃ v, IsFaultFree v ∧ assignedValue c.inputGates inputVals g = some v ∧
        c1.gates[g]? = some (gate.setValue (faultedValue gate.faultType v)) := by
  unfold Circuit.setPIValues at h
  split_ifs at h with hlen
  obtain ⟨hs, hget⟩ := setPILoop_spec _ _ _ _ h
  refine ⟨hs, fun g gate hg ht => ?_⟩
  obtain ⟨v, hv⟩ := assignedValue_of_mem c.inputGates inputVals g (not_not.mp hlen)
    ((hwf.wf_get hg).2.1 ht).2
  refine ⟨v, hvals v (assignedValue_mem _ _ _ _ hv), hv, ?_⟩
  rw [hget g gate hg, hv]

theorem setPIValues_total {c : Circuit} {level : Nat → Nat} {inputVals : List Int}
    (hwf : WellFormed c level) (hlen : inputVals.length = c.inputGates.length) :
    ∃ c1, c.setPIValues inputVals = some c1 := by
  unfold Circuit.setPIValues
  simp only [hlen, ne_eq, not_true_eq_false, ↓reduceIte]
  exact setPILoop_total _ _ _ hwf.2.1

theorem setPIValues_length {c c1 : Circuit} {inputVals : List Int}
    (h : c.setPIValues inputVals = some c1) : inputVals.length = c.inputGates.length := by
  unfold Circuit.setPIValues at h
  split_ifs at h with hlen
  exact not_not.mp hlen

theorem inputsSet_of_assigned {c c1 : Circuit} (hs : SameNet c c1)
    (h : ∀ (g : Nat) (gate : Gate), c.gates[g]? = some gate → gate.gateType = GATE_PI →
      ∃ v, IsLogic v ∧ c1.gates[g]? = some (gate.setValue v)) : InputsSet c1 := by
  intro gate1 hmem ht
  obtain ⟨g, hg1⟩ := List.mem_iff_getElem?.mp hmem
  obtain ⟨gate, hg, ht0, _⟩ := hs.net_symm.get_fields hg1
  obtain ⟨v, hv, hg1'⟩ := h g gate hg (ht0 ▸ ht)
  rw [hg1] at hg1'
  cases hg1'
  exact hv

/-- C6: on a finalized acyclic circuit with a fault put on gate `n` (after `clearFaults`), let
the primary inputs be assigned values among 0, 1, X by `setPIValues` and let `simFullCircuit`
run. If afterwards gate `n` holds neither D nor D-bar, then the same assignment and simulation
on the circuit without any fault succeed and leave on every primary output the same value. -/
theorem C6_fault_injection_consistent (c : Circuit) (level : Nat → Nat) (K : Nat)
    (hwf : WellFormed c level) (hK : ∀ g < c.gates.length, level g < K)
    (n : Nat) (ft : Int) (cf : Circuit) (hcf : c.clearFaults.set_faultType n ft = some cf)
    (inputVals : List Int) (hvals : ∀ v ∈ inputVals, IsFaultFree v)
    (a0 a : Circuit) (ha0 : cf.setPIValues inputVals = some a0)
    (ha : simFullCircuit K a0 = some a)
    (hD : a.getValue n ≠ some LOGIC_D) (hB : a.getValue n ≠ some LOGIC_DBAR) :
    ∃ b0 b, c.clearFaults.setPIValues inputVals = some b0 ∧ simFullCircuit K b0 = some b ∧
      ∀ po ∈ c.outputGates, a.getValue po = b.getValue po := by
  have hgB : SameGraph c c.clearFaults := sameGraph_clearFaults c
  have hgf : SameGraph c.clearFaults cf := sameGraph_set_faultType hcf
  have wfB : WellFormed c.clearFaults level := hwf.of_sameGraph hgB
  have wff : WellFormed cf level := wfB.of_sameGraph hgf
  have hlen := setPIValues_length ha0
  obtain ⟨b0, hb0⟩ := @setPIValues_total _ _ inputVals wfB (by rw [hlen, hgf.2.1])
  obtain ⟨hsa0, hpa0⟩ := setPIValues_spec wff ha0 hvals
  obtain ⟨hsb0, hpb0⟩ := setPIValues_spec wfB hb0 hvals
  have hinA : InputsSet a0 := inputsSet_of_assigned hsa0 (fun g gate hg ht => by
    obtain ⟨v, hv, _, hg1⟩ := hpa0 g gate hg ht
    exact ⟨_, faultedValue_isLogic _ hv.isLogic, hg1⟩)
  have hinB : InputsSet b0 := inputsSet_of_assigned hsb0 (fun g gate hg ht => by
    obtain ⟨v, hv, _, hg1⟩ := hpb0 g gate hg ht
    exact ⟨_, faultedValue_isLogic _ hv.isLogic, hg1⟩)
  have wfb0 : WellFormed b0 level := wfB.of_sameNet hsb0
  have wfa0 : WellFormed a0 level := wff.of_sameNet hsa0
  obtain ⟨b, hb⟩ := simFullCircuit_total wfb0 hinB (by
    rw [hsb0.net_length, hgB.graph_length]; exact hK)
  obtain ⟨hsa, _, hca, hpoA, hpiA, _⟩ := simFullCircuit_spec wfa0.acyclic hinA ha
  obtain ⟨hsb, _, hcb, hpoB, hpiB, _⟩ := simFullCircuit_spec wfb0.acyclic hinB hb
  have htw : FaultFreeTwin n a b :=
    (faultFreeTwin_inject hcf).twin_sameNet (hsa0.net_trans hsa) (hsb0.net_trans hsb)
  have hpi : ∀ (g : Nat) (ga gb : Gate), a.gates[g]? = some ga → b.gates[g]? = some gb →
      gb.gateType = GATE_PI →
      IsFaultFree gb.gateValue ∧ ga.gateValue = faultedValue ga.faultType gb.gateValue := by
    intro g ga gb hga hgb ht
    obtain ⟨gB, hgB0, htB, _, _⟩ := (hsb0.net_trans hsb).net_symm.get_fields hgb
    obtain ⟨gF, hgF0, htF, _⟩ := hgf.graph_get hgB0
    obtain ⟨v, hv, hav, hb1⟩ := hpb0 g gB hgB0 (htB ▸ ht)
    have htB1 : gB.gateType = GATE_PI := by rw [htB]; exact ht
    have htF1 : gF.gateType = GATE_PI := by rw [htF]; exact htB1
    obtain ⟨w, _, haw, ha1⟩ := hpa0 g gF hgF0 htF1
    rw [hgf.2.1, hav, Option.some.injEq] at haw
    subst haw
    have hb2 := hpiB g _ hb1 htB1
    have ha2 := hpiA g _ ha1 htF1
    rw [hgb] at hb2
    rw [hga] at ha2
    cases hb2
    cases ha2
    have hnf : gB.faultType = NOFAULT := ((faultFreeTwin_inject hcf).2.2.2 g gB hgB0).1
    simp only [Gate.setValue, hnf, faultedValue_noFault]
    exact ⟨hv, trivial⟩
  have hn : ∀ gn, a.gates[n]? = some gn →
      gn.gateValue ≠ LOGIC_D ∧ gn.gateValue ≠ LOGIC_DBAR := by
    intro gn hgn
    rw [getValue_eq hgn] at hD hB
    exact ⟨fun e => hD (by rw [e]), fun e => hB (by rw [e])⟩
  have hacb : Acyclic b.preds level := (wfb0.of_sameNet hsb).acyclic
  refine ⟨b0, b, hb0, hb, ?_⟩
  intro po hpo
  obtain ⟨ga, hga, hua⟩ := hpoA po (by
    rw [hsa0.1, hgf.1, hgB.1]; exact hpo)
  obtain ⟨gb, hgb, hub⟩ := hpoB po (by rw [hsb0.1, hgB.1]; exact hpo)
  rw [getValue_eq hga, getValue_eq hgb,
    (twin_values_agree hacb htw hca hcb hpi hn po ga gb hga hgb hua hub).1]

/-- C6 on `Y = AND(A, B)` with `Y` stuck-at-0 and the inputs `A = 0`, `B = 1`: `Y` holds 0
with the fault, and the fault-free simulation leaves the same value on the output. -/
theorem C6_fault_injection_consistent_witness :
    ∃ b0 b, (andState LOGIC_X LOGIC_X LOGIC_X NOFAULT).clearFaults.setPIValues
        [LOGIC_ZERO, LOGIC_ONE] = some b0 ∧
      simFullCircuit 2 b0 = some b ∧
      ∀ po ∈ (andState LOGIC_X LOGIC_X LOGIC_X NOFAULT).outputGates,
        (andState LOGIC_ZERO LOGIC_ONE LOGIC_ZERO FAULT_SA0).getValue po = b.getValue po :=
  C6_fault_injection_consistent (andState LOGIC_X LOGIC_X LOGIC_X NOFAULT) andLevel 2
    (by decide) (by decide) 2 FAULT_SA0 (andState LOGIC_X LOGIC_X LOGIC_X FAULT_SA0) (by decide)
    [LOGIC_ZERO, LOGIC_ONE] (by decide)
    (andState LOGIC_ZERO LOGIC_ONE LOGIC_X FAULT_SA0)
    (andState LOGIC_ZERO LOGIC_ONE LOGIC_ZERO FAULT_SA0) (by decide) (by decide) (by decide)
    (by decide)

/-! ### Gate evaluation is monotone in information -/

theorem refines_mem {xs ys : List Int} (h : List.Forall₂ Refines xs ys) {v : Int}
    (hv : v ≠ LOGIC_X) (hm : v ∈ xs) : v ∈ ys := by
  induction h with
  | nil => simp at hm
  | cons h1 _ ih =>
    rcases List.mem_cons.mp hm with e | e
    · subst e; rw [h1 hv]; exact List.mem_cons_self _ _
    · exact List.mem_cons_of_mem _ (ih e)

theorem refines_eq {xs ys : List Int} (h : List.Forall₂ Refines xs ys)
    (hX : LOGIC_X ∉ xs) : ys = xs := by
  induction h with
  | nil => rfl
  | cons h1 _ ih =>
    simp only [List.mem_cons, not_or] at hX
    rw [h1 (fun e => hX.1 e.symm), ih hX.2]

theorem refines_head {xs ys : List Int} (h : List.Forall₂ Refines xs ys) {x y : Int}
    (hx : xs.head? = some x) (hy : ys.head? = some y) : Refines x y := by
  cases h with
  | nil => simp at hx
  | cons h1 _ =>
    simp only [List.head?_cons, Option.some.injEq] at hx hy
    subst hx; subst hy
    exact h1

theorem evalGate_refines {xs ys : List Int} (h : List.Forall₂ Refines xs ys) {c : Int}
    (hc : c = 0 ∨ c = 1) (i : Int) : Refines (evalGate xs c i) (evalGate ys c i) := by
  intro hne
  by_cases hX : LOGIC_X ∈ xs
  · have hcX : c ≠ LOGIC_X := by rcases hc with e | e <;> subst e <;> decide
    by_cases hctl : c ∈ xs ∨ (LOGIC_D ∈ xs ∧ LOGIC_DBAR ∈ xs)
    · have hctl2 : c ∈ ys ∨ (LOGIC_D ∈ ys ∧ LOGIC_DBAR ∈ ys) := by
        rcases hctl with h1 | ⟨h1, h2⟩
        · exact Or.inl (refines_mem h hcX h1)
        · exact Or.inr ⟨refines_mem h (by decide) h1, refines_mem h (by decide) h2⟩
      have e1 : evalGate xs c i = if i ≠ 0 then LogicNot c else c := by
        unfold evalGate
        rcases hctl with h1 | ⟨h1, h2⟩ <;> simp [h1, *]
      have e2 : evalGate ys c i = if i ≠ 0 then LogicNot c else c := by
        unfold evalGate
        rcases hctl2 with h1 | ⟨h1, h2⟩ <;> simp [h1, *]
      rw [e1, e2]
    · exfalso
      apply hne
      simp only [not_or, not_and] at hctl
      unfold evalGate
      by_cases hd : LOGIC_D ∈ xs
      · simp [hctl.1, hX, hd, hctl.2 hd]
      · simp [hctl.1, hX, hd]
  · rw [refines_eq h hX]

theorem EvalXORGate_refines {xs ys : List Int} (h : List.Forall₂ Refines xs ys) (inv : Int) :
    Refines (EvalXORGate xs inv) (EvalXORGate ys inv) := by
  intro hne
  by_cases hX : LOGIC_X ∈ xs
  · exact absurd (EvalXORGate_unknown xs inv hX) hne
  · rw [refines_eq h hX]

theorem LogicNot_refines {x y : Int} (h : Refines x y) : Refines (LogicNot x) (LogicNot y) := by
  intro hne
  by_cases hx : x = LOGIC_X
  · subst hx; exact absurd rfl hne
  · rw [h hx]

/-- The four shapes of `simGateType`: an `evalGate` call, an `EvalXORGate` call, the first
input, or the complement of the first input. -/
theorem simGateType_shape {gateType : Int} {xs : List Int} {v : Int}
    (h : simGateType gateType xs = some v) :
    (∃ c i, (c = 0 ∨ c = 1) ∧ ∀ ys, simGateType gateType ys = some (evalGate ys c i)) ∨
    (∃ inv, ∀ ys, simGateType gateType ys = some (EvalXORGate ys inv)) ∨
    (∀ ys, simGateType gateType ys = ys.head?) ∨
    (∀ ys, simGateType gateType ys = ys.head?.map LogicNot) := by
  by_cases h0 : gateType = GATE_NAND
  · subst h0
    exact Or.inl ⟨0, 1, Or.inl rfl, fun ys => by simp [simGateType]⟩
  by_cases h1 : gateType = GATE_NOR
  · subst h1
    exact Or.inl ⟨1, 1, Or.inr rfl, fun ys => by simp [simGateType]⟩
  by_cases h2 : gateType = GATE_AND
  · subst h2
    exact Or.inl ⟨0, 0, Or.inl rfl, fun ys => by simp [simGateType]⟩
  by_cases h3 : gateType = GATE_OR
  · subst h3
    exact Or.inl ⟨1, 0, Or.inr rfl, fun ys => by simp [simGateType]⟩
  by_cases h4 : gateType = GATE_BUFF
  · subst h4
    exact Or.inr (Or.inr (Or.inl (fun ys => by simp [simGateType])))
  by_cases h5 : gateType = GATE_NOT
  · subst h5
    exact Or.inr (Or.inr (Or.inr (fun ys => by simp [simGateType])))
  by_cases h6 : gateType = GATE_XOR
  · subst h6
    exact Or.inr (Or.inl ⟨0, fun ys => by simp [simGateType]⟩)
  by_cases h7 : gateType = GATE_XNOR
  · subst h7
    exact Or.inr (Or.inl ⟨1, fun ys => by simp [simGateType]⟩)
  by_cases h8 : gateType = GATE_FANOUT
  · subst h8
    exact Or.inr (Or.inr (Or.inl (fun ys => by simp [simGateType])))
  · simp [simGateType, h0, h1, h2, h3, h4, h5, h6, h7, h8] at h

theorem simGateType_refines {gateType : Int} {xs ys : List Int} {v w : Int}
    (h : List.Forall₂ Refines xs ys) (hv : simGateType gateType xs = some v)
    (hw : simGateType gateType ys = some w) : Refines v w := by
  rcases simGateType_shape hv with ⟨c, i, hc, hs⟩ | ⟨inv, hs⟩ | hs | hs
  · rw [hs, Option.some.injEq] at hv hw
    subst hv; subst hw
    exact evalGate_refines h hc i
  · rw [hs, Option.some.injEq] at hv hw
    subst hv; subst hw
    exact EvalXORGate_refines h inv
  · rw [hs] at hv hw
    exact refines_head h hv hw
  · rw [hs] at hv hw
    cases hx : xs.head? with
    | none => simp [hx] at hv
    | some x =>
      cases hy : ys.head? with
      | none => simp [hy] at hw
      | some y =>
        simp only [hx, hy, Option.map_some', Option.some.injEq] at hv hw
        subst hv; subst hw
        exact LogicNot_refines (refines_head h hx hy)

theorem faultedValue_refines (faultType : Int) {v w : Int} (h : Refines v w) :
    Refines (faultedValue faultType v) (faultedValue faultType w) := by
  intro hne
  by_cases hv : v = LOGIC_X
  · subst hv; exact absurd (faultedValue_X faultType) hne
  · rw [h hv]

theorem inputValues_refines {a b : Circuit} :
    ∀ (ps : List Nat) (va vb : List Int), inputValues a ps = some va →
      inputValues b ps = some vb →
      (∀ p ∈ ps, ∀ x y, a.getValue p = some x → b.getValue p = some y → Refines x y) →
      List.Forall₂ Refines va vb := by
  intro ps
  induction ps with
  | nil =>
    intro va vb ha hb _
    simp only [inputValues, Option.some.injEq] at ha hb
    subst ha; subst hb
    exact List.Forall₂.nil
  | cons p ps ih =>
    intro va vb ha hb hrel
    simp only [inputValues] at ha hb
    cases hpa : a.getValue p with
    | none => simp [hpa] at ha
    | some x =>
      cases hpb : b.getValue p with
      | none => simp [hpb] at hb
      | some y =>
        simp only [hpa, hpb] at ha hb
        cases hra : inputValues a ps with
        | none => simp [hra] at ha
        | some ra =>
          cases hrb : inputValues b ps with
          | none => simp [hrb] at hb
          | some rb =>
            simp only [hra, hrb, Option.map_some', Option.some.injEq] at ha hb
            subst ha; subst hb
            exact List.Forall₂.cons (hrel p (List.mem_cons_self _ _) x y hpa hpb)
              (ih ra rb hra hrb (fun q hq => hrel q (List.mem_cons_of_mem _ hq)))

/-- In two consistent states of one netlist, if every primary input of the second refines
the one of the first, then so does every gate that holds a value in both. -/
theorem refine_values_agree {level : Nat → Nat} {a b : Circuit}
    (hac : Acyclic a.preds level) (hs : SameNet a b) (hca : Closed a) (hcb : Closed b)
    (hpi : ∀ (g : Nat) (ga gb : Gate), a.gates[g]? = some ga → b.gates[g]? = some gb →
      ga.gateType = GATE_PI → Refines ga.gateValue gb.gateValue) :
    ∀ (g : Nat) (ga gb : Gate), a.gates[g]? = some ga → b.gates[g]? = some gb →
      ga.gateValue ≠ LOGIC_UNSET → gb.gateValue ≠ LOGIC_UNSET →
      Refines ga.gateValue gb.gateValue := by
  intro g
  induction g using acyclic_induction hac with
  | _ g ih =>
    intro ga gb hga hgb hua hub
    obtain ⟨gb1, hgb1, htb, hib, hfb, _⟩ := hs.get_fields hga
    rw [hgb] at hgb1
    cases hgb1
    by_cases hpit : ga.gateType = GATE_PI
    · exact hpi g ga gb hga hgb hpit
    · obtain ⟨valsA, vA, hA1, hA2, hA3, hA4⟩ := hca g ga hga hpit hua
      obtain ⟨valsB, vB, hB1, hB2, hB3, hB4⟩ := hcb g gb hgb (htb ▸ hpit) hub
      rw [hib] at hB1
      rw [htb] at hB3
      have hF := inputValues_refines ga.gateInputs valsA valsB hA1 hB1 (by
        intro p hp x y hx hy
        cases hpa : a.gates[p]? with
        | none => simp [Circuit.getValue, hpa] at hx
        | some pa =>
          cases hpb : b.gates[p]? with
          | none => simp [Circuit.getValue, hpb] at hy
          | some pb =>
            rw [getValue_eq hpa, Option.some.injEq] at hx
            rw [getValue_eq hpb, Option.some.injEq] at hy
            subst hx; subst hy
            obtain ⟨_, hx1, hx2⟩ := inputValues_mem_of hA1 hp
            obtain ⟨_, hy1, hy2⟩ := inputValues_mem_of hB1 hp
            rw [getValue_eq hpa, Option.some.injEq] at hx2
            rw [getValue_eq hpb, Option.some.injEq] at hy2
            subst hx2; subst hy2
            exact ih p (by rw [preds_eq hga]; exact hp) pa pb hpa hpb
              (fun e => hA2 (e ▸ hx1)) (fun e => hB2 (e ▸ hy1)))
      rw [hA4, hB4, hfb]
      exact faultedValue_refines _ (simGateType_refines hF hA3 hB3)

/-! ### The steps of `podemRecursion` -/

theorem setValueCheckFault_spec {c c1 : Circuit} {g : Nat} {v : Int}
    (h : setValueCheckFault c g v = some c1) :
    ∃ gate, c.gates[g]? = some gate ∧
      c1 = c.putGate g (gate.setValue (faultedValue gate.faultType v)) := by
  unfold setValueCheckFault Circuit.onGate at h
  cases hg : c.gates[g]? with
  | none => simp [hg] at h
  | some gate =>
    simp only [hg, Option.some.injEq] at h
    exact ⟨gate, rfl, h.symm⟩

theorem setValueCheckFault_sameNet {c c1 : Circuit} {g : Nat} {v : Int}
    (h : setValueCheckFault c g v = some c1) : SameNet c c1 := by
  obtain ⟨gate, hg, rfl⟩ := setValueCheckFault_spec h
  exact sameNet_putGate hg _

theorem setValueCheckFault_inputsSet {c c1 : Circuit} {g : Nat} {v : Int}
    (h : setValueCheckFault c g v = some c1) (hin : InputsSet c) (hv : IsLogic v) :
    InputsSet c1 := by
  obtain ⟨gate, hg, rfl⟩ := setValueCheckFault_spec h
  intro x hx ht
  rcases List.mem_or_eq_of_mem_set hx with hx | hx
  · exact hin x hx ht
  · subst hx; exact faultedValue_isLogic _ hv

theorem objectiveValue_faultFree (gateType : Int) : IsFaultFree (objectiveValue gateType) := by
  unfold objectiveValue
  split_ifs <;> decide

theorem getObjective_spec {s s1 : Podem} {r : Option (Option Nat × Int)}
    (h : getObjective s = some (s1, r)) :
    s1.myCircuit = s.myCircuit ∧ s1.faultLocation = s.faultLocation ∧
      s1.faultActivationVal = s.faultActivationVal ∧
      ∀ g v, r = some (g, v) → v = s.faultActivationVal ∨ IsFaultFree v := by
  unfold getObjective at h
  cases hfv : s.myCircuit.getValue s.faultLocation with
  | none => simp [hfv] at h
  | some fv =>
    simp only [hfv] at h
    by_cases h1 : fv = LOGIC_X
    · simp only [h1, ↓reduceIte, Option.some.injEq, Prod.mk.injEq] at h
      obtain ⟨rfl, rfl⟩ := h
      refine ⟨rfl, rfl, rfl, ?_⟩
      intro g v hgv
      simp only [Option.some.injEq, Prod.mk.injEq] at hgv
      exact Or.inl hgv.2.symm
    · simp only [h1, ↓reduceIte] at h
      by_cases h2 : fv = LOGIC_ONE ∨ fv = LOGIC_ZERO
      · simp only [h2, ↓reduceIte, Option.some.injEq, Prod.mk.injEq] at h
        obtain ⟨rfl, rfl⟩ := h
        exact ⟨rfl, rfl, rfl, fun g v hgv => by simp at hgv⟩
      · simp only [h2, ↓reduceIte] at h
        cases hu : updateDFrontier s with
        | none => simp [hu] at h
        | some s2 =>
          simp only [hu] at h
          have hs2 : s2.myCircuit = s.myCircuit ∧ s2.faultLocation = s.faultLocation ∧
              s2.faultActivationVal = s.faultActivationVal := by
            unfold updateDFrontier at hu
            cases hsc : scanFrontier s.myCircuit s.myCircuit.gates 0 [] with
            | none => simp [hsc] at hu
            | some l =>
              simp only [hsc, Option.map_some', Option.some.injEq] at hu
              subst hu
              exact ⟨rfl, rfl, rfl⟩
          cases hd : s2.dFrontier with
          | nil =>
            simp only [hd, Option.some.injEq, Prod.mk.injEq] at h
            obtain ⟨rfl, rfl⟩ := h
            exact ⟨hs2.1, hs2.2.1, hs2.2.2, fun g v hgv => by simp at hgv⟩
          | cons d rest =>
            simp only [hd] at h
            cases hdg : s2.myCircuit.gates[d]? with
            | none => simp [hdg] at h
            | some dgate =>
              simp only [hdg] at h
              cases hx : firstX s2.myCircuit dgate.gateInputs with
              | none => simp [hx] at h
              | some g0 =>
                simp only [hx, Option.some.injEq, Prod.mk.injEq] at h
                obtain ⟨rfl, rfl⟩ := h
                refine ⟨hs2.1, hs2.2.1, hs2.2.2, ?_⟩
                intro g v hgv
                simp only [Option.some.injEq, Prod.mk.injEq] at hgv
                exact Or.inr (hgv.2 ▸ objectiveValue_faultFree _)

theorem backtrace_value {k : Nat} {c : Circuit} {objGate : Nat} {objVal : Int} {pi : Nat}
    {piVal : Int} (h : backtrace k c objGate objVal = some (pi, piVal)) :
    piVal = objVal ∨ piVal = LogicNot objVal := by
  unfold backtrace at h
  cases hg : c.gates[objGate]? with
  | none => simp [hg] at h
  | some gate =>
    simp only [hg] at h
    cases hb : backtraceLoop c k objGate (if isInverting gate.gateType then 1 else 0) with
    | none => simp [hb] at h
    | some r =>
      obtain ⟨p, n⟩ := r
      simp only [hb, Option.some.injEq, Prod.mk.injEq] at h
      obtain ⟨_, h2⟩ := h
      split_ifs at h2
      · exact Or.inr h2.symm
      · exact Or.inl h2.symm

theorem assignAndSimulate_spec {level : Nat → Nat} {k : Nat} {s s2 : Podem} {pi : Nat}
    {v : Int} (hinv : PodemInv level s) (hv : IsLogic v)
    (h : assignAndSimulate k s pi v = some s2) :
    PodemStep s s2 ∧ InputsSet s2.myCircuit ∧
      ∃ cprev, SameNet s.myCircuit cprev ∧ InputsSet cprev ∧
        simFullCircuit k cprev = some s2.myCircuit := by
  unfold assignAndSimulate at h
  cases hset : setValueCheckFault s.myCircuit pi v with
  | none => simp [hset] at h
  | some c1 =>
    simp only [hset] at h
    cases hsim : simFullCircuit k c1 with
    | none => simp [hsim] at h
    | some c2 =>
      simp only [hsim, Option.map_some', Option.some.injEq] at h
      subst h
      have hs1 := setValueCheckFault_sameNet hset
      have hin1 := setValueCheckFault_inputsSet hset hinv.2.1 hv
      obtain ⟨hs2, _, _, _, hpi, _⟩ :=
        simFullCircuit_spec (hinv.1.of_sameNet hs1).acyclic hin1 hsim
      refine ⟨⟨hs1.net_trans hs2, rfl, rfl⟩, ?_, c1, hs1, hin1, hsim⟩
      intro gate hmem ht
      obtain ⟨g, hg⟩ := List.mem_iff_getElem?.mp hmem
      obtain ⟨gate1, hg1, ht1, _⟩ := hs2.net_symm.get_fields hg
      have := hpi g gate1 hg1 (by rw [ht1]; exact ht)
      rw [show (s.withCircuit c2).myCircuit = c2 from rfl] at hg
      rw [hg] at this
      cases this
      exact hin1 gate (List.getElem?_mem hg1) ht

theorem PodemStep.step_refl (s : Podem) : PodemStep s s := ⟨SameNet.net_refl _, rfl, rfl⟩

theorem PodemStep.step_trans {s r t : Podem} (h : PodemStep s r) (h1 : PodemStep r t) :
    PodemStep s t :=
  ⟨h.1.net_trans h1.1, h1.2.1.trans h.2.1, h1.2.2.trans h.2.2⟩

theorem PodemInv.step {level : Nat → Nat} {s r : Podem} (h : PodemInv level s)
    (hs : PodemStep s r) (hin : InputsSet r.myCircuit) : PodemInv level r :=
  ⟨h.1.of_sameNet hs.1, hin, hs.2.2 ▸ h.2.2⟩

theorem podemRecursion_spec {level : Nat → Nat} (k : Nat) :
    ∀ (fuel : Nat) (s : Podem) (b : Bool) (r : Podem), PodemInv level s →
      podemRecursion k fuel s = some (b, r) → PodemPost k s b r := by
  intro fuel
  induction fuel with
  | zero => intro s b r _ h; simp [podemRecursion] at h
  | succ fuel ih =>
    intro s b r hinv h
    simp only [podemRecursion] at h
    cases hao : anyOutputDetects s.myCircuit s.myCircuit.outputGates with
    | none => simp [hao] at h
    | some det =>
      cases det with
      | true =>
        simp only [hao, Option.some.injEq, Prod.mk.injEq] at h
        obtain ⟨rfl, rfl⟩ := h
        exact ⟨PodemStep.step_refl s, hinv.2.1, fun _ => ⟨hao, Or.inl rfl⟩⟩
      | false =>
        simp only [hao] at h
        cases hgo : getObjective s with
        | none => simp [hgo] at h
        | some p =>
          obtain ⟨s1, obj⟩ := p
          obtain ⟨hc1, hf1, ha1, hobj⟩ := getObjective_spec hgo
          have hstep1 : PodemStep s s1 := ⟨hc1 ▸ SameNet.net_refl _, hf1, ha1⟩
          have hin1 : InputsSet s1.myCircuit := hc1 ▸ hinv.2.1
          have hinv1 : PodemInv level s1 := hinv.step hstep1 hin1
          cases obj with
          | none =>
            simp only [hgo, Option.some.injEq, Prod.mk.injEq] at h
            obtain ⟨rfl, rfl⟩ := h
            exact ⟨hstep1, hin1, fun e => by cases e⟩
          | some gv =>
            obtain ⟨og, v⟩ := gv
            cases og with
            | none => simp [hgo] at h
            | some g =>
              simp only [hgo] at h
              have hvff : IsFaultFree v := by
                rcases hobj (some g) v rfl with e | e
                · exact e ▸ hinv.2.2
                · exact e
              cases hbt : backtrace k s1.myCircuit g v with
              | none => simp [hbt] at h
              | some pv =>
                obtain ⟨pi, piVal⟩ := pv
                simp only [hbt] at h
                have hpv : IsFaultFree piVal := by
                  rcases backtrace_value hbt with e | e
                  · exact e ▸ hvff
                  · exact e ▸ LogicNot_faultFree hvff
                cases has : assignAndSimulate k s1 pi piVal with
                | none => simp [has] at h
                | some s2 =>
                  simp only [has] at h
                  obtain ⟨hstep2, hin2, cp2, hcp2, hcpin2, hcpsim2⟩ :=
                    assignAndSimulate_spec hinv1 hpv.isLogic has
                  have hinv2 : PodemInv level s2 := hinv1.step hstep2 hin2
                  cases hrec : podemRecursion k fuel s2 with
                  | none => simp [hrec] at h
                  | some br =>
                    obtain ⟨b2, s3⟩ := br
                    obtain ⟨hstep3, hin3, htrue3⟩ := ih s2 b2 s3 hinv2 hrec
                    have hinv3 : PodemInv level s3 := hinv2.step hstep3 hin3
                    cases b2 with
                    | true =>
                      simp only [hrec, Option.some.injEq, Prod.mk.injEq] at h
                      obtain ⟨rfl, rfl⟩ := h
                      refine ⟨hstep1.step_trans (hstep2.step_trans hstep3), hin3, fun _ => ?_⟩
                      obtain ⟨hdet, hor⟩ := htrue3 rfl
                      refine ⟨hdet, Or.inr ?_⟩
                      rcases hor with e | ⟨cp, h1, h2, h3⟩
                      · subst e
                        exact ⟨cp2, hstep1.1.net_trans hcp2, hcpin2, hcpsim2⟩
                      · exact ⟨cp, (hstep1.step_trans hstep2).1.net_trans h1, h2, h3⟩
                    | false =>
                      simp only [hrec] at h
                      cases has4 : assignAndSimulate k s3 pi (LogicNot piVal) with
                      | none => simp [has4] at h
                      | some s4 =>
                        simp only [has4] at h
                        obtain ⟨hstep4, hin4, cp4, hcp4, hcpin4, hcpsim4⟩ :=
                          assignAndSimulate_spec hinv3 (LogicNot_faultFree hpv).isLogic has4
                        have hinv4 : PodemInv level s4 := hinv3.step hstep4 hin4
                        have hto3 : PodemStep s s3 := hstep1.step_trans (hstep2.step_trans hstep3)
                        cases hrec5 : podemRecursion k fuel s4 with
                        | none => simp [hrec5] at h
                        | some br5 =>
                          obtain ⟨b4, s5⟩ := br5
                          obtain ⟨hstep5, hin5, htrue5⟩ := ih s4 b4 s5 hinv4 hrec5
                          cases b4 with
                          | true =>
                            simp only [hrec5, Option.some.injEq, Prod.mk.injEq] at h
                            obtain ⟨rfl, rfl⟩ := h
                            refine ⟨hto3.step_trans (hstep4.step_trans hstep5), hin5, fun _ => ?_⟩
                            obtain ⟨hdet, hor⟩ := htrue5 rfl
                            refine ⟨hdet, Or.inr ?_⟩
                            rcases hor with e | ⟨cp, h1, h2, h3⟩
                            · subst e
                              exact ⟨cp4, hto3.1.net_trans hcp4, hcpin4, hcpsim4⟩
                            · exact ⟨cp, (hto3.step_trans hstep4).1.net_trans h1, h2, h3⟩
                          | false =>
                            simp only [hrec5] at h
                            cases hset : setValueCheckFault s5.myCircuit pi LOGIC_X with
                            | none => simp [hset] at h
                            | some c6 =>
                              simp only [hset, Option.map_some', Option.some.injEq,
                                Prod.mk.injEq] at h
                              obtain ⟨rfl, rfl⟩ := h
                              have hs6 := setValueCheckFault_sameNet hset
                              refine ⟨(hto3.step_trans (hstep4.step_trans hstep5)).step_trans
                                ⟨hs6, rfl, rfl⟩, ?_, fun e => by cases e⟩
                              exact setValueCheckFault_inputsSet hset hin5 (by decide)

/-! ### Start state and detection -/

theorem anyOutputDetects_true {c : Circuit} :
    ∀ {ps : List Nat}, anyOutputDetects c ps = some true →
      ∃ po ∈ ps, c.getValue po = some LOGIC_D ∨ c.getValue po = some LOGIC_DBAR := by
  intro ps
  induction ps with
  | nil => intro h; simp [anyOutputDetects] at h
  | cons p ps ih =>
    intro h
    simp only [anyOutputDetects] at h
    cases hp : c.getValue p with
    | none => simp [hp] at h
    | some val =>
      simp only [hp] at h
      by_cases hd : val = LOGIC_D ∨ val = LOGIC_DBAR
      · refine ⟨p, List.mem_cons_self _ _, ?_⟩
        rcases hd with e | e <;> subst e
        · exact Or.inl hp
        · exact Or.inr hp
      · simp only [hd, ↓reduceIte] at h
        obtain ⟨po, hpo, hv⟩ := ih h
        exact ⟨po, List.mem_cons_of_mem _ hpo, hv⟩

theorem getElem?_setAllX (c : Circuit) (g : Nat) :
    c.setAllX.gates[g]? = (c.gates[g]?).map (fun gate => gate.setValue LOGIC_X) := by
  simp [Circuit.setAllX]

theorem inputsSet_setAllX (c : Circuit) : InputsSet c.setAllX := by
  intro gate hmem _
  simp only [Circuit.setAllX, List.mem_map] at hmem
  obtain ⟨g0, _, rfl⟩ := hmem
  exact Or.inr (Or.inr (Or.inr (Or.inr rfl)))

/-- The globals `main` hands to the first call of `podemRecursion`. -/
theorem setupFault_spec {c : Circuit} {faultLocStr : String} {faultType : Int} {s0 : Podem}
    (h : setupFault c faultLocStr faultType = some s0) :
    ∃ cf, c.clearFaults.set_faultType s0.faultLocation faultType = some cf ∧
      s0.myCircuit = cf.setAllX ∧ s0.dFrontier = [] ∧
      s0.faultActivationVal = (if faultType = FAULT_SA0 then LOGIC_ONE else LOGIC_ZERO) := by
  unfold setupFault at h
  simp only [] at h
  cases hf : c.clearFaults.findGateByName faultLocStr with
  | none => simp [hf] at h
  | some loc =>
    simp only [hf] at h
    cases hs : c.clearFaults.set_faultType loc faultType with
    | none => simp [hs] at h
    | some cf =>
      simp only [hs, Option.some.injEq] at h
      subst h
      exact ⟨cf, hs, rfl, rfl, rfl⟩

theorem setupFault_podemInv {c : Circuit} {level : Nat → Nat} {faultLocStr : String}
    {faultType : Int} {s0 : Podem} (hwf : WellFormed c level)
    (h : setupFault c faultLocStr faultType = some s0) :
    PodemInv level s0 ∧ SameGraph c s0.myCircuit := by
  obtain ⟨cf, hcf, hc0, _, hact⟩ := setupFault_spec h
  have hg : SameGraph c s0.myCircuit := by
    rw [hc0]
    exact ((sameGraph_clearFaults c).graph_trans (sameGraph_set_faultType hcf)).graph_trans
      (sameGraph_setAllX cf)
  refine ⟨⟨hwf.of_sameGraph hg, ?_, ?_⟩, hg⟩
  · rw [hc0]; exact inputsSet_setAllX cf
  · rw [hact]; split_ifs <;> decide

theorem setupFault_no_detection {c : Circuit} {faultLocStr : String} {faultType : Int}
    {s0 : Podem} (h : setupFault c faultLocStr faultType = some s0) :
    anyOutputDetects s0.myCircuit s0.myCircuit.outputGates ≠ some true := by
  obtain ⟨cf, _, hc0, _, _⟩ := setupFault_spec h
  intro hdet
  obtain ⟨po, _, hv⟩ := anyOutputDetects_true hdet
  rw [hc0] at hv
  simp only [Circuit.getValue, getElem?_setAllX] at hv
  cases hg : cf.gates[po]? with
  | none => simp [hg] at hv
  | some gate =>
    simp only [hg, Option.map_some', Gate.setValue, Option.some.injEq] at hv
    rcases hv with e | e <;> exact absurd e (by decide)

/-! ### Re-simulation of a detecting state -/

theorem resimulate_detects {level : Nat → Nat} {K : Nat} {a c1 : Circuit}
    (hwf : WellFormed a level) (hcl : Closed a) (hs : SameNet a c1) (hin : InputsSet c1)
    (hK : ∀ g < a.gates.length, level g < K)
    (href : ∀ (g : Nat) (ga g1 : Gate), a.gates[g]? = some ga → c1.gates[g]? = some g1 →
      ga.gateType = GATE_PI → Refines ga.gateValue g1.gateValue)
    (hdet : anyOutputDetects a a.outputGates = some true) :
    ∃ b, simFullCircuit K c1 = some b ∧
      ∃ po ∈ b.outputGates, b.getValue po = some LOGIC_D ∨ b.getValue po = some LOGIC_DBAR := by
  have wf1 : WellFormed c1 level := hwf.of_sameNet hs
  obtain ⟨b, hb⟩ := simFullCircuit_total wf1 hin (by rw [hs.net_length]; exact hK)
  obtain ⟨hsb, _, hcb, hpoB, hpiB, _⟩ := simFullCircuit_spec wf1.acyclic hin hb
  have hab : SameNet a b := hs.net_trans hsb
  have hpi : ∀ (g : Nat) (ga gb : Gate), a.gates[g]? = some ga → b.gates[g]? = some gb →
      ga.gateType = GATE_PI → Refines ga.gateValue gb.gateValue := by
    intro g ga gb hga hgb ht
    obtain ⟨g1, hg1, ht1, _⟩ := hs.get_fields hga
    have := hpiB g g1 hg1 (by rw [ht1]; exact ht)
    rw [hgb] at this
    cases this
    exact href g ga gb hga hg1 ht
  obtain ⟨po, hpo, hv⟩ := anyOutputDetects_true hdet
  refine ⟨b, hb, po, by rw [hab.1]; exact hpo, ?_⟩
  have key : ∀ v, v = LOGIC_D ∨ v = LOGIC_DBAR → a.getValue po = some v →
      b.getValue po = some v := by
    intro v hv1 hv2
    cases hga : a.gates[po]? with
    | none => simp [Circuit.getValue, hga] at hv2
    | some ga =>
      rw [getValue_eq hga, Option.some.injEq] at hv2
      obtain ⟨gb, hgb, hub⟩ := hpoB po (by rw [hs.1]; exact hpo)
      have hr := refine_values_agree hwf.acyclic hab hcl hcb hpi po ga gb hga hgb
        (by rw [hv2]; rcases hv1 with e | e <;> subst e <;> decide) hub
        (by rw [hv2]; rcases hv1 with e | e <;> subst e <;> decide)
      rw [getValue_eq hgb, hr, hv2]
  rcases hv with e | e
  · exact Or.inl (key _ (Or.inl rfl) e)
  · exact Or.inr (key _ (Or.inr rfl) e)

/-! ### Filling the inputs left at X -/

theorem fillX_spec {fill : Nat → Int} (hfill : ∀ p, fill p = LOGIC_ZERO ∨ fill p = LOGIC_ONE) :
    ∀ (ps : List Nat) (c c1 : Circuit), fillX fill c ps = some c1 →
      SameNet c c1 ∧ ∀ (g : Nat) (gate : Gate), c.gates[g]? = some gate →
        ∃ v, c1.gates[g]? = some (gate.setValue v) ∧ Refines gate.gateValue v ∧
          (IsLogic gate.gateValue → IsLogic v) := by
  intro ps
  induction ps with
  | nil =>
    intro c c1 h
    simp only [fillX, Option.some.injEq] at h
    subst h
    exact ⟨SameNet.net_refl c, fun g gate hg => ⟨gate.gateValue, hg, fun _ => rfl, id⟩⟩
  | cons p ps ih =>
    intro c c1 h
    simp only [fillX] at h
    cases hp : c.getValue p with
    | none => simp [hp] at h
    | some v =>
      simp only [hp] at h
      by_cases hX : v = LOGIC_X
      · simp only [hX, ↓reduceIte] at h
        cases hset : setValueCheckFault c p (fill p) with
        | none => simp [hset] at h
        | some c2 =>
          simp only [hset] at h
          obtain ⟨gp, hgp, rfl⟩ := setValueCheckFault_spec hset
          obtain ⟨hs, hget⟩ := ih _ c1 h
          refine ⟨(sameNet_putGate hgp _).net_trans hs, ?_⟩
          intro g gate hg
          have hlt : p < c.gates.length := (List.getElem?_eq_some.mp hgp).1
          by_cases hpg : p = g
          · subst hpg
            rw [hgp] at hg
            cases hg
            obtain ⟨w, hw1, hw2, hw3⟩ :=
              hget p (gp.setValue (faultedValue gp.faultType (fill p)))
                (by rw [getElem?_putGate]; simp [hlt])
            refine ⟨w, hw1, ?_, fun _ => hw3 ?_⟩
            · intro hne
              rw [getValue_eq hgp, Option.some.injEq] at hp
              exact absurd (hp.trans hX) hne
            · apply faultedValue_isLogic
              rcases hfill p with e | e <;> rw [e] <;> decide
          · exact hget g gate (by rw [getElem?_putGate]; simp [hpg, hg])
      · simp only [hX, ↓reduceIte] at h
        exact ih c c1 h

theorem fillX_total {fill : Nat → Int} :
    ∀ (ps : List Nat) (c : Circuit), (∀ p ∈ ps, p < c.gates.length) →
      ∃ c1, fillX fill c ps = some c1 := by
  intro ps
  induction ps with
  | nil => intro c _; exact ⟨c, rfl⟩
  | cons p ps ih =>
    intro c h
    have hp := h p (List.mem_cons_self _ _)
    have hps : ∀ q ∈ ps, q < c.gates.length := fun q hq => h q (List.mem_cons_of_mem _ hq)
    simp only [fillX, Circuit.getValue, List.getElem?_eq_getElem hp, Option.map_some']
    split_ifs
    · simp only [setValueCheckFault, Circuit.onGate, List.getElem?_eq_getElem hp]
      apply ih
      simpa [Circuit.putGate] using hps
    · exact ih c hps

theorem fillX_noX {fill : Nat → Int} (hfill : ∀ p, fill p = LOGIC_ZERO ∨ fill p = LOGIC_ONE) :
    ∀ (ps : List Nat) (c c1 : Circuit), fillX fill c ps = some c1 →
      ∀ p ∈ ps, c1.getValue p ≠ some LOGIC_X := by
  intro ps
  induction ps with
  | nil => intro c c1 _ p hp; simp at hp
  | cons q ps ih =>
    intro c c1 h p hp
    have hall := h
    simp only [fillX] at h
    cases hq : c.getValue q with
    | none => simp [hq] at h
    | some v =>
      simp only [hq] at h
      cases hgq : c.gates[q]? with
      | none => simp [Circuit.getValue, hgq] at hq
      | some gq =>
        rw [getValue_eq hgq, Option.some.injEq] at hq
        have hlt : q < c.gates.length := (List.getElem?_eq_some.mp hgq).1
        by_cases hX : v = LOGIC_X
        · simp only [hX, ↓reduceIte] at h
          cases hset : setValueCheckFault c q (fill q) with
          | none => simp [hset] at h
          | some c2 =>
            simp only [hset] at h
            rcases List.mem_cons.mp hp with e | e
            · subst e
              obtain ⟨gp, hgp, rfl⟩ := setValueCheckFault_spec hset
              obtain ⟨w, hw1, hw2, _⟩ := (fillX_spec hfill ps _ c1 h).2 p
                (gp.setValue (faultedValue gp.faultType (fill p)))
                (by rw [getElem?_putGate]; simp [hlt])
              have hne : faultedValue gp.faultType (fill p) ≠ LOGIC_X := by
                unfold faultedValue
                rcases hfill p with e | e <;> rw [e] <;> split_ifs <;> decide
              rw [getValue_eq hw1]
              simp only [Gate.setValue, ne_eq, Option.some.injEq]
              rw [hw2 hne]
              exact hne
            · exact ih _ c1 h p e
        · simp only [hX, ↓reduceIte] at h
          rcases List.mem_cons.mp hp with e | e
          · subst e
            obtain ⟨w, hw1, hw2, _⟩ := (fillX_spec hfill ps c c1 h).2 p gq hgq
            rw [getValue_eq hw1]
            simp only [Gate.setValue, ne_eq, Option.some.injEq]
            rw [hw2 (hq ▸ hX), hq]
            exact hX
          · exact ih c c1 h p e

/-- C1 (soundness of a reported test): let `podemRecursion` return `true` on a finalized
acyclic circuit, started from the state `main` sets up for a fault (all values X). Then
`simFullCircuit`, run again on the final state, leaves D or D-bar on a primary output; and the
same holds after every primary input left at X has been given an arbitrary value 0 or 1 with
`setValueCheckFault` (after which no primary input holds X). -/
theorem C1_podem_sound (c : Circuit) (level : Nat → Nat) (K : Nat)
    (hwf : WellFormed c level) (hK : ∀ g < c.gates.length, level g < K)
    (faultLocStr : String) (faultType : Int) (s0 : Podem)
    (hstart : setupFault c faultLocStr faultType = some s0)
    (k fuel : Nat) (s : Podem) (hrun : podemRecursion k fuel s0 = some (true, s)) :
    (∃ c2, simFullCircuit K s.myCircuit = some c2 ∧
      ∃ po ∈ c2.outputGates,
        c2.getValue po = some LOGIC_D ∨ c2.getValue po = some LOGIC_DBAR) ∧
    ∀ fill : Nat → Int, (∀ p, fill p = LOGIC_ZERO ∨ fill p = LOGIC_ONE) →
      ∃ c1 c2, fillX fill s.myCircuit s.myCircuit.inputGates = some c1 ∧
        (∀ p ∈ c1.inputGates, c1.getValue p ≠ some LOGIC_X) ∧
        simFullCircuit K c1 = some c2 ∧
        ∃ po ∈ c2.outputGates,
          c2.getValue po = some LOGIC_D ∨ c2.getValue po = some LOGIC_DBAR := by
  obtain ⟨hinv0, hg0⟩ := setupFault_podemInv hwf hstart
  obtain ⟨hstep, hin, htrue⟩ := podemRecursion_spec k fuel s0 true s hinv0 hrun
  obtain ⟨hdet, hor⟩ := htrue rfl
  have hinv : PodemInv level s := hinv0.step hstep hin
  have hlen : s.myCircuit.gates.length = c.gates.length := by
    rw [hstep.1.net_length, hg0.graph_length]
  have hK1 : ∀ g < s.myCircuit.gates.length, level g < K := by rw [hlen]; exact hK
  have hcl : Closed s.myCircuit := by
    rcases hor with e | ⟨cp, h1, h2, h3⟩
    · subst e; exact absurd hdet (setupFault_no_detection hstart)
    · exact (simFullCircuit_spec (hinv0.1.of_sameNet h1).acyclic h2 h3).2.2.1
  constructor
  · exact resimulate_detects hinv.1 hcl (SameNet.net_refl _) hin hK1
      (fun g ga g1 hga hg1 _ => by
        rw [hga] at hg1; cases hg1; exact fun _ => rfl) hdet
  · intro fill hfill
    obtain ⟨c1, hc1⟩ := @fillX_total fill s.myCircuit.inputGates s.myCircuit hinv.1.2.1
    obtain ⟨hs1, hget1⟩ := fillX_spec hfill _ _ _ hc1
    have hin1 : InputsSet c1 := inputsSet_of_assigned hs1 (fun g gate hg ht => by
      obtain ⟨v, hv1, _, hv3⟩ := hget1 g gate hg
      exact ⟨v, hv3 (hin gate (List.getElem?_mem hg) ht), hv1⟩)
    obtain ⟨c2, hc2, hpo⟩ := resimulate_detects hinv.1 hcl hs1 hin1 hK1
      (fun g ga g1 hga hg1 _ => by
        obtain ⟨v, hv1, hv2, _⟩ := hget1 g ga hga
        rw [hg1] at hv1
        cases hv1
        exact hv2) hdet
    refine ⟨c1, c2, hc1, ?_, hc2, hpo⟩
    rw [hs1.2.1]
    exact fillX_noX hfill _ _ _ hc1

/-- C1 on `Y = AND(A, B)` with `Y` stuck-at-1: the run ends with `A = 0`, `B = X`, and every
filling of `B` still shows the fault on `Y`. -/
theorem C1_podem_sound_witness :
    (∃ c2, simFullCircuit 2 (andPodem LOGIC_ZERO LOGIC_X LOGIC_DBAR FAULT_SA1 LOGIC_ZERO).myCircuit
        = some c2 ∧
      ∃ po ∈ c2.outputGates,
        c2.getValue po = some LOGIC_D ∨ c2.getValue po = some LOGIC_DBAR) ∧
    ∀ fill : Nat → Int, (∀ p, fill p = LOGIC_ZERO ∨ fill p = LOGIC_ONE) →
      ∃ c1 c2, fillX fill (andPodem LOGIC_ZERO LOGIC_X LOGIC_DBAR FAULT_SA1 LOGIC_ZERO).myCircuit
          (andPodem LOGIC_ZERO LOGIC_X LOGIC_DBAR FAULT_SA1 LOGIC_ZERO).myCircuit.inputGates
          = some c1 ∧
        (∀ p ∈ c1.inputGates, c1.getValue p ≠ some LOGIC_X) ∧
        simFullCircuit 2 c1 = some c2 ∧
        ∃ po ∈ c2.outputGates,
          c2.getValue po = some LOGIC_D ∨ c2.getValue po = some LOGIC_DBAR :=
  C1_podem_sound (andState LOGIC_UNSET LOGIC_UNSET LOGIC_UNSET NOFAULT) andLevel 2
    (by decide) (by decide) "Y" FAULT_SA1
    (andPodem LOGIC_X LOGIC_X LOGIC_X FAULT_SA1 LOGIC_ZERO) (by decide) 2 2
    (andPodem LOGIC_ZERO LOGIC_X LOGIC_DBAR FAULT_SA1 LOGIC_ZERO) (by decide)

/-! ### A fault without a path to a primary output -/

theorem anyOutputDetects_false {c : Circuit} :
    ∀ {ps : List Nat},
      (∀ po ∈ ps, ∃ v, c.getValue po = some v ∧ v ≠ LOGIC_D ∧ v ≠ LOGIC_DBAR) →
      anyOutputDetects c ps = some false := by
  intro ps
  induction ps with
  | nil => intro _; rfl
  | cons p ps ih =>
    intro h
    obtain ⟨v, hv, h1, h2⟩ := h p (List.mem_cons_self _ _)
    simp only [anyOutputDetects, hv, h1, h2, or_self, ↓reduceIte]
    exact ih (fun q hq => h q (List.mem_cons_of_mem _ hq))

theorem anyFaultEffect_false {c : Circuit} :
    ∀ {ps : List Nat},
      (∀ p ∈ ps, ∃ v, c.getValue p = some v ∧ v ≠ LOGIC_D ∧ v ≠ LOGIC_DBAR) →
      anyFaultEffect c ps = some false := by
  intro ps
  induction ps with
  | nil => intro _; rfl
  | cons p ps ih =>
    intro h
    obtain ⟨v, hv, h1, h2⟩ := h p (List.mem_cons_self _ _)
    simp only [anyFaultEffect, hv, h1, h2, or_self, ↓reduceIte]
    exact ih (fun q hq => h q (List.mem_cons_of_mem _ hq))

theorem scanFrontier_none {c : Circuit} :
    ∀ (l : List Gate) (i : Nat) (acc : List Nat),
      (∀ G ∈ l, G.gateValue = LOGIC_X → anyFaultEffect c G.gateInputs = some false) →
      scanFrontier c l i acc = some acc := by
  intro l
  induction l with
  | nil => intro i acc _; rfl
  | cons G rest ih =>
    intro i acc h
    have hrest := ih (i + 1) acc (fun G1 hG1 => h G1 (List.mem_cons_of_mem _ hG1))
    simp only [scanFrontier]
    by_cases hX : G.gateValue = LOGIC_X
    · simp only [hX, ne_eq, not_true_eq_false, ↓reduceIte,
        h G (List.mem_cons_self _ _) hX]
      exact hrest
    · simp only [ne_eq, hX, not_false_eq_true, ↓reduceIte]
      exact hrest

theorem SingleFault.single_sameNet {n : Nat} {c c1 : Circuit} (h : SingleFault n c)
    (hs : SameNet c c1) : SingleFault n c1 := by
  intro g gate1 hg1 hne
  obtain ⟨gate, hg, _, _, hf, _⟩ := hs.net_symm.get_fields hg1
  rw [← hf]
  exact h g gate hg hne

theorem IsFaultFree.not_effect {v : Int} (h : IsFaultFree v) :
    v ≠ LOGIC_D ∧ v ≠ LOGIC_DBAR := by
  rcases h with e | e | e <;> subst e <;> decide

/-- After `simFullCircuit` on a circuit whose only fault sits on a gate `n` outside the fan-in
of every primary output: every gate other than `n` holds UNSET or a fault-free value, and every
gate that is not a primary input and holds a value lies in the fan-in of a primary output. -/
theorem unobservable_values {level : Nat → Nat} {K n : Nat} {c1 c2 : Circuit}
    (hwf : WellFormed c1 level) (hia : InputsAssigned c1) (hsf : SingleFault n c1)
    (hin : InputsSet c1)
    (hpath : ∀ po ∈ c1.outputGates, ¬ FanIn c1.preds po n)
    (hsim : simFullCircuit K c1 = some c2) :
    (∀ (g : Nat) (gate : Gate), c2.gates[g]? = some gate → gate.gateType ≠ GATE_PI →
      gate.gateValue ≠ LOGIC_UNSET → g ≠ n ∧ ∀ p ∈ gate.gateInputs, p ≠ n) ∧
    ∀ (g : Nat) (gate : Gate), c2.gates[g]? = some gate → g ≠ n →
      gate.gateValue = LOGIC_UNSET ∨ IsFaultFree gate.gateValue := by
  obtain ⟨hs, _, hcl, _, hpi, hfr⟩ := simFullCircuit_spec hwf.acyclic hin hsim
  have hcone : ∀ (g : Nat) (gate : Gate), c2.gates[g]? = some gate →
      gate.gateType ≠ GATE_PI → gate.gateValue ≠ LOGIC_UNSET →
      g ≠ n ∧ ∀ p ∈ gate.gateInputs, p ≠ n := by
    intro g gate hg ht hv
    have hex : ∃ po ∈ c1.outputGates, FanIn c1.preds po g := by
      by_contra hno
      simp only [not_exists, not_and] at hno
      exact hv (hfr g gate hg ht hno)
    obtain ⟨po, hpo, hfan⟩ := hex
    obtain ⟨gate1, hg1, _, hi1, _⟩ := hs.net_symm.get_fields hg
    refine ⟨fun e => hpath po hpo (e ▸ hfan), fun p hp e => ?_⟩
    apply hpath po hpo
    rw [← e]
    exact fanIn_trans hfan (FanIn.step (by rw [preds_eq hg1, hi1]; exact hp) (FanIn.self p))
  refine ⟨hcone, ?_⟩
  have hac2 : Acyclic c2.preds level := (hwf.of_sameNet hs).acyclic
  intro g
  induction g using acyclic_induction hac2 with
  | _ g ih =>
    intro gate hg hgn
    have hnf : gate.faultType = NOFAULT := (hsf.single_sameNet hs) g gate hg hgn
    by_cases ht : gate.gateType = GATE_PI
    · obtain ⟨gate1, hg1, ht1, _⟩ := hs.net_symm.get_fields hg
      have := hpi g gate1 hg1 (by rw [ht1]; exact ht)
      rw [hg] at this
      cases this
      obtain ⟨v, hv, he⟩ := hia gate (List.getElem?_mem hg1) ht
      rw [he, hnf, faultedValue_noFault]
      exact Or.inr hv
    · by_cases hv : gate.gateValue = LOGIC_UNSET
      · exact Or.inl hv
      · right
        obtain ⟨vals, v, h1, h2, h3, h4⟩ := hcl g gate hg ht hv
        rw [h4, hnf, faultedValue_noFault]
        apply simGateType_faultFree h3
        intro x hx
        obtain ⟨p, hp, hpx⟩ := inputValues_mem h1 hx
        cases hgp : c2.gates[p]? with
        | none => simp [Circuit.getValue, hgp] at hpx
        | some gp =>
          rw [getValue_eq hgp, Option.some.injEq] at hpx
          rcases ih p (by rw [preds_eq hg]; exact hp) gp hgp
            ((hcone g gate hg ht hv).2 p hp) with e | e
          · have hxu : x = LOGIC_UNSET := hpx.symm.trans e
            exact absurd (hxu ▸ hx) h2
          · exact hpx ▸ e

/-- In such a state the scan of `updateDFrontier` finds no gate. -/
theorem unobservable_frontier {level : Nat → Nat} {K n : Nat} {c1 c2 : Circuit}
    (hwf : WellFormed c1 level) (hia : InputsAssigned c1) (hsf : SingleFault n c1)
    (hin : InputsSet c1)
    (hpath : ∀ po ∈ c1.outputGates, ¬ FanIn c1.preds po n)
    (hsim : simFullCircuit K c1 = some c2) :
    scanFrontier c2 c2.gates 0 [] = some [] := by
  obtain ⟨hcone, hvals⟩ := unobservable_values hwf hia hsf hin hpath hsim
  obtain ⟨hs, _, hcl, _, _, _⟩ := simFullCircuit_spec hwf.acyclic hin hsim
  have hwf2 := hwf.of_sameNet hs
  apply scanFrontier_none
  intro G hG hX
  obtain ⟨g, hg⟩ := List.mem_iff_getElem?.mp hG
  by_cases ht : G.gateType = GATE_PI
  · rw [((hwf2.wf_get hg).2.1 ht).1]; rfl
  · apply anyFaultEffect_false
    intro p hp
    have hpn := (hcone g G hg ht (by rw [hX]; decide)).2 p hp
    have hplt := ((hwf2.wf_get hg).2.2.2 p hp).1
    have hgp := List.getElem?_eq_getElem hplt
    refine ⟨_, getValue_eq hgp, ?_⟩
    rcases hvals p _ hgp hpn with e | e
    · rw [e]; decide
    · exact e.not_effect

/-! ### `backtrace` in the all-X state -/

theorem sameNet_setAllX (c : Circuit) : SameNet c c.setAllX := by
  refine ⟨rfl, rfl, rfl, ?_⟩
  simp only [Circuit.setAllX, List.map_map]
  apply List.map_congr_left
  intro gate _
  rfl

theorem allX_setAllX (c : Circuit) : AllX c.setAllX := by
  intro gate hmem
  simp only [Circuit.setAllX, List.mem_map] at hmem
  obtain ⟨g0, _, rfl⟩ := hmem
  rfl

theorem AllX.getValue {c : Circuit} (hx : AllX c) {g : Nat} (hg : g < c.gates.length) :
    c.getValue g = some LOGIC_X := by
  have hgate := List.getElem?_eq_getElem hg
  rw [getValue_eq hgate, hx _ (List.getElem?_mem hgate)]

theorem firstX_allX {c : Circuit} (hx : AllX c) {p : Nat} (rest : List Nat)
    (hp : p < c.gates.length) : firstX c (p :: rest) = some (some p) := by
  simp [firstX, hx.getValue hp]

theorem backtraceLoop_allX {level : Nat → Nat} {c : Circuit} (hwf : WellFormed c level)
    (hx : AllX c) :
    ∀ (fuel g inv : Nat), g < c.gates.length → level g < fuel →
      ∃ pi m, backtraceLoop c fuel g inv = some (pi, m) ∧
        (∃ gate, c.gates[pi]? = some gate ∧ gate.gateType = GATE_PI) ∧
        (∀ gate, c.gates[g]? = some gate → gate.gateType = GATE_PI → pi = g ∧ m = inv) := by
  intro fuel
  induction fuel with
  | zero => intro g inv _ h; omega
  | succ fuel ih =>
    intro g inv hg hlev
    obtain ⟨gate, hgate⟩ : ∃ gate, c.gates[g]? = some gate :=
      ⟨_, List.getElem?_eq_getElem hg⟩
    by_cases ht : gate.gateType = GATE_PI
    · refine ⟨g, inv, ?_, ⟨gate, hgate, ht⟩, fun _ _ _ => ⟨rfl, rfl⟩⟩
      simp [backtraceLoop, hgate, ht]
    · obtain ⟨_, _, hne, hins⟩ := hwf.wf_get hgate
      obtain ⟨p, rest, hpr⟩ := List.exists_cons_of_ne_nil (hne ht)
      have hpm : p ∈ gate.gateInputs := by rw [hpr]; exact List.mem_cons_self _ _
      obtain ⟨hplt, hplev⟩ := hins p hpm
      obtain ⟨gp, hgp⟩ : ∃ gp, c.gates[p]? = some gp :=
        ⟨_, List.getElem?_eq_getElem hplt⟩
      obtain ⟨pi, m, h1, h2, _⟩ := ih p
        (if isInverting gp.gateType then inv + 1 else inv) hplt (by omega)
      refine ⟨pi, m, ?_, h2, ?_⟩
      · simp only [backtraceLoop, hgate, ne_eq, ht, not_false_eq_true, ↓reduceIte, hpr,
          firstX_allX hx rest hplt, Option.getD_some, hgp]
        exact h1
      · intro gate1 hg1 ht1
        have e : gate1 = gate := Option.some.inj (hg1.symm.trans hgate)
        exact absurd (e ▸ ht1) ht

theorem backtrace_allX {level : Nat → Nat} {c : Circuit} (hwf : WellFormed c level)
    (hx : AllX c) (K g : Nat) (v : Int) (hg : g < c.gates.length) (hlev : level g < K) :
    ∃ pi piVal, backtrace K c g v = some (pi, piVal) ∧
      (∃ gate, c.gates[pi]? = some gate ∧ gate.gateType = GATE_PI) ∧
      (piVal = v ∨ piVal = LogicNot v) ∧
      (∀ gate, c.gates[g]? = some gate → gate.gateType = GATE_PI → pi = g ∧ piVal = v) := by
  obtain ⟨gate, hgate⟩ : ∃ gate, c.gates[g]? = some gate :=
    ⟨_, List.getElem?_eq_getElem hg⟩
  obtain ⟨pi, m, h1, h2, h3⟩ := backtraceLoop_allX hwf hx K g
    (if isInverting gate.gateType then 1 else 0) hg hlev
  have hbt : backtrace K c g v = some (pi, if m % 2 = 1 then LogicNot v else v) := by
    simp [backtrace, hgate, h1]
  refine ⟨pi, _, hbt, h2, backtrace_value hbt, ?_⟩
  intro gate1 hg1 ht1
  have e : gate1 = gate := Option.some.inj (hg1.symm.trans hgate)
  obtain ⟨e1, e2⟩ := h3 gate1 hg1 ht1
  refine ⟨e1, ?_⟩
  have hni : isInverting gate.gateType = false := by rw [← e, ht1]; decide
  rw [e2, hni]
  simp

/-! ### The search for an unobservable fault -/

theorem InputsAssigned.inputsSet {c : Circuit} (h : InputsAssigned c) : InputsSet c := by
  intro gate hmem ht
  obtain ⟨v, hv, he⟩ := h gate hmem ht
  rw [he]
  exact faultedValue_isLogic _ hv.isLogic

theorem getObjective_dead {s : Podem} {fv : Int}
    (hval : s.myCircuit.getValue s.faultLocation = some fv) (hX : fv ≠ LOGIC_X)
    (hscan : scanFrontier s.myCircuit s.myCircuit.gates 0 [] = some [])
    (hd : s.dFrontier = []) : getObjective s = some (s, none) := by
  have hs : ({ s with dFrontier := [] } : Podem) = s := by
    cases s
    simp only [] at hd
    subst hd
    rfl
  unfold getObjective
  simp only [hval, hX, ↓reduceIte]
  by_cases h2 : fv = LOGIC_ONE ∨ fv = LOGIC_ZERO
  · simp only [h2, ↓reduceIte]
  · simp only [h2, ↓reduceIte, updateDFrontier, hscan, Option.map_some', hs, hd]

theorem podemRecursion_dead {K : Nat} {s : Podem} (f : Nat)
    (hdet : anyOutputDetects s.myCircuit s.myCircuit.outputGates = some false)
    (hobj : getObjective s = some (s, none)) :
    podemRecursion K (f + 1) s = some (false, s) := by
  simp only [podemRecursion, hdet, hobj]

theorem inputsAssigned_putGate {c : Circuit} (hia : InputsAssigned c) (p : Nat) (gate : Gate)
    {v : Int} (hv : IsFaultFree v) :
    InputsAssigned (c.putGate p (gate.setValue (faultedValue gate.faultType v))) := by
  intro x hx _
  rcases List.mem_or_eq_of_mem_set hx with hx | hx
  · exact hia x hx ‹_›
  · subst hx; exact ⟨v, hv, rfl⟩

theorem assign_dead_end {level : Nat → Nat} {K n : Nat} {t : Podem}
    (hun : Unobservable level n t) (hK : ∀ g < t.myCircuit.gates.length, level g < K)
    {pi : Nat} {gpi : Gate} (hgpi : t.myCircuit.gates[pi]? = some gpi)
    {v : Int} (hv : v = LOGIC_ZERO ∨ v = LOGIC_ONE)
    (hpin : ∀ gate, t.myCircuit.gates[n]? = some gate → gate.gateType = GATE_PI → pi = n) :
    ∃ s2, assignAndSimulate K t pi v = some s2 ∧ Unobservable level n s2 ∧
      SameNet t.myCircuit s2.myCircuit ∧ s2.faultActivationVal = t.faultActivationVal ∧
      ∀ f, podemRecursion K (f + 1) s2 = some (false, s2) := by
  obtain ⟨hwf, hia, hsf, hpath, hloc, hd, hn⟩ := hun
  have hvff : IsFaultFree v := by
    rcases hv with e | e
    · exact Or.inl e
    · exact Or.inr (Or.inl e)
  have hset : setValueCheckFault t.myCircuit pi v
      = some (t.myCircuit.putGate pi (gpi.setValue (faultedValue gpi.faultType v))) := by
    simp [setValueCheckFault, Circuit.onGate, hgpi]
  generalize hc1 : t.myCircuit.putGate pi (gpi.setValue (faultedValue gpi.faultType v)) = c1
    at hset
  have hs1 : SameNet t.myCircuit c1 := setValueCheckFault_sameNet hset
  have hwf1 : WellFormed c1 level := hwf.of_sameNet hs1
  have hia1 : InputsAssigned c1 := hc1 ▸ inputsAssigned_putGate hia pi gpi hvff
  have hin1 : InputsSet c1 := hia1.inputsSet
  have hsf1 : SingleFault n c1 := hsf.single_sameNet hs1
  have hpath1 : ∀ po ∈ c1.outputGates, ¬ FanIn c1.preds po n := by
    rw [hs1.1, hs1.net_preds]; exact hpath
  obtain ⟨c2, hsim⟩ := simFullCircuit_total hwf1 hin1 (by rw [hs1.net_length]; exact hK)
  obtain ⟨hs2, _, _, _, hpi2, hfr2⟩ := simFullCircuit_spec hwf1.acyclic hin1 hsim
  obtain ⟨_, hvals⟩ := unobservable_values hwf1 hia1 hsf1 hin1 hpath1 hsim
  have hscan := unobservable_frontier hwf1 hia1 hsf1 hin1 hpath1 hsim
  have hwf2 : WellFormed c2 level := hwf1.of_sameNet hs2
  have hn2 : n < c2.gates.length := by rw [hs2.net_length, hs1.net_length]; exact hn
  have hia2 : InputsAssigned c2 := by
    intro gate hmem ht
    obtain ⟨g, hg⟩ := List.mem_iff_getElem?.mp hmem
    obtain ⟨gate1, hg1, ht1, _⟩ := hs2.net_symm.get_fields hg
    have h1 := hpi2 g gate1 hg1 (by rw [ht1]; exact ht)
    have e : gate1 = gate := Option.some.inj (h1.symm.trans hg)
    exact hia1 gate (e ▸ List.getElem?_mem hg1) ht
  refine ⟨t.withCircuit c2, by simp [assignAndSimulate, hset, hsim], ?_, hs1.net_trans hs2, rfl, ?_⟩
  · refine ⟨hwf2, hia2, hsf1.single_sameNet hs2, ?_, hloc, hd, hn2⟩
    show ∀ po ∈ c2.outputGates, ¬ FanIn c2.preds po n
    rw [hs2.1, hs2.net_preds]; exact hpath1
  · intro f
    obtain ⟨gn2, hgn2⟩ : ∃ gn2, c2.gates[n]? = some gn2 :=
      ⟨_, List.getElem?_eq_getElem hn2⟩
    have hnX : gn2.gateValue ≠ LOGIC_X := by
      by_cases ht : gn2.gateType = GATE_PI
      · obtain ⟨gn, hgn, htn, _⟩ := (hs1.net_trans hs2).net_symm.get_fields hgn2
        have hpn : pi = n := hpin gn hgn (by rw [htn]; exact ht)
        subst hpn
        have hlt : pi < t.myCircuit.gates.length := (List.getElem?_eq_some.mp hgpi).1
        have hg1 : c1.gates[pi]? = some (gpi.setValue (faultedValue gpi.faultType v)) := by
          rw [← hc1, getElem?_putGate]; simp [hlt]
        have e : gpi = gn := Option.some.inj (hgpi.symm.trans hgn)
        have h1 := hpi2 pi _ hg1 (by
          show gpi.gateType = GATE_PI
          rw [e, htn]; exact ht)
        have e2 := Option.some.inj (h1.symm.trans hgn2)
        rw [← e2]
        show faultedValue gpi.faultType v ≠ LOGIC_X
        unfold faultedValue
        rcases hv with e3 | e3 <;> rw [e3] <;> split_ifs <;> decide
      · have := hfr2 n gn2 hgn2 ht hpath1
        rw [this]; decide
    apply podemRecursion_dead
    · apply anyOutputDetects_false
      intro po hpo
      have hpolt : po < c2.gates.length := hwf2.1 po hpo
      have hgpo := List.getElem?_eq_getElem hpolt
      refine ⟨_, getValue_eq hgpo, ?_⟩
      have hpon : po ≠ n := by
        intro e
        apply hpath1 po (by rw [← hs2.1]; exact hpo)
        rw [e]
        exact FanIn.self n
      rcases hvals po _ hgpo hpon with e | e
      · rw [e]; decide
      · exact e.not_effect
    · exact @getObjective_dead _ gn2.gateValue
        (by
          show c2.getValue t.faultLocation = _
          rw [hloc]; exact getValue_eq hgn2)
        hnX hscan hd

theorem singleFault_inject {c cf : Circuit} {n : Nat} {ft : Int}
    (h : c.clearFaults.set_faultType n ft = some cf) : SingleFault n cf := by
  intro g gate hg hne
  have hlt : g < c.clearFaults.gates.length := by
    have := (List.getElem?_eq_some.mp hg).1
    have hl := (faultFreeTwin_inject h).2.2.1
    omega
  obtain ⟨_, ga, hga, _, _, hf⟩ :=
    (faultFreeTwin_inject h).2.2.2 g (c.clearFaults.gates.get ⟨g, hlt⟩)
      (List.getElem?_eq_getElem hlt)
  have e : ga = gate := Option.some.inj (hga.symm.trans hg)
  exact e ▸ hf hne

theorem setupFault_unobservable {c : Circuit} {level : Nat → Nat} {faultLocStr : String}
    {faultType : Int} {s0 : Podem} (hwf : WellFormed c level)
    (h : setupFault c faultLocStr faultType = some s0)
    (hpath : ∀ po ∈ c.outputGates, ¬ FanIn c.preds po s0.faultLocation) :
    Unobservable level s0.faultLocation s0 ∧ AllX s0.myCircuit ∧
      (s0.faultActivationVal = LOGIC_ZERO ∨ s0.faultActivationVal = LOGIC_ONE) := by
  obtain ⟨hinv, hg⟩ := setupFault_podemInv hwf h
  obtain ⟨cf, hcf, hc0, hd, hact⟩ := setupFault_spec h
  have hx : AllX s0.myCircuit := hc0 ▸ allX_setAllX cf
  refine ⟨⟨hinv.1, ?_, ?_, ?_, rfl, hd, ?_⟩, hx, ?_⟩
  · intro gate hmem _
    exact ⟨LOGIC_X, by decide, by rw [hx gate hmem, faultedValue_X]⟩
  · rw [hc0]; exact (singleFault_inject hcf).single_sameNet (sameNet_setAllX cf)
  · rw [hg.1, hg.graph_preds]; exact hpath
  · obtain ⟨_, gate, hp, _⟩ := set_faultType_spec hcf
    have := (List.getElem?_eq_some.mp hp).1
    rw [hg.graph_length, ← (sameGraph_clearFaults c).graph_length]
    exact this
  · rw [hact]; split_ifs
    · exact Or.inr rfl
    · exact Or.inl rfl

theorem LogicNot_binary {v : Int} (h : v = LOGIC_ZERO ∨ v = LOGIC_ONE) :
    LogicNot v = LOGIC_ZERO ∨ LogicNot v = LOGIC_ONE := by
  rcases h with e | e <;> subst e <;> decide

/-- C2: on a finalized acyclic circuit, for a fault on a gate from which no path leads to a
primary output, `podemRecursion` started from the all-X state that `main` sets up returns
`false`, with an empty D-frontier. After any simulation of an assignment of 0, 1, X to the
primary inputs, `updateDFrontier` computes the empty frontier. -/
theorem C2_unobservable_fault (c : Circuit) (level : Nat → Nat) (K : Nat)
    (hwf : WellFormed c level) (hK : ∀ g < c.gates.length, level g < K)
    (faultLocStr : String) (faultType : Int) (s0 : Podem)
    (hstart : setupFault c faultLocStr faultType = some s0)
    (hpath : ∀ po ∈ c.outputGates, ¬ FanIn c.preds po s0.faultLocation)
    (fuel : Nat) (hfuel : 2 ≤ fuel) :
    (∃ s, podemRecursion K fuel s0 = some (false, s) ∧ s.dFrontier = []) ∧
    ∀ (t : Podem) (c1 : Circuit), SameNet s0.myCircuit c1 → InputsAssigned c1 →
      simFullCircuit K c1 = some t.myCircuit →
      (updateDFrontier t).map Podem.dFrontier = some [] := by
  obtain ⟨hun, hx, hact⟩ := setupFault_unobservable hwf hstart hpath
  have hlen : s0.myCircuit.gates.length = c.gates.length :=
    (setupFault_podemInv hwf hstart).2.graph_length
  have hK0 : ∀ g < s0.myCircuit.gates.length, level g < K := by rw [hlen]; exact hK
  constructor
  · obtain ⟨f, rfl⟩ : ∃ f, fuel = f + 2 := ⟨fuel - 2, by omega⟩
    have hn := hun.2.2.2.2.2.2
    obtain ⟨pi, piVal, hbt, ⟨gpi, hgpi, htpi⟩, hpv, hpin⟩ :=
      backtrace_allX hun.1 hx K s0.faultLocation s0.faultActivationVal hn (hK0 _ hn)
    have hpv01 : piVal = LOGIC_ZERO ∨ piVal = LOGIC_ONE := by
      rcases hpv with e | e
      · rw [e]; exact hact
      · rw [e]; exact LogicNot_binary hact
    obtain ⟨s2, has2, hun2, hs2, _, hdead2⟩ :=
      assign_dead_end hun hK0 hgpi hpv01 (fun gate hg ht => (hpin gate hg ht).1)
    obtain ⟨gpi2, hgpi2, _, _, _⟩ := hs2.get_fields hgpi
    obtain ⟨s4, has4, hun4, hs4, _, hdead4⟩ :=
      assign_dead_end hun2 (by rw [hs2.net_length]; exact hK0) hgpi2 (LogicNot_binary hpv01)
        (fun gate hg ht => by
          obtain ⟨g0, hg0, ht0, _⟩ := hs2.net_symm.get_fields hg
          exact (hpin g0 hg0 (by rw [ht0]; exact ht)).1)
    obtain ⟨gpi4, hgpi4, _⟩ := hs4.get_fields hgpi2
    have hdet0 : anyOutputDetects s0.myCircuit s0.myCircuit.outputGates = some false := by
      apply anyOutputDetects_false
      intro po hpo
      exact ⟨LOGIC_X, hx.getValue (hun.1.1 po hpo), by decide, by decide⟩
    have hobj0 : getObjective s0
        = some (s0, some (some s0.faultLocation, s0.faultActivationVal)) := by
      simp [getObjective, hx.getValue hn]
    refine ⟨s4.withCircuit (s4.myCircuit.putGate pi
      (gpi4.setValue (faultedValue gpi4.faultType LOGIC_X))), ?_, hun4.2.2.2.2.2.1⟩
    rw [show f + 2 = (f + 1) + 1 from rfl, podemRecursion]
    simp only [hdet0, hobj0, hbt, has2, hdead2 f, has4, hdead4 f, setValueCheckFault,
      Circuit.onGate, hgpi4, Option.map_some']
  · intro t c1 hs1 hia1 hsim
    have hwf1 : WellFormed c1 level := hun.1.of_sameNet hs1
    have hscan := unobservable_frontier hwf1 hia1 (hun.2.2.1.single_sameNet hs1) hia1.inputsSet
      (by rw [hs1.1, hs1.net_preds]; exact hun.2.2.2.1) hsim
    simp [updateDFrontier, hscan]

theorem not_fanIn_of_closed {preds : Nat → List Nat} (S : List Nat)
    (hclosed : ∀ g ∈ S, ∀ p ∈ preds g, p ∈ S) {g h : Nat} (hg : g ∈ S) (hh : h ∉ S) :
    ¬ FanIn preds g h := by
  intro hf
  induction hf with
  | self g => exact hh hg
  | step hp _ ih => exact ih (hclosed _ hg _ hp) hh

theorem danglingNetlist_setup :
    danglingNetlist.bind (Circuit.setupCircuit 4)
      = some (danglingState LOGIC_UNSET LOGIC_UNSET LOGIC_UNSET LOGIC_UNSET NOFAULT) := by
  decide

/-- C2 on the netlist `Y = BUFF(A)`, `Z = NOT(B)` with output `Y` and `Z` stuck-at-0: the
gates `A` and `Y` form the fan-in of the output, and `Z` is not among them. -/
theorem C2_unobservable_fault_witness :
    (∃ s, podemRecursion 2 2
        { myCircuit := danglingState LOGIC_X LOGIC_X LOGIC_X LOGIC_X FAULT_SA0
          dFrontier := []
          faultLocation := 3
          faultActivationVal := LOGIC_ONE } = some (false, s) ∧ s.dFrontier = []) ∧
    ∀ (t : Podem) (c1 : Circuit),
      SameNet (danglingState LOGIC_X LOGIC_X LOGIC_X LOGIC_X FAULT_SA0) c1 →
      InputsAssigned c1 → simFullCircuit 2 c1 = some t.myCircuit →
      (updateDFrontier t).map Podem.dFrontier = some [] :=
  C2_unobservable_fault
    (danglingState LOGIC_UNSET LOGIC_UNSET LOGIC_UNSET LOGIC_UNSET NOFAULT) danglingLevel 2
    (by decide) (by decide) "Z" FAULT_SA0
    { myCircuit := danglingState LOGIC_X LOGIC_X LOGIC_X LOGIC_X FAULT_SA0
      dFrontier := []
      faultLocation := 3
      faultActivationVal := LOGIC_ONE }
    (by decide)
    (fun _ hpo => not_fanIn_of_closed [0, 2] (by decide)
      (List.mem_cons_of_mem 0 hpo) (by decide))
    2 (by decide)

/-! ## `setupCircuit` -/

theorem succs_eq {c : Circuit} {g : Nat} {gate : Gate} (hg : c.gates[g]? = some gate) :
    c.succs g = gate.gateOutputs := by
  simp [Circuit.succs, hg]

theorem typeOf_eq {c : Circuit} {g : Nat} {gate : Gate} (hg : c.gates[g]? = some gate) :
    c.typeOf g = some gate.gateType := by
  simp [Circuit.typeOf, hg]

theorem preds_out_of_range {c : Circuit} {g : Nat} (hg : c.gates.length ≤ g) :
    c.preds g = [] := by
  simp [Circuit.preds, List.getElem?_eq_none hg]

theorem succs_out_of_range {c : Circuit} {g : Nat} (hg : c.gates.length ≤ g) :
    c.succs g = [] := by
  simp [Circuit.succs, List.getElem?_eq_none hg]

theorem typeOf_out_of_range {c : Circuit} {g : Nat} (hg : c.gates.length ≤ g) :
    c.typeOf g = none := by
  simp [Circuit.typeOf, List.getElem?_eq_none hg]

theorem length_putGate (c : Circuit) (p : Nat) (x : Gate) :
    (c.putGate p x).gates.length = c.gates.length := by
  simp [Circuit.putGate]

theorem preds_putGate (c : Circuit) (p : Nat) (x : Gate) (q : Nat) :
    (c.putGate p x).preds q
      = if p = q ∧ p < c.gates.length then x.gateInputs else c.preds q := by
  unfold Circuit.preds
  rw [getElem?_putGate]
  by_cases hpq : p = q
  · subst hpq
    by_cases hlt : p < c.gates.length
    · simp [hlt]
    · have : c.gates[p]? = none := List.getElem?_eq_none (by omega)
      simp [hlt, this]
  · simp [hpq]

theorem succs_putGate (c : Circuit) (p : Nat) (x : Gate) (q : Nat) :
    (c.putGate p x).succs q
      = if p = q ∧ p < c.gates.length then x.gateOutputs else c.succs q := by
  unfold Circuit.succs
  rw [getElem?_putGate]
  by_cases hpq : p = q
  · subst hpq
    by_cases hlt : p < c.gates.length
    · simp [hlt]
    · have : c.gates[p]? = none := List.getElem?_eq_none (by omega)
      simp [hlt, this]
  · simp [hpq]

theorem typeOf_putGate (c : Circuit) (p : Nat) (x : Gate) (q : Nat) :
    (c.putGate p x).typeOf q
      = if p = q ∧ p < c.gates.length then some x.gateType else c.typeOf q := by
  unfold Circuit.typeOf
  rw [getElem?_putGate]
  by_cases hpq : p = q
  · subst hpq
    by_cases hlt : p < c.gates.length
    · simp [hlt]
    · have : c.gates[p]? = none := List.getElem?_eq_none (by omega)
      simp [hlt, this]
  · simp [hpq]

theorem mem_preds_lt {c : Circuit} (h : Linked c) {g p : Nat} (hp : p ∈ c.preds g) :
    p < c.gates.length := by
  by_contra hlt
  have h1 : 0 < (c.preds g).count p := List.count_pos_iff.mpr hp
  rw [h p g, succs_out_of_range (by omega)] at h1
  simp at h1

theorem mem_succs_lt {c : Circuit} (h : Linked c) {g s : Nat} (hs : s ∈ c.succs g) :
    s < c.gates.length := by
  by_contra hlt
  have h1 : 0 < (c.succs g).count s := List.count_pos_iff.mpr hs
  rw [← h g s, preds_out_of_range (by omega)] at h1
  simp at h1

theorem Linked.mem_iff {c : Circuit} (h : Linked c) (g p : Nat) :
    p ∈ c.preds g ↔ g ∈ c.succs p := by
  rw [← List.count_pos_iff, ← List.count_pos_iff, h p g]

/-! ### Name resolution and linking -/

theorem findGateLoop_lt (name : String) :
    ∀ (l : List Gate) (i : Nat) (res : Option Nat) (k : Nat),
      findGateLoop name l i res = some (some k) →
      res = some k ∨ (i ≤ k ∧ k < i + l.length) := by
  intro l
  induction l with
  | nil =>
    intro i res k h
    simp only [findGateLoop, Option.some.injEq] at h
    exact Or.inl h
  | cons g gs ih =>
    intro i res k h
    simp only [findGateLoop] at h
    split_ifs at h with h1 h2
    · rcases ih (i + 1) (some i) k h with e | e
      · simp only [Option.some.injEq] at e
        right; simp only [List.length_cons]; omega
      · right; simp only [List.length_cons]; omega
    · rcases ih (i + 1) res k h with e | e
      · exact Or.inl e
      · right; simp only [List.length_cons]; omega

theorem findGateByName_lt {c : Circuit} {name : String} {k : Nat}
    (h : c.findGateByName name = some k) : k < c.gates.length := by
  unfold Circuit.findGateByName at h
  cases hl : findGateLoop name c.gates 0 none with
  | none => simp [hl] at h
  | some r =>
    cases r with
    | none => simp [hl] at h
    | some i =>
      simp only [hl, Option.some.injEq] at h
      subst h
      rcases findGateLoop_lt name c.gates 0 none i hl with e | e
      · cases e
      · omega

theorem resolveOutputs_gates :
    ∀ (ns : List String) (c c1 : Circuit), resolveOutputs c ns = some c1 →
      c1.gates = c.gates ∧ c1.inputGates = c.inputGates := by
  intro ns
  induction ns with
  | nil =>
    intro c c1 h
    simp only [resolveOutputs, Option.some.injEq] at h
    subst h
    exact ⟨rfl, rfl⟩
  | cons n ns ih =>
    intro c c1 h
    simp only [resolveOutputs] at h
    cases hf : c.findGateByName n with
    | none => simp [hf] at h
    | some p =>
      simp only [hf] at h
      have := ih { c with outputGates := c.outputGates ++ [p] } c1 h
      exact this

/-- The effect of one round of `linkNames`: `g` is appended to the successors of `inGate` and
`inGate` to the predecessors of `g`. -/
theorem link_step {c : Circuit} {inGate g : Nat} (hin : inGate < c.gates.length)
    (hg : g < c.gates.length) :
    ∃ c1 c2, c.onGate inGate (fun x => x.set_gateOutput g) = some c1 ∧
      c1.onGate g (fun x => x.set_gateInput inGate) = some c2 ∧
      c2.gates.length = c.gates.length ∧
      (∀ x, c2.preds x = if x = g then c.preds g ++ [inGate] else c.preds x) ∧
      (∀ x, c2.succs x = if x = inGate then c.succs inGate ++ [g] else c.succs x) ∧
      (∀ x, c2.typeOf x = c.typeOf x) ∧ c2.inputGates = c.inputGates ∧
      c2.outputGates = c.outputGates := by
  have hgin := List.getElem?_eq_getElem hin
  generalize c.gates[inGate] = gin at hgin
  have e1 : c.onGate inGate (fun x => x.set_gateOutput g)
      = some (c.putGate inGate (gin.set_gateOutput g)) := by
    simp [Circuit.onGate, hgin]
  have hg1 : g < (c.putGate inGate (gin.set_gateOutput g)).gates.length := by
    rw [length_putGate]; exact hg
  have hgg := List.getElem?_eq_getElem hg1
  generalize (c.putGate inGate (gin.set_gateOutput g)).gates[g] = gg at hgg
  have e2 : (c.putGate inGate (gin.set_gateOutput g)).onGate g
      (fun x => x.set_gateInput inGate)
      = some ((c.putGate inGate (gin.set_gateOutput g)).putGate g
          (gg.set_gateInput inGate)) := by
    simp [Circuit.onGate, hgg]
  have hggp : gg.gateInputs = c.preds g := by
    have := preds_eq hgg
    rw [preds_putGate] at this
    by_cases e : inGate = g
    · subst e
      simp only [hin, and_self, ↓reduceIte, Gate.set_gateOutput] at this
      rw [← this, preds_eq hgin]
    · simp only [e, false_and, ↓reduceIte] at this
      exact this.symm
  have hggs : gg.gateOutputs = if inGate = g then c.succs inGate ++ [g] else c.succs g := by
    have := succs_eq hgg
    rw [succs_putGate] at this
    by_cases e : inGate = g
    · subst e
      simp only [hin, and_self, ↓reduceIte, Gate.set_gateOutput] at this
      simp only [↓reduceIte, ← this, succs_eq hgin]
    · simp only [e, false_and, ↓reduceIte] at this
      simp only [e, ↓reduceIte]
      exact this.symm
  have hggt : some gg.gateType = c.typeOf g := by
    have := typeOf_eq hgg
    rw [typeOf_putGate] at this
    by_cases e : inGate = g
    · subst e
      simp only [hin, and_self, ↓reduceIte, Gate.set_gateOutput] at this
      rw [typeOf_eq hgin]
      exact this.symm
    · simp only [e, false_and, ↓reduceIte] at this
      exact this.symm
  refine ⟨_, _, e1, e2, by simp [length_putGate], ?_, ?_, ?_, rfl, rfl⟩
  · intro x
    rw [preds_putGate, preds_putGate, length_putGate]
    by_cases hx : x = g
    · subst hx
      simp [hg, Gate.set_gateInput, hggp]
    · have hx' : ¬ g = x := fun e => hx e.symm
      simp only [hx', false_and, ↓reduceIte, hx]
      by_cases e : inGate = x
      · subst e
        simp [hin, Gate.set_gateOutput, preds_eq hgin]
      · simp [e]
  · intro x
    rw [succs_putGate, succs_putGate, length_putGate]
    by_cases hx : g = x
    · subst hx
      simp only [hg, and_self, ↓reduceIte, Gate.set_gateInput, hggs]
      by_cases e : inGate = g
      · simp [e]
      · have e' : ¬ g = inGate := fun h => e h.symm
        simp [e, e']
    · simp only [hx, false_and, ↓reduceIte]
      by_cases e : inGate = x
      · subst e
        simp [hin, Gate.set_gateOutput, succs_eq hgin]
      · have e' : ¬ x = inGate := fun h => e h.symm
        simp [e, e']
  · intro x
    rw [typeOf_putGate, typeOf_putGate, length_putGate]
    by_cases hx : g = x
    · subst hx
      simp only [hg, and_self, ↓reduceIte, Gate.set_gateInput]
      exact hggt
    · simp only [hx, false_and, ↓reduceIte]
      by_cases e : inGate = x
      · subst e
        simp [hin, Gate.set_gateOutput, typeOf_eq hgin]
      · simp [e]

theorem linked_link_step {c c2 : Circuit} {inGate g : Nat} (h : Linked c)
    (hp : ∀ x, c2.preds x = if x = g then c.preds g ++ [inGate] else c.preds x)
    (hs : ∀ x, c2.succs x = if x = inGate then c.succs inGate ++ [g] else c.succs x) :
    Linked c2 := by
  intro a b
  rw [hp b, hs a]
  by_cases hb : b = g
  · by_cases ha : a = inGate
    · subst hb; subst ha
      simp [List.count_append, h a b]
    · subst hb
      have ha' : ¬ inGate = a := fun e => ha e.symm
      simp [List.count_append, List.count_singleton, ha, ha', h a b]
  · by_cases ha : a = inGate
    · subst ha
      have hb' : ¬ g = b := fun e => hb e.symm
      simp [List.count_append, List.count_singleton, hb, hb', h a b]
    · simp [hb, ha, h a b]

theorem linkNames_spec (g : Nat) :
    ∀ (ns : List String) (c c1 : Circuit), Linked c → g < c.gates.length →
      linkNames g c ns = some c1 →
      Linked c1 ∧ c1.gates.length = c.gates.length ∧ (∀ x, c1.typeOf x = c.typeOf x) ∧
        c1.inputGates = c.inputGates := by
  intro ns
  induction ns with
  | nil =>
    intro c c1 hl _ h
    simp only [linkNames, Option.some.injEq] at h
    subst h
    exact ⟨hl, rfl, fun _ => rfl, rfl⟩
  | cons n ns ih =>
    intro c c1 hl hg h
    simp only [linkNames] at h
    cases hf : c.findGateByName n with
    | none => simp [hf] at h
    | some inGate =>
      obtain ⟨d1, d2, e1, e2, hlen, hp, hs, ht, hi, _⟩ := link_step (findGateByName_lt hf) hg
      simp only [hf, e1, e2] at h
      obtain ⟨h1, h2, h3, h4⟩ := ih d2 c1 (linked_link_step hl hp hs) (by rw [hlen]; exact hg) h
      exact ⟨h1, h2.trans hlen, fun x => (h3 x).trans (ht x), h4.trans hi⟩

theorem linkGates_spec :
    ∀ (is : List Nat) (c c1 : Circuit), Linked c → linkGates c is = some c1 →
      Linked c1 ∧ c1.gates.length = c.gates.length ∧ (∀ x, c1.typeOf x = c.typeOf x) ∧
        c1.inputGates = c.inputGates := by
  intro is
  induction is with
  | nil =>
    intro c c1 hl h
    simp only [linkGates, Option.some.injEq] at h
    subst h
    exact ⟨hl, rfl, fun _ => rfl, rfl⟩
  | cons i is ih =>
    intro c c1 hl h
    simp only [linkGates] at h
    cases hg : c.gates[i]? with
    | none => simp [hg] at h
    | some g =>
      simp only [hg] at h
      cases hn : linkNames i c g.inputName with
      | none => simp [hn] at h
      | some d =>
        simp only [hn] at h
        obtain ⟨h1, h2, h3, h4⟩ := linkNames_spec i _ c d hl (List.getElem?_eq_some.mp hg).1 hn
        obtain ⟨k1, k2, k3, k4⟩ := ih d c1 h1 h
        exact ⟨k1, k2.trans h2, fun x => (k3 x).trans (h3 x), k4.trans h4⟩

theorem linked_of_parsed {c : Circuit} (h : Parsed c) : Linked c := by
  have hp : ∀ x, c.preds x = [] := by
    intro x
    unfold Circuit.preds
    cases hg : c.gates[x]? with
    | none => rfl
    | some gate => exact (h gate (List.getElem?_mem hg)).1
  have hs : ∀ x, c.succs x = [] := by
    intro x
    unfold Circuit.succs
    cases hg : c.gates[x]? with
    | none => rfl
    | some gate => exact (h gate (List.getElem?_mem hg)).2.1
  intro a b
  rw [hp, hs]
  rfl

/-! ### The fanout pass: one inserted gate -/

theorem replaceFirst_of_mem {oldGate newGate : Nat} :
    ∀ {l : List Nat}, oldGate ∈ l → ∃ r, replaceFirst oldGate newGate l = some r := by
  intro l
  induction l with
  | nil => intro h; simp at h
  | cons x xs ih =>
    intro h
    by_cases hx : x = oldGate
    · exact ⟨newGate :: xs, by simp [replaceFirst, hx]⟩
    · rcases List.mem_cons.mp h with e | e
      · exact absurd e.symm hx
      · obtain ⟨r, hr⟩ := ih e
        exact ⟨x :: r, by simp [replaceFirst, hx, hr]⟩

theorem replaceFirst_append {oldGate newGate : Nat} :
    ∀ (F rest : List Nat), oldGate ∉ F →
      replaceFirst oldGate newGate (F ++ oldGate :: rest) = some (F ++ newGate :: rest) := by
  intro F
  induction F with
  | nil => intro rest _; simp [replaceFirst]
  | cons f F ih =>
    intro rest h
    simp only [List.mem_cons, not_or] at h
    have hf : ¬ f = oldGate := fun e => h.1 e.symm
    simp [replaceFirst, hf, ih rest h.2]

theorem replaceFirst_count {oldGate newGate : Nat} (hne : oldGate ≠ newGate) :
    ∀ {l r : List Nat}, replaceFirst oldGate newGate l = some r → ∀ x,
      r.count x + (if x = oldGate then 1 else 0) = l.count x + (if x = newGate then 1 else 0) := by
  intro l
  induction l with
  | nil => intro r h; simp [replaceFirst] at h
  | cons y ys ih =>
    intro r h x
    simp only [replaceFirst] at h
    by_cases hy : y = oldGate
    · simp only [hy, ↓reduceIte, Option.some.injEq] at h
      subst h; subst hy
      simp only [List.count_cons, beq_iff_eq]
      by_cases h1 : x = y
      · subst h1
        have : ¬ newGate = x := fun e => hne e.symm
        have : ¬ x = newGate := hne
        simp [*]
      · by_cases h2 : x = newGate
        · subst h2
          have : ¬ y = x := fun e => h1 e.symm
          simp [*]
        · have h1' : ¬ y = x := fun e => h1 e.symm
          have h2' : ¬ newGate = x := fun e => h2 e.symm
          simp [*]
    · simp only [hy, ↓reduceIte] at h
      cases hr : replaceFirst oldGate newGate ys with
      | none => simp [hr] at h
      | some r1 =>
        simp only [hr, Option.map_some', Option.some.injEq] at h
        subst h
        have := ih hr x
        simp only [List.count_cons]
        omega

theorem replaceFirst_length {oldGate newGate : Nat} :
    ∀ {l r : List Nat}, replaceFirst oldGate newGate l = some r → r.length = l.length := by
  intro l
  induction l with
  | nil => intro r h; simp [replaceFirst] at h
  | cons y ys ih =>
    intro r h
    simp only [replaceFirst] at h
    split_ifs at h
    · cases h; rfl
    · cases hr : replaceFirst oldGate newGate ys with
      | none => simp [hr] at h
      | some r1 =>
        simp only [hr, Option.map_some', Option.some.injEq] at h
        subst h
        simp [ih hr]

theorem exists_gate {c : Circuit} {g : Nat} (h : g < c.gates.length) :
    ∃ gate, c.gates[g]? = some gate ∧ gate.gateInputs = c.preds g ∧
      gate.gateOutputs = c.succs g ∧ some gate.gateType = c.typeOf g := by
  have hg := List.getElem?_eq_getElem h
  exact ⟨_, hg, (preds_eq hg).symm, (succs_eq hg).symm, (typeOf_eq hg).symm⟩

theorem length_newGate (c : Circuit) (name : String) (ID gt : Int) :
    (c.newGate name ID gt).gates.length = c.gates.length + 1 := by
  simp [Circuit.newGate]

theorem preds_newGate (c : Circuit) (name : String) (ID gt : Int) (x : Nat) :
    (c.newGate name ID gt).preds x = c.preds x := by
  unfold Circuit.preds
  simp only [Circuit.newGate, List.getElem?_append]
  split_ifs with h
  · rfl
  · rw [List.getElem?_eq_none (Nat.le_of_not_lt h)]
    by_cases h0 : x - c.gates.length = 0
    · simp [h0, Gate.new]
    · have : [Gate.new name ID gt][x - c.gates.length]? = none :=
        List.getElem?_eq_none (by simp; omega)
      simp [this]

theorem succs_newGate (c : Circuit) (name : String) (ID gt : Int) (x : Nat) :
    (c.newGate name ID gt).succs x = c.succs x := by
  unfold Circuit.succs
  simp only [Circuit.newGate, List.getElem?_append]
  split_ifs with h
  · rfl
  · rw [List.getElem?_eq_none (Nat.le_of_not_lt h)]
    by_cases h0 : x - c.gates.length = 0
    · simp [h0, Gate.new]
    · have : [Gate.new name ID gt][x - c.gates.length]? = none :=
        List.getElem?_eq_none (by simp; omega)
      simp [this]

theorem typeOf_newGate (c : Circuit) (name : String) (ID gt : Int) (x : Nat) :
    (c.newGate name ID gt).typeOf x = if x = c.gates.length then some gt else c.typeOf x := by
  unfold Circuit.typeOf
  simp only [Circuit.newGate, List.getElem?_append]
  by_cases h : x < c.gates.length
  · have : ¬ x = c.gates.length := by omega
    simp [h, this]
  · by_cases h0 : x = c.gates.length
    · subst h0; simp [Gate.new]
    · have : [Gate.new name ID gt][x - c.gates.length]? = none :=
        List.getElem?_eq_none (by simp; omega)
      simp [h, h0, this, List.getElem?_eq_none (Nat.le_of_not_lt h)]

theorem onGate_eq {c : Circuit} {p : Nat} {gate : Gate} (h : c.gates[p]? = some gate)
    (f : Gate → Gate) : c.onGate p f = some (c.putGate p (f gate)) := by
  simp [Circuit.onGate, h]

/-- The effect of `insertFanout` on the graph: the new gate `L` (the former number of gates)
has type `FANOUT`, sole predecessor `g` and sole successor `h`; one `h` among the successors of
`g` and one `g` among the predecessors of `h` become `L`. -/
theorem insertFanout_spec {c : Circuit} {g h : Nat} (name : String) (j : Nat)
    (hg : g < c.gates.length) (hh : h < c.gates.length) {ro ri : List Nat}
    (hro : replaceFirst h c.gates.length (c.succs g) = some ro)
    (hri : replaceFirst g c.gates.length (c.preds h) = some ri) :
    ∃ c1, insertFanout c g name h j = some c1 ∧ c1.gates.length = c.gates.length + 1 ∧
      (∀ x, c1.preds x = if x = c.gates.length then [g] else if x = h then ri else c.preds x) ∧
      (∀ x, c1.succs x = if x = c.gates.length then [h] else if x = g then ro else c.succs x) ∧
      (∀ x, c1.typeOf x = if x = c.gates.length then some GATE_FANOUT else c.typeOf x) ∧
      c1.inputGates = c.inputGates ∧ c1.outputGates = c.outputGates := by
  generalize hL : c.gates.length = L at *
  generalize hc0 : c.newGate (name ++ "_" ++ toString j) (Int.ofNat L) GATE_FANOUT = c0
  have l0 : c0.gates.length = L + 1 := by rw [← hc0, length_newGate, hL]
  have p0 : ∀ x, c0.preds x = c.preds x := fun x => by rw [← hc0, preds_newGate]
  have s0 : ∀ x, c0.succs x = c.succs x := fun x => by rw [← hc0, succs_newGate]
  have t0 : ∀ x, c0.typeOf x = if x = L then some GATE_FANOUT else c.typeOf x :=
    fun x => by rw [← hc0, typeOf_newGate, hL]
  have i0 : c0.inputGates = c.inputGates := by
    rw [← hc0]
    have : ¬ GATE_FANOUT = GATE_PI := by decide
    simp [Circuit.newGate, this]
  have o0 : c0.outputGates = c.outputGates := by rw [← hc0]; rfl
  -- g->replace_gateOutput(go[j], newFanoutGate)
  obtain ⟨gg, hgg, ggi, ggo, ggt⟩ := exists_gate (c := c0) (g := g) (by omega)
  have e1 : gg.replace_gateOutput h L = some { gg with gateOutputs := ro } := by
    simp [Gate.replace_gateOutput, ggo, s0, hro]
  generalize hcA : c0.putGate g { gg with gateOutputs := ro } = cA
  have lA : cA.gates.length = L + 1 := by rw [← hcA, length_putGate, l0]
  have pA : ∀ x, cA.preds x = c.preds x := fun x => by
    rw [← hcA, preds_putGate, p0]
    by_cases e : g = x
    · subst e; simp [ggi, p0]
    · simp [e]
  have sA : ∀ x, cA.succs x = if x = g then ro else c.succs x := fun x => by
    rw [← hcA, succs_putGate, s0, l0]
    by_cases e : g = x
    · subst e; simp; omega
    · have e' : ¬ x = g := fun k => e k.symm
      simp [e, e']
  have tA : ∀ x, cA.typeOf x = if x = L then some GATE_FANOUT else c.typeOf x := fun x => by
    rw [← hcA, typeOf_putGate, t0, l0]
    by_cases e : g = x
    · subst e
      have hne : ¬ g = L := by omega
      have hlt : g < L + 1 := by omega
      rw [if_pos ⟨rfl, hlt⟩, if_neg hne]
      show some gg.gateType = c.typeOf g
      rw [ggt, t0, if_neg hne]
    · rw [if_neg (fun k => e k.1)]
  -- newFanoutGate->set_gateInput(g)
  obtain ⟨n1, hn1, n1i, n1o, n1t⟩ := exists_gate (c := cA) (g := L) (by omega)
  generalize hc2 : cA.putGate L (n1.set_gateInput g) = c2
  have l2 : c2.gates.length = L + 1 := by rw [← hc2, length_putGate, lA]
  have hpL : c.preds L = [] := preds_out_of_range (by omega)
  have hsL : c.succs L = [] := succs_out_of_range (by omega)
  have p2 : ∀ x, c2.preds x = if x = L then [g] else c.preds x := fun x => by
    rw [← hc2, preds_putGate, pA, lA]
    by_cases e : L = x
    · subst e; simp [Gate.set_gateInput, n1i, pA, hpL]
    · have e' : ¬ x = L := fun k => e k.symm
      simp [e, e']
  have s2 : ∀ x, c2.succs x = if x = g then ro else c.succs x := fun x => by
    rw [← hc2, succs_putGate, sA, lA]
    by_cases e : L = x
    · subst e
      have : ¬ L = g := by omega
      simp [Gate.set_gateInput, n1o, sA, this]
    · simp [e]
  have t2 : ∀ x, c2.typeOf x = if x = L then some GATE_FANOUT else c.typeOf x := fun x => by
    rw [← hc2, typeOf_putGate, tA, lA]
    by_cases e : L = x
    · subst e
      rw [if_pos ⟨rfl, Nat.lt_succ_self L⟩, if_pos rfl]
      show some n1.gateType = some GATE_FANOUT
      rw [n1t, tA, if_pos rfl]
    · rw [if_neg (fun k => e k.1)]
  -- go[j]->replace_gateInput(g, newFanoutGate)
  obtain ⟨hg2, hhg, hhi, hho, hht⟩ := exists_gate (c := c2) (g := h) (by omega)
  have hhL : ¬ h = L := by omega
  have e3 : hg2.replace_gateInput g L = some { hg2 with gateInputs := ri } := by
    simp [Gate.replace_gateInput, hhi, p2, hhL, hri]
  generalize hcB : c2.putGate h { hg2 with gateInputs := ri } = cB
  have lB : cB.gates.length = L + 1 := by rw [← hcB, length_putGate, l2]
  have pB : ∀ x, cB.preds x = if x = L then [g] else if x = h then ri else c.preds x :=
    fun x => by
      rw [← hcB, preds_putGate, p2, l2]
      by_cases e : h = x
      · subst e; simp [hhL]; omega
      · have e' : ¬ x = h := fun k => e k.symm
        simp [e, e']
  have sB : ∀ x, cB.succs x = if x = g then ro else c.succs x := fun x => by
    rw [← hcB, succs_putGate, s2]
    by_cases e : h = x
    · subst e; simp [hho, s2]
    · simp [e]
  have tB : ∀ x, cB.typeOf x = if x = L then some GATE_FANOUT else c.typeOf x := fun x => by
    rw [← hcB, typeOf_putGate, t2, l2]
    by_cases e : h = x
    · subst e
      have hlt : h < L + 1 := by omega
      rw [if_pos ⟨rfl, hlt⟩, if_neg hhL]
      show some hg2.gateType = c.typeOf h
      rw [hht, t2, if_neg hhL]
    · rw [if_neg (fun k => e k.1)]
  -- newFanoutGate->set_gateOutput(go[j])
  obtain ⟨n2, hn2, n2i, n2o, n2t⟩ := exists_gate (c := cB) (g := L) (by omega)
  have hgL : ¬ L = g := by omega
  refine ⟨cB.putGate L (n2.set_gateOutput h), ?_, by rw [length_putGate, lB], ?_, ?_, ?_, ?_, ?_⟩
  · simp only [insertFanout, hL, hc0, hgg, e1, hcA, onGate_eq hn1, hc2, hhg, e3, hcB,
      onGate_eq hn2]
  · intro x
    rw [preds_putGate, pB, lB]
    by_cases e : L = x
    · subst e; simp [Gate.set_gateOutput, n2i, pB]
    · simp [e]
  · intro x
    rw [succs_putGate, sB, lB]
    by_cases e : L = x
    · subst e
      simp [Gate.set_gateOutput, n2o, sB, hgL, hsL]
    · have e' : ¬ x = L := fun k => e k.symm
      simp [e, e']
  · intro x
    rw [typeOf_putGate, tB, lB]
    by_cases e : L = x
    · subst e
      rw [if_pos ⟨rfl, Nat.lt_succ_self L⟩, if_pos rfl]
      show some n2.gateType = some GATE_FANOUT
      rw [n2t, tB, if_pos rfl]
    · rw [if_neg (fun k => e k.1)]
  · show cB.inputGates = c.inputGates
    rw [← hcB, ← hc2, ← hcA]
    exact i0
  · show cB.outputGates = c.outputGates
    rw [← hcB, ← hc2, ← hcA]
    exact o0

/-! ### The fanout pass: inner loop -/

theorem linked_insertFanout {c c1 : Circuit} {g h : Nat} {ro ri : List Nat}
    (hl : Linked c) (hg : g < c.gates.length) (hh : h < c.gates.length)
    (hro : replaceFirst h c.gates.length (c.succs g) = some ro)
    (hri : replaceFirst g c.gates.length (c.preds h) = some ri)
    (hp : ∀ x, c1.preds x = if x = c.gates.length then [g] else if x = h then ri else c.preds x)
    (hs : ∀ x, c1.succs x = if x = c.gates.length then [h] else if x = g then ro else c.succs x) :
    Linked c1 := by
  generalize hL : c.gates.length = L at *
  have hgL : g ≠ L := by omega
  have hhL : h ≠ L := by omega
  have cro := replaceFirst_count hhL hro
  have cri := replaceFirst_count hgL hri
  have zp : ∀ b, (c.preds b).count L = 0 := fun b => by
    rw [hl L b, succs_out_of_range (by omega)]; rfl
  have zs : ∀ a, (c.succs a).count L = 0 := fun a => by
    rw [← hl a L, preds_out_of_range (by omega)]; rfl
  have hpL : c.preds L = [] := preds_out_of_range (by omega)
  have hsL : c.succs L = [] := succs_out_of_range (by omega)
  intro a b
  rw [hp b, hs a]
  have h1 := cro b
  have h2 := cri a
  have h3 := hl a b
  have h4 := zp b
  have h5 := zs a
  have h6 := hl a h
  have h7 := hl g b
  by_cases hbL : b = L
  · subst hbL
    by_cases haL : a = b
    · subst haL
      simp [List.count_singleton, hgL, hhL, Ne.symm hgL, Ne.symm hhL]
    · by_cases hag : a = g
      · subst hag
        simp only [↓reduceIte, haL, List.count_singleton, beq_self_eq_true]
        simp only [↓reduceIte, hhL.symm] at h1
        omega
      · simp only [↓reduceIte, haL, hag, List.count_singleton]
        have : ¬ g = a := fun e => hag e.symm
        simp [this, h5]
  · by_cases hbh : b = h
    · subst hbh
      simp only [hbL, ↓reduceIte]
      by_cases haL : a = L
      · subst haL
        simp only [↓reduceIte, List.count_singleton, beq_self_eq_true]
        simp only [↓reduceIte, Ne.symm hgL] at h2
        omega
      · by_cases hag : a = g
        · subst hag
          simp only [haL, ↓reduceIte]
          simp only [↓reduceIte, hbL] at h1
          simp only [↓reduceIte, haL] at h2
          omega
        · simp only [haL, hag, ↓reduceIte]
          simp only [hag, ↓reduceIte, haL] at h2
          omega
    · simp only [hbL, hbh, ↓reduceIte]
      by_cases haL : a = L
      · subst haL
        have : ¬ h = b := fun e => hbh e.symm
        simp [List.count_singleton, this, h4]
      · by_cases hag : a = g
        · subst hag
          simp only [haL, ↓reduceIte]
          simp only [hbh, ↓reduceIte, hbL] at h1
          omega
        · simp only [haL, hag, ↓reduceIte]
          exact h3

theorem splitOutputs_spec {n0 i : Nat} {cs : Circuit} (name : String) :
    ∀ (rest : List Nat) (c : Circuit) (F : List Nat) (j : Nat), InnerInv n0 i cs c F rest →
      ∃ c1 F1, splitOutputs i name c rest j = some c1 ∧ InnerInv n0 i cs c1 F1 [] ∧
        c1.inputGates = c.inputGates ∧ c1.outputGates = c.outputGates := by
  intro rest
  induction rest with
  | nil => intro c F j h; exact ⟨c, F, rfl, h, rfl, rfl⟩
  | cons h rest ih =>
    intro c F j hinv
    obtain ⟨⟨hn0, hl, hbr, hold⟩, hi, hoth, hsi, hF, hrest⟩ := hinv
    have hhn : h < n0 := hrest h (List.mem_cons_self _ _)
    have hil : i < c.gates.length := by omega
    have hhl : h < c.gates.length := by omega
    have hnotF : h ∉ F := fun hm => by have := hF h hm; omega
    have hro : replaceFirst h c.gates.length (c.succs i)
        = some (F ++ c.gates.length :: rest) := by
      rw [hsi]; exact replaceFirst_append F rest hnotF
    have himem : i ∈ c.preds h := by
      rw [hl.mem_iff h i, hsi]
      exact List.mem_append_right _ (List.mem_cons_self _ _)
    obtain ⟨ri, hri⟩ := @replaceFirst_of_mem i c.gates.length _ himem
    obtain ⟨c1, e1, hlen1, hp1, hs1, ht1, hi1, ho1⟩ :=
      insertFanout_spec name j hil hhl hro hri
    have hinv1 : InnerInv n0 i cs c1 (F ++ [c.gates.length]) rest := by
      refine ⟨⟨by omega, linked_insertFanout hl hil hhl hro hri hp1 hs1, ?_, ?_⟩, hi, ?_, ?_,
        ?_, fun s hs => hrest s (List.mem_cons_of_mem _ hs)⟩
      · intro g hg1 hg2
        rw [ht1, hp1, hs1]
        by_cases hgL : g = c.gates.length
        · simp [hgL]
        · have hgh : ¬ g = h := by omega
          have hgi : ¬ g = i := by omega
          simp only [hgL, ↓reduceIte, hgh, hgi]
          exact hbr g hg1 (by omega)
      · intro g hg
        rw [ht1]
        have : ¬ g = c.gates.length := by omega
        simp only [this, ↓reduceIte]
        exact hold g hg
      · intro g hg hgi
        rw [hs1]
        have : ¬ g = c.gates.length := by omega
        simp only [this, ↓reduceIte, hgi]
        exact hoth g hg hgi
      · rw [hs1]
        have : ¬ i = c.gates.length := by omega
        simp [this]
      · intro f hf
        rcases List.mem_append.mp hf with e | e
        · exact hF f e
        · rw [List.mem_singleton.mp e]; exact hn0
    obtain ⟨c2, F2, e2, hinv2, hi2, ho2⟩ := ih c1 (F ++ [c.gates.length]) (j + 1) hinv1
    exact ⟨c2, F2, by simp [splitOutputs, e1, e2], hinv2, hi2.trans hi1, ho2.trans ho1⟩

/-! ### The fanout pass: outer loop -/

theorem SplitInv.mono {n0 : Nat} {out0 : Nat → List Nat} {i j : Nat} {c : Circuit}
    (h : SplitInv n0 out0 i c) (hi : n0 ≤ i) (hj : n0 ≤ j) : SplitInv n0 out0 j c := by
  obtain ⟨hb, h4, h5, h6⟩ := h
  refine ⟨hb, ?_, ?_, h6⟩
  · intro g hg hor
    apply h4 g hg
    rcases hor with e | e
    · omega
    · exact Or.inr e
  · intro g hg _ hlen
    exact h5 g hg (by omega) hlen

theorem fanoutPass_step {n0 : Nat} {out0 : Nat → List Nat} {i : Nat} {c : Circuit}
    (h : SplitInv n0 out0 i c) (hi : i < c.gates.length) :
    ∃ c1, (∀ fuel, fanoutPass (fuel + 1) i c = fanoutPass fuel (i + 1) c1) ∧
      SplitInv n0 out0 (i + 1) c1 ∧ c1.inputGates = c.inputGates ∧
      c1.outputGates = c.outputGates ∧ (n0 ≤ i → c1 = c) := by
  obtain ⟨hb, h4, h5, h6⟩ := h
  obtain ⟨hn0, hl, hbr, hold⟩ := hb
  obtain ⟨gi, hgi, _, gio, git⟩ := exists_gate hi
  have hskip : SplitInv n0 out0 (i + 1) c → ¬ (gi.gateType ≠ GATE_FANOUT ∧
      gi.gateOutputs.length > 1) →
      ∃ c1, (∀ fuel, fanoutPass (fuel + 1) i c = fanoutPass fuel (i + 1) c1) ∧
        SplitInv n0 out0 (i + 1) c1 ∧ c1.inputGates = c.inputGates ∧
        c1.outputGates = c.outputGates ∧ (n0 ≤ i → c1 = c) := by
    intro hinv hcond
    refine ⟨c, fun fuel => ?_, hinv, rfl, rfl, fun _ => rfl⟩
    simp only [fanoutPass, hi, ↓reduceIte, hgi, hcond]
  by_cases hin : i < n0
  · have hsi : c.succs i = out0 i := h4 i hin (Or.inl (le_refl i))
    by_cases hlen : 1 < (out0 i).length
    · -- the gate is split
      have hty : gi.gateType ≠ GATE_FANOUT := by
        intro e
        apply hold i hin
        rw [← git, e]
      have hinner : InnerInv n0 i c c [] (out0 i) :=
        ⟨⟨hn0, hl, hbr, hold⟩, hin, fun _ _ _ => rfl, by simpa using hsi,
          fun _ hf => absurd hf (List.not_mem_nil _), h6 i hin⟩
      obtain ⟨c1, F1, e1, ⟨hb1, _, hoth1, hsi1, hF1, _⟩, hi1, ho1⟩ :=
        splitOutputs_spec gi.outputName (out0 i) c [] 0 hinner
      refine ⟨c1, fun fuel => ?_, ⟨hb1, ?_, ?_, h6⟩, hi1, ho1, fun hle => by omega⟩
      · have hcond : gi.gateType ≠ GATE_FANOUT ∧ gi.gateOutputs.length > 1 :=
          ⟨hty, by rw [gio, hsi]; exact hlen⟩
        rw [gio, hsi] at hcond
        simp only [fanoutPass, hi, ↓reduceIte, hgi, gio, hsi, e1]
        rw [if_pos hcond]
      · intro g hg hor
        have hgi' : g ≠ i := by
          intro e
          subst e
          rcases hor with e | e <;> omega
        rw [hoth1 g hg hgi']
        apply h4 g hg
        rcases hor with e | e
        · exact Or.inl (by omega)
        · exact Or.inr e
      · intro g hg hgi' hglen s hs
        by_cases e : g = i
        · subst e
          rw [hsi1, List.append_nil] at hs
          exact hF1 s hs
        · rw [hoth1 g hg e] at hs
          exact h5 g hg (by omega) hglen s hs
    · -- at most one successor: nothing happens
      apply hskip
      · refine ⟨⟨hn0, hl, hbr, hold⟩, ?_, ?_, h6⟩
        · intro g hg hor
          apply h4 g hg
          rcases hor with e | e
          · exact Or.inl (by omega)
          · exact Or.inr e
        · intro g hg hgi' hglen
          have : g ≠ i := by
            intro e; subst e; exact hlen hglen
          exact h5 g hg (by omega) hglen
      · intro hcond
        rw [gio, hsi] at hcond
        exact hlen hcond.2
  · -- an appended gate of type FANOUT: nothing happens
    apply hskip
    · exact SplitInv.mono ⟨⟨hn0, hl, hbr, hold⟩, h4, h5, h6⟩ (by omega) (by omega)
    · intro hcond
      have := (hbr i (by omega) hi).1
      rw [← git, Option.some.injEq] at this
      exact hcond.1 this

theorem fanoutPass_partial {n0 : Nat} {out0 : Nat → List Nat} :
    ∀ (fuel i : Nat) (c c3 : Circuit), SplitInv n0 out0 i c →
      fanoutPass fuel i c = some c3 →
      SplitInv n0 out0 c3.gates.length c3 ∧ c3.inputGates = c.inputGates ∧
        c3.outputGates = c.outputGates := by
  intro fuel
  induction fuel with
  | zero =>
    intro i c c3 hinv h
    simp only [fanoutPass] at h
    split_ifs at h with hi
    cases h
    exact ⟨hinv.mono (by have := hinv.1.1; omega) hinv.1.1, rfl, rfl⟩
  | succ fuel ih =>
    intro i c c3 hinv h
    by_cases hi : i < c.gates.length
    · obtain ⟨c1, hstep, hinv1, hi1, ho1, _⟩ := fanoutPass_step hinv hi
      rw [hstep fuel] at h
      obtain ⟨k1, k2, k3⟩ := ih (i + 1) c1 c3 hinv1 h
      exact ⟨k1, k2.trans hi1, k3.trans ho1⟩
    · simp only [fanoutPass, hi, ↓reduceIte, Option.some.injEq] at h
      subst h
      exact ⟨hinv.mono (by have := hinv.1.1; omega) hinv.1.1, rfl, rfl⟩

theorem fanoutPass_total_tail {n0 : Nat} {out0 : Nat → List Nat} :
    ∀ (d i : Nat) (c : Circuit), SplitInv n0 out0 i c → n0 ≤ i → c.gates.length - i = d →
      ∀ fuel, d ≤ fuel → fanoutPass fuel i c = some c := by
  intro d
  induction d with
  | zero =>
    intro i c _ _ hd fuel _
    have hi : ¬ i < c.gates.length := by omega
    cases fuel <;> simp [fanoutPass, hi]
  | succ d ih =>
    intro i c hinv hle hd fuel hfuel
    have hi : i < c.gates.length := by omega
    obtain ⟨c1, hstep, hinv1, _, _, hsame⟩ := fanoutPass_step hinv hi
    have e := hsame hle
    subst e
    obtain ⟨f, rfl⟩ : ∃ f, fuel = f + 1 := ⟨fuel - 1, by omega⟩
    rw [hstep f]
    exact ih (i + 1) c1 hinv1 (by omega) (by omega) f (by omega)

theorem fanoutPass_total {n0 : Nat} {out0 : Nat → List Nat} :
    ∀ (d i : Nat) (c : Circuit), SplitInv n0 out0 i c → n0 - i = d →
      ∃ F c3, ∀ fuel, F ≤ fuel → fanoutPass fuel i c = some c3 := by
  intro d
  induction d with
  | zero =>
    intro i c hinv hd
    exact ⟨c.gates.length - i, c, fun fuel hf =>
      fanoutPass_total_tail _ i c hinv (by omega) rfl fuel hf⟩
  | succ d ih =>
    intro i c hinv hd
    have hi : i < c.gates.length := by have := hinv.1.1; omega
    obtain ⟨c1, hstep, hinv1, _, _, _⟩ := fanoutPass_step hinv hi
    obtain ⟨F, c3, hF⟩ := ih (i + 1) c1 hinv1 (by omega)
    refine ⟨F + 1, c3, fun fuel hf => ?_⟩
    obtain ⟨f, rfl⟩ : ∃ f, fuel = f + 1 := ⟨fuel - 1, by omega⟩
    rw [hstep f]
    exact hF f (by omega)

/-! ### Name resolution succeeds when every name resolves -/

theorem findGateLoop_congr (name : String) :
    ∀ (l l1 : List Gate), l1.map Gate.outputName = l.map Gate.outputName →
      ∀ (i : Nat) (res : Option Nat), findGateLoop name l1 i res = findGateLoop name l i res := by
  intro l
  induction l with
  | nil =>
    intro l1 h i res
    cases l1 with
    | nil => rfl
    | cons _ _ => simp at h
  | cons g gs ih =>
    intro l1 h i res
    cases l1 with
    | nil => simp at h
    | cons g1 gs1 =>
      simp only [List.map_cons, List.cons.injEq] at h
      simp only [findGateLoop, h.1]
      rw [ih gs1 h.2, ih gs1 h.2]

theorem findGateByName_congr {c c1 : Circuit} (h : c1.names = c.names) (name : String) :
    c1.findGateByName name = c.findGateByName name := by
  have h1 : c1.gates.map Gate.outputName = c.gates.map Gate.outputName := by
    have := congrArg (List.map Prod.fst) h
    simpa [Circuit.names, List.map_map, Function.comp] using this
  unfold Circuit.findGateByName
  rw [findGateLoop_congr name c.gates c1.gates h1]

theorem names_putGate {c : Circuit} {p : Nat} {gate x : Gate} (hp : c.gates[p]? = some gate)
    (h1 : x.outputName = gate.outputName) (h2 : x.inputName = gate.inputName) :
    (c.putGate p x).names = c.names := by
  unfold Circuit.names
  apply List.ext_getElem?
  intro g
  simp only [List.getElem?_map, getElem?_putGate]
  have hlt : p < c.gates.length := (List.getElem?_eq_some.mp hp).1
  by_cases hpg : p = g
  · subst hpg; simp [hlt, hp, h1, h2]
  · simp [hpg]

theorem InputNamesResolve.congr {c c1 : Circuit} (h : c1.names = c.names)
    (hr : InputNamesResolve c) : InputNamesResolve c1 := by
  intro gate1 hmem n hn
  rw [findGateByName_congr h]
  have hm : (gate1.outputName, gate1.inputName) ∈ c.names := by
    rw [← h]
    exact List.mem_map.mpr ⟨gate1, hmem, rfl⟩
  obtain ⟨gate, hg, he⟩ := List.mem_map.mp hm
  simp only [Prod.mk.injEq] at he
  exact hr gate hg n (he.2 ▸ hn)

theorem resolveOutputs_total :
    ∀ (ns : List String) (c : Circuit), (∀ n ∈ ns, (c.findGateByName n).isSome = true) →
      ∃ c1, resolveOutputs c ns = some c1 := by
  intro ns
  induction ns with
  | nil => intro c _; exact ⟨c, rfl⟩
  | cons n ns ih =>
    intro c h
    obtain ⟨p, hp⟩ := Option.isSome_iff_exists.mp (h n (List.mem_cons_self _ _))
    obtain ⟨c1, hc1⟩ := ih { c with outputGates := c.outputGates ++ [p] }
      (fun m hm => h m (List.mem_cons_of_mem _ hm))
    exact ⟨c1, by simp only [resolveOutputs, hp]; exact hc1⟩

theorem linkNames_total (g : Nat) :
    ∀ (ns : List String) (c : Circuit), g < c.gates.length →
      (∀ n ∈ ns, (c.findGateByName n).isSome = true) →
      ∃ c1, linkNames g c ns = some c1 ∧ c1.names = c.names := by
  intro ns
  induction ns with
  | nil => intro c _ _; exact ⟨c, rfl, rfl⟩
  | cons n ns ih =>
    intro c hg h
    obtain ⟨inGate, hf⟩ := Option.isSome_iff_exists.mp (h n (List.mem_cons_self _ _))
    have hin := findGateByName_lt hf
    obtain ⟨gin, hgin, _⟩ := exists_gate hin
    have e1 := onGate_eq hgin (fun x => x.set_gateOutput g)
    have hn1 : (c.putGate inGate (gin.set_gateOutput g)).names = c.names :=
      names_putGate hgin rfl rfl
    obtain ⟨gg, hgg, _⟩ := exists_gate (c := c.putGate inGate (gin.set_gateOutput g))
      (g := g) (by rw [length_putGate]; exact hg)
    have e2 := onGate_eq hgg (fun x => x.set_gateInput inGate)
    have hn2 : ((c.putGate inGate (gin.set_gateOutput g)).putGate g
        (gg.set_gateInput inGate)).names = c.names :=
      (@names_putGate _ g gg (gg.set_gateInput inGate) hgg rfl rfl).trans hn1
    obtain ⟨c1, hc1, hnames⟩ := ih
      ((c.putGate inGate (gin.set_gateOutput g)).putGate g (gg.set_gateInput inGate))
      (by rw [length_putGate, length_putGate]; exact hg)
      (fun m hm => by
        rw [findGateByName_congr hn2]
        exact h m (List.mem_cons_of_mem _ hm))
    exact ⟨c1, by simp only [linkNames, hf, e1, e2]; exact hc1, hnames.trans hn2⟩

theorem linkGates_total :
    ∀ (is : List Nat) (c : Circuit), (∀ i ∈ is, i < c.gates.length) → InputNamesResolve c →
      ∃ c1, linkGates c is = some c1 := by
  intro is
  induction is with
  | nil => intro c _ _; exact ⟨c, rfl⟩
  | cons i is ih =>
    intro c hlt hr
    have hi := hlt i (List.mem_cons_self _ _)
    obtain ⟨gi, hgi, _⟩ := exists_gate hi
    obtain ⟨c1, hc1, hnames⟩ := linkNames_total i gi.inputName c hi
      (hr gi (List.getElem?_mem hgi))
    have hlen : c1.gates.length = c.gates.length := by
      have := congrArg List.length hnames
      simpa [Circuit.names] using this
    obtain ⟨c2, hc2⟩ := ih c1 (fun k hk => by
      rw [hlen]; exact hlt k (List.mem_cons_of_mem _ hk)) (hr.congr hnames)
    exact ⟨c2, by simp only [linkGates, hgi, hc1]; exact hc2⟩

theorem links_total {c : Circuit} (ho : OutputNamesResolve c) (hi : InputNamesResolve c) :
    ∃ c1 c2, resolveOutputs c c.outputNames = some c1 ∧
      linkGates c1 (List.range c1.gates.length) = some c2 := by
  obtain ⟨c1, hc1⟩ := resolveOutputs_total c.outputNames c ho
  obtain ⟨hg1, _⟩ := resolveOutputs_gates _ _ _ hc1
  have hn1 : c1.names = c.names := by unfold Circuit.names; rw [hg1]
  obtain ⟨c2, hc2⟩ := linkGates_total (List.range c1.gates.length) c1
    (fun i hi => List.mem_range.mp hi) (hi.congr hn1)
  exact ⟨c1, c2, hc1, hc2⟩

/-! ### `setupCircuit` as a whole -/

theorem splitInv_start {c c1 c2 : Circuit} (hp : Parsed c)
    (hres : resolveOutputs c c.outputNames = some c1)
    (hlink : linkGates c1 (List.range c1.gates.length) = some c2) :
    c2.gates.length = c.gates.length ∧ SplitInv c.gates.length c2.succs 0 c2 := by
  obtain ⟨hg1, _⟩ := resolveOutputs_gates _ _ _ hres
  have hp1 : Parsed c1 := by unfold Parsed; rw [hg1]; exact hp
  obtain ⟨hl, hlen, hty, _⟩ := linkGates_spec _ c1 c2 (linked_of_parsed hp1) hlink
  have hlen2 : c2.gates.length = c.gates.length := by rw [hlen, hg1]
  refine ⟨hlen2, ⟨by omega, hl, fun g h1 h2 => by omega, ?_⟩, fun _ _ _ => rfl,
    fun g _ hg0 => by omega, ?_⟩
  · intro g hg
    rw [hty g]
    have hg1' : g < c1.gates.length := by rw [hg1]; exact hg
    have hgate := List.getElem?_eq_getElem hg1'
    rw [typeOf_eq hgate]
    intro e
    exact (hp1 _ (List.getElem?_mem hgate)).2.2 (Option.some.inj e)
  · intro g _ s hs
    rw [← hlen2]
    exact mem_succs_lt hl hs

theorem typeOf_some {c : Circuit} {g : Nat} {t : Int} (h : c.typeOf g = some t) :
    ∃ gate, c.gates[g]? = some gate ∧ gate.gateType = t := by
  unfold Circuit.typeOf at h
  cases hg : c.gates[g]? with
  | none => simp [hg] at h
  | some gate =>
    simp only [hg, Option.map_some', Option.some.injEq] at h
    exact ⟨gate, rfl, h⟩

/-- What the fanout pass has established when its outer loop ends. -/
theorem splitInv_final {n0 : Nat} {out0 : Nat → List Nat} {c3 : Circuit}
    (h : SplitInv n0 out0 c3.gates.length c3) :
    (∀ (g : Nat) (gate : Gate), c3.gates[g]? = some gate → 1 < gate.gateOutputs.length →
      ∀ s ∈ gate.gateOutputs, ∃ sg, c3.gates[s]? = some sg ∧ sg.gateType = GATE_FANOUT) ∧
    (∀ (g : Nat) (gate : Gate), c3.gates[g]? = some gate →
      (gate.gateType = GATE_FANOUT ↔ n0 ≤ g) ∧
      (gate.gateType = GATE_FANOUT →
        gate.gateInputs.length = 1 ∧ gate.gateOutputs.length = 1)) ∧
    (∀ g < n0, (out0 g).length ≤ 1 → c3.succs g = out0 g) := by
  obtain ⟨⟨hn0, hl, hbr, hold⟩, h4, h5, h6⟩ := h
  refine ⟨?_, ?_, fun g hg hlen => h4 g hg (Or.inr hlen)⟩
  · intro g gate hg hlen s hs
    have hglt := (List.getElem?_eq_some.mp hg).1
    rw [← succs_eq hg] at hlen hs
    have hslt := mem_succs_lt hl hs
    by_cases hgn : g < n0
    · by_cases ho : 1 < (out0 g).length
      · exact typeOf_some (hbr s (h5 g hgn hglt ho s hs) hslt).1
      · rw [h4 g hgn (Or.inr (by omega))] at hlen
        exact absurd hlen ho
    · have := (hbr g (by omega) hglt).2.2
      omega
  · intro g gate hg
    have hglt := (List.getElem?_eq_some.mp hg).1
    have hfan : gate.gateType = GATE_FANOUT ↔ n0 ≤ g := by
      constructor
      · intro e
        by_contra hlt
        apply hold g (by omega)
        rw [typeOf_eq hg, e]
      · intro hle
        have := (hbr g hle hglt).1
        rw [typeOf_eq hg, Option.some.injEq] at this
        exact this
    refine ⟨hfan, fun e => ?_⟩
    have := hbr g (hfan.mp e) hglt
    rw [preds_eq hg, succs_eq hg] at this
    exact this.2

theorem linked_gates {c : Circuit} (hl : Linked c) (g h : Nat) (gg hh : Gate)
    (hg : c.gates[g]? = some gg) (hh1 : c.gates[h]? = some hh) :
    h ∈ gg.gateInputs ↔ g ∈ hh.gateOutputs := by
  rw [← preds_eq hg, ← succs_eq hh1]
  exact hl.mem_iff g h

theorem checkPointerConsistency_of {c : Circuit} (hl : Linked c)
    (hfan : ∀ (g : Nat) (gate : Gate), c.gates[g]? = some gate → 1 < gate.gateOutputs.length →
      ∀ s ∈ gate.gateOutputs, ∃ sg, c.gates[s]? = some sg ∧ sg.gateType = GATE_FANOUT) :
    c.checkPointerConsistency = true := by
  unfold Circuit.checkPointerConsistency
  rw [Bool.and_eq_true, List.all_eq_true, List.all_eq_true]
  constructor
  · rintro ⟨g, gate⟩ hmem
    have hg : c.gates[g]? = some gate := List.mk_mem_enum_iff_getElem?.mp hmem
    rw [Bool.and_eq_true]
    constructor
    · unfold inputsConsistent
      rw [List.all_eq_true]
      intro p hp
      have hp1 : p ∈ c.preds g := by rw [preds_eq hg]; exact hp
      obtain ⟨x, hx, _, hxo, _⟩ := exists_gate (mem_preds_lt hl hp1)
      simp only [hx, decide_eq_true_eq]
      rw [hxo]
      exact (hl.mem_iff g p).mp hp1
    · unfold outputsConsistent
      rw [List.all_eq_true]
      intro s hs
      have hs1 : s ∈ c.succs g := by rw [succs_eq hg]; exact hs
      obtain ⟨x, hx, hxi, _, _⟩ := exists_gate (mem_succs_lt hl hs1)
      simp only [hx, decide_eq_true_eq]
      rw [hxi]
      exact (hl.mem_iff s g).mpr hs1
  · intro gate hmem
    obtain ⟨g, hg⟩ := List.mem_iff_getElem?.mp hmem
    unfold fanoutConsistent
    split_ifs with hlen
    · rw [List.all_eq_true]
      intro s hs
      obtain ⟨sg, hsg, ht⟩ := hfan g gate hg hlen s hs
      simp [hsg, ht]
    · rfl

/-- C7: after `setupCircuit` on a circuit as the parser builds it (no pointers set, no gate of
type `FANOUT`), with `c2` the state between the linking loop and the fanout pass: every gate
with more than one successor has successors of type `FANOUT` only; the gates of type `FANOUT`
are exactly the appended ones, and each has exactly one predecessor and one successor; and a
gate that had at most one successor before the pass still has the same successor list. -/
theorem C7_fanout_split (c : Circuit) (fuel : Nat) (c3 : Circuit) (hp : Parsed c)
    (hrun : c.setupCircuit fuel = some c3) :
    ∃ c1 c2, resolveOutputs c c.outputNames = some c1 ∧
      linkGates c1 (List.range c1.gates.length) = some c2 ∧
      fanoutPass fuel 0 c2 = some c3 ∧
      (∀ (g : Nat) (gate : Gate), c3.gates[g]? = some gate → 1 < gate.gateOutputs.length →
        ∀ s ∈ gate.gateOutputs, ∃ sg, c3.gates[s]? = some sg ∧ sg.gateType = GATE_FANOUT) ∧
      (∀ (g : Nat) (gate : Gate), c3.gates[g]? = some gate →
        (gate.gateType = GATE_FANOUT ↔ c.gates.length ≤ g) ∧
        (gate.gateType = GATE_FANOUT →
          gate.gateInputs.length = 1 ∧ gate.gateOutputs.length = 1)) ∧
      (∀ (g : Nat) (gate2 : Gate), c2.gates[g]? = some gate2 →
        gate2.gateOutputs.length ≤ 1 →
        ∃ gate3, c3.gates[g]? = some gate3 ∧ gate3.gateOutputs = gate2.gateOutputs) := by
  unfold Circuit.setupCircuit at hrun
  cases hb : c.buildLinks fuel with
  | none => simp [hb] at hrun
  | some c3' =>
    simp only [hb] at hrun
    split_ifs at hrun
    cases hrun
    unfold Circuit.buildLinks at hb
    cases hres : resolveOutputs c c.outputNames with
    | none => simp [hres] at hb
    | some c1 =>
      simp only [hres] at hb
      cases hlink : linkGates c1 (List.range c1.gates.length) with
      | none => simp [hlink] at hb
      | some c2 =>
        simp only [hlink] at hb
        obtain ⟨hlen2, hinv⟩ := splitInv_start hp hres hlink
        obtain ⟨hfin, _, _⟩ := fanoutPass_partial fuel 0 c2 c3 hinv hb
        obtain ⟨ha, hbb, hc⟩ := splitInv_final hfin
        refine ⟨c1, c2, rfl, hlink, hb, ha, hbb, ?_⟩
        intro g gate2 hg2 hlen
        have hglt : g < c.gates.length := by
          rw [← hlen2]; exact (List.getElem?_eq_some.mp hg2).1
        have hs := hc g hglt (by rw [succs_eq hg2]; exact hlen)
        obtain ⟨gate3, hg3, _, hg3o, _⟩ := exists_gate (c := c3) (g := g) (by
          have := hfin.1.1; omega)
        exact ⟨gate3, hg3, by rw [hg3o, hs, succs_eq hg2]⟩

/-- C7 on the netlist `Y = AND(A, A)`: both successors of `A` become branches. -/
theorem C7_fanout_split_witness :
    ∃ c1 c2, resolveOutputs twiceNetlist twiceNetlist.outputNames = some c1 ∧
      linkGates c1 (List.range c1.gates.length) = some c2 ∧
      fanoutPass 4 0 c2 = some twiceCircuit ∧
      (∀ (g : Nat) (gate : Gate), twiceCircuit.gates[g]? = some gate →
        1 < gate.gateOutputs.length →
        ∀ s ∈ gate.gateOutputs,
          ∃ sg, twiceCircuit.gates[s]? = some sg ∧ sg.gateType = GATE_FANOUT) ∧
      (∀ (g : Nat) (gate : Gate), twiceCircuit.gates[g]? = some gate →
        (gate.gateType = GATE_FANOUT ↔ twiceNetlist.gates.length ≤ g) ∧
        (gate.gateType = GATE_FANOUT →
          gate.gateInputs.length = 1 ∧ gate.gateOutputs.length = 1)) ∧
      (∀ (g : Nat) (gate2 : Gate), c2.gates[g]? = some gate2 →
        gate2.gateOutputs.length ≤ 1 →
        ∃ gate3, twiceCircuit.gates[g]? = some gate3 ∧
          gate3.gateOutputs = gate2.gateOutputs) :=
  C7_fanout_split twiceNetlist 4 twiceCircuit (by decide) (by decide)

/-- C8: on a circuit as the parser builds it in which every output name and every declared
gate input name resolves to exactly one gate (`findGateByName` returns a gate for it): with
enough fuel for the fanout pass `setupCircuit` succeeds; and whenever the three loops of
`setupCircuit` complete, no assertion of `checkPointerConsistency` fails and, for all gates
`g` and `h`, `h` occurs in the predecessor list of `g` iff `g` occurs in the successor list
of `h`. -/
theorem C8_links_consistent (c : Circuit) (hp : Parsed c) (ho : OutputNamesResolve c)
    (hi : InputNamesResolve c) :
    (∃ F c3, ∀ fuel, F ≤ fuel → c.setupCircuit fuel = some c3) ∧
    ∀ (fuel : Nat) (c3 : Circuit), c.buildLinks fuel = some c3 →
      c3.checkPointerConsistency = true ∧ c.setupCircuit fuel = some c3 ∧
      ∀ (g h : Nat) (gg hh : Gate), c3.gates[g]? = some gg → c3.gates[h]? = some hh →
        (h ∈ gg.gateInputs ↔ g ∈ hh.gateOutputs) := by
  obtain ⟨c1, c2, hres, hlink⟩ := links_total ho hi
  obtain ⟨_, hinv⟩ := splitInv_start hp hres hlink
  have hbuild : ∀ fuel, c.buildLinks fuel = fanoutPass fuel 0 c2 := by
    intro fuel
    simp [Circuit.buildLinks, hres, hlink]
  have key : ∀ (fuel : Nat) (c3 : Circuit), c.buildLinks fuel = some c3 →
      c3.checkPointerConsistency = true ∧ c.setupCircuit fuel = some c3 ∧
      ∀ (g h : Nat) (gg hh : Gate), c3.gates[g]? = some gg → c3.gates[h]? = some hh →
        (h ∈ gg.gateInputs ↔ g ∈ hh.gateOutputs) := by
    intro fuel c3 hb
    have hb' := hb
    rw [hbuild] at hb'
    obtain ⟨hfin, _, _⟩ := fanoutPass_partial fuel 0 c2 c3 hinv hb'
    have hchk := checkPointerConsistency_of hfin.1.2.1 (splitInv_final hfin).1
    exact ⟨hchk, by simp [Circuit.setupCircuit, hb, hchk], linked_gates hfin.1.2.1⟩
  refine ⟨?_, key⟩
  obtain ⟨F, c3, hF⟩ := fanoutPass_total _ 0 c2 hinv rfl
  refine ⟨F, c3, fun fuel hf => ?_⟩
  exact (key fuel c3 (by rw [hbuild]; exact hF fuel hf)).2.1

/-- C8 on the netlist `Y = AND(A, A)`, where one gate feeds the same successor twice. -/
theorem C8_links_consistent_witness :
    (∃ F c3, ∀ fuel, F ≤ fuel → twiceNetlist.setupCircuit fuel = some c3) ∧
    ∀ (fuel : Nat) (c3 : Circuit), twiceNetlist.buildLinks fuel = some c3 →
      c3.checkPointerConsistency = true ∧ twiceNetlist.setupCircuit fuel = some c3 ∧
      ∀ (g h : Nat) (gg hh : Gate), c3.gates[g]? = some gg → c3.gates[h]? = some hh →
        (h ∈ gg.gateInputs ↔ g ∈ hh.gateOutputs) :=
  C8_links_consistent twiceNetlist (by decide) (by decide) (by decide)

/-! ## Contracts of the gate evaluators -/

/-- C11: for a controlling value `c` and an inversion flag `i` in {0, 1}, `evalGate` returns
`c XOR i` (written `(c + i) % 2`) if an input equals `c` or the inputs contain both D and
D-bar, whether or not an X is present; otherwise X if an input is X; otherwise D (D-bar when
`i = 1`) if an input is D; otherwise D-bar (D when `i = 1`) if an input is D-bar; otherwise
`NOT (c XOR i)`. This holds for every input list, in particular for the lists over
{0, 1, D, D-bar, X}. -/
theorem C11_evalGate_contract (ins : List Int) (c i : Int) (hc : c = 0 ∨ c = 1)
    (hi : i = 0 ∨ i = 1) :
    evalGate ins c i =
      if c ∈ ins ∨ (LOGIC_D ∈ ins ∧ LOGIC_DBAR ∈ ins) then (c + i) % 2
      else if LOGIC_X ∈ ins then LOGIC_X
      else if LOGIC_D ∈ ins then (if i = 0 then LOGIC_D else LOGIC_DBAR)
      else if LOGIC_DBAR ∈ ins then (if i = 0 then LOGIC_DBAR else LOGIC_D)
      else 1 - (c + i) % 2 := by
  unfold evalGate
  rcases hc with rfl | rfl <;> rcases hi with rfl | rfl <;>
    by_cases h0 : (0 : Int) ∈ ins <;> by_cases h1 : (1 : Int) ∈ ins <;>
    by_cases hD : LOGIC_D ∈ ins <;> by_cases hB : LOGIC_DBAR ∈ ins <;>
    by_cases hX : LOGIC_X ∈ ins <;>
    simp [h0, h1, hD, hB, hX, LogicNot]

/-- C11 on a NAND gate with the inputs D, D-bar and X: the result is `0 XOR 1 = 1`. -/
theorem C11_evalGate_contract_witness :
    evalGate [LOGIC_D, LOGIC_DBAR, LOGIC_X] 0 1 = LOGIC_ONE :=
  (C11_evalGate_contract [LOGIC_D, LOGIC_DBAR, LOGIC_X] 0 1 (by decide) (by decide)).trans
    (by decide)
theorem countOnes_count :
    ∀ (vs : List Int) (m n : Nat),
      (∀ v ∈ vs, v = LOGIC_ZERO ∨ v = LOGIC_ONE ∨ v = LOGIC_D ∨ v = LOGIC_DBAR) →
      countOnes vs m n =
        some (m + vs.countP (fun v => decide (v = LOGIC_ONE ∨ v = LOGIC_D)),
          n + vs.countP (fun v => decide (v = LOGIC_ONE ∨ v = LOGIC_DBAR))) := by
  intro vs
  induction vs with
  | nil => intro m n _; simp [countOnes]
  | cons v vs ih =>
    intro m n h
    have hv := h v (List.mem_cons_self _ _)
    have ih1 := fun m n => ih m n (fun x hx => h x (List.mem_cons_of_mem _ hx))
    rcases hv with rfl | rfl | rfl | rfl <;>
      simp [countOnes, ih1, List.countP_cons] <;> omega

/-- C12: on an input list over {0, 1, D, D-bar, X}, `EvalXORGate` returns X if an input is X;
otherwise, with `p` the parity of the number of inputs in {1, D} and `q` the parity of the
number of inputs in {1, D-bar}, it returns for `inv = 0` the value 0 for (even, even), 1 for
(odd, odd), D for (odd, even) and D-bar for (even, odd), and for `inv = 1` the complements
1, 0, D-bar and D. -/
theorem C12_EvalXORGate_parity (ins : List Int) (inv : Int) (hins : ∀ v ∈ ins, IsLogic v)
    (hinv : inv = 0 ∨ inv = 1) :
    EvalXORGate ins inv =
      if LOGIC_X ∈ ins then LOGIC_X
      else
        let p := ins.countP (fun v => decide (v = LOGIC_ONE ∨ v = LOGIC_D)) % 2
        let q := ins.countP (fun v => decide (v = LOGIC_ONE ∨ v = LOGIC_DBAR)) % 2
        if p = 0 ∧ q = 0 then (if inv = 0 then LOGIC_ZERO else LOGIC_ONE)
        else if p = 1 ∧ q = 1 then (if inv = 0 then LOGIC_ONE else LOGIC_ZERO)
        else if p = 1 ∧ q = 0 then (if inv = 0 then LOGIC_D else LOGIC_DBAR)
        else (if inv = 0 then LOGIC_DBAR else LOGIC_D) := by
  unfold EvalXORGate
  by_cases hX : LOGIC_X ∈ ins
  · simp [hX]
  · have h4 : ∀ v ∈ ins, v = LOGIC_ZERO ∨ v = LOGIC_ONE ∨ v = LOGIC_D ∨ v = LOGIC_DBAR := by
      intro v hv
      rcases hins v hv with h | h | h | h | h
      · exact Or.inl h
      · exact Or.inr (Or.inl h)
      · exact Or.inr (Or.inr (Or.inl h))
      · exact Or.inr (Or.inr (Or.inr h))
      · exact absurd (h ▸ hv) hX
    rw [countOnes_count ins 0 0 h4]
    simp only [hX, ↓reduceIte, Nat.zero_add]
    generalize ins.countP (fun v => decide (v = LOGIC_ONE ∨ v = LOGIC_D)) = a
    generalize ins.countP (fun v => decide (v = LOGIC_ONE ∨ v = LOGIC_DBAR)) = b
    rcases Nat.mod_two_eq_zero_or_one a with hp | hp <;>
      rcases Nat.mod_two_eq_zero_or_one b with hq | hq <;>
      rcases hinv with rfl | rfl <;> simp [hp, hq, LogicNot]

/-- C12 on an XNOR gate with the inputs 1 and D: two fault-free ones and one faulty one, so
(even, odd), D-bar, and its complement D. -/
theorem C12_EvalXORGate_parity_witness :
    EvalXORGate [LOGIC_ONE, LOGIC_D] 1 = LOGIC_D :=
  (C12_EvalXORGate_parity [LOGIC_ONE, LOGIC_D] 1 (by decide) (by decide)).trans (by decide)
/-- C13: `setValueCheckFault(g, v)` on a gate `g` of the circuit stores D when `g` is
stuck-at-0 and `v = 1`, 0 when `g` is stuck-at-0 and `v` is D-bar, D-bar when `g` is
stuck-at-1 and `v = 0`, 1 when `g` is stuck-at-1 and `v` is D, and `v` in every other case;
the gate keeps all its other fields, its fault annotation among them, and no other gate and
no list of the circuit changes. -/
theorem C13_setValueCheckFault_contract (c : Circuit) (g : Nat) (gate : Gate) (v : Int)
    (hg : c.gates[g]? = some gate) :
    ∃ c1 w, setValueCheckFault c g v = some c1 ∧
      c1.gates[g]? = some { gate with gateValue := w } ∧
      (gate.faultType = FAULT_SA0 → v = LOGIC_ONE → w = LOGIC_D) ∧
      (gate.faultType = FAULT_SA0 → v = LOGIC_DBAR → w = LOGIC_ZERO) ∧
      (gate.faultType = FAULT_SA1 → v = LOGIC_ZERO → w = LOGIC_DBAR) ∧
      (gate.faultType = FAULT_SA1 → v = LOGIC_D → w = LOGIC_ONE) ∧
      (¬ (gate.faultType = FAULT_SA0 ∧ (v = LOGIC_ONE ∨ v = LOGIC_DBAR)) →
        ¬ (gate.faultType = FAULT_SA1 ∧ (v = LOGIC_ZERO ∨ v = LOGIC_D)) → w = v) ∧
      (∀ h, h ≠ g → c1.gates[h]? = c.gates[h]?) ∧
      c1.gates.length = c.gates.length ∧ c1.outputGates = c.outputGates ∧
      c1.inputGates = c.inputGates ∧ c1.outputNames = c.outputNames := by
  have hlt : g < c.gates.length := (List.getElem?_eq_some.mp hg).1
  refine ⟨c.putGate g (gate.setValue (faultedValue gate.faultType v)),
    faultedValue gate.faultType v, ?_, ?_, ?_, ?_, ?_, ?_, ?_, ?_, ?_, rfl, rfl, rfl⟩
  · simp [setValueCheckFault, Circuit.onGate, hg]
  · rw [getElem?_putGate]; simp [hlt, Gate.setValue]
  · intro h1 h2; simp [faultedValue, h1, h2]
  · intro h1 h2; simp [faultedValue, h1, h2]
  · intro h1 h2; simp [faultedValue, h1, h2]
  · intro h1 h2; simp [faultedValue, h1, h2]
  · intro h1 h2
    unfold faultedValue
    split_ifs with a b d e
    · exact absurd ⟨a.1, Or.inl a.2⟩ h1
    · exact absurd ⟨b.1, Or.inr b.2⟩ h1
    · exact absurd ⟨d.1, Or.inl d.2⟩ h2
    · exact absurd ⟨e.1, Or.inr e.2⟩ h2
    · rfl
  · intro h hne
    rw [getElem?_putGate]; simp [Ne.symm hne]
  · exact length_putGate _ _ _

/-- C13 on the AND circuit with `Y` stuck-at-0: writing 1 on `Y` stores D, `A` is untouched. -/
theorem C13_setValueCheckFault_contract_witness :
    ∃ c1, setValueCheckFault (andState LOGIC_ONE LOGIC_ONE LOGIC_UNSET FAULT_SA0) 2 LOGIC_ONE
        = some c1 ∧
      c1.getValue 2 = some LOGIC_D ∧
      c1.gates[0]? = (andState LOGIC_ONE LOGIC_ONE LOGIC_UNSET FAULT_SA0).gates[0]? := by
  obtain ⟨c1, w, h1, h2, h3, _, _, _, _, h8, _⟩ :=
    C13_setValueCheckFault_contract (andState LOGIC_ONE LOGIC_ONE LOGIC_UNSET FAULT_SA0) 2
      { gateID := 2, gateType := GATE_AND, gateInputs := [0, 1], gateOutputs := [],
        outputName := "Y", gateValue := LOGIC_UNSET, inputName := ["A", "B"],
        faultType := FAULT_SA0 } LOGIC_ONE rfl
  refine ⟨c1, h1, ?_, h8 0 (by decide)⟩
  rw [getValue_eq h2, h3 rfl rfl]
/-- C16: for every `int` value `i` and a gate vector that an `int` can count,
`Circuit::getGate(i)` returns the `i`-th gate when `0 <= i < getNumberGates()` and fails for
every other `i`; a negative `i` becomes at least `2^64 - 2^31` in the unsigned comparison
`i >= gates.size()`, hence out of range. -/
theorem C16_getGate_bounds (c : Circuit) (i : Int) (hi : -2 ^ 31 ≤ i ∧ i < 2 ^ 31)
    (hsize : c.gates.length < 2 ^ 31) :
    c.getNumberGates = (c.gates.length : Int) ∧
    (0 ≤ i ∧ i < c.getNumberGates →
      ∃ gate, c.getGate i = some gate ∧ c.gates[i.toNat]? = some gate) ∧
    (¬ (0 ≤ i ∧ i < c.getNumberGates) → c.getGate i = none) ∧
    (i < 0 → c.gates.length ≤ (i % 2 ^ 64).toNat ∧ c.getGate i = none) := by
  have hn : c.getNumberGates = (c.gates.length : Int) := by
    unfold Circuit.getNumberGates
    rw [Int.bmod_def]
    have h1 : ((c.gates.length : Int)) % ((2 ^ 32 : Nat) : Int) = (c.gates.length : Int) := by
      omega
    rw [h1, if_pos (by omega)]
  have hneg : i < 0 → c.gates.length ≤ (i % 2 ^ 64).toNat := by
    intro h
    omega
  refine ⟨hn, ?_, ?_, fun h => ⟨hneg h, ?_⟩⟩
  · rintro ⟨h0, h1⟩
    rw [hn] at h1
    have hu : (i % 2 ^ 64).toNat = i.toNat := by omega
    have hlt : i.toNat < c.gates.length := by omega
    refine ⟨c.gates[i.toNat], ?_, List.getElem?_eq_getElem hlt⟩
    unfold Circuit.getGate
    simp only [hu, ge_iff_le]
    rw [if_neg (by omega)]
    exact List.getElem?_eq_getElem hlt
  · intro h
    rw [hn] at h
    unfold Circuit.getGate
    simp only [ge_iff_le]
    rw [if_pos]
    by_cases h0 : 0 ≤ i
    · have : (c.gates.length : Int) ≤ i := by
        by_contra hc
        exact h ⟨h0, by simpa using hc⟩
      omega
    · exact hneg (by omega)
  · unfold Circuit.getGate
    simp only [ge_iff_le]
    rw [if_pos (hneg h)]

/-- C16 on the AND circuit (three gates): index 2 is the gate `Y`, the indices 3 and -1
fail. -/
theorem C16_getGate_bounds_witness :
    (andState LOGIC_X LOGIC_X LOGIC_X NOFAULT).getGate 3 = none ∧
    (andState LOGIC_X LOGIC_X LOGIC_X NOFAULT).getGate (-1) = none := by
  have h3 := (C16_getGate_bounds (andState LOGIC_X LOGIC_X LOGIC_X NOFAULT) 3
    (by decide) (by decide)).2.2.1
  have hm := (C16_getGate_bounds (andState LOGIC_X LOGIC_X LOGIC_X NOFAULT) (-1)
    (by decide) (by decide)).2.2.2
  exact ⟨h3 (by decide), (hm (by decide)).2⟩

/-! ## Objective selection and the D-frontier -/

/-- C20: if the fault node holds X, `getObjective` returns `true` with the objective
`(faultLocation, faultActivationVal)`; if it holds 0 or 1, it returns `false`. In both cases
the globals (the circuit with every gate value, and the D-frontier, which is neither read nor
recomputed) are as before the call. The activation value `main` derives is 1 for stuck-at-0
and 0 for stuck-at-1. -/
theorem C20_getObjective_activation (s : Podem) (fv : Int)
    (hfv : s.myCircuit.getValue s.faultLocation = some fv) :
    (fv = LOGIC_X → ∀ l : List Nat,
      getObjective { s with dFrontier := l }
        = some ({ s with dFrontier := l }, some (some s.faultLocation, s.faultActivationVal))) ∧
    (fv = LOGIC_ZERO ∨ fv = LOGIC_ONE → ∀ l : List Nat,
      getObjective { s with dFrontier := l } = some ({ s with dFrontier := l }, none)) ∧
    ∀ (c : Circuit) (faultLocStr : String) (faultType : Int) (s0 : Podem),
      setupFault c faultLocStr faultType = some s0 →
      (faultType = FAULT_SA0 → s0.faultActivationVal = LOGIC_ONE) ∧
      (faultType = FAULT_SA1 → s0.faultActivationVal = LOGIC_ZERO) := by
  refine ⟨?_, ?_, ?_⟩
  · intro h l
    subst h
    simp [getObjective, hfv]
  · intro h l
    rcases h with rfl | rfl <;> simp [getObjective, hfv]
  · intro c faultLocStr faultType s0 h
    obtain ⟨_, _, _, _, hact⟩ := setupFault_spec h
    rw [hact]
    constructor
    · intro h1; simp [h1]
    · intro h1; subst h1; simp

/-- C20 on the AND circuit with `Y` stuck-at-0: in the all-X state the objective is `(Y, 1)`,
whatever the D-frontier holds. -/
theorem C20_getObjective_activation_witness :
    getObjective { andPodem LOGIC_X LOGIC_X LOGIC_X FAULT_SA0 LOGIC_ONE with dFrontier := [0, 1] }
      = some ({ andPodem LOGIC_X LOGIC_X LOGIC_X FAULT_SA0 LOGIC_ONE with dFrontier := [0, 1] },
          some (some 2, LOGIC_ONE)) :=
  (C20_getObjective_activation (andPodem LOGIC_X LOGIC_X LOGIC_X FAULT_SA0 LOGIC_ONE) LOGIC_X
    rfl).1 rfl [0, 1]

/-! ## Full-circuit simulation: which gates are evaluated -/

theorem getValue_some {c : Circuit} {p : Nat} {v : Int} (h : c.getValue p = some v) :
    ∃ gate, c.gates[p]? = some gate ∧ gate.gateValue = v := by
  unfold Circuit.getValue at h
  cases hg : c.gates[p]? with
  | none => simp [hg] at h
  | some gate => exact ⟨gate, rfl, by simpa [hg] using h⟩

theorem closed_fanIn_set {c : Circuit} {level : Nat → Nat} (hwf : WellFormed c level)
    (hcl : Closed c) {g h : Nat} (hf : FanIn c.preds g h) :
    (∃ gate, c.gates[g]? = some gate ∧ gate.gateValue ≠ LOGIC_UNSET) →
    ∃ gate, c.gates[h]? = some gate ∧ gate.gateValue ≠ LOGIC_UNSET := by
  induction hf with
  | self g => exact id
  | @step g p h hp _ ih =>
    rintro ⟨gate, hg, hne⟩
    apply ih
    rw [preds_eq hg] at hp
    have hpi : gate.gateType ≠ GATE_PI := by
      intro e
      rw [((hwf.wf_get hg).2.1 e).1] at hp
      simp at hp
    obtain ⟨vals, v, hvals, hun, _, _⟩ := hcl g gate hg hpi hne
    obtain ⟨x, hx, hpx⟩ := inputValues_mem_of hvals hp
    obtain ⟨gp, hgp, e⟩ := getValue_some hpx
    exact ⟨gp, hgp, by rw [e]; intro e1; exact hun (e1 ▸ hx)⟩

theorem simulated_unset_iff {c c1 : Circuit} {level : Nat → Nat} {K : Nat}
    (hwf : WellFormed c level) (hin : InputsSet c) (h : simFullCircuit K c = some c1)
    {g : Nat} {gate : Gate} (hg : c1.gates[g]? = some gate) :
    gate.gateValue = LOGIC_UNSET ↔
      gate.gateType ≠ GATE_PI ∧ ∀ po ∈ c.outputGates, ¬ FanIn c.preds po g := by
  obtain ⟨hs, hv, hcl, hout, _, hrest⟩ := simFullCircuit_spec hwf.acyclic hin h
  constructor
  · intro hu
    refine ⟨fun e => ?_, fun po hpo hf => ?_⟩
    · rcases validValues_get hv hg with hl | hl
      · exact hl.ne_unset hu
      · exact hl.2 e
    · rw [← hs.net_preds] at hf
      obtain ⟨gate1, hg1, hne⟩ := closed_fanIn_set (hwf.of_sameNet hs) hcl hf (hout po hpo)
      exact hne ((Option.some.inj (hg1.symm.trans hg)) ▸ hu)
  · rintro ⟨hpi, hno⟩
    exact hrest g gate hg hpi hno

/-- C24, as amended: after `simFullCircuit` on a finalized circuit whose primary inputs hold
values in {0, 1, D, D-bar, X} (the call returns when the fuel exceeds every level), a gate
holds UNSET if and only if it is not a primary input and lies in the transitive fan-in of no
primary output; in particular no primary input, no primary output and no gate of an output
cone holds UNSET. -/
theorem C24_unset_only_outside_cones (c : Circuit) (level : Nat → Nat) (K : Nat)
    (hwf : WellFormed c level) (hK : ∀ g < c.gates.length, level g < K) (hin : InputsSet c) :
    ∃ c1, simFullCircuit K c = some c1 ∧
      ∀ (g : Nat) (gate : Gate), c1.gates[g]? = some gate →
        (gate.gateValue = LOGIC_UNSET ↔
          gate.gateType ≠ GATE_PI ∧ ∀ po ∈ c.outputGates, ¬ FanIn c.preds po g) := by
  obtain ⟨c1, h⟩ := simFullCircuit_total hwf hin hK
  exact ⟨c1, h, fun g gate hg => simulated_unset_iff hwf hin h hg⟩

/-- C24 (amended) on the AND circuit: after simulation no gate holds UNSET. -/
theorem C24_unset_only_outside_cones_witness :
    ∃ c1, simFullCircuit 2 (andState LOGIC_ONE LOGIC_X LOGIC_UNSET NOFAULT) = some c1 ∧
      ∀ (g : Nat) (gate : Gate), c1.gates[g]? = some gate →
        (gate.gateValue = LOGIC_UNSET ↔
          gate.gateType ≠ GATE_PI ∧
            ∀ po ∈ (andState LOGIC_ONE LOGIC_X LOGIC_UNSET NOFAULT).outputGates,
              ¬ FanIn (andState LOGIC_ONE LOGIC_X LOGIC_UNSET NOFAULT).preds po g) :=
  C24_unset_only_outside_cones (andState LOGIC_ONE LOGIC_X LOGIC_UNSET NOFAULT) andLevel 2
    (by decide) (by decide) (by decide)

/-- C24 as stated fails: in the finalized circuit `Y = BUFF(A)`, `Z = NOT(B)` with the only
primary output `Y`, the primary inputs hold 1 and 0, and after `simFullCircuit` the gate `Z`,
which is in the fan-in of no primary output, holds UNSET. -/
theorem C24_unset_after_simulation_counterexample :
    WellFormed (danglingState LOGIC_ONE LOGIC_ZERO LOGIC_X LOGIC_X NOFAULT) danglingLevel ∧
    InputsSet (danglingState LOGIC_ONE LOGIC_ZERO LOGIC_X LOGIC_X NOFAULT) ∧
    simFullCircuit 2 (danglingState LOGIC_ONE LOGIC_ZERO LOGIC_X LOGIC_X NOFAULT)
      = some (danglingState LOGIC_ONE LOGIC_ZERO LOGIC_ONE LOGIC_UNSET NOFAULT) ∧
    (danglingState LOGIC_ONE LOGIC_ZERO LOGIC_ONE LOGIC_UNSET NOFAULT).getValue 3
      = some LOGIC_UNSET := by
  refine ⟨by decide, by decide, by decide, by decide⟩

/-! ## Values outside the five-valued algebra -/

theorem countOnes_none :
    ∀ (vs : List Int) (m n : Nat),
      (∃ v ∈ vs, ¬ (v = LOGIC_ZERO ∨ v = LOGIC_ONE ∨ v = LOGIC_D ∨ v = LOGIC_DBAR)) →
      countOnes vs m n = none := by
  intro vs
  induction vs with
  | nil => intro m n h; simp at h
  | cons x xs ih =>
    intro m n h
    by_cases hx : x = LOGIC_ZERO ∨ x = LOGIC_ONE ∨ x = LOGIC_D ∨ x = LOGIC_DBAR
    · have hrest : ∃ v ∈ xs, ¬ (v = LOGIC_ZERO ∨ v = LOGIC_ONE ∨ v = LOGIC_D ∨ v = LOGIC_DBAR) := by
        obtain ⟨v, hv, hn⟩ := h
        rcases List.mem_cons.mp hv with e | e
        · exact absurd (e ▸ hx) hn
        · exact ⟨v, e, hn⟩
      rcases hx with rfl | rfl | rfl | rfl <;> simp [countOnes, ih _ _ hrest]
    · simp only [not_or] at hx
      simp [countOnes, hx.1, hx.2.1, hx.2.2.1, hx.2.2.2]

theorem setPILoop_eq_assignInputs :
    ∀ (ps : List Nat) (vs : List Int) (c : Circuit),
      setPILoop c ps vs = assignInputs c ps vs := by
  intro ps
  induction ps with
  | nil => intro vs c; cases vs <;> rfl
  | cons p ps ih =>
    intro vs c
    cases vs with
    | nil => rfl
    | cons v vs =>
      simp only [setPILoop, assignInputs, setValueCheckFault, setPI_choice]
      cases c.onGate p (fun gate => gate.setValue (faultedValue gate.faultType v)) with
      | none => rfl
      | some c1 => exact ih vs c1

theorem assignedValue_not_mem :
    ∀ (ps : List Nat) (vs : List Int) (g : Nat), g ∉ ps → assignedValue ps vs g = none := by
  intro ps
  induction ps with
  | nil => intro vs g _; cases vs <;> rfl
  | cons p ps ih =>
    intro vs g h
    cases vs with
    | nil => rfl
    | cons v vs =>
      have h1 : g ∉ ps := fun e => h (List.mem_cons_of_mem _ e)
      have h2 : p ≠ g := fun e => h (e ▸ List.mem_cons_self _ _)
      simp [assignedValue, ih vs g h1, h2]

theorem assignedValue_nodup :
    ∀ (ps : List Nat) (vs : List Int) (i p : Nat) (v : Int), ps.Nodup → ps[i]? = some p →
      vs[i]? = some v → assignedValue ps vs p = some v := by
  intro ps
  induction ps with
  | nil => intro vs i p v _ h; simp at h
  | cons q ps ih =>
    intro vs i p v hnd hp hv
    cases vs with
    | nil => simp at hv
    | cons w vs =>
      cases i with
      | zero =>
        simp only [List.getElem?_cons_zero, Option.some.injEq] at hp hv
        subst hp; subst hv
        simp [assignedValue, assignedValue_not_mem ps vs q (List.nodup_cons.mp hnd).1]
      | succ i =>
        simp only [List.getElem?_cons_succ] at hp hv
        simp [assignedValue, ih vs i p v (List.nodup_cons.mp hnd).2 hp hv]

/-- C26: `Circuit::setPIValues` fails when the number of values differs from the number of
primary inputs; otherwise it is the loop that calls `setValueCheckFault` on the `i`-th primary
input with the `i`-th value, and (the primary inputs being distinct gates of the circuit) it
leaves each primary input with exactly the value `setValueCheckFault(input i, inputVals[i])`
stores. -/
theorem C26_setPIValues_remaps (c : Circuit) (inputVals : List Int) :
    (inputVals.length ≠ c.inputGates.length → c.setPIValues inputVals = none) ∧
    (inputVals.length = c.inputGates.length →
      c.setPIValues inputVals = assignInputs c c.inputGates inputVals ∧
      (c.inputGates.Nodup → (∀ p ∈ c.inputGates, p < c.gates.length) →
        ∃ c1, c.setPIValues inputVals = some c1 ∧
          ∀ (i p : Nat) (v : Int), c.inputGates[i]? = some p → inputVals[i]? = some v →
            ∃ c2, setValueCheckFault c p v = some c2 ∧ c1.gates[p]? = c2.gates[p]?)) := by
  constructor
  · intro h
    simp [Circuit.setPIValues, h]
  · intro h
    have e : c.setPIValues inputVals = setPILoop c c.inputGates inputVals := by
      simp [Circuit.setPIValues, h]
    refine ⟨by rw [e, setPILoop_eq_assignInputs], fun hnd hlt => ?_⟩
    obtain ⟨c1, hc1⟩ := setPILoop_total c.inputGates inputVals c hlt
    refine ⟨c1, by rw [e, hc1], fun i p v hp hv => ?_⟩
    have hpm : p ∈ c.inputGates := List.getElem?_mem hp
    obtain ⟨gate, hgate⟩ : ∃ gate, c.gates[p]? = some gate :=
      ⟨_, List.getElem?_eq_getElem (hlt p hpm)⟩
    refine ⟨c.putGate p (gate.setValue (faultedValue gate.faultType v)), ?_, ?_⟩
    · simp [setValueCheckFault, Circuit.onGate, hgate]
    · rw [(setPILoop_spec _ _ _ _ hc1).2 p gate hgate,
        assignedValue_nodup _ _ i p v hnd hp hv, getElem?_putGate]
      simp [hlt p hpm]

/-- C26 on the AND circuit: one value for two inputs fails, two values go through the loop of
`setValueCheckFault` calls. -/
theorem C26_setPIValues_remaps_witness :
    (andState LOGIC_X LOGIC_X LOGIC_X FAULT_SA0).setPIValues [LOGIC_ONE] = none ∧
    (andState LOGIC_X LOGIC_X LOGIC_X FAULT_SA0).setPIValues [LOGIC_ONE, LOGIC_ZERO]
      = assignInputs (andState LOGIC_X LOGIC_X LOGIC_X FAULT_SA0) [0, 1]
          [LOGIC_ONE, LOGIC_ZERO] :=
  ⟨(C26_setPIValues_remaps (andState LOGIC_X LOGIC_X LOGIC_X FAULT_SA0) [LOGIC_ONE]).1
      (by decide),
    ((C26_setPIValues_remaps (andState LOGIC_X LOGIC_X LOGIC_X FAULT_SA0)
      [LOGIC_ONE, LOGIC_ZERO]).2 (by decide)).1⟩

/-! ## Algebraic properties of the evaluators -/

theorem countOnes_perm {xs ys : List Int} (h : xs.Perm ys) :
    countOnes xs 0 0 = countOnes ys 0 0 := by
  by_cases hx : ∀ v ∈ xs, v = LOGIC_ZERO ∨ v = LOGIC_ONE ∨ v = LOGIC_D ∨ v = LOGIC_DBAR
  · have hy : ∀ v ∈ ys, v = LOGIC_ZERO ∨ v = LOGIC_ONE ∨ v = LOGIC_D ∨ v = LOGIC_DBAR :=
      fun v hv => hx v (h.mem_iff.mpr hv)
    rw [countOnes_count xs 0 0 hx, countOnes_count ys 0 0 hy, h.countP_eq, h.countP_eq]
  · simp only [not_forall] at hx
    obtain ⟨v, hv, hn⟩ := hx
    rw [countOnes_none xs 0 0 ⟨v, hv, hn⟩, countOnes_none ys 0 0 ⟨v, h.mem_iff.mp hv, hn⟩]

/-- C27: `evalGate` and `EvalXORGate` return the same value on a list and on every
permutation of it (for every list, in particular over {0, 1, D, D-bar, X}); hence `simGate`
computes the same value for an AND, NAND, OR, NOR, XOR or XNOR gate whatever the order of its
predecessors. -/
theorem C27_evaluation_order_independent (xs ys : List Int) (h : xs.Perm ys) :
    (∀ c i : Int, evalGate xs c i = evalGate ys c i) ∧
    (∀ inv : Int, EvalXORGate xs inv = EvalXORGate ys inv) ∧
    ∀ gateType ∈ [GATE_AND, GATE_NAND, GATE_OR, GATE_NOR, GATE_XOR, GATE_XNOR],
      simGateType gateType xs = simGateType gateType ys := by
  have h1 : ∀ c i : Int, evalGate xs c i = evalGate ys c i := by
    intro c i
    simp only [evalGate, h.mem_iff]
  have h2 : ∀ inv : Int, EvalXORGate xs inv = EvalXORGate ys inv := by
    intro inv
    simp only [EvalXORGate, h.mem_iff, countOnes_perm h]
  refine ⟨h1, h2, ?_⟩
  intro gateType ht
  simp only [List.mem_cons, List.mem_singleton, List.not_mem_nil, or_false] at ht
  rcases ht with rfl | rfl | rfl | rfl | rfl | rfl <;> simp [simGateType, h1, h2]

/-- C27 on the inputs `[D, 1, X]` and their rotation `[1, X, D]`. -/
theorem C27_evaluation_order_independent_witness :
    evalGate [LOGIC_D, LOGIC_ONE, LOGIC_X] 0 1 = evalGate [LOGIC_ONE, LOGIC_X, LOGIC_D] 0 1 ∧
    EvalXORGate [LOGIC_D, LOGIC_ONE, LOGIC_X] 0 = EvalXORGate [LOGIC_ONE, LOGIC_X, LOGIC_D] 0 :=
  ⟨(C27_evaluation_order_independent [LOGIC_D, LOGIC_ONE, LOGIC_X]
      [LOGIC_ONE, LOGIC_X, LOGIC_D] (by decide)).1 0 1,
    (C27_evaluation_order_independent [LOGIC_D, LOGIC_ONE, LOGIC_X]
      [LOGIC_ONE, LOGIC_X, LOGIC_D] (by decide)).2.1 0⟩

theorem all_faultFreeBit {ins : List Int} (h : ∀ v ∈ ins, IsKnown v) :
    ins.all faultFreeBit = (!decide (LOGIC_ZERO ∈ ins) && !decide (LOGIC_DBAR ∈ ins)) := by
  induction ins with
  | nil => rfl
  | cons x xs ih =>
    have ih1 := ih (fun v hv => h v (List.mem_cons_of_mem _ hv))
    rw [List.all_cons, ih1]
    rcases h x (List.mem_cons_self _ _) with rfl | rfl | rfl | rfl <;>
      simp [faultFreeBit]

theorem all_faultyBit {ins : List Int} (h : ∀ v ∈ ins, IsKnown v) :
    ins.all faultyBit = (!decide (LOGIC_ZERO ∈ ins) && !decide (LOGIC_D ∈ ins)) := by
  induction ins with
  | nil => rfl
  | cons x xs ih =>
    have ih1 := ih (fun v hv => h v (List.mem_cons_of_mem _ hv))
    rw [List.all_cons, ih1]
    rcases h x (List.mem_cons_self _ _) with rfl | rfl | rfl | rfl <;>
      simp [faultyBit]

theorem any_faultFreeBit {ins : List Int} (h : ∀ v ∈ ins, IsKnown v) :
    ins.any faultFreeBit = (decide (LOGIC_ONE ∈ ins) || decide (LOGIC_D ∈ ins)) := by
  induction ins with
  | nil => rfl
  | cons x xs ih =>
    have ih1 := ih (fun v hv => h v (List.mem_cons_of_mem _ hv))
    rw [List.any_cons, ih1]
    rcases h x (List.mem_cons_self _ _) with rfl | rfl | rfl | rfl <;>
      simp [faultFreeBit]

theorem any_faultyBit {ins : List Int} (h : ∀ v ∈ ins, IsKnown v) :
    ins.any faultyBit = (decide (LOGIC_ONE ∈ ins) || decide (LOGIC_DBAR ∈ ins)) := by
  induction ins with
  | nil => rfl
  | cons x xs ih =>
    have ih1 := ih (fun v hv => h v (List.mem_cons_of_mem _ hv))
    rw [List.any_cons, ih1]
    rcases h x (List.mem_cons_self _ _) with rfl | rfl | rfl | rfl <;>
      simp [faultyBit]

theorem xorBits_parity (f : Int → Bool) (ins : List Int) :
    xorBits (ins.map f) = decide (ins.countP f % 2 = 1) := by
  induction ins with
  | nil => rfl
  | cons x xs ih =>
    have e : xorBits ((x :: xs).map f) = Bool.xor (f x) (xorBits (xs.map f)) := rfl
    rw [e, ih, List.countP_cons]
    rcases Nat.mod_two_eq_zero_or_one (xs.countP f) with h | h <;>
      cases hf : f x <;> simp [h] <;> omega

theorem evalXOR_bits {ins : List Int} (h : ∀ v ∈ ins, IsKnown v) (inv : Int)
    (hinv : inv = 0 ∨ inv = 1) :
    IsKnown (EvalXORGate ins inv) ∧
    faultFreeBit (EvalXORGate ins inv)
      = Bool.xor (decide (inv = 1)) (xorBits (ins.map faultFreeBit)) ∧
    faultyBit (EvalXORGate ins inv)
      = Bool.xor (decide (inv = 1)) (xorBits (ins.map faultyBit)) := by
  have hX : LOGIC_X ∉ ins := fun e => by
    have := h _ e
    revert this
    decide
  rw [xorBits_parity, xorBits_parity]
  unfold EvalXORGate
  rw [countOnes_count ins 0 0 h]
  simp only [hX, ↓reduceIte, Nat.zero_add]
  have e1 : ins.countP (fun v => decide (v = LOGIC_ONE ∨ v = LOGIC_D))
      = ins.countP faultFreeBit := rfl
  have e2 : ins.countP (fun v => decide (v = LOGIC_ONE ∨ v = LOGIC_DBAR))
      = ins.countP faultyBit := rfl
  rw [e1, e2]
  generalize ins.countP faultFreeBit = a
  generalize ins.countP faultyBit = b
  rcases Nat.mod_two_eq_zero_or_one a with hp | hp <;>
    rcases Nat.mod_two_eq_zero_or_one b with hq | hq <;>
    rcases hinv with rfl | rfl <;>
    simp [hp, hq, LogicNot, IsKnown, faultFreeBit, faultyBit]

/-- C28: on an input list over {0, 1, D, D-bar}, reading 0 as (0, 0), 1 as (1, 1), D as (1, 0)
and D-bar as (0, 1): the results of `evalGate` for AND, NAND, OR, NOR, of `EvalXORGate` for
XOR, XNOR and of `LogicNot` are again among 0, 1, D, D-bar, and their fault-free bit and their
faulty bit are the conjunction, negated conjunction, disjunction, negated disjunction,
exclusive or, negated exclusive or and negation of the fault-free bits and of the faulty bits
of the inputs. -/
theorem C28_algebra_exact (ins : List Int) (h : ∀ v ∈ ins, IsKnown v) :
    (IsKnown (evalGate ins 0 0) ∧
      faultFreeBit (evalGate ins 0 0) = ins.all faultFreeBit ∧
      faultyBit (evalGate ins 0 0) = ins.all faultyBit) ∧
    (IsKnown (evalGate ins 0 1) ∧
      faultFreeBit (evalGate ins 0 1) = !ins.all faultFreeBit ∧
      faultyBit (evalGate ins 0 1) = !ins.all faultyBit) ∧
    (IsKnown (evalGate ins 1 0) ∧
      faultFreeBit (evalGate ins 1 0) = ins.any faultFreeBit ∧
      faultyBit (evalGate ins 1 0) = ins.any faultyBit) ∧
    (IsKnown (evalGate ins 1 1) ∧
      faultFreeBit (evalGate ins 1 1) = !ins.any faultFreeBit ∧
      faultyBit (evalGate ins 1 1) = !ins.any faultyBit) ∧
    (IsKnown (EvalXORGate ins 0) ∧
      faultFreeBit (EvalXORGate ins 0) = xorBits (ins.map faultFreeBit) ∧
      faultyBit (EvalXORGate ins 0) = xorBits (ins.map faultyBit)) ∧
    (IsKnown (EvalXORGate ins 1) ∧
      faultFreeBit (EvalXORGate ins 1) = !xorBits (ins.map faultFreeBit) ∧
      faultyBit (EvalXORGate ins 1) = !xorBits (ins.map faultyBit)) ∧
    ∀ v ∈ ins, IsKnown (LogicNot v) ∧ faultFreeBit (LogicNot v) = !faultFreeBit v ∧
      faultyBit (LogicNot v) = !faultyBit v := by
  have hX : LOGIC_X ∉ ins := fun e => by
    have := h _ e
    revert this
    decide
  have hx0 := evalXOR_bits h 0 (Or.inl rfl)
  have hx1 := evalXOR_bits h 1 (Or.inr rfl)
  simp only [show decide ((0 : Int) = 1) = false from rfl, Bool.false_xor] at hx0
  simp only [decide_True, Bool.true_xor] at hx1
  refine ⟨?_, ?_, ?_, ?_, hx0, hx1, ?_⟩
  · rw [all_faultFreeBit h, all_faultyBit h]
    unfold evalGate
    by_cases h0 : LOGIC_ZERO ∈ ins <;> by_cases hD : LOGIC_D ∈ ins <;>
      by_cases hB : LOGIC_DBAR ∈ ins <;>
      simp [h0, hD, hB, hX, LogicNot, IsKnown, faultFreeBit, faultyBit]
  · rw [all_faultFreeBit h, all_faultyBit h]
    unfold evalGate
    by_cases h0 : LOGIC_ZERO ∈ ins <;> by_cases hD : LOGIC_D ∈ ins <;>
      by_cases hB : LOGIC_DBAR ∈ ins <;>
      simp [h0, hD, hB, hX, LogicNot, IsKnown, faultFreeBit, faultyBit]
  · rw [any_faultFreeBit h, any_faultyBit h]
    unfold evalGate
    by_cases h1 : LOGIC_ONE ∈ ins <;> by_cases hD : LOGIC_D ∈ ins <;>
      by_cases hB : LOGIC_DBAR ∈ ins <;>
      simp [h1, hD, hB, hX, LogicNot, IsKnown, faultFreeBit, faultyBit]
  · rw [any_faultFreeBit h, any_faultyBit h]
    unfold evalGate
    by_cases h1 : LOGIC_ONE ∈ ins <;> by_cases hD : LOGIC_D ∈ ins <;>
      by_cases hB : LOGIC_DBAR ∈ ins <;>
      simp [h1, hD, hB, hX, LogicNot, IsKnown, faultFreeBit, faultyBit]
  · intro v hv
    rcases h v hv with rfl | rfl | rfl | rfl <;> decide

/-- C28 on the inputs D and D-bar of an AND gate: the fault-free bits 1 and 0 and the faulty
bits 0 and 1 both give 0, and `evalGate` returns 0. -/
theorem C28_algebra_exact_witness :
    evalGate [LOGIC_D, LOGIC_DBAR] 0 0 = LOGIC_ZERO ∧
    faultFreeBit (evalGate [LOGIC_D, LOGIC_DBAR] 0 0) = [LOGIC_D, LOGIC_DBAR].all faultFreeBit ∧
    faultyBit (evalGate [LOGIC_D, LOGIC_DBAR] 0 0) = [LOGIC_D, LOGIC_DBAR].all faultyBit :=
  ⟨by decide, (C28_algebra_exact [LOGIC_D, LOGIC_DBAR] (by decide)).1.2⟩


theorem anyFaultEffect_eq {c : Circuit} :
    ∀ {ps : List Nat}, (∀ p ∈ ps, p < c.gates.length) →
      anyFaultEffect c ps = some (ps.any (fun p =>
        decide (c.getValue p = some LOGIC_D ∨ c.getValue p = some LOGIC_DBAR))) := by
  intro ps
  induction ps with
  | nil => intro _; rfl
  | cons p ps ih =>
    intro h
    have hp := h p (List.mem_cons_self _ _)
    obtain ⟨gate, hgate⟩ : ∃ gate, c.gates[p]? = some gate := ⟨_, List.getElem?_eq_getElem hp⟩
    have hv := getValue_eq hgate
    rw [anyFaultEffect, hv, List.any_cons, ih (fun q hq => h q (List.mem_cons_of_mem _ hq)), hv]
    by_cases e : gate.gateValue = LOGIC_D ∨ gate.gateValue = LOGIC_DBAR
    · simp [e]
    · simp only [e, ↓reduceIte]
      simp only [not_or] at e
      simp [e.1, e.2]

theorem scanFrontier_eq {c : Circuit} :
    ∀ (l : List Gate) (i : Nat) (acc : List Nat),
      (∀ G ∈ l, ∀ p ∈ G.gateInputs, p < c.gates.length) →
      scanFrontier c l i acc
        = some (acc ++ ((l.enumFrom i).filter (fun ig => isFrontierGate c ig.2)).map Prod.fst) := by
  intro l
  induction l with
  | nil => intro i acc _; simp [scanFrontier]
  | cons G rest ih =>
    intro i acc h
    have hrest := fun i acc => ih i acc (fun G1 h1 => h G1 (List.mem_cons_of_mem _ h1))
    have hG := anyFaultEffect_eq (h G (List.mem_cons_self _ _))
    rw [scanFrontier, List.enumFrom_cons, List.filter_cons]
    by_cases hX : G.gateValue = LOGIC_X
    · cases hany : G.gateInputs.any (fun p =>
          decide (c.getValue p = some LOGIC_D ∨ c.getValue p = some LOGIC_DBAR))
      · have hf : isFrontierGate c G = false := by
          unfold isFrontierGate
          rw [hany, Bool.and_false]
        simp only [hX, ne_eq, not_true_eq_false, ↓reduceIte, hG, hany, hf, hrest,
          Bool.false_eq_true]
      · have hf : isFrontierGate c G = true := by
          unfold isFrontierGate
          rw [hany, Bool.and_true, decide_eq_true hX]
        simp only [hX, ne_eq, not_true_eq_false, ↓reduceIte, hG, hany, hf, hrest,
          List.map_cons, List.append_assoc, List.singleton_append]
    · have hf : isFrontierGate c G = false := by
        unfold isFrontierGate
        rw [decide_eq_false hX, Bool.false_and]
      simp only [hX, ne_eq, not_false_eq_true, ↓reduceIte, hf, hrest, Bool.false_eq_true]

theorem isFrontierGate_iff {c : Circuit} {G : Gate} :
    isFrontierGate c G = true ↔ G.gateValue = LOGIC_X ∧ ∃ p ∈ G.gateInputs,
      c.getValue p = some LOGIC_D ∨ c.getValue p = some LOGIC_DBAR := by
  simp [isFrontierGate]

theorem updateDFrontier_spec {s : Podem} (hptr : PredsValid s.myCircuit) :
    ∃ s1, updateDFrontier s = some s1 ∧ s1.myCircuit = s.myCircuit ∧
      s1.faultLocation = s.faultLocation ∧ s1.faultActivationVal = s.faultActivationVal ∧
      (∀ g, g ∈ s1.dFrontier ↔ ∃ G, s.myCircuit.gates[g]? = some G ∧ isFrontierGate s.myCircuit G) ∧
      s1.dFrontier.Pairwise (fun a b => a < b) := by
  have h := scanFrontier_eq s.myCircuit.gates 0 [] hptr
  rw [List.nil_append] at h
  refine ⟨{ s with dFrontier := ((s.myCircuit.gates.enumFrom 0).filter
      (fun ig => isFrontierGate s.myCircuit ig.2)).map Prod.fst },
    by rw [updateDFrontier, h]; rfl, rfl, rfl, rfl, ?_, ?_⟩
  · intro g
    simp only [List.mem_map, List.mem_filter, Prod.exists, exists_and_right,
      exists_eq_right]
    constructor
    · rintro ⟨G, hm, hf⟩
      exact ⟨G, List.mk_mem_enum_iff_getElem?.mp hm, hf⟩
    · rintro ⟨G, hg, hf⟩
      exact ⟨G, List.mk_mem_enum_iff_getElem?.mpr hg, hf⟩
  · have hsub : (((s.myCircuit.gates.enumFrom 0).filter
        (fun ig => isFrontierGate s.myCircuit ig.2)).map Prod.fst).Sublist
        (List.range' 0 s.myCircuit.gates.length) := by
      rw [← List.enumFrom_map_fst 0 s.myCircuit.gates]
      exact (List.filter_sublist _).map _
    exact (List.pairwise_lt_range' 0 _).sublist hsub

/-- C14: on a circuit whose predecessor pointers are valid, `updateDFrontier` returns; after
it a gate is in `dFrontier` if and only if its own value is X and at least one of its direct
predecessors holds D or D-bar; the list is in strictly increasing gate-index order, so without
duplicates; it does not depend on the previous content of `dFrontier`; and the circuit, with
every gate value, is unchanged. -/
theorem C14_updateDFrontier_spec (s : Podem) (hptr : PredsValid s.myCircuit) :
    ∃ s1, updateDFrontier s = some s1 ∧ s1.myCircuit = s.myCircuit ∧
      (∀ g, g ∈ s1.dFrontier ↔
        ∃ G, s.myCircuit.gates[g]? = some G ∧ G.gateValue = LOGIC_X ∧
          ∃ p ∈ G.gateInputs, s.myCircuit.getValue p = some LOGIC_D ∨
            s.myCircuit.getValue p = some LOGIC_DBAR) ∧
      s1.dFrontier.Pairwise (fun a b => a < b) ∧ s1.dFrontier.Nodup ∧
      ∀ l : List Nat,
        (updateDFrontier { s with dFrontier := l }).map Podem.dFrontier = some s1.dFrontier := by
  obtain ⟨s1, h1, h2, _, _, h5, h6⟩ := updateDFrontier_spec hptr
  refine ⟨s1, h1, h2, ?_, h6, ?_, ?_⟩
  · intro g
    rw [h5]
    constructor
    · rintro ⟨G, hg, hf⟩
      exact ⟨G, hg, isFrontierGate_iff.mp hf⟩
    · rintro ⟨G, hg, hf⟩
      exact ⟨G, hg, isFrontierGate_iff.mpr hf⟩
  · exact h6.imp (fun h => Nat.ne_of_lt h)
  · intro l
    have e : updateDFrontier s = some s1 := h1
    simp only [updateDFrontier] at e ⊢
    cases hsc : scanFrontier s.myCircuit s.myCircuit.gates 0 [] with
    | none => simp [hsc] at e
    | some fr =>
      simp only [hsc, Option.map_some', Option.some.injEq] at e ⊢
      rw [← e]

/-- C14 on the AND circuit with `A = D`, `B = X`, `Y = X` and a stale D-frontier: the
recomputed D-frontier is `[Y]`. -/
theorem C14_updateDFrontier_spec_witness :
    ∃ s1, updateDFrontier { andPodem LOGIC_D LOGIC_X LOGIC_X NOFAULT LOGIC_ONE with
        dFrontier := [0, 0] } = some s1 ∧ s1.dFrontier = [2] := by
  obtain ⟨s1, h1, _, _, _, _, h6⟩ := C14_updateDFrontier_spec
    { andPodem LOGIC_D LOGIC_X LOGIC_X NOFAULT LOGIC_ONE with dFrontier := [0, 0] } (by decide)
  refine ⟨s1, h1, ?_⟩
  have h := h6 [0, 0]
  rw [h1] at h
  have e : updateDFrontier { andPodem LOGIC_D LOGIC_X LOGIC_X NOFAULT LOGIC_ONE with
      dFrontier := [0, 0] } = some { andPodem LOGIC_D LOGIC_X LOGIC_X NOFAULT LOGIC_ONE with
      dFrontier := [2] } := by decide
  rw [e] at h1
  rw [← Option.some.inj h1]

theorem firstX_spec {c : Circuit} :
    ∀ {ps : List Nat}, (∀ p ∈ ps, p < c.gates.length) →
      ∃ r, firstX c ps = some r ∧
        (r = none → ∀ p ∈ ps, c.getValue p ≠ some LOGIC_X) ∧
        ∀ q, r = some q → ∃ pre post, ps = pre ++ q :: post ∧
          c.getValue q = some LOGIC_X ∧ ∀ p ∈ pre, c.getValue p ≠ some LOGIC_X := by
  intro ps
  induction ps with
  | nil => intro _; exact ⟨none, rfl, fun _ p hp => by simp at hp, fun q hq => by simp at hq⟩
  | cons p ps ih =>
    intro h
    have hp := h p (List.mem_cons_self _ _)
    obtain ⟨gate, hgate⟩ : ∃ gate, c.gates[p]? = some gate := ⟨_, List.getElem?_eq_getElem hp⟩
    have hv := getValue_eq hgate
    obtain ⟨r, hr, hnone, hsome⟩ := ih (fun q hq => h q (List.mem_cons_of_mem _ hq))
    by_cases hX : gate.gateValue = LOGIC_X
    · refine ⟨some p, by simp [firstX, hv, hX], fun e => by simp at e, fun q hq => ?_⟩
      have e : p = q := Option.some.inj hq
      subst e
      exact ⟨[], ps, rfl, by rw [hv, hX], fun x hx => by simp at hx⟩
    · have hne : c.getValue p ≠ some LOGIC_X := by
        rw [hv]; intro e; exact hX (Option.some.inj e)
      refine ⟨r, by simp [firstX, hv, hX, hr], fun e x hx => ?_, fun q hq => ?_⟩
      · rcases List.mem_cons.mp hx with e1 | e1
        · rw [e1]; exact hne
        · exact hnone e x e1
      · obtain ⟨pre, post, e1, e2, e3⟩ := hsome q hq
        refine ⟨p :: pre, post, by rw [e1]; rfl, e2, fun x hx => ?_⟩
        rcases List.mem_cons.mp hx with e4 | e4
        · rw [e4]; exact hne
        · exact e3 x e4

/-- C21: when the fault node holds D or D-bar (and the predecessor pointers are valid),
`getObjective` recomputes the D-frontier and returns `false` if and only if it is empty.
Otherwise it returns `true`; the D-frontier gate `d` it uses is the one of lowest index; the
objective gate is the first predecessor of `d`, in predecessor-list order, whose value is X
(it stays unassigned if there is none); the objective value is 1 if `d` is AND or NAND and 0
if `d` is OR, NOR, XOR or XNOR. -/
theorem C21_getObjective_propagation (s : Podem) (fv : Int)
    (hfv : s.myCircuit.getValue s.faultLocation = some fv)
    (hD : fv = LOGIC_D ∨ fv = LOGIC_DBAR) (hptr : PredsValid s.myCircuit) :
    ∃ s1 r, updateDFrontier s = some s1 ∧ getObjective s = some (s1, r) ∧
      (r = none ↔ s1.dFrontier = []) ∧
      ∀ d rest, s1.dFrontier = d :: rest →
        (∀ g ∈ rest, d < g) ∧
        ∃ dgate g v, s.myCircuit.gates[d]? = some dgate ∧ r = some (g, v) ∧
          (g = none → ∀ p ∈ dgate.gateInputs, s.myCircuit.getValue p ≠ some LOGIC_X) ∧
          (∀ q, g = some q → ∃ pre post, dgate.gateInputs = pre ++ q :: post ∧
            s.myCircuit.getValue q = some LOGIC_X ∧
            ∀ p ∈ pre, s.myCircuit.getValue p ≠ some LOGIC_X) ∧
          (dgate.gateType = GATE_AND ∨ dgate.gateType = GATE_NAND → v = LOGIC_ONE) ∧
          (dgate.gateType = GATE_OR ∨ dgate.gateType = GATE_NOR ∨ dgate.gateType = GATE_XOR ∨
            dgate.gateType = GATE_XNOR → v = LOGIC_ZERO) := by
  obtain ⟨s1, h1, h2, _, _, h5, h6⟩ := updateDFrontier_spec hptr
  have hnX : fv ≠ LOGIC_X := by rcases hD with rfl | rfl <;> decide
  have hn01 : ¬ (fv = LOGIC_ONE ∨ fv = LOGIC_ZERO) := by rcases hD with rfl | rfl <;> decide
  cases hfr : s1.dFrontier with
  | nil =>
    refine ⟨s1, none, h1, ?_, by simp [hfr], fun d rest e => by simp [hfr] at e⟩
    simp [getObjective, hfv, hnX, hn01, h1, hfr]
  | cons d rest =>
    obtain ⟨dgate, hdg, _⟩ := (h5 d).mp (by rw [hfr]; exact List.mem_cons_self _ _)
    have hlt : ∀ p ∈ dgate.gateInputs, p < s.myCircuit.gates.length :=
      hptr dgate (List.getElem?_mem hdg)
    obtain ⟨g, hg, hgn, hgs⟩ := firstX_spec hlt
    refine ⟨s1, some (g, objectiveValue dgate.gateType), h1, ?_, by simp [hfr], ?_⟩
    · simp [getObjective, hfv, hnX, hn01, h1, hfr, h2, hdg, hg]
    · intro d1 rest1 e
      rw [hfr] at e
      obtain ⟨e1, e2⟩ := List.cons.inj e
      subst e1; subst e2
      refine ⟨?_, dgate, g, _, hdg, rfl, hgn, hgs, ?_, ?_⟩
      · rw [hfr] at h6
        exact (List.pairwise_cons.mp h6).1
      · intro ht
        rcases ht with ht | ht <;> simp [objectiveValue, ht]
      · intro ht
        rcases ht with ht | ht | ht | ht <;> simp [objectiveValue, ht]

/-- C21 on the AND circuit with `A` stuck-at-0 holding D, `B = X`, `Y = X`: the D-frontier
is `[Y]`, the objective is `(B, 1)`. -/
theorem C21_getObjective_propagation_witness :
    ∃ s1, updateDFrontier (andInputFault LOGIC_D LOGIC_X LOGIC_X) = some s1 ∧
      s1.dFrontier = [2] ∧
      getObjective (andInputFault LOGIC_D LOGIC_X LOGIC_X)
        = some (s1, some (some 1, LOGIC_ONE)) := by
  obtain ⟨s1, r, h1, h2, _, _⟩ := C21_getObjective_propagation
    (andInputFault LOGIC_D LOGIC_X LOGIC_X) LOGIC_D rfl (Or.inl rfl) (by decide)
  have e1 : updateDFrontier (andInputFault LOGIC_D LOGIC_X LOGIC_X)
      = some { andInputFault LOGIC_D LOGIC_X LOGIC_X with dFrontier := [2] } := by decide
  have e2 : getObjective (andInputFault LOGIC_D LOGIC_X LOGIC_X)
      = some ({ andInputFault LOGIC_D LOGIC_X LOGIC_X with dFrontier := [2] },
          some (some 1, LOGIC_ONE)) := by decide
  rw [e1] at h1
  cases h1
  exact ⟨_, e1, rfl, e2⟩

/-! ## Name lookup -/

theorem findGateLoop_found (name : String) :
    ∀ (l : List Gate) (i r : Nat),
      findGateLoop name l i (some r)
        = if ∀ gate ∈ l, gate.outputName ≠ name then some (some r) else none := by
  intro l
  induction l with
  | nil => intro i r; simp [findGateLoop]
  | cons g gs ih =>
    intro i r
    by_cases hg : g.outputName = name
    · simp [findGateLoop, hg]
    · simp [findGateLoop, hg, ih]

theorem findGateLoop_unique (name : String) :
    ∀ (l : List Gate) (i k : Nat),
      findGateLoop name l i none = some (some k) ↔
        ∃ j, k = i + j ∧ (∃ gate, l[j]? = some gate ∧ gate.outputName = name) ∧
          ∀ (h : Nat) (gate : Gate), l[h]? = some gate → gate.outputName = name → h = j := by
  intro l
  induction l with
  | nil =>
    intro i k
    simp [findGateLoop]
  | cons g gs ih =>
    intro i k
    by_cases hg : g.outputName = name
    · simp only [findGateLoop, hg, ↓reduceIte, Option.isSome_none, Bool.false_eq_true,
        findGateLoop_found]
      constructor
      · intro h
        split_ifs at h with hall
        have e : i = k := Option.some.inj (Option.some.inj h)
        refine ⟨0, by omega, ⟨g, List.getElem?_cons_zero, hg⟩, fun h1 gate hget hname => ?_⟩
        cases h1 with
        | zero => rfl
        | succ h1 =>
          simp only [List.getElem?_cons_succ] at hget
          exact absurd hname (hall gate (List.getElem?_mem hget))
      · rintro ⟨j, hk, _, huniq⟩
        have hj : 0 = j := huniq 0 g List.getElem?_cons_zero hg
        subst hj
        have hall : ∀ gate ∈ gs, gate.outputName ≠ name := by
          intro gate hm hname
          obtain ⟨n, hn⟩ := List.mem_iff_getElem?.mp hm
          have := huniq (n + 1) gate (by simpa using hn) hname
          omega
        rw [if_pos hall, hk]
        rfl
    · simp only [findGateLoop, hg, ↓reduceIte]
      rw [ih]
      constructor
      · rintro ⟨j, hk, ⟨gate, hget, hname⟩, huniq⟩
        refine ⟨j + 1, by omega, ⟨gate, by simpa using hget, hname⟩, fun h1 gate1 hget1 hn1 => ?_⟩
        cases h1 with
        | zero =>
          simp only [List.getElem?_cons_zero, Option.some.injEq] at hget1
          exact absurd (hget1 ▸ hn1) hg
        | succ h1 =>
          simp only [List.getElem?_cons_succ] at hget1
          rw [huniq h1 gate1 hget1 hn1]
      · rintro ⟨j, hk, ⟨gate, hget, hname⟩, huniq⟩
        cases j with
        | zero =>
          simp only [List.getElem?_cons_zero, Option.some.injEq] at hget
          exact absurd (hget ▸ hname) hg
        | succ j =>
          simp only [List.getElem?_cons_succ] at hget
          refine ⟨j, by omega, ⟨gate, hget, hname⟩, fun h1 gate1 hget1 hn1 => ?_⟩
          have := huniq (h1 + 1) gate1 (by simpa using hget1) hn1
          omega

theorem findGateByName_iff (c : Circuit) (name : String) (g : Nat) :
    c.findGateByName name = some g ↔
      (∃ gate, c.gates[g]? = some gate ∧ gate.outputName = name) ∧
      ∀ (h : Nat) (gate : Gate), c.gates[h]? = some gate → gate.outputName = name → h = g := by
  have key := findGateLoop_unique name c.gates 0 g
  have e : c.findGateByName name = some g ↔
      findGateLoop name c.gates 0 none = some (some g) := by
    unfold Circuit.findGateByName
    cases hres : findGateLoop name c.gates 0 none with
    | none => simp
    | some r =>
      cases r with
      | none => simp
      | some i => simp
  rw [e, key]
  constructor
  · rintro ⟨j, hk, h1, h2⟩
    have : g = j := by omega
    subst this
    exact ⟨h1, h2⟩
  · rintro ⟨h1, h2⟩
    exact ⟨g, by omega, h1, h2⟩

theorem resolveOutputs_resolved :
    ∀ (ns : List String) (c c1 : Circuit), resolveOutputs c ns = some c1 →
      ∀ n ∈ ns, (c.findGateByName n).isSome = true := by
  intro ns
  induction ns with
  | nil => intro c c1 _ n hn; simp at hn
  | cons m ns ih =>
    intro c c1 h n hn
    have hm : (c.findGateByName m).isSome = true := by
      cases hf : c.findGateByName m with
      | none => simp [resolveOutputs, hf] at h
      | some p => rfl
    rcases List.mem_cons.mp hn with e | e
    · rw [e]; exact hm
    · obtain ⟨p, hp⟩ := Option.isSome_iff_exists.mp hm
      simp only [resolveOutputs, hp] at h
      exact ih _ c1 h n e

theorem linkNames_resolved (g : Nat) :
    ∀ (ns : List String) (c c1 : Circuit), linkNames g c ns = some c1 →
      c1.names = c.names ∧ ∀ n ∈ ns, (c.findGateByName n).isSome = true := by
  intro ns
  induction ns with
  | nil =>
    intro c c1 h
    simp only [linkNames, Option.some.injEq] at h
    subst h
    exact ⟨rfl, fun n hn => by simp at hn⟩
  | cons m ns ih =>
    intro c c1 h
    cases hf : c.findGateByName m with
    | none => simp [linkNames, hf] at h
    | some inGate =>
      simp only [linkNames, hf] at h
      have hin := findGateByName_lt hf
      obtain ⟨gin, hgin, _⟩ := exists_gate hin
      rw [onGate_eq hgin] at h
      simp only at h
      have hn1 : (c.putGate inGate (gin.set_gateOutput g)).names = c.names :=
        names_putGate hgin rfl rfl
      cases hgg : (c.putGate inGate (gin.set_gateOutput g)).gates[g]? with
      | none => simp [Circuit.onGate, hgg] at h
      | some gg =>
        rw [onGate_eq hgg] at h
        simp only at h
        have hn2 : ((c.putGate inGate (gin.set_gateOutput g)).putGate g
            (gg.set_gateInput inGate)).names = c.names :=
          (@names_putGate _ g gg (gg.set_gateInput inGate) hgg rfl rfl).trans hn1
        obtain ⟨h1, h2⟩ := ih _ c1 h
        refine ⟨h1.trans hn2, fun n hn => ?_⟩
        rcases List.mem_cons.mp hn with e | e
        · rw [e, hf]; rfl
        · rw [← findGateByName_congr hn2]
          exact h2 n e

theorem linkGates_resolved :
    ∀ (is : List Nat) (c c1 : Circuit), linkGates c is = some c1 →
      ∀ i ∈ is, ∀ gate, c.gates[i]? = some gate →
        ∀ n ∈ gate.inputName, (c.findGateByName n).isSome = true := by
  intro is
  induction is with
  | nil => intro c c1 _ i hi; simp at hi
  | cons k is ih =>
    intro c c1 h i hi gate hgate n hn
    cases hk : c.gates[k]? with
    | none => simp [linkGates, hk] at h
    | some gk =>
      simp only [linkGates, hk] at h
      cases hl : linkNames k c gk.inputName with
      | none => simp [hl] at h
      | some c2 =>
        simp only [hl] at h
        obtain ⟨hnames, hres⟩ := linkNames_resolved k gk.inputName c c2 hl
        rcases List.mem_cons.mp hi with e | e
        · subst e
          rw [hk] at hgate
          cases hgate
          exact hres n hn
        · have hnth : c2.names[i]? = c.names[i]? := by rw [hnames]
          simp only [Circuit.names, List.getElem?_map, hgate, Option.map_some'] at hnth
          cases hg2 : c2.gates[i]? with
          | none => simp [hg2] at hnth
          | some gate2 =>
            simp only [hg2, Option.map_some', Option.some.injEq, Prod.mk.injEq] at hnth
            rw [← findGateByName_congr hnames]
            exact ih c2 c1 h i e gate2 hg2 n (hnth.2 ▸ hn)

/-- C15: `findGateByName(name)` returns the gate `g` if and only if `g` is a gate with output
name `name` and the only such gate; it fails when no gate has that name and when two gates
have it; so `setupCircuit` fails whenever an output name or a declared gate input name is one
on which `findGateByName` fails. -/
theorem C15_name_lookup_unambiguous (c : Circuit) (name : String) :
    (∀ g, c.findGateByName name = some g ↔
      (∃ gate, c.gates[g]? = some gate ∧ gate.outputName = name) ∧
      ∀ (h : Nat) (gate : Gate), c.gates[h]? = some gate → gate.outputName = name → h = g) ∧
    ((∀ gate ∈ c.gates, gate.outputName ≠ name) → c.findGateByName name = none) ∧
    ((∃ (g h : Nat) (gg hh : Gate), g ≠ h ∧ c.gates[g]? = some gg ∧ c.gates[h]? = some hh ∧
        gg.outputName = name ∧ hh.outputName = name) → c.findGateByName name = none) ∧
    ∀ fuel : Nat, (name ∈ c.outputNames ∨ ∃ gate ∈ c.gates, name ∈ gate.inputName) →
      c.findGateByName name = none → c.setupCircuit fuel = none := by
  refine ⟨findGateByName_iff c name, ?_, ?_, ?_⟩
  · intro hall
    cases hf : c.findGateByName name with
    | none => rfl
    | some g =>
      obtain ⟨⟨gate, hg, hn⟩, _⟩ := (findGateByName_iff c name g).mp hf
      exact absurd hn (hall gate (List.getElem?_mem hg))
  · rintro ⟨g, h, gg, hh, hne, hg, hh1, hgn, hhn⟩
    cases hf : c.findGateByName name with
    | none => rfl
    | some k =>
      obtain ⟨_, huniq⟩ := (findGateByName_iff c name k).mp hf
      exact absurd ((huniq g gg hg hgn).trans (huniq h hh hh1 hhn).symm) hne
  · intro fuel hname hnone
    cases hrun : c.setupCircuit fuel with
    | none => rfl
    | some c3 =>
      exfalso
      have hsome : (c.findGateByName name).isSome = true := by
        unfold Circuit.setupCircuit at hrun
        cases hb : c.buildLinks fuel with
        | none => simp [hb] at hrun
        | some c3b =>
          unfold Circuit.buildLinks at hb
          cases hres : resolveOutputs c c.outputNames with
          | none => simp [hres] at hb
          | some c1 =>
            simp only [hres] at hb
            cases hlink : linkGates c1 (List.range c1.gates.length) with
            | none => simp [hlink] at hb
            | some c2 =>
              rcases hname with hn | ⟨gate, hgate, hn⟩
              · exact resolveOutputs_resolved _ _ _ hres name hn
              · obtain ⟨hg1, _⟩ := resolveOutputs_gates _ _ _ hres
                have hn1 : c1.names = c.names := by unfold Circuit.names; rw [hg1]
                obtain ⟨i, hi⟩ := List.mem_iff_getElem?.mp hgate
                have hi1 : c1.gates[i]? = some gate := by rw [hg1]; exact hi
                rw [← findGateByName_congr hn1]
                exact linkGates_resolved _ c1 c2 hlink i
                  (List.mem_range.mpr (List.getElem?_eq_some.mp hi1).1) gate hi1 name hn
      rw [hnone] at hsome
      simp at hsome

/-- C15 on the netlist `Y = AND(A, A)`: `Y` is gate 1, no gate is named `B`, and with the
output name `B` in place of `Y` the set-up fails. -/
theorem C15_name_lookup_unambiguous_witness :
    twiceNetlist.findGateByName "Y" = some 1 ∧
    twiceNetlist.findGateByName "B" = none ∧
    ∀ fuel : Nat, ({ twiceNetlist with outputNames := ["B"] } : Circuit).setupCircuit fuel
      = none :=
  ⟨by decide, by decide, fun fuel =>
    (C15_name_lookup_unambiguous { twiceNetlist with outputNames := ["B"] } "B").2.2.2 fuel
      (Or.inl (by decide)) (by decide)⟩

/-! ## Full-circuit simulation: result and monotonicity -/

theorem unsetNonPI_congr {c c1 : Circuit} (hs : SameNet c c1)
    (hpi : ∀ (g : Nat) (gate : Gate), c.gates[g]? = some gate → gate.gateType = GATE_PI →
      c1.gates[g]? = some gate) : c1.unsetNonPI = c.unsetNonPI := by
  have hg : c1.unsetNonPI.gates = c.unsetNonPI.gates := by
    apply List.ext_getElem?
    intro g
    rw [getElem?_unsetNonPI, getElem?_unsetNonPI]
    cases hc : c.gates[g]? with
    | none =>
      have : c1.gates[g]? = none := by
        rw [List.getElem?_eq_none_iff] at hc ⊢
        rw [hs.net_length]; exact hc
      rw [this]
    | some gate =>
      obtain ⟨gate1, hg1, ht, _, _, _, he⟩ := hs.get_fields hc
      rw [hg1]
      by_cases hp : gate.gateType = GATE_PI
      · have := hpi g gate hc hp
        rw [hg1] at this
        cases this
        rfl
      · have hp1 : gate1.gateType ≠ GATE_PI := by rw [ht]; exact hp
        simp only [Option.map_some', hp, hp1, ne_eq, not_false_eq_true, ↓reduceIte]
        rw [he]
        rfl
  obtain ⟨h1, h2, h3, _⟩ := hs
  cases c
  cases c1
  simp only [Circuit.unsetNonPI, Circuit.mk.injEq] at hg h1 h2 h3 ⊢
  exact ⟨hg, h1, h2, h3⟩

theorem putGate_self {c : Circuit} {g : Nat} {gate : Gate} (hg : c.gates[g]? = some gate) :
    c.putGate g gate = c := by
  have : c.gates.set g gate = c.gates := by
    apply List.ext_getElem?
    intro i
    rw [List.getElem?_set]
    split_ifs with h1 h2
    · rw [← h1, hg]
    · rw [← h1] ; exact (List.getElem?_eq_none_iff.mpr (by omega)).symm
    · rfl
  cases c
  simp only [Circuit.putGate, Circuit.mk.injEq, and_self, and_true] at this ⊢
  exact this

theorem simulated_cone {c c1 : Circuit} {level : Nat → Nat} {K : Nat}
    (hwf : WellFormed c level) (hin : InputsSet c) (h : simFullCircuit K c = some c1)
    {g : Nat} {gate : Gate} (hg : c1.gates[g]? = some gate) (hpi : gate.gateType ≠ GATE_PI)
    (hcone : ∃ po ∈ c.outputGates, FanIn c.preds po g) :
    ∃ vals v, inputValues c1 gate.gateInputs = some vals ∧ LOGIC_UNSET ∉ vals ∧
      simGate c1 g = some v ∧ gate.gateValue = faultedValue gate.faultType v ∧
      setValueCheckFault c1 g v = some c1 := by
  obtain ⟨_, _, hcl, _, _, _⟩ := simFullCircuit_spec hwf.acyclic hin h
  have hne : gate.gateValue ≠ LOGIC_UNSET := by
    intro e
    obtain ⟨po, hpo, hf⟩ := hcone
    exact ((simulated_unset_iff hwf hin h hg).mp e).2 po hpo hf
  obtain ⟨vals, v, hvals, hun, hv, hval⟩ := hcl g gate hg hpi hne
  refine ⟨vals, v, hvals, hun, by simp [simGate, hg, hvals, hv], hval, ?_⟩
  simp only [setValueCheckFault, Circuit.onGate, hg]
  rw [← hval]
  exact congrArg some (putGate_self hg)

/-- C23: on a finalized acyclic circuit whose primary inputs all hold values in
{0, 1, D, D-bar, X}, `simFullCircuit` returns (with fuel above every level); every primary
input is untouched; every gate other than a primary input that lies in the transitive fan-in
of a primary output holds the value `setValueCheckFault` stores for the result of `simGate`
on the final values of its predecessors, none of which is UNSET; and the result is the same
for every state of the same netlist with the same primary inputs, whatever the other gates
held before the call. -/
theorem C23_simFullCircuit_result (c : Circuit) (level : Nat → Nat) (K : Nat)
    (hwf : WellFormed c level) (hK : ∀ g < c.gates.length, level g < K) (hin : InputsSet c) :
    ∃ c1, simFullCircuit K c = some c1 ∧
      (∀ (g : Nat) (gate : Gate), c.gates[g]? = some gate → gate.gateType = GATE_PI →
        c1.gates[g]? = some gate) ∧
      (∀ (g : Nat) (gate : Gate), c1.gates[g]? = some gate → gate.gateType ≠ GATE_PI →
        (∃ po ∈ c.outputGates, FanIn c.preds po g) →
        ∃ vals v, inputValues c1 gate.gateInputs = some vals ∧ LOGIC_UNSET ∉ vals ∧
          simGate c1 g = some v ∧ gate.gateValue = faultedValue gate.faultType v ∧
          setValueCheckFault c1 g v = some c1) ∧
      ∀ c2 : Circuit, SameNet c c2 →
        (∀ (g : Nat) (gate : Gate), c.gates[g]? = some gate → gate.gateType = GATE_PI →
          c2.gates[g]? = some gate) →
        simFullCircuit K c2 = some c1 := by
  obtain ⟨c1, h⟩ := simFullCircuit_total hwf hin hK
  obtain ⟨_, _, _, _, hpi, _⟩ := simFullCircuit_spec hwf.acyclic hin h
  refine ⟨c1, h, hpi, fun g gate hg hp hcone => simulated_cone hwf hin h hg hp hcone, ?_⟩
  intro c2 hs hsame
  have e := unsetNonPI_congr hs hsame
  have hout : c2.outputGates = c.outputGates := hs.1
  unfold simFullCircuit at h ⊢
  rw [e, hout]
  exact h

/-- C23 on the AND circuit with `A = 1`, `B = 1` and `Y` stuck-at-0: whatever `Y` held
before, it holds D afterwards. -/
theorem C23_simFullCircuit_result_witness :
    simFullCircuit 2 (andState LOGIC_ONE LOGIC_ONE LOGIC_ZERO FAULT_SA0)
      = some (andState LOGIC_ONE LOGIC_ONE LOGIC_D FAULT_SA0) := by
  obtain ⟨c1, h1, _, _, h4⟩ := C23_simFullCircuit_result
    (andState LOGIC_ONE LOGIC_ONE LOGIC_X FAULT_SA0) andLevel 2 (by decide) (by decide)
    (by decide)
  have e : simFullCircuit 2 (andState LOGIC_ONE LOGIC_ONE LOGIC_X FAULT_SA0)
      = some (andState LOGIC_ONE LOGIC_ONE LOGIC_D FAULT_SA0) := by decide
  rw [e] at h1
  cases h1
  refine h4 (andState LOGIC_ONE LOGIC_ONE LOGIC_ZERO FAULT_SA0) ⟨rfl, rfl, rfl, rfl⟩ ?_
  intro g gate hg hp
  match g with
  | 0 => exact hg
  | 1 => exact hg
  | 2 =>
    have e1 : gate.gateType = GATE_AND := by
      cases Option.some.inj hg
      rfl
    rw [e1] at hp
    exact absurd hp (by decide)
  | n + 3 => simp [andState] at hg

theorem assignedValue_informs :
    ∀ (ps : List Nat) (va vb : List Int), List.Forall₂ Informs va vb → va.length = ps.length →
      ∀ (g : Nat) (x y : Int), assignedValue ps va g = some x → assignedValue ps vb g = some y →
        Informs x y := by
  intro ps
  induction ps with
  | nil => intro va vb _ _ g x y h; cases va <;> simp [assignedValue] at h
  | cons p ps ih =>
    intro va vb href hlen g x y hx hy
    cases href with
    | nil => simp [assignedValue] at hx
    | @cons a b va1 vb1 hab hrest =>
      have hla : va1.length = ps.length := by simpa using hlen
      have hlb : vb1.length = ps.length := by rw [← hrest.length_eq]; exact hla
      simp only [assignedValue] at hx hy
      by_cases hg : g ∈ ps
      · obtain ⟨w, hw⟩ := assignedValue_of_mem ps va1 g hla hg
        obtain ⟨w2, hw2⟩ := assignedValue_of_mem ps vb1 g hlb hg
        simp only [hw, hw2, Option.some.injEq] at hx hy
        subst hx; subst hy
        exact ih va1 vb1 hrest hla g _ _ hw hw2
      · rw [assignedValue_not_mem ps va1 g hg] at hx
        rw [assignedValue_not_mem ps vb1 g hg] at hy
        simp only at hx hy
        split_ifs at hx hy
        cases hx; cases hy
        exact hab

theorem Informs.refines {x y : Int} (h : Informs x y) : Refines x y := by
  intro hx
  rcases h with e | ⟨e, _⟩
  · exact e
  · exact absurd e hx

/-- C29: on a finalized acyclic circuit carrying any fault, let the input vector `vb` be
obtained from the input vector `va` (both over {0, 1, X}) by replacing some X entries with 0
or 1, both assigned with `setPIValues`. Then `simFullCircuit` returns under `vb` as it does
under `va`, and every gate that holds 0, 1, D or D-bar after the simulation under `va` holds
the same value after the simulation under `vb`. -/
theorem C29_simulation_monotone (c : Circuit) (level : Nat → Nat) (K : Nat)
    (hwf : WellFormed c level) (hK : ∀ g < c.gates.length, level g < K)
    (va vb : List Int) (hva : ∀ v ∈ va, IsFaultFree v) (hvb : ∀ v ∈ vb, IsFaultFree v)
    (href : List.Forall₂ Informs va vb)
    (a0 a : Circuit) (ha0 : c.setPIValues va = some a0) (ha : simFullCircuit K a0 = some a) :
    ∃ b0 b, c.setPIValues vb = some b0 ∧ simFullCircuit K b0 = some b ∧
      ∀ (g : Nat) (ga gb : Gate), a.gates[g]? = some ga → b.gates[g]? = some gb →
        IsKnown ga.gateValue → gb.gateValue = ga.gateValue := by
  have hlen := setPIValues_length ha0
  obtain ⟨b0, hb0⟩ := @setPIValues_total _ _ vb hwf (by rw [← href.length_eq]; exact hlen)
  obtain ⟨hsa0, hpa⟩ := setPIValues_spec hwf ha0 hva
  obtain ⟨hsb0, hpb⟩ := setPIValues_spec hwf hb0 hvb
  have wfa0 := hwf.of_sameNet hsa0
  have wfb0 := hwf.of_sameNet hsb0
  have hina0 : InputsSet a0 := inputsSet_of_assigned hsa0 (fun g gate hg hp => by
    obtain ⟨v, hv, _, h3⟩ := hpa g gate hg hp
    exact ⟨_, faultedValue_isLogic _ hv.isLogic, h3⟩)
  have hinb0 : InputsSet b0 := inputsSet_of_assigned hsb0 (fun g gate hg hp => by
    obtain ⟨v, hv, _, h3⟩ := hpb g gate hg hp
    exact ⟨_, faultedValue_isLogic _ hv.isLogic, h3⟩)
  obtain ⟨b, hb⟩ := simFullCircuit_total wfb0 hinb0 (by
    intro g hg
    rw [hsb0.net_length] at hg
    exact hK g hg)
  obtain ⟨hsa, _, hcla, _, hpia, _⟩ := simFullCircuit_spec wfa0.acyclic hina0 ha
  obtain ⟨hsb, _, hclb, _, hpib, _⟩ := simFullCircuit_spec wfb0.acyclic hinb0 hb
  have hab : SameNet a b := (hsa0.net_trans hsa).net_symm.net_trans (hsb0.net_trans hsb)
  have hac : Acyclic a.preds level := (wfa0.of_sameNet hsa).acyclic
  refine ⟨b0, b, hb0, hb, fun g ga gb hga hgb hknown => ?_⟩
  have hpi : ∀ (g : Nat) (ga gb : Gate), a.gates[g]? = some ga → b.gates[g]? = some gb →
      ga.gateType = GATE_PI → Refines ga.gateValue gb.gateValue := by
    intro g ga gb hga hgb hp
    obtain ⟨gate, hgate, ht, _⟩ := (hsa0.net_trans hsa).net_symm.get_fields hga
    have hp0 : gate.gateType = GATE_PI := by rw [ht]; exact hp
    obtain ⟨x, _, hx, hxa⟩ := hpa g gate hgate hp0
    obtain ⟨y, _, hy, hyb⟩ := hpb g gate hgate hp0
    have e1 := hpia g _ hxa hp0
    have e2 := hpib g _ hyb hp0
    rw [hga] at e1
    rw [hgb] at e2
    cases e1
    cases e2
    exact faultedValue_refines _
      (assignedValue_informs _ _ _ href hlen g x y hx hy).refines
  have hnea : ga.gateValue ≠ LOGIC_UNSET := by
    intro e
    rw [e] at hknown
    revert hknown
    decide
  have hneb : gb.gateValue ≠ LOGIC_UNSET := by
    intro e
    have h1 := (simulated_unset_iff wfb0 hinb0 hb hgb).mp e
    have ht1 : gb.gateType = ga.gateType := by
      obtain ⟨gb1, hgb1, ht1, _⟩ := hab.get_fields hga
      rw [hgb] at hgb1
      cases hgb1
      exact ht1
    have h2 := (simulated_unset_iff wfa0 hina0 ha hga).mpr ⟨by rw [← ht1]; exact h1.1, by
      have e1 : a0.outputGates = b0.outputGates := by rw [hsa0.1, hsb0.1]
      have e2 : a0.preds = b0.preds := by rw [hsa0.net_preds, hsb0.net_preds]
      rw [e1, e2]
      exact h1.2⟩
    exact hnea h2
  have hr := refine_values_agree hac hab hcla hclb hpi g ga gb hga hgb hnea hneb
  apply hr
  intro e
  rw [e] at hknown
  revert hknown
  decide

/-- C29 on the AND circuit with `Y` stuck-at-1: under `A = 0, B = X` the gate `Y` holds
D-bar, and it still does under `A = 0, B = 1`. -/
theorem C29_simulation_monotone_witness :
    ∃ b0 b, (andState LOGIC_X LOGIC_X LOGIC_X FAULT_SA1).setPIValues [LOGIC_ZERO, LOGIC_ONE]
        = some b0 ∧ simFullCircuit 2 b0 = some b ∧
      ∀ (g : Nat) (ga gb : Gate),
        (andState LOGIC_ZERO LOGIC_X LOGIC_DBAR FAULT_SA1).gates[g]? = some ga →
        b.gates[g]? = some gb → IsKnown ga.gateValue → gb.gateValue = ga.gateValue :=
  C29_simulation_monotone (andState LOGIC_X LOGIC_X LOGIC_X FAULT_SA1) andLevel 2
    (by decide) (by decide) [LOGIC_ZERO, LOGIC_X] [LOGIC_ZERO, LOGIC_ONE] (by decide)
    (by decide) (by decide) (andState LOGIC_ZERO LOGIC_X LOGIC_X FAULT_SA1)
    (andState LOGIC_ZERO LOGIC_X LOGIC_DBAR FAULT_SA1) (by decide) (by decide)


/-! ## States of the search: X values are justified by X inputs -/

theorem WellFormed.predsValid {c : Circuit} {level : Nat → Nat} (hwf : WellFormed c level) :
    PredsValid c := by
  intro gate hmem p hp
  obtain ⟨g, hg⟩ := List.mem_iff_getElem?.mp hmem
  exact ((hwf.wf_get hg).2.2.2 p hp).1

theorem faultedValue_eq_X {faultType v : Int} (h : faultedValue faultType v = LOGIC_X) :
    v = LOGIC_X := by
  unfold faultedValue at h
  split_ifs at h <;> first | exact h | exact absurd h (by decide)

theorem evalGate_eq_X {ins : List Int} {c i : Int} (hc : c = 0 ∨ c = 1)
    (h : evalGate ins c i = LOGIC_X) : LOGIC_X ∈ ins := by
  unfold evalGate at h
  by_contra hX
  rcases hc with rfl | rfl <;> simp only [hX, decide_False] at h <;>
    split_ifs at h <;> contradiction

theorem EvalXORGate_eq_X {ins : List Int} {inv : Int} (hins : ∀ x ∈ ins, IsLogic x)
    (h : EvalXORGate ins inv = LOGIC_X) : LOGIC_X ∈ ins := by
  by_contra hX
  have h4 : ∀ v ∈ ins, v = LOGIC_ZERO ∨ v = LOGIC_ONE ∨ v = LOGIC_D ∨ v = LOGIC_DBAR := by
    intro v hv
    rcases hins v hv with e | e | e | e | e
    · exact Or.inl e
    · exact Or.inr (Or.inl e)
    · exact Or.inr (Or.inr (Or.inl e))
    · exact Or.inr (Or.inr (Or.inr e))
    · exact absurd (e ▸ hv) hX
  unfold EvalXORGate at h
  rw [countOnes_count ins 0 0 h4] at h
  simp only [hX, ↓reduceIte] at h
  split_ifs at h <;> revert h <;> simp [LogicNot]

theorem LogicNot_eq_X {v : Int} (h : LogicNot v = LOGIC_X) : v = LOGIC_X := by
  unfold LogicNot at h
  split_ifs at h with h1 h2 h3 h4 h5 <;> first | exact h5 | exact absurd h (by decide)

theorem simGateType_eq_X {gateType : Int} {vals : List Int}
    (hins : ∀ x ∈ vals, IsLogic x) (h : simGateType gateType vals = some LOGIC_X) :
    LOGIC_X ∈ vals := by
  rcases simGateType_shape h with ⟨c, i, hc, e⟩ | ⟨inv, e⟩ | e | e
  · rw [e] at h
    exact evalGate_eq_X hc (Option.some.inj h)
  · rw [e] at h
    exact EvalXORGate_eq_X hins (Option.some.inj h)
  · rw [e] at h
    exact List.mem_of_mem_head? h
  · rw [e] at h
    cases hh : vals.head? with
    | none => simp [hh] at h
    | some x =>
      simp only [hh, Option.map_some', Option.some.injEq] at h
      have := LogicNot_eq_X h
      subst this
      exact List.mem_of_mem_head? hh

theorem closed_vals_logic {c : Circuit} (hv : ValidValues c) {ps : List Nat} {vals : List Int}
    (hvals : inputValues c ps = some vals) (hun : LOGIC_UNSET ∉ vals) :
    ∀ x ∈ vals, IsLogic x := by
  intro x hx
  obtain ⟨p, _, hp⟩ := inputValues_mem hvals hx
  obtain ⟨gp, hgp, e⟩ := getValue_some hp
  rcases validValues_get hv hgp with hl | hl
  · exact e ▸ hl
  · exact absurd (by rw [← hl.1, e]; exact hx) hun

theorem closed_X_pred {c : Circuit} (hv : ValidValues c) (hcl : Closed c) {g : Nat}
    {gate : Gate} (hg : c.gates[g]? = some gate) (hpi : gate.gateType ≠ GATE_PI)
    (hX : gate.gateValue = LOGIC_X) :
    ∃ p ∈ gate.gateInputs, c.getValue p = some LOGIC_X := by
  obtain ⟨vals, v, hvals, hun, hsim, hval⟩ := hcl g gate hg hpi (by rw [hX]; decide)
  have hvX : v = LOGIC_X := faultedValue_eq_X (hval ▸ hX)
  subst hvX
  exact inputValues_mem hvals (simGateType_eq_X (closed_vals_logic hv hvals hun) hsim)

theorem getObjective_cases {s s1 : Podem} {r : Option (Option Nat × Int)}
    (h : getObjective s = some (s1, r)) :
    ∃ fv, s.myCircuit.getValue s.faultLocation = some fv ∧
      ((fv = LOGIC_X ∧ s1 = s ∧ r = some (some s.faultLocation, s.faultActivationVal)) ∨
       ((fv = LOGIC_ONE ∨ fv = LOGIC_ZERO) ∧ s1 = s ∧ r = none) ∨
       (fv ≠ LOGIC_X ∧ fv ≠ LOGIC_ONE ∧ fv ≠ LOGIC_ZERO ∧ updateDFrontier s = some s1 ∧
         ((s1.dFrontier = [] ∧ r = none) ∨
          ∃ d rest dgate g, s1.dFrontier = d :: rest ∧ s1.myCircuit.gates[d]? = some dgate ∧
            firstX s1.myCircuit dgate.gateInputs = some g ∧
            r = some (g, objectiveValue dgate.gateType)))) := by
  unfold getObjective at h
  cases hfv : s.myCircuit.getValue s.faultLocation with
  | none => simp [hfv] at h
  | some fv =>
    refine ⟨fv, rfl, ?_⟩
    simp only [hfv] at h
    by_cases h1 : fv = LOGIC_X
    · simp only [h1, ↓reduceIte, Option.some.injEq, Prod.mk.injEq] at h
      exact Or.inl ⟨h1, h.1.symm, h.2.symm⟩
    · simp only [h1, ↓reduceIte] at h
      by_cases h2 : fv = LOGIC_ONE ∨ fv = LOGIC_ZERO
      · simp only [h2, ↓reduceIte, Option.some.injEq, Prod.mk.injEq] at h
        exact Or.inr (Or.inl ⟨h2, h.1.symm, h.2.symm⟩)
      · simp only [h2, ↓reduceIte] at h
        simp only [not_or] at h2
        refine Or.inr (Or.inr ⟨h1, h2.1, h2.2, ?_⟩)
        cases hu : updateDFrontier s with
        | none => simp [hu] at h
        | some s2 =>
          simp only [hu] at h
          cases hd : s2.dFrontier with
          | nil =>
            simp only [hd, Option.some.injEq, Prod.mk.injEq] at h
            obtain ⟨rfl, rfl⟩ := h
            exact ⟨rfl, Or.inl ⟨hd, rfl⟩⟩
          | cons d rest =>
            simp only [hd] at h
            cases hdg : s2.myCircuit.gates[d]? with
            | none => simp [hdg] at h
            | some dgate =>
              simp only [hdg] at h
              cases hx : firstX s2.myCircuit dgate.gateInputs with
              | none => simp [hx] at h
              | some g0 =>
                simp only [hx, Option.some.injEq, Prod.mk.injEq] at h
                obtain ⟨rfl, rfl⟩ := h
                exact ⟨rfl, Or.inr ⟨d, rest, dgate, g0, hd, hdg, hx, rfl⟩⟩

theorem frontier_gate_shape {c : Circuit} {level : Nat → Nat} (hwf : WellFormed c level)
    (hun : UnaryOk c) (hv : ValidValues c) (hcl : Closed c) {d : Nat} {dgate : Gate}
    (hd : c.gates[d]? = some dgate) (hf : isFrontierGate c dgate = true) :
    dgate.gateType ∈ frontierTypes ∧ ∃ p ∈ dgate.gateInputs, c.getValue p = some LOGIC_X := by
  obtain ⟨hX, q, hq, hqD⟩ := isFrontierGate_iff.mp hf
  obtain ⟨ht, hpi, _, _⟩ := hwf.wf_get hd
  have hnpi : dgate.gateType ≠ GATE_PI := by
    intro e
    rw [(hpi e).1] at hq
    simp at hq
  obtain ⟨p, hp, hpX⟩ := closed_X_pred hv hcl hd hnpi hX
  refine ⟨?_, p, hp, hpX⟩
  have hnu : ¬ (dgate.gateType = GATE_BUFF ∨ dgate.gateType = GATE_NOT ∨
      dgate.gateType = GATE_FANOUT) := by
    intro hu
    have hlen := hun dgate (List.getElem?_mem hd) hu
    obtain ⟨x, hx⟩ := List.length_eq_one.mp hlen
    rw [hx] at hq hp
    have e1 : q = x := by simpa using hq
    have e2 : p = x := by simpa using hp
    rw [e1] at hqD
    rw [e2] at hpX
    rw [hpX] at hqD
    revert hqD
    decide
  simp only [not_or] at hnu
  simp only [gateTypes, List.mem_cons, List.mem_singleton, List.not_mem_nil, or_false] at ht
  simp only [frontierTypes, List.mem_cons, List.mem_singleton, List.not_mem_nil, or_false]
  rcases ht with e | e | e | e | e | e | e | e | e | e
  · exact Or.inr (Or.inl e)
  · exact Or.inr (Or.inr (Or.inr (Or.inl e)))
  · exact Or.inl e
  · exact Or.inr (Or.inr (Or.inl e))
  · exact Or.inr (Or.inr (Or.inr (Or.inr (Or.inl e))))
  · exact Or.inr (Or.inr (Or.inr (Or.inr (Or.inr e))))
  · exact absurd e hnu.1
  · exact absurd e hnu.2.1
  · exact absurd e hnpi
  · exact absurd e hnu.2.2

theorem objectiveValue_frontier {gateType : Int} (h : gateType ∈ frontierTypes) :
    objectiveValue gateType = LOGIC_ZERO ∨ objectiveValue gateType = LOGIC_ONE := by
  simp only [frontierTypes, List.mem_cons, List.mem_singleton, List.not_mem_nil, or_false] at h
  rcases h with rfl | rfl | rfl | rfl | rfl | rfl <;> decide

theorem getObjective_good {s s1 : Podem} {level : Nat → Nat} {g : Option Nat} {v : Int}
    (hwf : WellFormed s.myCircuit level) (hun : UnaryOk s.myCircuit)
    (hv : ValidValues s.myCircuit) (hcl : Closed s.myCircuit)
    (hact : s.faultActivationVal = LOGIC_ZERO ∨ s.faultActivationVal = LOGIC_ONE)
    (h : getObjective s = some (s1, some (g, v))) :
    (∃ q, g = some q ∧ s.myCircuit.getValue q = some LOGIC_X) ∧
      (v = LOGIC_ZERO ∨ v = LOGIC_ONE) := by
  obtain ⟨fv, hfv, hc⟩ := getObjective_cases h
  rcases hc with ⟨hX, _, hr⟩ | ⟨_, _, hr⟩ | ⟨_, _, _, hu, hr⟩
  · simp only [Option.some.injEq, Prod.mk.injEq] at hr
    obtain ⟨rfl, rfl⟩ := hr
    exact ⟨⟨_, rfl, by rw [hfv, hX]⟩, hact⟩
  · cases hr
  · rcases hr with ⟨_, hr⟩ | ⟨d, rest, dgate, g0, hd, hdg, hx, hr⟩
    · cases hr
    · simp only [Option.some.injEq, Prod.mk.injEq] at hr
      obtain ⟨rfl, rfl⟩ := hr
      obtain ⟨s2, h1, h2, _, _, h5, _⟩ := updateDFrontier_spec hwf.predsValid
      rw [hu] at h1
      cases h1
      obtain ⟨dg, hdg2, hf⟩ := (h5 d).mp (by rw [hd]; exact List.mem_cons_self _ _)
      rw [h2] at hdg hx
      rw [hdg] at hdg2
      cases hdg2
      obtain ⟨htype, p, hp, hpX⟩ := frontier_gate_shape hwf hun hv hcl hdg hf
      refine ⟨?_, objectiveValue_frontier htype⟩
      obtain ⟨r, hr, hnone, hsome⟩ :=
        @firstX_spec s.myCircuit dgate.gateInputs (hwf.predsValid dgate (List.getElem?_mem hdg))
      rw [hx] at hr
      cases hr
      cases g with
      | none => exact absurd hpX (hnone rfl p hp)
      | some q =>
        obtain ⟨_, _, _, hq, _⟩ := hsome q rfl
        exact ⟨q, rfl, hq⟩

theorem firstX_eq_find {c : Circuit} :
    ∀ {ps : List Nat}, (∀ p ∈ ps, p < c.gates.length) →
      firstX c ps = some (ps.find? (fun p => decide (c.getValue p = some LOGIC_X))) := by
  intro ps
  induction ps with
  | nil => intro _; rfl
  | cons p ps ih =>
    intro h
    have hp := h p (List.mem_cons_self _ _)
    obtain ⟨gate, hgate⟩ : ∃ gate, c.gates[p]? = some gate := ⟨_, List.getElem?_eq_getElem hp⟩
    have hv := getValue_eq hgate
    rw [firstX, hv, List.find?_cons, ih (fun q hq => h q (List.mem_cons_of_mem _ hq)), hv]
    by_cases hX : gate.gateValue = LOGIC_X
    · simp [hX]
    · simp [hX]

theorem isInverting_iff (gateType : Int) :
    isInverting gateType = decide (gateType ∈ invertingTypes) := by
  unfold isInverting invertingTypes
  by_cases h1 : gateType = GATE_NOR <;> by_cases h2 : gateType = GATE_NOT <;>
    by_cases h3 : gateType = GATE_NAND <;> by_cases h4 : gateType = GATE_XNOR <;>
    simp [h1, h2, h3, h4]

theorem inversions_cons (c : Circuit) (q : Nat) (path : List Nat) (gate : Gate)
    (hq : c.gates[q]? = some gate) :
    c.inversions (q :: path)
      = c.inversions path + (if isInverting gate.gateType then 1 else 0) := by
  unfold Circuit.inversions
  rw [List.countP_cons]
  simp only [hq, isInverting_iff]

theorem backtraceLoop_path {c : Circuit} {level : Nat → Nat} (hwf : WellFormed c level)
    (hv : ValidValues c) (hcl : Closed c) :
    ∀ (fuel g inv : Nat), c.getValue g = some LOGIC_X → level g < fuel →
      ∃ path pi, firstXPath c fuel g = some path ∧ path.head? = some g ∧
        path.getLast? = some pi ∧ (∀ q ∈ path, c.getValue q = some LOGIC_X) ∧
        (∃ gate, c.gates[pi]? = some gate ∧ gate.gateType = GATE_PI) ∧
        backtraceLoop c fuel g inv = some (pi, inv + c.inversions path.tail) := by
  intro fuel
  induction fuel with
  | zero => intro g inv _ h; omega
  | succ fuel ih =>
    intro g inv hX hlev
    obtain ⟨gate, hg, hgX⟩ := getValue_some hX
    by_cases hpi : gate.gateType = GATE_PI
    · refine ⟨[g], g, by simp [firstXPath, hg, hpi], rfl, rfl, ?_, ⟨gate, hg, hpi⟩, ?_⟩
      · intro q hq
        rw [List.mem_singleton.mp hq]
        exact hX
      · simp [backtraceLoop, hg, hpi, Circuit.inversions]
    · obtain ⟨p0, hp0, hp0X⟩ := closed_X_pred hv hcl hg hpi hgX
      have hlt := hwf.predsValid gate (List.getElem?_mem hg)
      have hfx := @firstX_eq_find c gate.gateInputs hlt
      cases hfind : gate.gateInputs.find? (fun p => decide (c.getValue p = some LOGIC_X)) with
      | none =>
        have := List.find?_eq_none.mp hfind p0 hp0
        simp [hp0X] at this
      | some p =>
        have hpm : p ∈ gate.gateInputs := List.mem_of_find?_eq_some hfind
        have hpX : c.getValue p = some LOGIC_X := by
          have := List.find?_some hfind
          simpa using this
        have hplev : level p < fuel := by
          have := ((hwf.wf_get hg).2.2.2 p hpm).2
          omega
        obtain ⟨gp, hgp, _⟩ := getValue_some hpX
        obtain ⟨path, pi, h1, h2, h3, h4, h5, h6⟩ :=
          ih p (inv + (if isInverting gp.gateType then 1 else 0)) hpX hplev
        obtain ⟨rest, hrest⟩ : ∃ rest, path = p :: rest := by
          cases path with
          | nil => simp at h2
          | cons a rest =>
            simp only [List.head?_cons, Option.some.injEq] at h2
            exact ⟨rest, by rw [h2]⟩
        refine ⟨g :: path, pi, by simp [firstXPath, hg, hpi, hfind, h1], rfl, ?_, ?_, h5, ?_⟩
        · rw [hrest] at h3 ⊢
          rw [List.getLast?_cons_cons]
          exact h3
        · intro q hq
          rcases List.mem_cons.mp hq with e | e
          · rw [e]; exact hX
          · exact h4 q e
        · rw [hfind] at hfx
          simp only [backtraceLoop, hg, hpi, ne_eq, not_false_eq_true, ↓reduceIte, hfx,
            Option.getD_some, hgp]
          have hi : (if isInverting gp.gateType = true then inv + 1 else inv)
              = inv + (if isInverting gp.gateType then 1 else 0) := by
            split_ifs <;> rfl
          rw [hi, h6, List.tail_cons, hrest, List.tail_cons, inversions_cons c p rest gp hgp]
          congr 2
          omega

theorem inputValues_allX {c : Circuit} (hx : AllX c) :
    ∀ {ps : List Nat}, (∀ p ∈ ps, p < c.gates.length) →
      inputValues c ps = some (List.replicate ps.length LOGIC_X) := by
  intro ps
  induction ps with
  | nil => intro _; rfl
  | cons p ps ih =>
    intro h
    rw [inputValues, hx.getValue (h p (List.mem_cons_self _ _)),
      ih (fun q hq => h q (List.mem_cons_of_mem _ hq))]
    rfl

theorem simGateType_allX {gateType : Int} (ht : gateType ∈ gateTypes)
    (hpi : gateType ≠ GATE_PI) (n : Nat) :
    simGateType gateType (List.replicate (n + 1) LOGIC_X) = some LOGIC_X := by
  have hm : LOGIC_X ∈ List.replicate (n + 1) LOGIC_X := by simp
  have hn : ∀ v : Int, v ≠ LOGIC_X → v ∉ List.replicate (n + 1) LOGIC_X := by
    intro v hv hmem
    exact hv (List.eq_of_mem_replicate hmem)
  have h0 := hn 0 (by decide)
  have h1 := hn 1 (by decide)
  have hD := hn LOGIC_D (by decide)
  have hhead : (List.replicate (n + 1) LOGIC_X).head? = some LOGIC_X := rfl
  have hxor : ∀ inv, EvalXORGate (List.replicate (n + 1) LOGIC_X) inv = LOGIC_X :=
    fun inv => EvalXORGate_unknown _ inv hm
  have hev : ∀ c i : Int, c = 0 ∨ c = 1 →
      evalGate (List.replicate (n + 1) LOGIC_X) c i = LOGIC_X := by
    intro c i hc
    unfold evalGate
    rcases hc with rfl | rfl <;> simp only [h0, h1, hD, hm] <;> simp
  simp only [gateTypes, List.mem_cons, List.mem_singleton, List.not_mem_nil, or_false] at ht
  rcases ht with e | e | e | e | e | e | e | e | e | e
  · subst e; simp [simGateType, hev]
  · subst e; simp [simGateType, hev]
  · subst e; simp [simGateType, hev]
  · subst e; simp [simGateType, hev]
  · subst e; simp [simGateType, hxor]
  · subst e; simp [simGateType, hxor]
  · subst e; simp [simGateType, hhead]
  · subst e; simp [simGateType, hhead, LogicNot]
  · exact absurd e hpi
  · subst e; simp [simGateType, hhead]

theorem closed_of_allX {c : Circuit} {level : Nat → Nat} (hwf : WellFormed c level)
    (hx : AllX c) : ValidValues c ∧ Closed c := by
  constructor
  · intro gate hmem
    exact Or.inl (by rw [hx gate hmem]; decide)
  · intro g gate hg hpi _
    obtain ⟨ht, _, hne, hlt⟩ := hwf.wf_get hg
    have hvals := @inputValues_allX c hx gate.gateInputs (fun p hp => (hlt p hp).1)
    obtain ⟨n, hn⟩ : ∃ n, gate.gateInputs.length = n + 1 := by
      cases hi : gate.gateInputs with
      | nil => exact absurd hi (hne hpi)
      | cons a l => exact ⟨l.length, rfl⟩
    rw [hn] at hvals
    refine ⟨_, LOGIC_X, hvals, ?_, simGateType_allX ht hpi n, ?_⟩
    · intro hmem
      have := List.eq_of_mem_replicate hmem
      revert this
      decide
    · rw [faultedValue_X]
      exact hx gate (List.getElem?_mem hg)

theorem Evaluated.spec {level : Nat → Nat} {c : Circuit} (h : Evaluated level c) :
    WellFormed c level ∧ ValidValues c ∧ Closed c := by
  rcases h with ⟨hwf, hx⟩ | ⟨c0, K0, hwf0, hin0, hsim⟩
  · exact ⟨hwf, closed_of_allX hwf hx⟩
  · obtain ⟨hs, hv, hcl, _⟩ := simFullCircuit_spec hwf0.acyclic hin0 hsim
    exact ⟨hwf0.of_sameNet hs, hv, hcl⟩

/-- C19: in the all-X state of a finalized acyclic circuit and in every state produced by
`simFullCircuit` on one, for an objective gate `objGate` that holds X and fuel above its
level: `backtrace` returns a gate `pi` of type INPUT whose value is X; `pi` is the end of the path
from `objGate` that takes, at each gate, the first predecessor whose value is X; and `piVal`
is `objVal` when the number of gates of type NOT, NAND, NOR or XNOR on that path, `objGate`
included, is even, and `LogicNot objVal` when it is odd. -/
theorem C19_backtrace_path (c : Circuit) (level : Nat → Nat) (K : Nat)
    (hstate : Evaluated level c) (objGate : Nat) (objVal : Int) (hX : c.getValue objGate = some LOGIC_X)
    (hK : level objGate < K) :
    ∃ path pi, firstXPath c K objGate = some path ∧ path.head? = some objGate ∧
      path.getLast? = some pi ∧ (∀ q ∈ path, c.getValue q = some LOGIC_X) ∧
      (∃ gate, c.gates[pi]? = some gate ∧ gate.gateType = GATE_PI ∧
        gate.gateValue = LOGIC_X) ∧
      backtrace K c objGate objVal
        = some (pi, if c.inversions path % 2 = 0 then objVal else LogicNot objVal) := by
  obtain ⟨hwf, hv, hcl⟩ := hstate.spec
  obtain ⟨gate, hg, _⟩ := getValue_some hX
  obtain ⟨path, pi, h1, h2, h3, h4, ⟨gpi, hgpi, htpi⟩, h6⟩ :=
    backtraceLoop_path hwf hv hcl K objGate (if isInverting gate.gateType then 1 else 0) hX hK
  have hpim : pi ∈ path := List.mem_of_getLast?_eq_some h3
  have hpiX : gpi.gateValue = LOGIC_X := by
    have := h4 pi hpim
    rw [getValue_eq hgpi] at this
    exact Option.some.inj this
  refine ⟨path, pi, h1, h2, h3, h4, ⟨gpi, hgpi, htpi, hpiX⟩, ?_⟩
  obtain ⟨rest, hrest⟩ : ∃ rest, path = objGate :: rest := by
    cases path with
    | nil => simp at h2
    | cons a rest =>
      simp only [List.head?_cons, Option.some.injEq] at h2
      exact ⟨rest, by rw [h2]⟩
  have hcount : c.inversions path
      = (if isInverting gate.gateType then 1 else 0) + c.inversions path.tail := by
    rw [hrest, List.tail_cons, inversions_cons c objGate rest gate hg]
    omega
  simp only [backtrace, hg, h6, hcount]
  congr 2
  rcases Nat.mod_two_eq_zero_or_one
    ((if isInverting gate.gateType then 1 else 0) + c.inversions path.tail) with e | e <;>
    simp [e]

/-- C19 on the AND circuit in the all-X state, objective `(Y, 1)`: the path is `Y`, `A`, with
no inversion, so the result is `(A, 1)`. -/
theorem C19_backtrace_path_witness :
    ∃ path pi, firstXPath (andState LOGIC_X LOGIC_X LOGIC_X FAULT_SA0) 2 2 = some path ∧
      path.head? = some 2 ∧ path.getLast? = some pi ∧
      (∀ q ∈ path, (andState LOGIC_X LOGIC_X LOGIC_X FAULT_SA0).getValue q = some LOGIC_X) ∧
      (∃ gate, (andState LOGIC_X LOGIC_X LOGIC_X FAULT_SA0).gates[pi]? = some gate ∧
        gate.gateType = GATE_PI ∧ gate.gateValue = LOGIC_X) ∧
      backtrace 2 (andState LOGIC_X LOGIC_X LOGIC_X FAULT_SA0) 2 LOGIC_ONE
        = some (pi, if (andState LOGIC_X LOGIC_X LOGIC_X FAULT_SA0).inversions path % 2 = 0
            then LOGIC_ONE else LogicNot LOGIC_ONE) :=
  C19_backtrace_path (andState LOGIC_X LOGIC_X LOGIC_X FAULT_SA0) andLevel 2
    (Or.inl ⟨by decide, by decide⟩) 2 LOGIC_ONE (by decide) (by decide)


/-! ## The recursion of PODEM, step by step -/

theorem podemRecursion_cases {k fuel : Nat} {s r : Podem} {b : Bool}
    (h : podemRecursion k (fuel + 1) s = some (b, r)) :
    (anyOutputDetects s.myCircuit s.myCircuit.outputGates = some true ∧ b = true ∧ r = s) ∨
    (anyOutputDetects s.myCircuit s.myCircuit.outputGates = some false ∧
      ((getObjective s = some (r, none) ∧ b = false) ∨
       ∃ s1 g v pi piVal s2, getObjective s = some (s1, some (some g, v)) ∧
        backtrace k s1.myCircuit g v = some (pi, piVal) ∧
        assignAndSimulate k s1 pi piVal = some s2 ∧
        ((podemRecursion k fuel s2 = some (true, r) ∧ b = true) ∨
         ∃ s3 s4, podemRecursion k fuel s2 = some (false, s3) ∧
          assignAndSimulate k s3 pi (LogicNot piVal) = some s4 ∧
          ((podemRecursion k fuel s4 = some (true, r) ∧ b = true) ∨
           ∃ s5 c6, podemRecursion k fuel s4 = some (false, s5) ∧
            setValueCheckFault s5.myCircuit pi LOGIC_X = some c6 ∧
            b = false ∧ r = s5.withCircuit c6)))) := by
  simp only [podemRecursion] at h
  cases hao : anyOutputDetects s.myCircuit s.myCircuit.outputGates with
  | none => simp [hao] at h
  | some det =>
    cases det with
    | true =>
      simp only [hao, Option.some.injEq, Prod.mk.injEq] at h
      exact Or.inl ⟨rfl, h.1.symm, h.2.symm⟩
    | false =>
      simp only [hao] at h
      refine Or.inr ⟨rfl, ?_⟩
      cases hgo : getObjective s with
      | none => simp [hgo] at h
      | some p =>
        obtain ⟨s1, obj⟩ := p
        cases obj with
        | none =>
          simp only [hgo, Option.some.injEq, Prod.mk.injEq] at h
          obtain ⟨rfl, rfl⟩ := h
          exact Or.inl ⟨rfl, rfl⟩
        | some gv =>
          obtain ⟨og, v⟩ := gv
          cases og with
          | none => simp [hgo] at h
          | some g =>
            simp only [hgo] at h
            cases hbt : backtrace k s1.myCircuit g v with
            | none => simp [hbt] at h
            | some pv =>
              obtain ⟨pi, piVal⟩ := pv
              simp only [hbt] at h
              cases has : assignAndSimulate k s1 pi piVal with
              | none => simp [has] at h
              | some s2 =>
                simp only [has] at h
                refine Or.inr ⟨s1, g, v, pi, piVal, s2, rfl, hbt, has, ?_⟩
                cases hrec : podemRecursion k fuel s2 with
                | none => simp [hrec] at h
                | some br =>
                  obtain ⟨b2, s3⟩ := br
                  cases b2 with
                  | true =>
                    simp only [hrec, Option.some.injEq, Prod.mk.injEq] at h
                    obtain ⟨rfl, rfl⟩ := h
                    exact Or.inl ⟨rfl, rfl⟩
                  | false =>
                    simp only [hrec] at h
                    cases has4 : assignAndSimulate k s3 pi (LogicNot piVal) with
                    | none => simp [has4] at h
                    | some s4 =>
                      simp only [has4] at h
                      refine Or.inr ⟨s3, s4, rfl, has4, ?_⟩
                      cases hrec5 : podemRecursion k fuel s4 with
                      | none => simp [hrec5] at h
                      | some br5 =>
                        obtain ⟨b4, s5⟩ := br5
                        cases b4 with
                        | true =>
                          simp only [hrec5, Option.some.injEq, Prod.mk.injEq] at h
                          obtain ⟨rfl, rfl⟩ := h
                          exact Or.inl ⟨rfl, rfl⟩
                        | false =>
                          simp only [hrec5] at h
                          cases hset : setValueCheckFault s5.myCircuit pi LOGIC_X with
                          | none => simp [hset] at h
                          | some c6 =>
                            simp only [hset, Option.map_some', Option.some.injEq,
                              Prod.mk.injEq] at h
                            obtain ⟨rfl, rfl⟩ := h
                            exact Or.inr ⟨s5, c6, rfl, hset, rfl, rfl⟩

theorem firstX_some {c : Circuit} :
    ∀ {ps : List Nat} {p : Nat}, firstX c ps = some (some p) →
      p ∈ ps ∧ c.getValue p = some LOGIC_X := by
  intro ps
  induction ps with
  | nil => intro p h; simp [firstX] at h
  | cons q ps ih =>
    intro p h
    rw [firstX] at h
    cases hv : c.getValue q with
    | none => simp [hv] at h
    | some v =>
      simp only [hv] at h
      by_cases hX : v = LOGIC_X
      · simp only [hX, ↓reduceIte, Option.some.injEq] at h
        subst h
        exact ⟨List.mem_cons_self _ _, by rw [hv, hX]⟩
      · simp only [hX, ↓reduceIte] at h
        exact ⟨List.mem_cons_of_mem _ (ih h).1, (ih h).2⟩

theorem backtraceLoop_result {c : Circuit} :
    ∀ (fuel g inv pi m : Nat), backtraceLoop c fuel g inv = some (pi, m) →
      c.getValue g = some LOGIC_X →
      (∃ gate, c.gates[pi]? = some gate ∧ gate.gateType = GATE_PI ∧
        gate.gateValue = LOGIC_X) := by
  intro fuel
  induction fuel with
  | zero => intro g inv pi m h; simp [backtraceLoop] at h
  | succ fuel ih =>
    intro g inv pi m h hX
    obtain ⟨gate, hg, hgX⟩ := getValue_some hX
    rw [backtraceLoop] at h
    simp only [hg] at h
    by_cases hpi : gate.gateType = GATE_PI
    · simp only [hpi, ne_eq, not_true_eq_false, ↓reduceIte, Option.some.injEq,
        Prod.mk.injEq] at h
      exact ⟨gate, h.1 ▸ hg, hpi, hgX⟩
    · simp only [hpi, ne_eq, not_false_eq_true, ↓reduceIte] at h
      cases hfx : firstX c gate.gateInputs with
      | none => simp [hfx] at h
      | some found =>
        simp only [hfx] at h
        have hX1 : c.getValue (found.getD g) = some LOGIC_X := by
          cases found with
          | none => exact hX
          | some p => exact (firstX_some hfx).2
        cases hg1 : c.gates[found.getD g]? with
        | none => simp [hg1] at h
        | some gate1 =>
          simp only [hg1] at h
          exact ih _ _ pi m h hX1

theorem backtrace_result {k : Nat} {c : Circuit} {objGate : Nat} {objVal : Int} {pi : Nat}
    {piVal : Int} (h : backtrace k c objGate objVal = some (pi, piVal))
    (hX : c.getValue objGate = some LOGIC_X) :
    ∃ gate, c.gates[pi]? = some gate ∧ gate.gateType = GATE_PI ∧ gate.gateValue = LOGIC_X := by
  unfold backtrace at h
  cases hg : c.gates[objGate]? with
  | none => simp [hg] at h
  | some gate =>
    simp only [hg] at h
    cases hb : backtraceLoop c k objGate (if isInverting gate.gateType then 1 else 0) with
    | none => simp [hb] at h
    | some r =>
      obtain ⟨p, n⟩ := r
      simp only [hb, Option.some.injEq, Prod.mk.injEq] at h
      obtain ⟨rfl, _⟩ := h
      exact backtraceLoop_result _ _ _ _ _ hb hX

theorem getObjective_holds_X {s s1 : Podem} {g : Nat} {v : Int}
    (h : getObjective s = some (s1, some (some g, v))) :
    s1.myCircuit = s.myCircuit ∧ s.myCircuit.getValue g = some LOGIC_X := by
  obtain ⟨hc, _⟩ := getObjective_spec h
  refine ⟨hc, ?_⟩
  obtain ⟨fv, hfv, hcase⟩ := getObjective_cases h
  rcases hcase with ⟨hX, _, hr⟩ | ⟨_, _, hr⟩ | ⟨_, _, _, _, hr⟩
  · simp only [Option.some.injEq, Prod.mk.injEq] at hr
    rw [hr.1, hfv, hX]
  · cases hr
  · rcases hr with ⟨_, hr⟩ | ⟨d, rest, dgate, g0, _, _, hx, hr⟩
    · cases hr
    · simp only [Option.some.injEq, Prod.mk.injEq] at hr
      rw [← hr.1] at hx
      rw [← hc]
      exact (firstX_some hx).2

theorem assignAndSimulate_inputs {level : Nat → Nat} {k : Nat} {s s2 : Podem} {pi : Nat}
    {v : Int} (hinv : PodemInv level s) (hv : IsLogic v)
    (h : assignAndSimulate k s pi v = some s2) :
    (∃ gpi, s.myCircuit.gates[pi]? = some gpi) ∧
    ∀ (g : Nat) (gate : Gate), s.myCircuit.gates[g]? = some gate → gate.gateType = GATE_PI →
      s2.myCircuit.gates[g]? = some
        (if g = pi then gate.setValue (faultedValue gate.faultType v) else gate) := by
  unfold assignAndSimulate at h
  cases hset : setValueCheckFault s.myCircuit pi v with
  | none => simp [hset] at h
  | some c1 =>
    simp only [hset] at h
    cases hsim : simFullCircuit k c1 with
    | none => simp [hsim] at h
    | some c2 =>
      simp only [hsim, Option.map_some', Option.some.injEq] at h
      subst h
      have hs1 := setValueCheckFault_sameNet hset
      have hin1 := setValueCheckFault_inputsSet hset hinv.2.1 hv
      obtain ⟨_, _, _, _, hpi, _⟩ :=
        simFullCircuit_spec (hinv.1.of_sameNet hs1).acyclic hin1 hsim
      obtain ⟨gpi, hgpi, hc1⟩ := setValueCheckFault_spec hset
      refine ⟨⟨gpi, hgpi⟩, fun g gate hg ht => ?_⟩
      have hlt : pi < s.myCircuit.gates.length := (List.getElem?_eq_some.mp hgpi).1
      show c2.gates[g]? = _
      apply hpi g
      · rw [hc1, getElem?_putGate]
        by_cases e : g = pi
        · subst e
          rw [hgpi] at hg
          cases hg
          simp [hlt]
        · simp [e, Ne.symm e, hg]
      · split_ifs <;> exact ht

theorem setValue_setValue (gate : Gate) (a b : Int) :
    (gate.setValue a).setValue b = gate.setValue b := rfl

theorem setValue_self {gate : Gate} {v : Int} (h : gate.gateValue = v) :
    gate.setValue v = gate := by
  cases gate
  simp only [Gate.setValue] at h ⊢
  rw [h]

theorem podem_false_inputs {level : Nat → Nat} (k : Nat) :
    ∀ (fuel : Nat) (s r : Podem), PodemInv level s →
      podemRecursion k fuel s = some (false, r) →
      ∀ (g : Nat) (gate : Gate), s.myCircuit.gates[g]? = some gate →
        gate.gateType = GATE_PI → r.myCircuit.gates[g]? = some gate := by
  intro fuel
  induction fuel with
  | zero => intro s r _ h; simp [podemRecursion] at h
  | succ fuel ih =>
    intro s r hinv h g gate hg ht
    rcases podemRecursion_cases h with ⟨_, hb, _⟩ | ⟨_, hcase⟩
    · cases hb
    rcases hcase with ⟨hgo, _⟩ | ⟨s1, og, v, pi, piVal, s2, hgo, hbt, has, hrest⟩
    · rw [(getObjective_spec hgo).1]
      exact hg
    obtain ⟨hc1, hf1, ha1, hobj⟩ := getObjective_spec hgo
    have hstep1 : PodemStep s s1 := ⟨hc1 ▸ SameNet.net_refl _, hf1, ha1⟩
    have hin1 : InputsSet s1.myCircuit := hc1 ▸ hinv.2.1
    have hinv1 : PodemInv level s1 := hinv.step hstep1 hin1
    have hvff : IsFaultFree v := by
      rcases hobj (some og) v rfl with e | e
      · exact e ▸ hinv.2.2
      · exact e
    have hpv : IsFaultFree piVal := by
      rcases backtrace_value hbt with e | e
      · exact e ▸ hvff
      · exact e ▸ LogicNot_faultFree hvff
    have hogX := (getObjective_holds_X hgo).2
    obtain ⟨gpi, hgpi, htpi, hgpiX⟩ := backtrace_result hbt (by rw [hc1]; exact hogX)
    rw [hc1] at hgpi
    rcases hrest with ⟨_, hb⟩ | ⟨s3, s4, hrec, has4, hrest2⟩
    · cases hb
    obtain ⟨hstep2, hin2, _⟩ := assignAndSimulate_spec hinv1 hpv.isLogic has
    have hinv2 : PodemInv level s2 := hinv1.step hstep2 hin2
    obtain ⟨hstep3, hin3, _⟩ := podemRecursion_spec k fuel s2 false s3 hinv2 hrec
    have hinv3 : PodemInv level s3 := hinv2.step hstep3 hin3
    rcases hrest2 with ⟨_, hb⟩ | ⟨s5, c6, hrec5, hset, _, hr⟩
    · cases hb
    obtain ⟨hstep4, hin4, _⟩ :=
      assignAndSimulate_spec hinv3 (LogicNot_faultFree hpv).isLogic has4
    have hinv4 : PodemInv level s4 := hinv3.step hstep4 hin4
    have h2 := (assignAndSimulate_inputs hinv1 hpv.isLogic has).2 g gate (hc1 ▸ hg) ht
    have ht2 : (if g = pi then gate.setValue (faultedValue gate.faultType piVal)
        else gate).gateType = GATE_PI := by split_ifs <;> exact ht
    have h3 := ih s2 s3 hinv2 hrec g _ h2 ht2
    have h4 := (assignAndSimulate_inputs hinv3 (LogicNot_faultFree hpv).isLogic has4).2
      g _ h3 ht2
    have ht4 : (if g = pi then
        (if g = pi then gate.setValue (faultedValue gate.faultType piVal) else gate).setValue
          (faultedValue (if g = pi then gate.setValue (faultedValue gate.faultType piVal)
            else gate).faultType (LogicNot piVal))
        else (if g = pi then gate.setValue (faultedValue gate.faultType piVal)
          else gate)).gateType = GATE_PI := by split_ifs <;> exact ht
    have h5 := ih s4 s5 hinv4 hrec5 g _ h4 ht4
    obtain ⟨g5, hg5, hc6⟩ := setValueCheckFault_spec hset
    rw [hr]
    show c6.gates[g]? = _
    rw [hc6, getElem?_putGate]
    by_cases e : g = pi
    · subst e
      rw [hg] at hgpi
      cases hgpi
      have hlt : g < s5.myCircuit.gates.length := (List.getElem?_eq_some.mp hg5).1
      rw [hg5] at h5
      simp only [↓reduceIte, Option.some.injEq] at h5
      subst h5
      simp only [↓reduceIte, hlt, setValue_setValue, faultedValue_X]
      rw [setValue_self hgpiX]
    · simp only [Ne.symm e, ↓reduceIte]
      simp only [e, ↓reduceIte] at h5
      exact h5

theorem Evaluated.podemInv {level : Nat → Nat} {s : Podem}
    (h : Evaluated level s.myCircuit) (hact : IsFaultFree s.faultActivationVal) :
    PodemInv level s := by
  obtain ⟨hwf, hv, _⟩ := h.spec
  refine ⟨hwf, ?_, hact⟩
  intro gate hmem ht
  rcases hv gate hmem with hl | hl
  · exact hl
  · exact absurd ht hl.2

/-- C17: when a call of `podemRecursion`, made on the all-X state or on a state produced by
`simFullCircuit` (with a fault-free activation value), returns `false`, the netlist is
unchanged and every primary input is exactly as it was when the call was entered; the input
that this frame decided (the result `pi` of `backtrace`) held X at entry and holds X again. -/
theorem C17_failed_call_restores_inputs (level : Nat → Nat) (k fuel : Nat) (s r : Podem)
    (hstate : Evaluated level s.myCircuit) (hact : IsFaultFree s.faultActivationVal)
    (hrun : podemRecursion k fuel s = some (false, r)) :
    SameNet s.myCircuit r.myCircuit ∧
    (∀ (g : Nat) (gate : Gate), s.myCircuit.gates[g]? = some gate →
      gate.gateType = GATE_PI → r.myCircuit.gates[g]? = some gate) ∧
    ∀ (s1 : Podem) (g : Nat) (v : Int) (pi : Nat) (piVal : Int),
      getObjective s = some (s1, some (some g, v)) →
      backtrace k s1.myCircuit g v = some (pi, piVal) →
      s.myCircuit.getValue pi = some LOGIC_X ∧ r.myCircuit.getValue pi = some LOGIC_X := by
  have hinv := hstate.podemInv hact
  have hpis := podem_false_inputs k fuel s r hinv hrun
  refine ⟨(podemRecursion_spec k fuel s false r hinv hrun).1.1, hpis, ?_⟩
  intro s1 g v pi piVal hgo hbt
  obtain ⟨hc1, hX⟩ := getObjective_holds_X hgo
  obtain ⟨gpi, hgpi, htpi, hgpiX⟩ := backtrace_result hbt (by rw [hc1]; exact hX)
  rw [hc1] at hgpi
  exact ⟨by rw [getValue_eq hgpi, hgpiX], by rw [getValue_eq (hpis pi gpi hgpi htpi), hgpiX]⟩

/-- C17 on the circuit `Y = BUFF(A)`, `Z = NOT(B)` with `Z` stuck-at-0: the run from the all-X
state decides `B`, fails, and leaves `A` and `B` at X. -/
theorem C17_failed_call_restores_inputs_witness :
    podemRecursion 2 2 (danglingPodem LOGIC_X LOGIC_X LOGIC_X LOGIC_X)
      = some (false, danglingPodem LOGIC_X LOGIC_X LOGIC_X LOGIC_UNSET) ∧
    ∀ (g : Nat) (gate : Gate),
      (danglingPodem LOGIC_X LOGIC_X LOGIC_X LOGIC_X).myCircuit.gates[g]? = some gate →
      gate.gateType = GATE_PI →
      (danglingPodem LOGIC_X LOGIC_X LOGIC_X LOGIC_UNSET).myCircuit.gates[g]? = some gate :=
  ⟨by decide,
    (C17_failed_call_restores_inputs danglingLevel 2 2
      (danglingPodem LOGIC_X LOGIC_X LOGIC_X LOGIC_X)
      (danglingPodem LOGIC_X LOGIC_X LOGIC_X LOGIC_UNSET)
      (Or.inl ⟨by decide, by decide⟩) (by decide) (by decide)).2.1⟩


/-! ## Termination of the search -/

theorem UnaryOk.unary_sameGraph {c c1 : Circuit} (h : UnaryOk c) (hs : SameGraph c c1) :
    UnaryOk c1 := by
  intro gate hmem ht
  obtain ⟨g, hg⟩ := List.mem_iff_getElem?.mp hmem
  obtain ⟨gate0, hg0, ht0, hi0⟩ := hs.graph_symm.graph_get hg
  rw [← hi0]
  exact h gate0 (List.getElem?_mem hg0) (by rw [ht0]; exact ht)

theorem countP_le_pointwise {α : Type} (p : α → Bool) :
    ∀ (l l1 : List α), l1.length = l.length →
      (∀ (i : Nat) (a a1 : α), l[i]? = some a → l1[i]? = some a1 → p a1 = true → p a = true) →
      l1.countP p ≤ l.countP p := by
  intro l
  induction l with
  | nil =>
    intro l1 hlen _
    cases l1 with
    | nil => exact Nat.le_refl _
    | cons _ _ => simp at hlen
  | cons a l ih =>
    intro l1 hlen h
    cases l1 with
    | nil => simp at hlen
    | cons a1 l1 =>
      have hrest := ih l1 (by simpa using hlen) (fun i x x1 hx hx1 =>
        h (i + 1) x x1 (by simpa using hx) (by simpa using hx1))
      have h0 := h 0 a a1 List.getElem?_cons_zero List.getElem?_cons_zero
      rw [List.countP_cons, List.countP_cons]
      by_cases e : p a1 = true
      · simp only [e, h0 e, ↓reduceIte]
        omega
      · simp only [e, ↓reduceIte, Bool.false_eq_true, Nat.add_zero]
        split_ifs <;> omega

theorem countP_lt_pointwise {α : Type} (p : α → Bool) :
    ∀ (l l1 : List α), l1.length = l.length →
      (∀ (i : Nat) (a a1 : α), l[i]? = some a → l1[i]? = some a1 → p a1 = true → p a = true) →
      (∃ (i : Nat) (a a1 : α), l[i]? = some a ∧ l1[i]? = some a1 ∧ p a = true ∧ p a1 = false) →
      l1.countP p < l.countP p := by
  intro l
  induction l with
  | nil =>
    intro l1 _ _ hex
    obtain ⟨i, a, a1, hi, _⟩ := hex
    simp at hi
  | cons a l ih =>
    intro l1 hlen h hex
    cases l1 with
    | nil => simp at hlen
    | cons a1 l1 =>
      have hlen1 : l1.length = l.length := by simpa using hlen
      have hpt : ∀ (i : Nat) (x x1 : α), l[i]? = some x → l1[i]? = some x1 → p x1 = true →
          p x = true := fun i x x1 hx hx1 =>
        h (i + 1) x x1 (by simpa using hx) (by simpa using hx1)
      have h0 := h 0 a a1 List.getElem?_cons_zero List.getElem?_cons_zero
      rw [List.countP_cons, List.countP_cons]
      obtain ⟨i, x, x1, hx, hx1, hpx, hpx1⟩ := hex
      cases i with
      | zero =>
        simp only [List.getElem?_cons_zero, Option.some.injEq] at hx hx1
        subst hx; subst hx1
        have := countP_le_pointwise p l l1 hlen1 hpt
        simp only [hpx, hpx1, ↓reduceIte, Bool.false_eq_true]
        omega
      | succ i =>
        have := ih l1 hlen1 hpt ⟨i, x, x1, by simpa using hx, by simpa using hx1, hpx, hpx1⟩
        by_cases e : p a1 = true
        · simp only [e, h0 e, ↓reduceIte]
          omega
        · simp only [e, ↓reduceIte, Bool.false_eq_true, Nat.add_zero]
          split_ifs <;> omega

theorem faultedValue_known {faultType v : Int} (hv : v = LOGIC_ZERO ∨ v = LOGIC_ONE) :
    faultedValue faultType v ≠ LOGIC_X := by
  intro h
  have := faultedValue_eq_X h
  rcases hv with e | e <;> rw [e] at this <;> exact absurd this (by decide)

theorem anyOutputDetects_total {c : Circuit} :
    ∀ {ps : List Nat}, (∀ po ∈ ps, po < c.gates.length) →
      ∃ b, anyOutputDetects c ps = some b := by
  intro ps
  induction ps with
  | nil => intro _; exact ⟨false, rfl⟩
  | cons p ps ih =>
    intro h
    have hp := h p (List.mem_cons_self _ _)
    obtain ⟨gate, hgate⟩ : ∃ gate, c.gates[p]? = some gate := ⟨_, List.getElem?_eq_getElem hp⟩
    obtain ⟨b, hb⟩ := ih (fun q hq => h q (List.mem_cons_of_mem _ hq))
    simp only [anyOutputDetects, getValue_eq hgate]
    split_ifs
    · exact ⟨true, rfl⟩
    · exact ⟨b, hb⟩

theorem getObjective_total {s : Podem} (hptr : PredsValid s.myCircuit)
    (hn : s.faultLocation < s.myCircuit.gates.length) :
    ∃ s1 r, getObjective s = some (s1, r) := by
  obtain ⟨gn, hgn⟩ : ∃ gn, s.myCircuit.gates[s.faultLocation]? = some gn :=
    ⟨_, List.getElem?_eq_getElem hn⟩
  have hfv := getValue_eq hgn
  unfold getObjective
  rw [hfv]
  simp only
  split_ifs with h1 h2
  · exact ⟨_, _, rfl⟩
  · exact ⟨_, _, rfl⟩
  · obtain ⟨s1, hs1, h2, _, _, h5, _⟩ := updateDFrontier_spec hptr
    rw [hs1]
    simp only
    cases hd : s1.dFrontier with
    | nil => exact ⟨_, _, rfl⟩
    | cons d rest =>
      obtain ⟨dgate, hdg, _⟩ := (h5 d).mp (by rw [hd]; exact List.mem_cons_self _ _)
      rw [← h2] at hdg
      simp only [hdg]
      obtain ⟨r, hr, _⟩ := @firstX_spec s1.myCircuit dgate.gateInputs (by
        rw [h2]
        exact hptr dgate (List.getElem?_mem (h2 ▸ hdg)))
      rw [hr]
      exact ⟨_, _, rfl⟩

theorem backtrace_total {c : Circuit} {level : Nat → Nat} (hwf : WellFormed c level)
    (hv : ValidValues c) (hcl : Closed c) (K objGate : Nat) (objVal : Int)
    (hX : c.getValue objGate = some LOGIC_X) (hK : level objGate < K) :
    ∃ pi piVal, backtrace K c objGate objVal = some (pi, piVal) := by
  obtain ⟨gate, hg, _⟩ := getValue_some hX
  obtain ⟨path, pi, _, _, _, _, _, h6⟩ :=
    backtraceLoop_path hwf hv hcl K objGate (if isInverting gate.gateType then 1 else 0) hX hK
  refine ⟨pi, if ((if isInverting gate.gateType then 1 else 0) + c.inversions path.tail) % 2 = 1
    then LogicNot objVal else objVal, ?_⟩
  simp only [backtrace, hg, h6]

theorem xInputs_le_of {c c1 : Circuit} (hs : SameNet c c1)
    (h : ∀ (g : Nat) (gate gate1 : Gate), c.gates[g]? = some gate → c1.gates[g]? = some gate1 →
      gate.gateType = GATE_PI → gate1.gateValue = LOGIC_X → gate.gateValue = LOGIC_X) :
    c1.xInputs ≤ c.xInputs := by
  apply countP_le_pointwise _ c.gates c1.gates hs.net_length
  intro i a a1 ha ha1 hp
  obtain ⟨a2, ha2, ht, _⟩ := hs.get_fields ha
  rw [ha1] at ha2
  cases ha2
  simp only [decide_eq_true_eq] at hp ⊢
  exact ⟨ht ▸ hp.1, h i a a1 ha ha1 (ht ▸ hp.1) hp.2⟩

theorem xInputs_lt_of {c c1 : Circuit} (hs : SameNet c c1)
    (h : ∀ (g : Nat) (gate gate1 : Gate), c.gates[g]? = some gate → c1.gates[g]? = some gate1 →
      gate.gateType = GATE_PI → gate1.gateValue = LOGIC_X → gate.gateValue = LOGIC_X)
    {pi : Nat} {gpi gpi1 : Gate} (hgpi : c.gates[pi]? = some gpi)
    (hgpi1 : c1.gates[pi]? = some gpi1) (htpi : gpi.gateType = GATE_PI)
    (hX : gpi.gateValue = LOGIC_X) (hnX : gpi1.gateValue ≠ LOGIC_X) :
    c1.xInputs < c.xInputs := by
  apply countP_lt_pointwise _ c.gates c1.gates hs.net_length
  · intro i a a1 ha ha1 hp
    obtain ⟨a2, ha2, ht, _⟩ := hs.get_fields ha
    rw [ha1] at ha2
    cases ha2
    simp only [decide_eq_true_eq] at hp ⊢
    exact ⟨ht ▸ hp.1, h i a a1 ha ha1 (ht ▸ hp.1) hp.2⟩
  · refine ⟨pi, gpi, gpi1, hgpi, hgpi1, ?_, ?_⟩
    · simp [htpi, hX]
    · simp [hnX]

theorem BaseInv.to_podemInv {level : Nat → Nat} {n : Nat} {t : Podem} (h : BaseInv level n t) :
    PodemInv level t := by
  obtain ⟨hwf, _, hia, _, _, _, hact⟩ := h
  refine ⟨hwf, hia.inputsSet, ?_⟩
  rcases hact with e | e
  · exact Or.inl e
  · exact Or.inr (Or.inl e)

theorem BaseInv.of_step {level : Nat → Nat} {n : Nat} {t r : Podem} (hb : BaseInv level n t)
    (hs : SameNet t.myCircuit r.myCircuit) (hf : r.faultLocation = t.faultLocation)
    (ha : r.faultActivationVal = t.faultActivationVal)
    (hpi : ∀ (g : Nat) (gate : Gate), t.myCircuit.gates[g]? = some gate →
      gate.gateType = GATE_PI → r.myCircuit.gates[g]? = some gate) : BaseInv level n r := by
  obtain ⟨hwf, hun, hia, hsf, hloc, hn, hact⟩ := hb
  refine ⟨hwf.of_sameNet hs, hun.unary_sameGraph hs.to_sameGraph, ?_, hsf.single_sameNet hs,
    hf.trans hloc, by rw [hs.net_length]; exact hn, ha ▸ hact⟩
  intro gate hmem ht
  obtain ⟨g, hg⟩ := List.mem_iff_getElem?.mp hmem
  obtain ⟨gate0, hg0, ht0, _⟩ := hs.net_symm.get_fields hg
  have h1 := hpi g gate0 hg0 (by rw [ht0]; exact ht)
  have e : gate0 = gate := Option.some.inj (h1.symm.trans hg)
  exact hia gate (e ▸ List.getElem?_mem hg0) ht

theorem assign_step {level : Nat → Nat} {K n : Nat} {t : Podem} (hb : BaseInv level n t)
    (hK : ∀ g < t.myCircuit.gates.length, level g < K)
    {pi : Nat} {gpi : Gate} (hgpi : t.myCircuit.gates[pi]? = some gpi)
    {v : Int} (hv : IsFaultFree v) :
    ∃ s2, assignAndSimulate K t pi v = some s2 ∧ SearchInv level n s2 ∧
      SameNet t.myCircuit s2.myCircuit ∧
      ∀ (g : Nat) (gate : Gate), t.myCircuit.gates[g]? = some gate →
        gate.gateType = GATE_PI →
        s2.myCircuit.gates[g]? = some
          (if g = pi then gate.setValue (faultedValue gate.faultType v) else gate) := by
  have hpinv := hb.to_podemInv
  obtain ⟨hwf, hun, hia, hsf, hloc, hn, hact⟩ := hb
  have hset : setValueCheckFault t.myCircuit pi v
      = some (t.myCircuit.putGate pi (gpi.setValue (faultedValue gpi.faultType v))) := by
    simp [setValueCheckFault, Circuit.onGate, hgpi]
  generalize hc1 : t.myCircuit.putGate pi (gpi.setValue (faultedValue gpi.faultType v)) = c1
    at hset
  have hs1 : SameNet t.myCircuit c1 := setValueCheckFault_sameNet hset
  have hwf1 : WellFormed c1 level := hwf.of_sameNet hs1
  have hia1 : InputsAssigned c1 := hc1 ▸ inputsAssigned_putGate hia pi gpi hv
  have hin1 : InputsSet c1 := hia1.inputsSet
  obtain ⟨c2, hsim⟩ := simFullCircuit_total hwf1 hin1 (by rw [hs1.net_length]; exact hK)
  obtain ⟨hs2, hv2, hcl2, _, hpi2, _⟩ := simFullCircuit_spec hwf1.acyclic hin1 hsim
  have has : assignAndSimulate K t pi v = some (t.withCircuit c2) := by
    simp [assignAndSimulate, hset, hsim]
  have hs12 : SameNet t.myCircuit c2 := hs1.net_trans hs2
  have hia2 : InputsAssigned c2 := by
    intro gate hmem ht
    obtain ⟨g, hg⟩ := List.mem_iff_getElem?.mp hmem
    obtain ⟨gate1, hg1, ht1, _⟩ := hs2.net_symm.get_fields hg
    have h1 := hpi2 g gate1 hg1 (by rw [ht1]; exact ht)
    have e : gate1 = gate := Option.some.inj (h1.symm.trans hg)
    exact hia1 gate (e ▸ List.getElem?_mem hg1) ht
  refine ⟨t.withCircuit c2, has, ⟨⟨hwf1.of_sameNet hs2, hun.unary_sameGraph hs12.to_sameGraph,
    hia2, hsf.single_sameNet hs12, hloc, by
      show n < c2.gates.length
      rw [hs12.net_length]; exact hn, hact⟩, hv2, hcl2, ?_⟩, hs12,
    (assignAndSimulate_inputs hpinv hv.isLogic has).2⟩
  intro g gate hg hu po hpo hf
  have hpo1 : po ∈ c1.outputGates := by
    have : (t.withCircuit c2).myCircuit.outputGates = c1.outputGates := hs2.1
    rw [← this]; exact hpo
  have hf1 : FanIn c1.preds po g := by
    have : (t.withCircuit c2).myCircuit.preds = c1.preds := hs2.net_preds
    rw [← this]; exact hf
  exact ((simulated_unset_iff hwf1 hin1 hsim hg).mp hu).2 po hpo1 hf1

theorem LogicNot_known {v : Int} (h : v = LOGIC_ZERO ∨ v = LOGIC_ONE) :
    LogicNot v = LOGIC_ZERO ∨ LogicNot v = LOGIC_ONE := by
  rcases h with rfl | rfl
  · exact Or.inr rfl
  · exact Or.inl rfl

theorem known_faultFree {v : Int} (h : v = LOGIC_ZERO ∨ v = LOGIC_ONE) : IsFaultFree v := by
  rcases h with e | e
  · exact Or.inl e
  · exact Or.inr (Or.inl e)

theorem search_step {level : Nat → Nat} {K n : Nat} {s s1 : Podem} {g : Option Nat} {v : Int}
    (hinv : SearchInv level n s) (hK : ∀ g < s.myCircuit.gates.length, level g < K)
    (hgo : getObjective s = some (s1, some (g, v))) :
    ∃ q pi piVal gpi s2, g = some q ∧ BaseInv level n s1 ∧ s1.myCircuit = s.myCircuit ∧
      backtrace K s1.myCircuit q v = some (pi, piVal) ∧
      (piVal = LOGIC_ZERO ∨ piVal = LOGIC_ONE) ∧
      s.myCircuit.gates[pi]? = some gpi ∧ gpi.gateType = GATE_PI ∧
      gpi.gateValue = LOGIC_X ∧
      assignAndSimulate K s1 pi piVal = some s2 ∧ SearchInv level n s2 ∧
      SameNet s.myCircuit s2.myCircuit ∧
      (∀ (h : Nat) (gate : Gate), s.myCircuit.gates[h]? = some gate →
        gate.gateType = GATE_PI →
        s2.myCircuit.gates[h]? = some
          (if h = pi then gate.setValue (faultedValue gate.faultType piVal) else gate)) ∧
      s2.myCircuit.xInputs < s.myCircuit.xInputs := by
  obtain ⟨hb, hv, hcl, _⟩ := hinv
  obtain ⟨⟨q, hq, hqX⟩, hv01⟩ := getObjective_good hb.1 hb.2.1 hv hcl hb.2.2.2.2.2.2 hgo
  obtain ⟨hc1, hf1, ha1, _⟩ := getObjective_spec hgo
  have hb1 : BaseInv level n s1 :=
    hb.of_step (hc1 ▸ SameNet.net_refl _) hf1 ha1 (fun h gate hg _ => hc1 ▸ hg)
  obtain ⟨gq, hgq, _⟩ := getValue_some hqX
  have hqlt : q < s.myCircuit.gates.length := (List.getElem?_eq_some.mp hgq).1
  obtain ⟨pi, piVal, hbt⟩ := backtrace_total hb.1 hv hcl K q v hqX (hK q hqlt)
  obtain ⟨gpi, hgpi, htpi, hgpiX⟩ := backtrace_result hbt hqX
  have hpv : piVal = LOGIC_ZERO ∨ piVal = LOGIC_ONE := by
    rcases backtrace_value hbt with e | e
    · exact e ▸ hv01
    · exact e ▸ LogicNot_known hv01
  obtain ⟨s2, has, hinv2, hs2, hpis⟩ :=
    assign_step hb1 (by rw [hc1]; exact hK) (hc1 ▸ hgpi) (known_faultFree hpv)
  rw [hc1] at hs2 hpis
  refine ⟨q, pi, piVal, gpi, s2, hq, hb1, hc1, hc1 ▸ hbt, hpv, hgpi, htpi, hgpiX, has, hinv2,
    hs2, hpis, ?_⟩
  apply xInputs_lt_of hs2 _ hgpi (hpis pi gpi hgpi htpi) htpi hgpiX
  · simp only [↓reduceIte]
    exact faultedValue_known hpv
  · intro h gate gate1 hg hg1 ht hX1
    rw [hpis h gate hg ht] at hg1
    by_cases e : h = pi
    · simp only [e, ↓reduceIte, Option.some.injEq] at hg1
      rw [← hg1] at hX1
      exact absurd hX1 (faultedValue_known hpv)
    · simp only [e, ↓reduceIte, Option.some.injEq] at hg1
      rw [hg1]; exact hX1

theorem retry_step {level : Nat → Nat} {K n : Nat} {s3 : Podem} (hb : BaseInv level n s3)
    (hK : ∀ g < s3.myCircuit.gates.length, level g < K) {pi : Nat} {gpi : Gate}
    (hgpi : s3.myCircuit.gates[pi]? = some gpi) {piVal : Int}
    (hpv : piVal = LOGIC_ZERO ∨ piVal = LOGIC_ONE) :
    ∃ s4, assignAndSimulate K s3 pi (LogicNot piVal) = some s4 ∧ SearchInv level n s4 ∧
      SameNet s3.myCircuit s4.myCircuit ∧
      (∀ (h : Nat) (gate : Gate), s3.myCircuit.gates[h]? = some gate →
        gate.gateType = GATE_PI →
        s4.myCircuit.gates[h]? = some
          (if h = pi then gate.setValue (faultedValue gate.faultType (LogicNot piVal))
            else gate)) ∧
      s4.myCircuit.xInputs ≤ s3.myCircuit.xInputs := by
  have hnv := LogicNot_known hpv
  obtain ⟨s4, has, hinv4, hs4, hpis⟩ := assign_step hb hK hgpi (known_faultFree hnv)
  refine ⟨s4, has, hinv4, hs4, hpis, ?_⟩
  apply xInputs_le_of hs4
  intro h gate gate1 hg hg1 ht hX1
  rw [hpis h gate hg ht] at hg1
  by_cases e : h = pi
  · simp only [e, ↓reduceIte, Option.some.injEq] at hg1
    rw [← hg1] at hX1
    exact absurd hX1 (faultedValue_known hnv)
  · simp only [e, ↓reduceIte, Option.some.injEq] at hg1
    rw [hg1]; exact hX1

theorem podem_total {level : Nat → Nat} {K n : Nat} :
    ∀ (fuel : Nat) (s : Podem), SearchInv level n s →
      (∀ g < s.myCircuit.gates.length, level g < K) → s.myCircuit.xInputs < fuel →
      ∃ b r, podemRecursion K fuel s = some (b, r) := by
  intro fuel
  induction fuel with
  | zero => intro s _ _ h; omega
  | succ fuel ih =>
    intro s hinv hK hfuel
    obtain ⟨det, hao⟩ := @anyOutputDetects_total s.myCircuit s.myCircuit.outputGates
      hinv.1.1.1
    cases det with
    | true => exact ⟨true, s, by simp only [podemRecursion, hao]⟩
    | false =>
      obtain ⟨s1, r, hgo⟩ := getObjective_total hinv.1.1.predsValid
        (by rw [hinv.1.2.2.2.2.1]; exact hinv.1.2.2.2.2.2.1)
      cases r with
      | none => exact ⟨false, s1, by simp only [podemRecursion, hao, hgo]⟩
      | some gv =>
        obtain ⟨g, v⟩ := gv
        obtain ⟨q, pi, piVal, gpi, s2, hq, hb1, hc1, hbt, hpv, hgpi, htpi, hgpiX, has, hinv2,
          hs2, hpis, hlt⟩ := search_step hinv hK hgo
        subst hq
        have hK2 : ∀ g < s2.myCircuit.gates.length, level g < K := by
          rw [hs2.net_length]; exact hK
        obtain ⟨b2, s3, hrec⟩ := ih s2 hinv2 hK2 (by omega)
        cases b2 with
        | true => exact ⟨true, s3, by simp only [podemRecursion, hao, hgo, hbt, has, hrec]⟩
        | false =>
          have hpinv2 := hinv2.1.to_podemInv
          obtain ⟨hstep3, _, _⟩ := podemRecursion_spec K fuel s2 false s3 hpinv2 hrec
          have hpis3 := podem_false_inputs K fuel s2 s3 hpinv2 hrec
          have hb3 : BaseInv level n s3 := hinv2.1.of_step hstep3.1 hstep3.2.1 hstep3.2.2 hpis3
          have hK3 : ∀ g < s3.myCircuit.gates.length, level g < K := by
            rw [hstep3.1.net_length]; exact hK2
          obtain ⟨gpi3, hgpi3, _⟩ := (hs2.net_trans hstep3.1).get_fields hgpi
          obtain ⟨s4, has4, hinv4, hs4, _, hle4⟩ := retry_step hb3 hK3 hgpi3 hpv
          have hle3 : s3.myCircuit.xInputs ≤ s2.myCircuit.xInputs :=
            xInputs_le_of hstep3.1 (fun h gate gate1 hg hg1 ht hX1 => by
              rw [hpis3 h gate hg ht] at hg1
              cases hg1
              exact hX1)
          have hK4 : ∀ g < s4.myCircuit.gates.length, level g < K := by
            rw [hs4.net_length]; exact hK3
          obtain ⟨b4, s5, hrec5⟩ := ih s4 hinv4 hK4 (by omega)
          cases b4 with
          | true =>
            exact ⟨true, s5, by
              simp only [podemRecursion, hao, hgo, hbt, has, hrec, has4, hrec5]⟩
          | false =>
            obtain ⟨hstep5, _, _⟩ :=
              podemRecursion_spec K fuel s4 false s5 hinv4.1.to_podemInv hrec5
            obtain ⟨gpi5, hgpi5, _⟩ := (hs4.net_trans hstep5.1).get_fields hgpi3
            have hset : setValueCheckFault s5.myCircuit pi LOGIC_X
                = some (s5.myCircuit.putGate pi
                    (gpi5.setValue (faultedValue gpi5.faultType LOGIC_X))) := by
              simp [setValueCheckFault, Circuit.onGate, hgpi5]
            exact ⟨false, s5.withCircuit (s5.myCircuit.putGate pi
                (gpi5.setValue (faultedValue gpi5.faultType LOGIC_X))), by
              simp only [podemRecursion, hao, hgo, hbt, has, hrec, has4, hrec5, hset,
                Option.map_some']⟩

theorem xInputs_le_inputs {c : Circuit} {level : Nat → Nat} (hwf : WellFormed c level) :
    c.xInputs ≤ c.inputGates.length := by
  have h1 : c.xInputs ≤ c.gates.countP (fun g => decide (g.gateType = GATE_PI)) := by
    apply List.countP_mono_left
    intro g _ hg
    simp only [decide_eq_true_eq] at hg ⊢
    exact hg.1
  have h2 : c.gates.countP (fun g => decide (g.gateType = GATE_PI))
      = ((c.gates.enum.filter (fun ig => decide (ig.2.gateType = GATE_PI))).map Prod.fst).length := by
    rw [List.length_map, ← List.countP_eq_length_filter]
    conv_lhs => rw [← List.enum_map_snd c.gates, List.countP_map]
    rfl
  have hnd : ((c.gates.enum.filter (fun ig => decide (ig.2.gateType = GATE_PI))).map
      Prod.fst).Nodup := by
    have hsub : ((c.gates.enum.filter (fun ig => decide (ig.2.gateType = GATE_PI))).map
        Prod.fst).Sublist (List.range' 0 c.gates.length) := by
      rw [← List.enumFrom_map_fst 0 c.gates]
      exact (List.filter_sublist _).map _
    exact (List.nodup_range' 0 _).sublist hsub
  have hss : ((c.gates.enum.filter (fun ig => decide (ig.2.gateType = GATE_PI))).map Prod.fst)
      ⊆ c.inputGates := by
    intro i hi
    simp only [List.mem_map, List.mem_filter, decide_eq_true_eq, Prod.exists,
      exists_and_right, exists_eq_right] at hi
    obtain ⟨gate, hm, ht⟩ := hi
    exact ((hwf.wf_get (List.mk_mem_enum_iff_getElem?.mp hm)).2.1 ht).2
  have h3 := (List.subperm_of_subset hnd hss).length_le
  omega

theorem setupFault_searchInv {c : Circuit} {level : Nat → Nat} {faultLocStr : String}
    {faultType : Int} {s0 : Podem} (hwf : WellFormed c level) (hun : UnaryOk c)
    (h : setupFault c faultLocStr faultType = some s0) :
    SearchInv level s0.faultLocation s0 ∧ AllX s0.myCircuit ∧
      s0.myCircuit.xInputs ≤ c.inputGates.length ∧
      s0.myCircuit.gates.length = c.gates.length := by
  obtain ⟨cf, hcf, hmy, _, hact⟩ := setupFault_spec h
  obtain ⟨hpinv, hsg⟩ := setupFault_podemInv hwf h
  have hx : AllX s0.myCircuit := hmy ▸ allX_setAllX cf
  obtain ⟨hv, hcl⟩ := closed_of_allX hpinv.1 hx
  have hsf : SingleFault s0.faultLocation s0.myCircuit :=
    hmy ▸ (singleFault_inject hcf).single_sameNet (sameNet_setAllX cf)
  have hlen : s0.myCircuit.gates.length = c.gates.length := hsg.graph_length
  have hn : s0.faultLocation < s0.myCircuit.gates.length := by
    obtain ⟨_, gate, hg, _⟩ := set_faultType_spec hcf
    have h1 := (List.getElem?_eq_some.mp hg).1
    have h2 : c.clearFaults.gates.length = c.gates.length := (sameGraph_clearFaults c).graph_length
    omega
  have hia : InputsAssigned s0.myCircuit := by
    intro gate hmem _
    exact ⟨LOGIC_X, Or.inr (Or.inr rfl), by rw [hx gate hmem, faultedValue_X]⟩
  have hact01 : s0.faultActivationVal = LOGIC_ZERO ∨ s0.faultActivationVal = LOGIC_ONE := by
    rw [hact]
    split_ifs
    · exact Or.inr rfl
    · exact Or.inl rfl
  refine ⟨⟨⟨hpinv.1, hun.unary_sameGraph hsg, hia, hsf, rfl, hn, hact01⟩, hv, hcl, ?_⟩, hx, ?_,
    hlen⟩
  · intro g gate hg hu
    have := hx gate (List.getElem?_mem hg)
    rw [hu] at this
    exact absurd this (by decide)
  · have := xInputs_le_inputs hpinv.1
    rw [hsg.2.1] at this
    exact this

/-- C18 (amended): for a finalized acyclic circuit in which the gates of the types BUFF, NOT
and FANOUT have exactly one predecessor, and the fault set up by `main`, `podemRecursion`
started from the all-X state
returns whenever its recursion depth may reach the number of primary inputs (simulation and
backtrace fuel above every level). The start state satisfies `SearchInv`, and in every state
that does so a level that recurses has an assigned objective gate, `backtrace` returns a
primary input `pi` that holds X at entry together with a value 0 or 1, and the assignment and
simulation give a state that satisfies `SearchInv` again, in which `pi` no longer holds X and
which has fewer X-valued primary inputs. -/
theorem C18_search_terminates (c : Circuit) (level : Nat → Nat) (K : Nat)
    (hwf : WellFormed c level) (hun : UnaryOk c) (hK : ∀ g < c.gates.length, level g < K)
    (faultLocStr : String) (faultType : Int) (s0 : Podem)
    (hstart : setupFault c faultLocStr faultType = some s0) :
    (∀ fuel, c.inputGates.length < fuel → ∃ b r, podemRecursion K fuel s0 = some (b, r)) ∧
    SearchInv level s0.faultLocation s0 ∧ s0.myCircuit.xInputs ≤ c.inputGates.length ∧
    ∀ (s s1 : Podem) (g : Option Nat) (v : Int), SearchInv level s0.faultLocation s →
      (∀ g < s.myCircuit.gates.length, level g < K) →
      getObjective s = some (s1, some (g, v)) →
      ∃ q pi piVal gpi s2, g = some q ∧
        backtrace K s1.myCircuit q v = some (pi, piVal) ∧
        (piVal = LOGIC_ZERO ∨ piVal = LOGIC_ONE) ∧
        s.myCircuit.gates[pi]? = some gpi ∧ gpi.gateType = GATE_PI ∧
        gpi.gateValue = LOGIC_X ∧
        assignAndSimulate K s1 pi piVal = some s2 ∧ SearchInv level s0.faultLocation s2 ∧
        s2.myCircuit.getValue pi ≠ some LOGIC_X ∧
        s2.myCircuit.xInputs < s.myCircuit.xInputs := by
  obtain ⟨hinv0, _, hx0, hlen0⟩ := setupFault_searchInv hwf hun hstart
  refine ⟨fun fuel hfuel => ?_, hinv0, hx0, ?_⟩
  · exact podem_total fuel s0 hinv0 (by rw [hlen0]; exact hK) (by omega)
  · intro s s1 g v hinv hKs hgo
    obtain ⟨q, pi, piVal, gpi, s2, hq, _, _, hbt, hpv, hgpi, htpi, hgpiX, has, hinv2, _, hpis,
      hlt⟩ := search_step hinv hKs hgo
    refine ⟨q, pi, piVal, gpi, s2, hq, hbt, hpv, hgpi, htpi, hgpiX, has, hinv2, ?_, hlt⟩
    rw [getValue_eq (hpis pi gpi hgpi htpi)]
    simp only [↓reduceIte]
    intro e
    exact faultedValue_known hpv (Option.some.inj e)

/-- C18 on the AND circuit (two primary inputs) with `Y` stuck-at-0: the run returns with
recursion fuel 3. -/
theorem C18_search_terminates_witness :
    ∃ b r, podemRecursion 2 3 (andPodem LOGIC_X LOGIC_X LOGIC_X FAULT_SA0 LOGIC_ONE)
      = some (b, r) :=
  (C18_search_terminates (andState LOGIC_UNSET LOGIC_UNSET LOGIC_UNSET NOFAULT) andLevel 2
    (by decide) (by decide) (by decide) "Y" FAULT_SA0
    (andPodem LOGIC_X LOGIC_X LOGIC_X FAULT_SA0 LOGIC_ONE) (by decide)).1 3 (by decide)



/-! ### Completeness of the search -/

theorem effect_of_logic {x : Int} (hl : IsLogic x) (hf : ¬ IsFaultFree x) :
    x = LOGIC_D ∨ x = LOGIC_DBAR := by
  rcases hl with h | h | h | h | h
  · exact absurd (Or.inl h) hf
  · exact absurd (Or.inr (Or.inl h)) hf
  · exact Or.inl h
  · exact Or.inr h
  · exact absurd (Or.inr (Or.inr h)) hf

theorem effect_not_faultFree {x : Int} (hD : x = LOGIC_D ∨ x = LOGIC_DBAR) :
    ¬ IsFaultFree x := by
  intro h
  rcases hD with e | e
  · exact h.not_effect.1 e
  · exact h.not_effect.2 e

/-- A gate without a fault that holds D or D-bar is no primary input and has a predecessor
that holds D or D-bar. -/
theorem effect_pred {b : Circuit} (hv : ValidValues b) (hcl : Closed b)
    (hia : InputsAssigned b) {g : Nat} {gate : Gate} (hg : b.gates[g]? = some gate)
    (hft : gate.faultType = NOFAULT)
    (hD : gate.gateValue = LOGIC_D ∨ gate.gateValue = LOGIC_DBAR) :
    gate.gateType ≠ GATE_PI ∧ ∃ p ∈ gate.gateInputs, ∃ gp, b.gates[p]? = some gp ∧
      (gp.gateValue = LOGIC_D ∨ gp.gateValue = LOGIC_DBAR) := by
  have hpi : gate.gateType ≠ GATE_PI := by
    intro hpi
    obtain ⟨v, hv1, hv2⟩ := hia gate (List.getElem?_mem hg) hpi
    rw [hft, faultedValue_noFault] at hv2
    exact effect_not_faultFree hD (hv2 ▸ hv1)
  refine ⟨hpi, ?_⟩
  have hne : gate.gateValue ≠ LOGIC_UNSET := by
    rcases hD with e | e <;> rw [e] <;> decide
  obtain ⟨vals, v, hvals, hun, hsim, hval⟩ := hcl g gate hg hpi hne
  rw [hft, faultedValue_noFault] at hval
  by_cases hall : ∀ x ∈ vals, IsFaultFree x
  · exact absurd (hval ▸ simGateType_faultFree hsim hall) (effect_not_faultFree hD)
  · push_neg at hall
    obtain ⟨x, hx, hxf⟩ := hall
    obtain ⟨p, hp, hpv⟩ := inputValues_mem hvals hx
    obtain ⟨gp, hgp, e⟩ := getValue_some hpv
    exact ⟨p, hp, gp, hgp, e ▸ effect_of_logic (closed_vals_logic hv hvals hun x hx) hxf⟩

/-- The value `setValueCheckFault` stores is consistent with the stuck value. -/
theorem faultedValue_stuck (faultType v : Int) :
    (faultType = FAULT_SA0 →
      faultedValue faultType v ≠ LOGIC_ONE ∧ faultedValue faultType v ≠ LOGIC_DBAR) ∧
    (faultType = FAULT_SA1 →
      faultedValue faultType v ≠ LOGIC_ZERO ∧ faultedValue faultType v ≠ LOGIC_D) := by
  have h01 : FAULT_SA0 ≠ FAULT_SA1 := by decide
  constructor
  · intro h
    subst h
    unfold faultedValue
    by_cases h1 : v = LOGIC_ONE
    · simp only [h1, true_and, ↓reduceIte]; decide
    · by_cases h2 : v = LOGIC_DBAR
      · simp only [h2, true_and, ↓reduceIte]; decide
      · simp only [h1, h2, h01, and_false, false_and, ↓reduceIte]
        exact ⟨h1, h2⟩
  · intro h
    subst h
    unfold faultedValue
    by_cases h1 : v = LOGIC_ZERO
    · simp only [h1, h01.symm, true_and, false_and, ↓reduceIte]; decide
    · by_cases h2 : v = LOGIC_D
      · simp only [h2, h01.symm, true_and, false_and, ↓reduceIte]; decide
      · simp only [h1, h2, h01.symm, and_false, false_and, ↓reduceIte]
        exact ⟨h1, h2⟩

theorem InputsWritten.written_inputsSet {c : Circuit} (h : InputsWritten c) : InputsSet c := by
  intro gate hmem ht
  obtain ⟨v, hv, he⟩ := h gate hmem ht
  rw [he]
  apply faultedValue_isLogic
  simp only [logicValues, List.mem_cons, List.mem_singleton, List.not_mem_nil, or_false] at hv
  exact hv

/-- After `simFullCircuit` on inputs written with `setValueCheckFault`, every gate that holds
a value holds one that `setValueCheckFault` stored. -/
theorem simulated_stored {level : Nat → Nat} {K : Nat} {c c1 : Circuit}
    (hwf : WellFormed c level) (hin : InputsWritten c) (hsim : simFullCircuit K c = some c1)
    {g : Nat} {gate : Gate} (hg : c1.gates[g]? = some gate)
    (hne : gate.gateValue ≠ LOGIC_UNSET) :
    ∃ v, gate.gateValue = faultedValue gate.faultType v := by
  obtain ⟨hs, _, hcl, _, hpi, _⟩ := simFullCircuit_spec hwf.acyclic hin.written_inputsSet hsim
  by_cases ht : gate.gateType = GATE_PI
  · obtain ⟨gate0, hg0, ht0, _⟩ := hs.net_symm.get_fields hg
    have h1 := hpi g gate0 hg0 (by rw [ht0]; exact ht)
    have e : gate0 = gate := Option.some.inj (h1.symm.trans hg)
    obtain ⟨v, _, hv⟩ := hin gate (e ▸ List.getElem?_mem hg0) ht
    exact ⟨v, hv⟩
  · obtain ⟨_, v, _, _, _, hv⟩ := hcl g gate hg ht hne
    exact ⟨v, hv⟩

theorem setupFault_location {c : Circuit} {faultLocStr : String} {faultType : Int}
    {s0 : Podem} (h : setupFault c faultLocStr faultType = some s0) :
    ∃ gate, s0.myCircuit.gates[s0.faultLocation]? = some gate ∧ gate.faultType = faultType := by
  obtain ⟨cf, hcf, hmy, _, _⟩ := setupFault_spec h
  obtain ⟨_, gate, hg, rfl⟩ := set_faultType_spec hcf
  have hlt : s0.faultLocation < c.clearFaults.gates.length := (List.getElem?_eq_some.mp hg).1
  refine ⟨({ gate with faultType := faultType } : Gate).setValue LOGIC_X, ?_, rfl⟩
  rw [hmy, getElem?_setAllX, getElem?_putGate]
  simp [hlt]

/-- C31: `setValueCheckFault(g, v)` never leaves 1 or D-bar on a stuck-at-0 gate and never
0 or D on a stuck-at-1 gate, whatever the value `v`. Hence, for a fault set up by `main` on a
finalized acyclic circuit, in every state that `simFullCircuit` produces from primary inputs
written with `setValueCheckFault`, a gate that carries a fault and holds 0 or 1 holds its stuck
value; the fault node in particular then holds the complement of the activation value. -/
theorem C31_fault_node_value (c : Circuit) (level : Nat → Nat) (K : Nat)
    (hwf : WellFormed c level) (faultLocStr : String) (faultType : Int) (s0 : Podem)
    (hft : faultType = FAULT_SA0 ∨ faultType = FAULT_SA1)
    (hstart : setupFault c faultLocStr faultType = some s0) :
    (∀ (c0 : Circuit) (g : Nat) (gate : Gate) (v : Int), c0.gates[g]? = some gate →
      ∃ c1 w, setValueCheckFault c0 g v = some c1 ∧
        c1.gates[g]? = some { gate with gateValue := w } ∧
        (gate.faultType = FAULT_SA0 → w ≠ LOGIC_ONE ∧ w ≠ LOGIC_DBAR) ∧
        (gate.faultType = FAULT_SA1 → w ≠ LOGIC_ZERO ∧ w ≠ LOGIC_D)) ∧
    ∀ (c0 c1 : Circuit), SameNet s0.myCircuit c0 → InputsWritten c0 →
      simFullCircuit K c0 = some c1 →
      (∀ (g : Nat) (gate : Gate), c1.gates[g]? = some gate →
        (gate.gateValue = LOGIC_ZERO ∨ gate.gateValue = LOGIC_ONE) →
        (gate.faultType = FAULT_SA0 → gate.gateValue = LOGIC_ZERO) ∧
        (gate.faultType = FAULT_SA1 → gate.gateValue = LOGIC_ONE)) ∧
      ∀ gn, c1.gates[s0.faultLocation]? = some gn →
        (gn.gateValue = LOGIC_ZERO ∨ gn.gateValue = LOGIC_ONE) →
        gn.faultType = faultType ∧ gn.gateValue = LogicNot s0.faultActivationVal ∧
          gn.gateValue ≠ s0.faultActivationVal := by
  constructor
  · intro c0 g gate v hg
    have hlt : g < c0.gates.length := (List.getElem?_eq_some.mp hg).1
    refine ⟨c0.putGate g (gate.setValue (faultedValue gate.faultType v)),
      faultedValue gate.faultType v, by simp [setValueCheckFault, Circuit.onGate, hg], ?_,
      (faultedValue_stuck _ v).1, (faultedValue_stuck _ v).2⟩
    rw [getElem?_putGate]
    simp [hlt, Gate.setValue]
  · intro c0 c1 hs0 hin hsim
    obtain ⟨hinv0, _⟩ := setupFault_podemInv hwf hstart
    have hwf0 : WellFormed c0 level := hinv0.1.of_sameNet hs0
    have hall : ∀ (g : Nat) (gate : Gate), c1.gates[g]? = some gate →
        (gate.gateValue = LOGIC_ZERO ∨ gate.gateValue = LOGIC_ONE) →
        (gate.faultType = FAULT_SA0 → gate.gateValue = LOGIC_ZERO) ∧
        (gate.faultType = FAULT_SA1 → gate.gateValue = LOGIC_ONE) := by
      intro g gate hg h01
      have hne : gate.gateValue ≠ LOGIC_UNSET := by
        rcases h01 with e | e <;> rw [e] <;> decide
      obtain ⟨v, hv⟩ := simulated_stored hwf0 hin hsim hg hne
      have hst := faultedValue_stuck gate.faultType v
      rw [← hv] at hst
      constructor
      · intro hf
        rcases h01 with e | e
        · exact e
        · exact absurd e (hst.1 hf).1
      · intro hf
        rcases h01 with e | e
        · exact absurd e (hst.2 hf).1
        · exact e
    refine ⟨hall, ?_⟩
    intro gn hgn h01
    obtain ⟨g0, hg0, hf0⟩ := setupFault_location hstart
    obtain ⟨hs1, _⟩ := simFullCircuit_spec hwf0.acyclic hin.written_inputsSet hsim
    obtain ⟨gn1, hgn1, _, _, hfn, _⟩ := (hs0.net_trans hs1).get_fields hg0
    rw [hgn] at hgn1
    cases hgn1
    have hfe : gn.faultType = faultType := hfn.trans hf0
    obtain ⟨_, _, _, _, hact⟩ := setupFault_spec hstart
    obtain ⟨h0, h1⟩ := hall s0.faultLocation gn hgn h01
    refine ⟨hfe, ?_⟩
    rw [hact]
    rcases hft with e | e
    · have := h0 (hfe.trans e)
      rw [this, e]
      decide
    · have := h1 (hfe.trans e)
      rw [this, e]
      decide

/-- C31 on `Y = AND(A, B)` with `Y` stuck-at-0 and the inputs `A = 0`, `B = 1`: the simulated
fault node holds 0, the complement of the activation value 1. -/
theorem C31_fault_node_value_witness :
    simFullCircuit 2 (andState LOGIC_ZERO LOGIC_ONE LOGIC_X FAULT_SA0)
      = some (andState LOGIC_ZERO LOGIC_ONE LOGIC_ZERO FAULT_SA0) ∧
    ∀ gn, (andState LOGIC_ZERO LOGIC_ONE LOGIC_ZERO FAULT_SA0).gates[2]? = some gn →
      (gn.gateValue = LOGIC_ZERO ∨ gn.gateValue = LOGIC_ONE) →
      gn.faultType = FAULT_SA0 ∧ gn.gateValue = LogicNot LOGIC_ONE ∧
        gn.gateValue ≠ LOGIC_ONE :=
  ⟨by decide,
    ((C31_fault_node_value (andState LOGIC_UNSET LOGIC_UNSET LOGIC_UNSET NOFAULT) andLevel 2
      (by decide) "Y" FAULT_SA0 (andPodem LOGIC_X LOGIC_X LOGIC_X FAULT_SA0 LOGIC_ONE)
      (Or.inl rfl) (by decide)).2
      (andState LOGIC_ZERO LOGIC_ONE LOGIC_X FAULT_SA0)
      (andState LOGIC_ZERO LOGIC_ONE LOGIC_ZERO FAULT_SA0)
      ⟨rfl, rfl, rfl, rfl⟩ (by decide) (by decide)).2⟩


/-! ## Fault effects and the fault site -/

theorem no_effect_without_fault {level : Nat → Nat} {b : Circuit}
    (hac : Acyclic b.preds level) (hv : ValidValues b) (hcl : Closed b)
    (hnf : NoFault b) (hia : InputsAssigned b) :
    ∀ (g : Nat) (gate : Gate), b.gates[g]? = some gate →
      gate.gateValue ≠ LOGIC_D ∧ gate.gateValue ≠ LOGIC_DBAR := by
  intro g
  induction g using acyclic_induction hac with
  | _ g ih =>
    intro gate hg
    by_contra hcon
    have hD : gate.gateValue = LOGIC_D ∨ gate.gateValue = LOGIC_DBAR := by
      by_cases h1 : gate.gateValue = LOGIC_D
      · exact Or.inl h1
      · by_cases h2 : gate.gateValue = LOGIC_DBAR
        · exact Or.inr h2
        · exact absurd ⟨h1, h2⟩ hcon
    obtain ⟨_, p, hp, gp, hgp, hDp⟩ :=
      effect_pred hv hcl hia hg (hnf gate (List.getElem?_mem hg)) hD
    have := ih p (by rw [preds_eq hg]; exact hp) gp hgp
    rcases hDp with e | e
    · exact this.1 e
    · exact this.2 e

/-- In a consistent state with a single fault on `n`, every gate that holds D or D-bar has
`n` in its transitive fan-in. -/
theorem effect_downstream {level : Nat → Nat} {n : Nat} {b : Circuit}
    (hac : Acyclic b.preds level) (hv : ValidValues b) (hcl : Closed b)
    (hsf : SingleFault n b) (hia : InputsAssigned b) :
    ∀ (g : Nat) (gate : Gate), b.gates[g]? = some gate →
      (gate.gateValue = LOGIC_D ∨ gate.gateValue = LOGIC_DBAR) → FanIn b.preds g n := by
  intro g
  induction g using acyclic_induction hac with
  | _ g ih =>
    intro gate hg hD
    by_cases hgn : g = n
    · subst hgn; exact FanIn.self g
    · obtain ⟨_, p, hp, gp, hgp, hDp⟩ := effect_pred hv hcl hia hg (hsf g gate hg hgn) hD
      have hpm : p ∈ b.preds g := by rw [preds_eq hg]; exact hp
      exact FanIn.step hpm (ih p hpm gp hgp hDp)

theorem simulated_assigned {level : Nat → Nat} {K : Nat} {c c1 : Circuit}
    (hwf : WellFormed c level) (hia : InputsAssigned c) (hsim : simFullCircuit K c = some c1) :
    InputsAssigned c1 := by
  obtain ⟨hs, _, _, _, hpi, _⟩ := simFullCircuit_spec hwf.acyclic hia.inputsSet hsim
  intro gate hmem ht
  obtain ⟨g, hg⟩ := List.mem_iff_getElem?.mp hmem
  obtain ⟨gate0, hg0, ht0, _⟩ := hs.net_symm.get_fields hg
  have h1 := hpi g gate0 hg0 (by rw [ht0]; exact ht)
  have e : gate0 = gate := Option.some.inj (h1.symm.trans hg)
  exact hia gate (e ▸ List.getElem?_mem hg0) ht

/-- C32: on a finalized acyclic circuit in which no gate other than `n` carries a fault, with
primary inputs that hold what `setValueCheckFault` stores for values 0, 1 or X, after
`simFullCircuit` every gate that holds D or D-bar is `n` itself or has `n` in its transitive
fan-in (lies in the transitive fan-out of `n`); and if no gate carries a fault, no gate holds
D or D-bar. -/
theorem C32_effects_downstream (c : Circuit) (level : Nat → Nat) (K : Nat)
    (hwf : WellFormed c level) (n : Nat) (hsf : SingleFault n c) (hia : InputsAssigned c)
    (c1 : Circuit) (hsim : simFullCircuit K c = some c1) :
    (∀ (g : Nat) (gate : Gate), c1.gates[g]? = some gate →
      (gate.gateValue = LOGIC_D ∨ gate.gateValue = LOGIC_DBAR) →
      g = n ∨ (g ≠ n ∧ FanIn c.preds g n)) ∧
    (NoFault c → ∀ (g : Nat) (gate : Gate), c1.gates[g]? = some gate →
      gate.gateValue ≠ LOGIC_D ∧ gate.gateValue ≠ LOGIC_DBAR) := by
  obtain ⟨hs, hv, hcl, _⟩ := simFullCircuit_spec hwf.acyclic hia.inputsSet hsim
  have hac1 : Acyclic c1.preds level := (hwf.of_sameNet hs).acyclic
  have hia1 := simulated_assigned hwf hia hsim
  constructor
  · intro g gate hg hD
    by_cases hgn : g = n
    · exact Or.inl hgn
    · have := effect_downstream hac1 hv hcl (hsf.single_sameNet hs) hia1 g gate hg hD
      rw [hs.net_preds] at this
      exact Or.inr ⟨hgn, this⟩
  · intro hnf
    apply no_effect_without_fault hac1 hv hcl _ hia1
    intro gate1 hmem
    obtain ⟨g, hg⟩ := List.mem_iff_getElem?.mp hmem
    obtain ⟨gate0, hg0, _, _, hf0, _⟩ := hs.net_symm.get_fields hg
    rw [← hf0]
    exact hnf gate0 (List.getElem?_mem hg0)

/-- C32 on `Y = AND(A, B)` with the input `A` (gate 0) stuck-at-0 and `A = B = 1`: the gate
`Y` (gate 2) holds D after the simulation, and `A` lies in its fan-in. -/
theorem C32_effects_downstream_witness :
    2 = 0 ∨ (2 ≠ 0 ∧
      FanIn (andInputFault LOGIC_D LOGIC_ONE LOGIC_X).myCircuit.preds 2 0) :=
  (C32_effects_downstream (andInputFault LOGIC_D LOGIC_ONE LOGIC_X).myCircuit andLevel 2
    (by decide) 0
    (fun g gate hg hne => by
      match g with
      | 0 => exact absurd rfl hne
      | 1 =>
        have e : gate = _ := (Option.some.inj hg).symm
        rw [e]
        rfl
      | 2 =>
        have e : gate = _ := (Option.some.inj hg).symm
        rw [e]
        rfl
      | k + 3 => exact absurd hg (by simp [andInputFault]))
    (fun gate hmem ht => by
      simp only [andInputFault, List.mem_cons, List.mem_singleton, List.not_mem_nil,
        or_false] at hmem
      rcases hmem with e | e | e
      · exact ⟨LOGIC_ONE, by decide, by rw [e]; decide⟩
      · exact ⟨LOGIC_ONE, by decide, by rw [e]; decide⟩
      · exact absurd ht (by rw [e]; decide))
    (andInputFault LOGIC_D LOGIC_ONE LOGIC_D).myCircuit (by decide)).1 2
    { gateID := 2, gateType := GATE_AND, gateInputs := [0, 1], gateOutputs := [],
      outputName := "Y", gateValue := LOGIC_D, inputName := ["A", "B"],
      faultType := NOFAULT } rfl (Or.inl rfl)



/-! ## Names of the fanout branches -/

theorem digitChar_val {m : Nat} (hm : m < 10) :
    (Nat.digitChar m).toNat - 48 = m ∧ Nat.digitChar m ≠ '_' := by
  interval_cases m <;> exact ⟨by decide, by decide⟩

theorem toDigitsCore_value :
    ∀ (fuel n : Nat) (ds : List Char), n < fuel →
      (Nat.toDigitsCore 10 fuel n ds).foldl (fun a c => 10 * a + (c.toNat - 48)) 0
        = ds.foldl (fun a c => 10 * a + (c.toNat - 48)) n := by
  intro fuel
  induction fuel with
  | zero => intro n ds h; omega
  | succ fuel ih =>
    intro n ds h
    have hd := (digitChar_val (Nat.mod_lt n (by decide : 0 < 10))).1
    simp only [Nat.toDigitsCore]
    split_ifs with h0
    · simp only [List.foldl_cons, hd]
      congr 1
      omega
    · rw [ih (n / 10) _ (by omega)]
      simp only [List.foldl_cons, hd]
      congr 1
      omega

theorem toDigitsCore_chars :
    ∀ (fuel n : Nat) (ds : List Char), '_' ∉ ds → '_' ∉ Nat.toDigitsCore 10 fuel n ds := by
  intro fuel
  induction fuel with
  | zero => intro n ds h; exact h
  | succ fuel ih =>
    intro n ds h
    have hd := (digitChar_val (Nat.mod_lt n (by decide : 0 < 10))).2
    have hcons : '_' ∉ Nat.digitChar (n % 10) :: ds := by
      intro hm
      rcases List.mem_cons.mp hm with e | e
      · exact hd e.symm
      · exact h e
    simp only [Nat.toDigitsCore]
    split_ifs
    · exact hcons
    · exact ih _ _ hcons

theorem toString_nat_data (n : Nat) : (toString n).data = Nat.toDigits 10 n := rfl

theorem toString_nat_inj {a b : Nat} (h : toString a = toString b) : a = b := by
  have hd : Nat.toDigits 10 a = Nat.toDigits 10 b := by
    rw [← toString_nat_data, ← toString_nat_data, h]
  have ha := toDigitsCore_value (a + 1) a [] (by omega)
  have hb := toDigitsCore_value (b + 1) b [] (by omega)
  unfold Nat.toDigits at hd
  rw [hd, hb] at ha
  simpa using ha.symm

theorem toString_nat_chars (n : Nat) : '_' ∉ (toString n).data := by
  rw [toString_nat_data]
  exact toDigitsCore_chars _ _ _ (by simp)

theorem split_at_first {α : Type} {x : α} :
    ∀ {l1 l2 d1 d2 : List α}, x ∉ l1 → x ∉ l2 → l1 ++ x :: d1 = l2 ++ x :: d2 →
      l1 = l2 ∧ d1 = d2 := by
  intro l1
  induction l1 with
  | nil =>
    intro l2 d1 d2 _ h2 h
    cases l2 with
    | nil => simpa using h
    | cons y l2 =>
      simp only [List.nil_append, List.cons_append, List.cons.injEq] at h
      exact absurd (h.1 ▸ List.mem_cons_self _ _) h2
  | cons y l1 ih =>
    intro l2 d1 d2 h1 h2 h
    cases l2 with
    | nil =>
      simp only [List.nil_append, List.cons_append, List.cons.injEq] at h
      exact absurd (h.1 ▸ List.mem_cons_self _ _) h1
    | cons z l2 =>
      simp only [List.cons_append, List.cons.injEq] at h
      obtain ⟨e1, e2⟩ := ih (fun hm => h1 (List.mem_cons_of_mem _ hm))
        (fun hm => h2 (List.mem_cons_of_mem _ hm)) h.2
      exact ⟨by rw [h.1, e1], e2⟩

theorem split_at_last {α : Type} {x : α} {l1 l2 d1 d2 : List α} (h1 : x ∉ d1) (h2 : x ∉ d2)
    (h : l1 ++ x :: d1 = l2 ++ x :: d2) : l1 = l2 ∧ d1 = d2 := by
  have hr := congrArg List.reverse h
  simp only [List.reverse_append, List.reverse_cons, List.append_assoc, List.singleton_append]
    at hr
  obtain ⟨e1, e2⟩ := split_at_first (by simpa using h1) (by simpa using h2) hr
  exact ⟨List.reverse_injective e2, List.reverse_injective e1⟩

theorem branchName_inj {n1 n2 : String} {j1 j2 : Nat}
    (h : branchName n1 j1 = branchName n2 j2) : n1 = n2 ∧ j1 = j2 := by
  have hd := congrArg String.data h
  simp only [branchName, String.data_append] at hd
  simp only [List.append_assoc, List.singleton_append] at hd
  obtain ⟨e1, e2⟩ := split_at_last (toString_nat_chars j1) (toString_nat_chars j2) hd
  exact ⟨String.ext e1, toString_nat_inj (String.ext e2)⟩

theorem outNames_putGate {c : Circuit} {p : Nat} {gate x : Gate} (hp : c.gates[p]? = some gate)
    (h1 : x.outputName = gate.outputName) : (c.putGate p x).outNames = c.outNames := by
  unfold Circuit.outNames
  apply List.ext_getElem?
  intro g
  simp only [List.getElem?_map, getElem?_putGate]
  have hlt : p < c.gates.length := (List.getElem?_eq_some.mp hp).1
  by_cases hpg : p = g
  · subst hpg; simp [hlt, hp, h1]
  · simp [hpg]

theorem outNames_onGate {c c1 : Circuit} {p : Nat} {f : Gate → Gate}
    (hf : ∀ x, (f x).outputName = x.outputName) (h : c.onGate p f = some c1) :
    c1.outNames = c.outNames := by
  unfold Circuit.onGate at h
  cases hg : c.gates[p]? with
  | none => simp [hg] at h
  | some gate =>
    simp only [hg, Option.some.injEq] at h
    subst h
    exact outNames_putGate hg (hf gate)

theorem replace_gateOutput_name {gg gg1 : Gate} {a b : Nat}
    (h : gg.replace_gateOutput a b = some gg1) : gg1.outputName = gg.outputName := by
  unfold Gate.replace_gateOutput at h
  cases hrf : replaceFirst a b gg.gateOutputs with
  | none => simp [hrf] at h
  | some l =>
    simp only [hrf, Option.map_some', Option.some.injEq] at h
    rw [← h]

theorem replace_gateInput_name {gg gg1 : Gate} {a b : Nat}
    (h : gg.replace_gateInput a b = some gg1) : gg1.outputName = gg.outputName := by
  unfold Gate.replace_gateInput at h
  cases hrf : replaceFirst a b gg.gateInputs with
  | none => simp [hrf] at h
  | some l =>
    simp only [hrf, Option.map_some', Option.some.injEq] at h
    rw [← h]

/-- One round of the inner loop of the fanout pass appends one gate, named after the stem and
the round, and renames no gate. -/
theorem insertFanout_outNames {c c1 : Circuit} {g h j : Nat} {name : String}
    (hrun : insertFanout c g name h j = some c1) :
    c1.outNames = c.outNames ++ [branchName name j] := by
  unfold insertFanout at hrun
  simp only at hrun
  generalize hc0 :
    c.newGate (name ++ "_" ++ toString j) (Int.ofNat c.gates.length) GATE_FANOUT = c0 at hrun
  have h0 : c0.outNames = c.outNames ++ [branchName name j] := by
    rw [← hc0]
    simp [Circuit.outNames, Circuit.newGate, Gate.new, branchName]
  cases hgg : c0.gates[g]? with
  | none => simp [hgg] at hrun
  | some gg =>
    simp only [hgg] at hrun
    cases hr1 : gg.replace_gateOutput h c.gates.length with
    | none => simp [hr1] at hrun
    | some gg1 =>
      simp only [hr1] at hrun
      cases hc2 : (c0.putGate g gg1).onGate c.gates.length (fun x => x.set_gateInput g) with
      | none => simp [hc2] at hrun
      | some c2 =>
        simp only [hc2] at hrun
        have h2 : c2.outNames = c0.outNames :=
          (outNames_onGate (f := fun x => x.set_gateInput g) (fun _ => rfl) hc2).trans
            (outNames_putGate hgg (replace_gateOutput_name hr1))
        cases hhh : c2.gates[h]? with
        | none => simp [hhh] at hrun
        | some hh =>
          simp only [hhh] at hrun
          cases hr2 : hh.replace_gateInput g c.gates.length with
          | none => simp [hr2] at hrun
          | some hh1 =>
            simp only [hr2] at hrun
            rw [outNames_onGate (f := fun x => x.set_gateOutput h) (fun _ => rfl) hrun,
              outNames_putGate hhh (replace_gateInput_name hr2), h2, h0]

theorem splitOutputs_outNames {g : Nat} {name : String} :
    ∀ (rest : List Nat) (c c1 : Circuit) (j : Nat), splitOutputs g name c rest j = some c1 →
      c1.outNames
        = c.outNames ++ (List.range rest.length).map (fun k => branchName name (j + k)) := by
  intro rest
  induction rest with
  | nil =>
    intro c c1 j h
    simp only [splitOutputs, Option.some.injEq] at h
    subst h
    simp
  | cons h rest ih =>
    intro c c1 j hrun
    simp only [splitOutputs] at hrun
    cases hins : insertFanout c g name h j with
    | none => simp [hins] at hrun
    | some c2 =>
      simp only [hins] at hrun
      rw [ih c2 c1 (j + 1) hrun, insertFanout_outNames hins, List.length_cons,
        List.range_succ_eq_map, List.map_cons, List.map_map, List.append_assoc,
        List.singleton_append, Nat.add_zero]
      congr 2
      apply List.map_congr_left
      intro k _
      simp only [Function.comp]
      congr 1
      omega

/-! ### The outer loop of the fanout pass, with the intermediate states exposed -/

theorem fanoutPass_unfold {n0 : Nat} {out0 : Nat → List Nat} {i : Nat} {c : Circuit}
    (h : SplitInv n0 out0 i c) (hi : i < c.gates.length) :
    ∃ gi, c.gates[i]? = some gi ∧
      ((n0 ≤ i ∨ (out0 i).length ≤ 1) →
        ∀ fuel, fanoutPass (fuel + 1) i c = fanoutPass fuel (i + 1) c) ∧
      (i < n0 → 1 < (out0 i).length →
        ∀ fuel, fanoutPass (fuel + 1) i c
          = (splitOutputs i gi.outputName c (out0 i) 0).bind (fanoutPass fuel (i + 1))) := by
  obtain ⟨⟨hn0, hl, hbr, hold⟩, h4, h5, h6⟩ := h
  obtain ⟨gi, hgi, _, gio, git⟩ := exists_gate hi
  refine ⟨gi, hgi, ?_, ?_⟩
  · intro hor fuel
    have hcond : ¬ (gi.gateType ≠ GATE_FANOUT ∧ gi.gateOutputs.length > 1) := by
      intro hc
      rcases hor with e | e
      · have := (hbr i e hi).1
        rw [← git, Option.some.injEq] at this
        exact hc.1 this
      · by_cases hin : i < n0
        · rw [gio, h4 i hin (Or.inl (le_refl i))] at hc
          omega
        · have := (hbr i (by omega) hi).1
          rw [← git, Option.some.injEq] at this
          exact hc.1 this
    simp only [fanoutPass, hi, ↓reduceIte, hgi, hcond]
  · intro hin hlen fuel
    have hsi : c.succs i = out0 i := h4 i hin (Or.inl (le_refl i))
    have hty : gi.gateType ≠ GATE_FANOUT := by
      intro e
      apply hold i hin
      rw [← git, e]
    have hcond : gi.gateType ≠ GATE_FANOUT ∧ gi.gateOutputs.length > 1 :=
      ⟨hty, by rw [gio, hsi]; exact hlen⟩
    simp only [fanoutPass, hi, ↓reduceIte, hgi]
    rw [if_pos hcond, gio, hsi]
    cases splitOutputs i gi.outputName c (out0 i) 0 <;> rfl

theorem splitInv_skip {n0 : Nat} {out0 : Nat → List Nat} {i : Nat} {c : Circuit}
    (h : SplitInv n0 out0 i c) (hor : n0 ≤ i ∨ (out0 i).length ≤ 1) :
    SplitInv n0 out0 (i + 1) c := by
  obtain ⟨hb, h4, h5, h6⟩ := h
  refine ⟨hb, ?_, ?_, h6⟩
  · intro g hg hor1
    apply h4 g hg
    rcases hor1 with e | e
    · exact Or.inl (by omega)
    · exact Or.inr e
  · intro g hg hgi hglen
    apply h5 g hg _ hglen
    by_contra hcon
    have e : g = i := by omega
    subst e
    rcases hor with e | e <;> omega

/-- The state after the inner loop for a gate `i` that is split. -/
theorem splitInv_split {n0 : Nat} {out0 : Nat → List Nat} {i : Nat} {c c1 : Circuit}
    {name : String} (h : SplitInv n0 out0 i c) (hin : i < n0) (hlen : 1 < (out0 i).length)
    (hrun : splitOutputs i name c (out0 i) 0 = some c1) :
    SplitInv n0 out0 (i + 1) c1 ∧ c1.inputGates = c.inputGates ∧
      c1.outputGates = c.outputGates ∧ InnerInv n0 i c c [] (out0 i) := by
  obtain ⟨⟨hn0, hl, hbr, hold⟩, h4, h5, h6⟩ := h
  have hsi : c.succs i = out0 i := h4 i hin (Or.inl (le_refl i))
  have hinner : InnerInv n0 i c c [] (out0 i) :=
    ⟨⟨hn0, hl, hbr, hold⟩, hin, fun _ _ _ => rfl, by simpa using hsi,
      fun _ hf => absurd hf (List.not_mem_nil _), h6 i hin⟩
  obtain ⟨c1x, F1, e1, ⟨hb1, _, hoth1, hsi1, hF1, _⟩, hi1, ho1⟩ :=
    splitOutputs_spec name (out0 i) c [] 0 hinner
  rw [hrun, Option.some.injEq] at e1
  subst e1
  refine ⟨⟨hb1, ?_, ?_, h6⟩, hi1, ho1, hinner⟩
  · intro g hg hor
    have hgi : g ≠ i := by
      intro e
      subst e
      rcases hor with e | e <;> omega
    rw [hoth1 g hg hgi]
    apply h4 g hg
    rcases hor with e | e
    · exact Or.inl (by omega)
    · exact Or.inr e
  · intro g hg hgi hglen s hs
    by_cases e : g = i
    · subst e
      rw [hsi1, List.append_nil] at hs
      exact hF1 s hs
    · rw [hoth1 g hg e] at hs
      exact h5 g hg (by omega) hglen s hs

/-- Induction along the outer loop of the fanout pass: a property `X` of the loop index and
the state that every round keeps holds when the loop ends. -/
theorem fanoutPass_induct {n0 : Nat} {out0 : Nat → List Nat} (X : Nat → Circuit → Prop)
    (hskip : ∀ (i : Nat) (c : Circuit), SplitInv n0 out0 i c → i < c.gates.length →
      (n0 ≤ i ∨ (out0 i).length ≤ 1) → X i c → X (i + 1) c)
    (hsplit : ∀ (i : Nat) (c c1 : Circuit) (gi : Gate), SplitInv n0 out0 i c → i < n0 →
      c.gates[i]? = some gi → 1 < (out0 i).length →
      splitOutputs i gi.outputName c (out0 i) 0 = some c1 → X i c → X (i + 1) c1) :
    ∀ (fuel i : Nat) (c c3 : Circuit), SplitInv n0 out0 i c → X i c →
      fanoutPass fuel i c = some c3 → ∃ k, c3.gates.length ≤ k ∧ X k c3 := by
  intro fuel
  induction fuel with
  | zero =>
    intro i c c3 _ hX h
    simp only [fanoutPass] at h
    split_ifs at h with hi
    cases h
    exact ⟨i, by omega, hX⟩
  | succ fuel ih =>
    intro i c c3 hinv hX h
    by_cases hi : i < c.gates.length
    · obtain ⟨gi, hgi, hA, hB⟩ := fanoutPass_unfold hinv hi
      by_cases hc : i < n0 ∧ 1 < (out0 i).length
      · rw [hB hc.1 hc.2 fuel] at h
        cases hso : splitOutputs i gi.outputName c (out0 i) 0 with
        | none => simp [hso] at h
        | some c1 =>
          simp only [hso, Option.some_bind] at h
          exact ih (i + 1) c1 c3 (splitInv_split hinv hc.1 hc.2 hso).1
            (hsplit i c c1 gi hinv hc.1 hgi hc.2 hso hX) h
      · have hor : n0 ≤ i ∨ (out0 i).length ≤ 1 := by
          by_cases e : i < n0
          · exact Or.inr (by
              by_contra hcon
              exact hc ⟨e, by omega⟩)
          · exact Or.inl (by omega)
        rw [hA hor fuel] at h
        exact ih (i + 1) c c3 (splitInv_skip hinv hor) (hskip i c hinv hi hor hX) h
    · simp only [fanoutPass, hi, ↓reduceIte, Option.some.injEq] at h
      subst h
      exact ⟨i, by omega, hX⟩

theorem linkGates_names :
    ∀ (is : List Nat) (c c1 : Circuit), linkGates c is = some c1 → c1.names = c.names := by
  intro is
  induction is with
  | nil =>
    intro c c1 h
    simp only [linkGates, Option.some.injEq] at h
    subst h
    rfl
  | cons i is ih =>
    intro c c1 h
    simp only [linkGates] at h
    cases hg : c.gates[i]? with
    | none => simp [hg] at h
    | some g =>
      simp only [hg] at h
      cases hl : linkNames i c g.inputName with
      | none => simp [hl] at h
      | some c2 =>
        simp only [hl] at h
        exact (ih c2 c1 h).trans (linkNames_resolved i _ _ _ hl).1

theorem outNames_of_names {c c1 : Circuit} (h : c1.names = c.names) :
    c1.outNames = c.outNames := by
  have := congrArg (List.map Prod.fst) h
  simpa [Circuit.names, Circuit.outNames, List.map_map, Function.comp] using this

theorem linkAll_spec {c c2 : Circuit} (h : c.linkAll = some c2) :
    ∃ c1, resolveOutputs c c.outputNames = some c1 ∧
      linkGates c1 (List.range c1.gates.length) = some c2 ∧ c2.outNames = c.outNames := by
  unfold Circuit.linkAll at h
  cases hres : resolveOutputs c c.outputNames with
  | none => simp [hres] at h
  | some c1 =>
    simp only [hres] at h
    refine ⟨c1, rfl, h, ?_⟩
    rw [outNames_of_names (linkGates_names _ _ _ h)]
    unfold Circuit.outNames
    rw [(resolveOutputs_gates _ _ _ hres).1]

theorem setupCircuit_spec {c c3 : Circuit} {fuel : Nat} (h : c.setupCircuit fuel = some c3) :
    ∃ c2, c.linkAll = some c2 ∧ fanoutPass fuel 0 c2 = some c3 ∧
      c3.checkPointerConsistency = true := by
  unfold Circuit.setupCircuit at h
  cases hb : c.buildLinks fuel with
  | none => simp [hb] at h
  | some c3x =>
    simp only [hb] at h
    split_ifs at h with hchk
    cases h
    unfold Circuit.buildLinks at hb
    unfold Circuit.linkAll
    cases hres : resolveOutputs c c.outputNames with
    | none => simp [hres] at hb
    | some c1 =>
      simp only [hres] at hb ⊢
      cases hlink : linkGates c1 (List.range c1.gates.length) with
      | none => simp [hlink] at hb
      | some c2 =>
        simp only [hlink] at hb
        exact ⟨c2, rfl, hb, hchk⟩

theorem branchNames_succ {c : Circuit} {k : Nat} {gate : Gate} (hg : c.gates[k]? = some gate) :
    c.branchNames (k + 1) = c.branchNames k ++ gate.branchNames := by
  unfold Circuit.branchNames
  rw [List.take_succ, hg]
  simp

/-- The fanout pass renames no gate and appends the branches of the split gates in order. -/
theorem fanoutPass_outNames {c2 c3 : Circuit} {fuel : Nat}
    (hinv : SplitInv c2.gates.length c2.succs 0 c2) (hrun : fanoutPass fuel 0 c2 = some c3) :
    c3.outNames = c2.outNames ++ c2.branchNames c2.gates.length := by
  have hlen0 : c2.outNames.length = c2.gates.length := by simp [Circuit.outNames]
  obtain ⟨k, hk, hX⟩ := fanoutPass_induct
    (fun i c => c.outNames = c2.outNames ++ c2.branchNames (min i c2.gates.length))
    (by
      intro i c _ _ hor hX
      show c.outNames = c2.outNames ++ c2.branchNames (min (i + 1) c2.gates.length)
      by_cases hi : c2.gates.length ≤ i
      · rw [Nat.min_eq_right (by omega)]
        rw [Nat.min_eq_right hi] at hX
        exact hX
      · have hlt : i < c2.gates.length := by omega
        rw [Nat.min_eq_left (by omega)]
        rw [Nat.min_eq_left (by omega)] at hX
        have hg := List.getElem?_eq_getElem hlt
        rw [branchNames_succ hg, hX]
        have hlen : (c2.succs i).length ≤ 1 := by
          rcases hor with e | e
          · omega
          · exact e
        rw [succs_eq hg] at hlen
        have : (c2.gates[i]).branchNames = [] := by
          unfold Gate.branchNames
          rw [if_neg (by omega)]
        rw [this, List.append_nil])
    (by
      intro i c c1 gi _ hin hgi hlen hso hX
      show c1.outNames = c2.outNames ++ c2.branchNames (min (i + 1) c2.gates.length)
      rw [Nat.min_eq_left (by omega)]
      rw [Nat.min_eq_left (by omega)] at hX
      have hg := List.getElem?_eq_getElem hin
      have hname : gi.outputName = (c2.gates[i]).outputName := by
        have h1 : c.outNames[i]? = some gi.outputName := by
          simp [Circuit.outNames, hgi]
        rw [hX, List.getElem?_append_left (by rw [hlen0]; exact hin)] at h1
        simp only [Circuit.outNames, List.getElem?_map, hg, Option.map_some',
          Option.some.injEq] at h1
        exact h1.symm
      have hty : (c2.gates[i]).gateType ≠ GATE_FANOUT := by
        intro e
        apply hinv.1.2.2.2 i hin
        rw [typeOf_eq hg, e]
      rw [succs_eq hg] at hlen hso
      rw [splitOutputs_outNames _ _ _ _ hso, hX, branchNames_succ hg, List.append_assoc]
      congr 2
      unfold Gate.branchNames
      rw [if_pos ⟨hty, hlen⟩, hname]
      apply List.map_congr_left
      intro j _
      rw [Nat.zero_add])
    fuel 0 c2 c3 hinv (by simp [Circuit.branchNames]) hrun
  have hk2 : c2.gates.length ≤ k := by
    have : c3.outNames.length = c3.gates.length := by simp [Circuit.outNames]
    have h2 := congrArg List.length hX
    rw [List.length_append, hlen0] at h2
    omega
  rw [Nat.min_eq_right hk2] at hX
  exact hX

theorem mem_branchNames {c : Circuit} {k : Nat} {n : String} (h : n ∈ c.branchNames k) :
    ∃ i gate, i < k ∧ c.gates[i]? = some gate ∧ n ∈ gate.branchNames ∧
      ∃ j, j < gate.gateOutputs.length ∧ n = branchName gate.outputName j := by
  unfold Circuit.branchNames at h
  rw [List.mem_flatMap] at h
  obtain ⟨gate, hmem, hn⟩ := h
  obtain ⟨i, hi⟩ := List.mem_iff_getElem?.mp hmem
  rw [List.getElem?_take] at hi
  split_ifs at hi with hik
  have hn0 := hn
  unfold Gate.branchNames at hn
  split_ifs at hn with hc
  · rw [List.mem_map] at hn
    obtain ⟨j, hj, e⟩ := hn
    exact ⟨i, gate, hik, hi, hn0, j, List.mem_range.mp hj, e.symm⟩
  · simp at hn

theorem nodup_gate_branchNames (gate : Gate) : gate.branchNames.Nodup := by
  unfold Gate.branchNames
  split_ifs
  · exact (List.nodup_range _).map (fun a b e => (branchName_inj e).2)
  · exact List.nodup_nil

theorem nodup_branchNames {c : Circuit} (hnd : c.outNames.Nodup) :
    ∀ k, (c.branchNames k).Nodup := by
  intro k
  induction k with
  | zero => simp [Circuit.branchNames]
  | succ k ih =>
    by_cases hk : k < c.gates.length
    · have hg := List.getElem?_eq_getElem hk
      rw [branchNames_succ hg, List.nodup_append]
      refine ⟨ih, nodup_gate_branchNames _, ?_⟩
      intro n h1 h2
      obtain ⟨i, gi, hik, hgi, _, j1, _, e1⟩ := mem_branchNames h1
      unfold Gate.branchNames at h2
      split_ifs at h2
      · rw [List.mem_map] at h2
        obtain ⟨j2, _, e2⟩ := h2
        have hname := (branchName_inj (e1.symm.trans e2.symm)).1
        have hi1 : c.outNames[i]? = some gi.outputName := by simp [Circuit.outNames, hgi]
        have hk1 : c.outNames[k]? = some gi.outputName := by
          simp [Circuit.outNames, hg, hname]
        have hil : i < c.outNames.length := by
          simp only [Circuit.outNames, List.length_map]; omega
        have := List.getElem?_inj hil hnd (hi1.trans hk1.symm)
        omega
      · simp at h2
    · have : c.branchNames (k + 1) = c.branchNames k := by
        unfold Circuit.branchNames
        rw [List.take_of_length_le (by omega), List.take_of_length_le (by omega)]
      rw [this]
      exact ih

/-- With pairwise distinct names, name lookup finds every gate. -/
theorem findGateByName_of_nodup {c : Circuit} (hnd : c.outNames.Nodup) {g : Nat} {gate : Gate}
    (hg : c.gates[g]? = some gate) : c.findGateByName gate.outputName = some g := by
  rw [findGateByName_iff]
  refine ⟨⟨gate, hg, rfl⟩, ?_⟩
  intro h gh hh hn
  have h1 : c.outNames[h]? = some gate.outputName := by simp [Circuit.outNames, hh, hn]
  have h2 : c.outNames[g]? = some gate.outputName := by simp [Circuit.outNames, hg]
  have hl : h < c.outNames.length := by
    simp only [Circuit.outNames, List.length_map]
    exact (List.getElem?_eq_some.mp hh).1
  exact List.getElem?_inj hl hnd (h1.trans h2.symm)

/-- C34 (amended): on a circuit as the parser builds it with pairwise distinct gate output
names, let `c2` be the state after the linking loops of `setupCircuit`. If no gate has a name
`<stem>_<j>` that the fanout pass gives to a branch (`<stem>` the name of a gate with more than
one successor in `c2`, `j` below the number of its successors), then after `setupCircuit` the
gate output names are the old ones followed by the branch names, they are pairwise distinct,
and `findGateByName` returns every gate for its name. -/
theorem C34_names_distinct_if_fresh (c : Circuit) (fuel : Nat) (c2 c3 : Circuit)
    (hp : Parsed c) (hnd : c.outNames.Nodup) (hlink : c.linkAll = some c2)
    (hfresh : FreshBranchNames c2) (hrun : c.setupCircuit fuel = some c3) :
    c3.outNames = c.outNames ++ c2.branchNames c2.gates.length ∧ c3.outNames.Nodup ∧
      ∀ (g : Nat) (gate : Gate), c3.gates[g]? = some gate →
        c3.findGateByName gate.outputName = some g := by
  obtain ⟨c2x, hlinkx, hpass, _⟩ := setupCircuit_spec hrun
  rw [hlink, Option.some.injEq] at hlinkx
  subst hlinkx
  obtain ⟨c1, hres, hlg, hn2⟩ := linkAll_spec hlink
  obtain ⟨hlen2, hinv⟩ := splitInv_start hp hres hlg
  rw [← hlen2] at hinv
  have hnames := fanoutPass_outNames hinv hpass
  have hnd2 : c2.outNames.Nodup := hn2 ▸ hnd
  have hnd3 : c3.outNames.Nodup := by
    rw [hnames, List.nodup_append]
    refine ⟨hnd2, nodup_branchNames hnd2 _, ?_⟩
    intro n h1 h2
    obtain ⟨i, gi, _, hgi, hmem, _⟩ := mem_branchNames h2
    exact hfresh gi (List.getElem?_mem hgi) n hmem h1
  refine ⟨by rw [hnames, hn2], hnd3, fun g gate hg => findGateByName_of_nodup hnd3 hg⟩

/-- C34 on the netlist `Y = AND(A, A)`: the names after `setupCircuit` are `A`, `Y`, `A_0`,
`A_1`, and every gate is found by its name. -/
theorem C34_names_distinct_if_fresh_witness :
    twiceCircuit.outNames = twiceNetlist.outNames ++ twiceLinked.branchNames 2 ∧
      twiceCircuit.outNames.Nodup ∧
      ∀ (g : Nat) (gate : Gate), twiceCircuit.gates[g]? = some gate →
        twiceCircuit.findGateByName gate.outputName = some g :=
  C34_names_distinct_if_fresh twiceNetlist 4 twiceLinked twiceCircuit (by decide) (by decide)
    (by decide) (by decide) (by decide)

/-- C34 fails as stated: in the netlist `Y = AND(A, A_0)`, `Z = NOT(A)` with the inputs `A`
and `A_0` the names are pairwise distinct, `setupCircuit` succeeds and names the first branch
of `A` again `A_0`; the names are then no longer distinct and `findGateByName` fails on
`A_0`. -/
theorem C34_names_clash_counterexample :
    Parsed clashNetlist ∧ clashNetlist.outNames.Nodup ∧
      (clashNetlist.setupCircuit 6).map Circuit.outNames
        = some ["A", "A_0", "Y", "Z", "A_0", "A_1"] ∧
      (clashNetlist.setupCircuit 6).map (fun c3 => c3.findGateByName "A_0") = some none ∧
      ¬ (["A", "A_0", "Y", "Z", "A_0", "A_1"] : List String).Nodup := by
  decide


/-! ## The fanout pass keeps the predecessors -/

theorem forall2_replaceFirst {R S : Nat → Nat → Prop} {i L : Nat}
    (hmono : ∀ p q, R p q → S p q) (hnew : ∀ p, R p i → S p L) :
    ∀ {l m ri : List Nat}, List.Forall₂ R l m → replaceFirst i L m = some ri →
      List.Forall₂ S l ri := by
  intro l m ri h
  induction h generalizing ri with
  | nil => intro hr; simp [replaceFirst] at hr
  | @cons p q l m hpq hrest ih =>
    intro hr
    simp only [replaceFirst] at hr
    split_ifs at hr with hq
    · simp only [Option.some.injEq] at hr
      subst hr
      subst hq
      exact List.Forall₂.cons (hnew p hpq) (hrest.imp hmono)
    · cases hr1 : replaceFirst i L m with
      | none => simp [hr1] at hr
      | some r =>
        simp only [hr1, Option.map_some', Option.some.injEq] at hr
        subst hr
        exact List.Forall₂.cons (hmono p q hpq) (ih hr1)

/-- One round of the inner loop of the fanout pass, with the state it leaves exposed. -/
theorem innerInv_step {n0 i : Nat} {cs c c1 : Circuit} {name : String} {F rest : List Nat}
    {h j : Nat} (hinv : InnerInv n0 i cs c F (h :: rest))
    (hrun : insertFanout c i name h j = some c1) :
    InnerInv n0 i cs c1 (F ++ [c.gates.length]) rest ∧ h < n0 ∧
      ∃ ri, replaceFirst i c.gates.length (c.preds h) = some ri ∧
        c1.gates.length = c.gates.length + 1 ∧
        (∀ x, c1.preds x
          = if x = c.gates.length then [i] else if x = h then ri else c.preds x) ∧
        (∀ x, c1.typeOf x = if x = c.gates.length then some GATE_FANOUT else c.typeOf x) := by
  obtain ⟨⟨hn0, hl, hbr, hold⟩, hi, hoth, hsi, hF, hrest⟩ := hinv
  have hhn : h < n0 := hrest h (List.mem_cons_self _ _)
  have hil : i < c.gates.length := by omega
  have hhl : h < c.gates.length := by omega
  have hnotF : h ∉ F := fun hm => by have := hF h hm; omega
  have hro : replaceFirst h c.gates.length (c.succs i)
      = some (F ++ c.gates.length :: rest) := by
    rw [hsi]; exact replaceFirst_append F rest hnotF
  have himem : i ∈ c.preds h := by
    rw [hl.mem_iff h i, hsi]
    exact List.mem_append_right _ (List.mem_cons_self _ _)
  obtain ⟨ri, hri⟩ := @replaceFirst_of_mem i c.gates.length _ himem
  obtain ⟨c1x, e1, hlen1, hp1, hs1, ht1, hi1, ho1⟩ :=
    insertFanout_spec name j hil hhl hro hri
  rw [hrun, Option.some.injEq] at e1
  subst e1
  refine ⟨?_, hhn, ri, hri, hlen1, hp1, ht1⟩
  refine ⟨⟨by omega, linked_insertFanout hl hil hhl hro hri hp1 hs1, ?_, ?_⟩, hi, ?_, ?_,
    ?_, fun s hs => hrest s (List.mem_cons_of_mem _ hs)⟩
  · intro g hg1 hg2
    rw [ht1, hp1, hs1]
    by_cases hgL : g = c.gates.length
    · simp [hgL]
    · have hgh : ¬ g = h := by omega
      have hgi : ¬ g = i := by omega
      simp only [hgL, ↓reduceIte, hgh, hgi]
      exact hbr g hg1 (by omega)
  · intro g hg
    rw [ht1]
    have : ¬ g = c.gates.length := by omega
    simp only [this, ↓reduceIte]
    exact hold g hg
  · intro g hg hgi
    rw [hs1]
    have : ¬ g = c.gates.length := by omega
    simp only [this, ↓reduceIte, hgi]
    exact hoth g hg hgi
  · rw [hs1]
    have : ¬ i = c.gates.length := by omega
    simp [this]
  · intro f hf
    rcases List.mem_append.mp hf with e | e
    · exact hF f e
    · rw [List.mem_singleton.mp e]; exact hn0

/-- Induction along the inner loop of the fanout pass. -/
theorem splitOutputs_keeps {n0 i : Nat} {cs : Circuit} {name : String} (Q : Circuit → Prop)
    (hQ : ∀ (c c1 : Circuit) (F rest : List Nat) (h j : Nat),
      InnerInv n0 i cs c F (h :: rest) → insertFanout c i name h j = some c1 → Q c → Q c1) :
    ∀ (rest : List Nat) (c : Circuit) (F : List Nat) (j : Nat) (c1 : Circuit),
      InnerInv n0 i cs c F rest → Q c → splitOutputs i name c rest j = some c1 → Q c1 := by
  intro rest
  induction rest with
  | nil =>
    intro c F j c1 _ hq hrun
    simp only [splitOutputs, Option.some.injEq] at hrun
    subst hrun
    exact hq
  | cons h rest ih =>
    intro c F j c1 hinv hq hrun
    simp only [splitOutputs] at hrun
    cases hins : insertFanout c i name h j with
    | none => simp [hins] at hrun
    | some c2 =>
      simp only [hins] at hrun
      exact ih c2 (F ++ [c.gates.length]) (j + 1) c1 (innerInv_step hinv hins).1
        (hQ c c2 F rest h j hinv hins hq) hrun

theorem typeOf_lt {c : Circuit} {g : Nat} {t : Int} (h : c.typeOf g = some t) :
    g < c.gates.length := by
  obtain ⟨gate, hg, _⟩ := typeOf_some h
  exact (List.getElem?_eq_some.mp hg).1

theorem keptInv_step {a c c1 : Circuit} {i : Nat} {cs : Circuit} {name : String}
    {F rest : List Nat} {h j : Nat} (hinv : InnerInv a.gates.length i cs c F (h :: rest))
    (hrun : insertFanout c i name h j = some c1) (hk : KeptInv a c) : KeptInv a c1 := by
  obtain ⟨_, hhn, ri, hri, hlen1, hp1, ht1⟩ := innerInv_step hinv hrun
  obtain ⟨⟨hn0, hl, hbr, hold⟩, hi, _⟩ := hinv
  obtain ⟨hpk, hty, hfp⟩ := hk
  have hmono : ∀ p q, IsBranch c p q → IsBranch c1 p q := by
    intro p q hb
    rcases hb with e | ⟨e1, e2⟩
    · exact Or.inl e
    · have hq : q < c.gates.length := typeOf_lt e1
      have hqL : ¬ q = c.gates.length := by omega
      have hqh : ¬ q = h := by
        intro e
        subst e
        exact hold q hhn e1
      refine Or.inr ⟨?_, ?_⟩
      · rw [ht1, if_neg hqL]; exact e1
      · rw [hp1, if_neg hqL, if_neg hqh]; exact e2
  have hnew : ∀ p, IsBranch c p i → IsBranch c1 p c.gates.length := by
    intro p hb
    have hp : p = i := by
      rcases hb with e | ⟨e1, _⟩
      · exact e.symm
      · exact absurd e1 (hold i hi)
    subst hp
    refine Or.inr ⟨?_, ?_⟩
    · rw [ht1, if_pos rfl]
    · rw [hp1, if_pos rfl]
  refine ⟨?_, ?_, ?_⟩
  · intro g hg
    have hgL : ¬ g = c.gates.length := by omega
    rw [hp1, if_neg hgL]
    by_cases hgh : g = h
    · subst hgh
      rw [if_pos rfl]
      exact forall2_replaceFirst hmono hnew (hpk g hg) hri
    · rw [if_neg hgh]
      exact (hpk g hg).imp hmono
  · intro g hg
    have hgL : ¬ g = c.gates.length := by omega
    rw [ht1, if_neg hgL]
    exact hty g hg
  · intro f hf p hp
    rw [hp1] at hp
    by_cases hfL : f = c.gates.length
    · rw [if_pos hfL] at hp
      rw [List.mem_singleton.mp hp]
      exact hi
    · have hfh : ¬ f = h := by omega
      rw [if_neg hfL, if_neg hfh] at hp
      exact hfp f hf p hp

theorem keptInv_refl (a : Circuit) : KeptInv a a := by
  refine ⟨fun g _ => ?_, fun _ _ => rfl, ?_⟩
  · exact List.forall₂_same.mpr (fun p _ => Or.inl rfl)
  · intro f hf p hp
    rw [preds_out_of_range hf] at hp
    simp at hp

/-- The fanout pass keeps the predecessors and the types of the gates it starts from. -/
theorem fanoutPass_keptInv {c2 c3 : Circuit} {fuel : Nat}
    (hinv : SplitInv c2.gates.length c2.succs 0 c2) (hrun : fanoutPass fuel 0 c2 = some c3) :
    KeptInv c2 c3 := by
  obtain ⟨k, _, hX⟩ := fanoutPass_induct (fun _ c => KeptInv c2 c)
    (fun i c _ _ _ hX => hX)
    (fun i c c1 gi hs hin hgi hlen hso hX =>
      splitOutputs_keeps (KeptInv c2)
        (fun c c1 F rest h j hinner hins hq => keptInv_step hinner hins hq)
        (c2.succs i) c [] 0 c1 (splitInv_split hs hin hlen hso).2.2.2 hX hso)
    fuel 0 c2 c3 hinv (keptInv_refl c2) hrun
  exact hX

/-! ## The split circuit is well formed and has the same cones -/

theorem forall2_mem_right {R : Nat → Nat → Prop} {l m : List Nat} (h : List.Forall₂ R l m) :
    ∀ q ∈ m, ∃ p ∈ l, R p q := by
  induction h with
  | nil => intro q hq; simp at hq
  | @cons p0 q0 l m hpq _ ih =>
    intro q hq
    rcases List.mem_cons.mp hq with e | e
    · exact ⟨p0, List.mem_cons_self _ _, e ▸ hpq⟩
    · obtain ⟨p, hp, hr⟩ := ih q e
      exact ⟨p, List.mem_cons_of_mem _ hp, hr⟩

theorem forall2_mem_left {R : Nat → Nat → Prop} {l m : List Nat} (h : List.Forall₂ R l m) :
    ∀ p ∈ l, ∃ q ∈ m, R p q := by
  induction h with
  | nil => intro p hp; simp at hp
  | @cons p0 q0 l m hpq _ ih =>
    intro p hp
    rcases List.mem_cons.mp hp with e | e
    · exact ⟨q0, List.mem_cons_self _ _, e ▸ hpq⟩
    · obtain ⟨q, hq, hr⟩ := ih p e
      exact ⟨q, List.mem_cons_of_mem _ hq, hr⟩

theorem wellFormed_of {c : Circuit} {level : Nat → Nat}
    (h1 : ∀ po ∈ c.outputGates, po < c.gates.length)
    (h2 : ∀ p ∈ c.inputGates, p < c.gates.length)
    (h3 : ∀ (g : Nat) (gate : Gate), c.gates[g]? = some gate →
      gate.gateType ∈ gateTypes ∧
      (gate.gateType = GATE_PI → gate.gateInputs = [] ∧ g ∈ c.inputGates) ∧
      (gate.gateType ≠ GATE_PI → gate.gateInputs ≠ []) ∧
      ∀ p ∈ gate.gateInputs, p < c.gates.length ∧ level p < level g) :
    WellFormed c level :=
  ⟨h1, h2, fun ig hig => h3 ig.1 ig.2 (List.mk_mem_enum_iff_getElem?.mp hig)⟩

/-- A branch is an appended gate, or the predecessor itself. -/
theorem IsBranch.cases {a c : Circuit}
    (hold : ∀ g < a.gates.length, c.typeOf g ≠ some GATE_FANOUT) {p q : Nat}
    (h : IsBranch c p q) (hp : p < a.gates.length) :
    (q = p ∧ q < a.gates.length) ∨
      (a.gates.length ≤ q ∧ c.typeOf q = some GATE_FANOUT ∧ c.preds q = [p]) := by
  rcases h with e | ⟨e1, e2⟩
  · exact Or.inl ⟨e, e ▸ hp⟩
  · refine Or.inr ⟨?_, e1, e2⟩
    by_contra hlt
    exact hold q (by omega) e1

/-- The split circuit is well formed, with the levels `splitLevel`. -/
theorem wellFormed_split {a c : Circuit} {level : Nat → Nat} (hwf : WellFormed a level)
    (hs : SplitOf a c) : WellFormed c (splitLevel level c a.gates.length) := by
  obtain ⟨⟨hpk, hty, hfp⟩, hn0, hl, hbr, hold, hin, hout⟩ := hs
  apply wellFormed_of
  · intro po hpo
    rw [hout] at hpo
    have := hwf.1 po hpo
    omega
  · intro p hp
    rw [hin] at hp
    have := hwf.2.1 p hp
    omega
  · intro g gate hg
    have hglt : g < c.gates.length := (List.getElem?_eq_some.mp hg).1
    by_cases hgn : g < a.gates.length
    · obtain ⟨ga, hga, _, _, hta⟩ := exists_gate hgn
      have htg : gate.gateType = ga.gateType := by
        have := hty g hgn
        rw [typeOf_eq hg, ← hta] at this
        exact Option.some.inj this
      obtain ⟨w1, w2, w3, w4⟩ := hwf.wf_get hga
      have hf2 := hpk g hgn
      rw [preds_eq hga, preds_eq hg] at hf2
      refine ⟨htg ▸ w1, ?_, ?_, ?_⟩
      · intro e
        obtain ⟨e1, e2⟩ := w2 (htg ▸ e)
        rw [e1] at hf2
        exact ⟨List.forall₂_nil_left_iff.mp hf2, hin ▸ e2⟩
      · intro e he
        apply w3 (htg ▸ e)
        rw [he] at hf2
        exact List.forall₂_nil_right_iff.mp hf2
      · intro q hq
        refine ⟨hl g q (by rw [preds_eq hg]; exact hq), ?_⟩
        obtain ⟨p, hp, hr⟩ := forall2_mem_right hf2 q hq
        obtain ⟨hplt, hlev⟩ := w4 p hp
        have hbq := IsBranch.cases hold hr hplt
        unfold splitLevel
        rcases hbq with ⟨e, hq1⟩ | ⟨hq1, _, hq3⟩
        · rw [if_pos hq1, if_pos hgn, e]
          omega
        · rw [if_neg (by omega), if_pos hgn, hq3]
          simp only
          omega
    · have hge : a.gates.length ≤ g := by omega
      obtain ⟨b1, b2⟩ := hbr g hge hglt
      rw [typeOf_eq hg, Option.some.injEq] at b1
      rw [preds_eq hg] at b2
      obtain ⟨p, hp⟩ : ∃ p, gate.gateInputs = [p] := by
        match hgi : gate.gateInputs, b2 with
        | [p], _ => exact ⟨p, rfl⟩
      refine ⟨by rw [b1]; decide, ?_, ?_, ?_⟩
      · intro e
        rw [b1] at e
        exact absurd e (by decide)
      · intro _ he
        rw [hp] at he
        cases he
      · intro q hq
        rw [hp, List.mem_singleton] at hq
        subst hq
        have hq1 : q < a.gates.length :=
          hfp g hge q (by rw [preds_eq hg, hp]; exact List.mem_singleton_self _)
        refine ⟨by omega, ?_⟩
        unfold splitLevel
        rw [if_pos hq1, if_neg hgn, preds_eq hg, hp]
        simp only
        omega

/-- A gate of the old circuit lies in a cone of the split circuit iff it lies in the same
cone of the old one. -/
theorem fanIn_split_iff {a c : Circuit} {level : Nat → Nat} (hwf : WellFormed a level)
    (hs : SplitOf a c) {x g : Nat} (hx : x < a.gates.length) (hg : g < a.gates.length) :
    FanIn c.preds x g ↔ FanIn a.preds x g := by
  obtain ⟨⟨hpk, hty, hfp⟩, _, _, _, hold, _, _⟩ := hs
  have hrange : ∀ y p, p ∈ a.preds y → p < a.gates.length := by
    intro y p hp
    unfold Circuit.preds at hp
    cases hy : a.gates[y]? with
    | none => simp [hy] at hp
    | some gy =>
      simp only [hy] at hp
      exact ((hwf.wf_get hy).2.2.2 p hp).1
  constructor
  · intro hf
    have key : ∀ x g, FanIn c.preds x g → g < a.gates.length →
        (x < a.gates.length → FanIn a.preds x g) ∧
        (a.gates.length ≤ x → ∃ p ∈ c.preds x, FanIn a.preds p g) := by
      intro x g hf
      induction hf with
      | self y =>
        intro hy
        exact ⟨fun _ => FanIn.self y, fun hle => by omega⟩
      | @step y q h hq _ ih =>
        intro hh
        obtain ⟨ih1, ih2⟩ := ih hh
        constructor
        · intro hy
          obtain ⟨p, hp, hr⟩ := forall2_mem_right (hpk y hy) q hq
          rcases IsBranch.cases hold hr (hrange y p hp) with ⟨e, hq1⟩ | ⟨hq1, _, hq3⟩
          · exact FanIn.step (e ▸ hp) (ih1 hq1)
          · obtain ⟨p1, hp1, hf1⟩ := ih2 hq1
            rw [hq3, List.mem_singleton] at hp1
            subst hp1
            exact FanIn.step hp hf1
        · intro hle
          exact ⟨q, hq, ih1 (hfp y hle q hq)⟩
    exact (key x g hf hg).1 hx
  · intro hf
    have key : ∀ x g, FanIn a.preds x g → x < a.gates.length → FanIn c.preds x g := by
      intro x g hf
      induction hf with
      | self y => intro _; exact FanIn.self y
      | @step y p h hp _ ih =>
        intro hy
        have hplt := hrange y p hp
        obtain ⟨q, hq, hr⟩ := forall2_mem_left (hpk y hy) p hp
        rcases hr with e | ⟨_, e2⟩
        · subst e
          exact FanIn.step hq (ih hplt)
        · exact FanIn.step hq
            (FanIn.step (by rw [e2]; exact List.mem_singleton_self _) (ih hplt))
    exact key x g hf hx

/-! ## The split circuit computes the same values -/

theorem inputValues_split {a b : Circuit} {R : Nat → Nat → Prop} {ps qs : List Nat}
    (h : List.Forall₂ R ps qs) :
    ∀ {va vb : List Int}, inputValues a ps = some va → inputValues b qs = some vb →
      (∀ p q, p ∈ ps → R p q → ∀ x y, a.getValue p = some x → b.getValue q = some y →
        x ≠ LOGIC_UNSET → y ≠ LOGIC_UNSET → y = x) →
      LOGIC_UNSET ∉ va → LOGIC_UNSET ∉ vb → vb = va := by
  induction h with
  | nil =>
    intro va vb ha hb _ _ _
    simp only [inputValues, Option.some.injEq] at ha hb
    rw [← ha, ← hb]
  | @cons p q ps qs hpq _ ih =>
    intro va vb ha hb hrel hua hub
    simp only [inputValues] at ha hb
    cases hpa : a.getValue p with
    | none => simp [hpa] at ha
    | some x =>
      cases hqb : b.getValue q with
      | none => simp [hqb] at hb
      | some y =>
        simp only [hpa, hqb] at ha hb
        cases hra : inputValues a ps with
        | none => simp [hra] at ha
        | some ra =>
          cases hrb : inputValues b qs with
          | none => simp [hrb] at hb
          | some rb =>
            simp only [hra, hrb, Option.map_some', Option.some.injEq] at ha hb
            subst ha
            subst hb
            have hx : x ≠ LOGIC_UNSET := fun e => hua (e ▸ List.mem_cons_self _ _)
            have hy : y ≠ LOGIC_UNSET := fun e => hub (e ▸ List.mem_cons_self _ _)
            rw [hrel p q (List.mem_cons_self _ _) hpq x y hpa hqb hx hy,
              ih hra hrb (fun p1 q1 hp1 => hrel p1 q1 (List.mem_cons_of_mem _ hp1))
                (fun hm => hua (List.mem_cons_of_mem _ hm))
                (fun hm => hub (List.mem_cons_of_mem _ hm))]

/-- A fault-free gate of type `FANOUT` with the sole predecessor `p` that holds a value holds
the value of `p`. -/
theorem branch_value {b : Circuit} (hcb : Closed b) (hnb : NoFault b) {q p : Nat} {gq : Gate}
    (hgq : b.gates[q]? = some gq) (ht : b.typeOf q = some GATE_FANOUT)
    (hp : b.preds q = [p]) (hne : gq.gateValue ≠ LOGIC_UNSET) :
    b.getValue p = some gq.gateValue := by
  rw [typeOf_eq hgq, Option.some.injEq] at ht
  rw [preds_eq hgq] at hp
  obtain ⟨vals, v, hvals, _, hsim, hval⟩ :=
    hcb q gq hgq (by rw [ht]; decide) hne
  rw [hnb gq (List.getElem?_mem hgq), faultedValue_noFault] at hval
  rw [hp] at hvals
  simp only [inputValues] at hvals
  cases hpv : b.getValue p with
  | none => simp [hpv] at hvals
  | some yp =>
    simp only [hpv, Option.map_some', Option.some.injEq] at hvals
    subst hvals
    rw [ht] at hsim
    have : simGateType GATE_FANOUT [yp] = some yp := rfl
    rw [this, Option.some.injEq] at hsim
    rw [hval, hsim]

/-- In consistent fault-free states of a circuit and of its split with the same values on
the primary inputs, every old gate that holds a value in both holds the same one. -/
theorem split_values_agree {level : Nat → Nat} {a b : Circuit} (hwf : WellFormed a level)
    (hs : SplitOf a b) (hca : Closed a) (hcb : Closed b) (hna : NoFault a) (hnb : NoFault b)
    (hpi : ∀ (g : Nat) (ga gb : Gate), a.gates[g]? = some ga → b.gates[g]? = some gb →
      ga.gateType = GATE_PI → gb.gateValue = ga.gateValue) :
    ∀ g, g < a.gates.length → ∀ (ga gb : Gate), a.gates[g]? = some ga →
      b.gates[g]? = some gb → ga.gateValue ≠ LOGIC_UNSET → gb.gateValue ≠ LOGIC_UNSET →
      gb.gateValue = ga.gateValue := by
  obtain ⟨⟨hpk, hty, hfp⟩, _, _, _, hold, _, _⟩ := hs
  intro g
  induction g using acyclic_induction hwf.acyclic with
  | _ g ih =>
    intro hg ga gb hga hgb hua hub
    have htg : gb.gateType = ga.gateType := by
      have := hty g hg
      rw [typeOf_eq hgb, typeOf_eq hga] at this
      exact Option.some.inj this
    by_cases hpit : ga.gateType = GATE_PI
    · exact hpi g ga gb hga hgb hpit
    · obtain ⟨valsA, vA, hA1, hA2, hA3, hA4⟩ := hca g ga hga hpit hua
      obtain ⟨valsB, vB, hB1, hB2, hB3, hB4⟩ := hcb g gb hgb (htg ▸ hpit) hub
      have hf2 := hpk g hg
      rw [preds_eq hga, preds_eq hgb] at hf2
      have hvals : valsB = valsA := inputValues_split hf2 hA1 hB1 (by
        intro p q hp hr x y hx hy hxu hyu
        have hplt : p < a.gates.length := ((hwf.wf_get hga).2.2.2 p hp).1
        have hpm : p ∈ a.preds g := by rw [preds_eq hga]; exact hp
        obtain ⟨gpa, hgpa, ea⟩ := getValue_some hx
        obtain ⟨gq, hgq, eq⟩ := getValue_some hy
        rcases IsBranch.cases hold hr hplt with ⟨e, _⟩ | ⟨_, hq2, hq3⟩
        · subst e
          rw [← ea, ← eq]
          exact ih q hpm hplt gpa gq hgpa hgq (ea ▸ hxu) (eq ▸ hyu)
        · have hbv := branch_value hcb hnb hgq hq2 hq3 (eq ▸ hyu)
          obtain ⟨gpb, hgpb, eb⟩ := getValue_some hbv
          rw [← ea, ← eq, ← eb]
          exact ih p hpm hplt gpa gpb hgpa hgpb (ea ▸ hxu) (by rw [eb, eq]; exact hyu))
        hA2 hB2
      rw [hna ga (List.getElem?_mem hga), faultedValue_noFault] at hA4
      rw [hnb gb (List.getElem?_mem hgb), faultedValue_noFault] at hB4
      rw [htg, hvals, hA3, Option.some.injEq] at hB3
      rw [hA4, hB4, hB3]

theorem SameGraph.graph_typeOf {c c1 : Circuit} (h : SameGraph c c1) :
    c1.typeOf = c.typeOf := by
  funext g
  unfold Circuit.typeOf
  cases hg : c.gates[g]? with
  | none =>
    have : c1.gates[g]? = none := by
      rw [List.getElem?_eq_none_iff] at hg ⊢
      rw [h.graph_length]; exact hg
    simp [this]
  | some gate =>
    obtain ⟨gate1, h1, ht, _⟩ := h.graph_get hg
    simp [h1, ht]

theorem SplitOf.split_congr {a a1 c c1 : Circuit} (ha : SameGraph a a1) (hc : SameGraph c c1)
    (hs : SplitOf a c) : SplitOf a1 c1 := by
  unfold SplitOf KeptInv PredsKept IsBranch at *
  rw [ha.graph_preds, ha.graph_length, ha.graph_typeOf, hc.graph_preds, hc.graph_length,
    hc.graph_typeOf, hc.1, hc.2.1, ha.1, ha.2.1]
  exact hs

/-- The fanout pass leaves a split of the circuit it starts from. -/
theorem fanoutPass_splitOf {c2 c3 : Circuit} {fuel : Nat}
    (hinv : SplitInv c2.gates.length c2.succs 0 c2) (hrun : fanoutPass fuel 0 c2 = some c3) :
    SplitOf c2 c3 := by
  obtain ⟨⟨⟨hn0, hl, hbr, hold⟩, _⟩, hin, hout⟩ := fanoutPass_partial fuel 0 c2 c3 hinv hrun
  refine ⟨fanoutPass_keptInv hinv hrun, hn0, fun g p hp => mem_preds_lt hl hp, ?_, hold, hin,
    hout⟩
  intro g h1 h2
  exact ⟨(hbr g h1 h2).1, (hbr g h1 h2).2.1⟩

theorem NoFault.noFault_sameNet {c c1 : Circuit} (h : NoFault c) (hs : SameNet c c1) :
    NoFault c1 := by
  intro gate1 hmem
  obtain ⟨g, hg⟩ := List.mem_iff_getElem?.mp hmem
  obtain ⟨gate0, hg0, _, _, hf0, _⟩ := hs.net_symm.get_fields hg
  rw [← hf0]
  exact h gate0 (List.getElem?_mem hg0)

/-- Simulation of a fault-free circuit and of its split from the same input values leaves
the same value on every old gate. -/
theorem split_simulation {level : Nat → Nat} {a0 b0 a b : Circuit} {K K3 : Nat}
    (hwf : WellFormed a0 level) (hs : SplitOf a0 b0) (hna : NoFault a0) (hnb : NoFault b0)
    (hin : InputsSet a0)
    (hpi : ∀ (g : Nat) (ga gb : Gate), a0.gates[g]? = some ga → b0.gates[g]? = some gb →
      ga.gateType = GATE_PI → gb.gateValue = ga.gateValue)
    (hsa : simFullCircuit K a0 = some a) (hsb : simFullCircuit K3 b0 = some b) :
    ∀ g < a0.gates.length, b.getValue g = a.getValue g := by
  have hwfb := wellFormed_split hwf hs
  have hty := hs.1.2.1
  have hinb : InputsSet b0 := by
    intro gb hmem ht
    obtain ⟨g, hgb⟩ := List.mem_iff_getElem?.mp hmem
    have hglt : g < b0.gates.length := (List.getElem?_eq_some.mp hgb).1
    have hg : g < a0.gates.length := by
      by_contra hcon
      have := (hs.2.2.2.1 g (by omega) hglt).1
      rw [typeOf_eq hgb, Option.some.injEq, ht] at this
      exact absurd this (by decide)
    obtain ⟨ga, hga, _, _, hta⟩ := exists_gate hg
    have hte : ga.gateType = gb.gateType := by
      have := hty g hg
      rw [typeOf_eq hgb, ← hta, Option.some.injEq] at this
      exact this.symm
    rw [hpi g ga gb hga hgb (hte.trans ht)]
    exact hin ga (List.getElem?_mem hga) (hte.trans ht)
  obtain ⟨hsna, _, hca, _, hpia, _⟩ := simFullCircuit_spec hwf.acyclic hin hsa
  obtain ⟨hsnb, _, hcb, _, hpib, _⟩ := simFullCircuit_spec hwfb.acyclic hinb hsb
  have hs1 : SplitOf a b := hs.split_congr hsna.to_sameGraph hsnb.to_sameGraph
  have hlen : a.gates.length = a0.gates.length := hsna.net_length
  have hpi1 : ∀ (g : Nat) (ga gb : Gate), a.gates[g]? = some ga → b.gates[g]? = some gb →
      ga.gateType = GATE_PI → gb.gateValue = ga.gateValue := by
    intro g ga gb hga hgb ht
    have hg : g < a.gates.length := (List.getElem?_eq_some.mp hga).1
    obtain ⟨ga0, hga0, hta0, _⟩ := hsna.net_symm.get_fields hga
    obtain ⟨gb0, hgb0, htb0, _⟩ := hsnb.net_symm.get_fields hgb
    have hpa : ga0.gateType = GATE_PI := hta0.trans ht
    have htab : gb.gateType = ga.gateType := by
      have := hs1.1.2.1 g hg
      rw [typeOf_eq hgb, typeOf_eq hga, Option.some.injEq] at this
      exact this
    have hpb : gb0.gateType = GATE_PI := htb0.trans (htab.trans ht)
    have e1 : ga0 = ga := Option.some.inj ((hpia g ga0 hga0 hpa).symm.trans hga)
    have e2 : gb0 = gb := Option.some.inj ((hpib g gb0 hgb0 hpb).symm.trans hgb)
    rw [← e1, ← e2]
    exact hpi g ga0 gb0 hga0 hgb0 hpa
  intro g hg
  have hga1 : g < a.gates.length := by omega
  have hgb1 : g < b.gates.length := by have := hs1.2.1; omega
  have hga := List.getElem?_eq_getElem hga1
  have hgb := List.getElem?_eq_getElem hgb1
  generalize a.gates[g] = ga at hga
  generalize b.gates[g] = gb at hgb
  rw [getValue_eq hga, getValue_eq hgb]
  congr 1
  have htab : gb.gateType = ga.gateType := by
    have := hs1.1.2.1 g hga1
    rw [typeOf_eq hgb, typeOf_eq hga, Option.some.injEq] at this
    exact this
  have hcone : ∀ po ∈ a0.outputGates, (FanIn b0.preds po g ↔ FanIn a0.preds po g) :=
    fun po hpo => fanIn_split_iff hwf hs (hwf.1 po hpo) hg
  by_cases hua : ga.gateValue = LOGIC_UNSET
  · obtain ⟨u1, u2⟩ := (simulated_unset_iff hwf hin hsa hga).mp hua
    rw [hua]
    apply (simulated_unset_iff hwfb hinb hsb hgb).mpr
    refine ⟨htab ▸ u1, fun po hpo hf => ?_⟩
    rw [hs.2.2.2.2.2.2] at hpo
    exact u2 po hpo ((hcone po hpo).mp hf)
  · by_cases hub : gb.gateValue = LOGIC_UNSET
    · exfalso
      obtain ⟨u1, u2⟩ := (simulated_unset_iff hwfb hinb hsb hgb).mp hub
      apply hua
      apply (simulated_unset_iff hwf hin hsa hga).mpr
      refine ⟨htab ▸ u1, fun po hpo hf => ?_⟩
      exact u2 po (by rw [hs.2.2.2.2.2.2]; exact hpo) ((hcone po hpo).mpr hf)
    · exact split_values_agree (hwf.of_sameNet hsna) hs1 hca hcb (hna.noFault_sameNet hsna)
        (hnb.noFault_sameNet hsnb) hpi1 g hga1 ga gb hga hgb hua hub

/-- C33: let `c2` be the state of a circuit as the parser builds it after the linking loops of
`setupCircuit`, and `c3` the state after `setupCircuit`. Every gate of `c2` has in `c3` as many
predecessors as in `c2`, and its `k`-th predecessor in `c3` is its `k`-th predecessor in `c2`
or a gate of type `FANOUT` whose sole predecessor that is. Hence, if `c2` is a finalized
acyclic circuit, so is `c3`, and for fault-free states of the two graphs with the same values
on the primary inputs `simFullCircuit` leaves the same value on every gate of `c2`. -/
theorem C33_fanout_split_preserves_function (c : Circuit) (fuel : Nat) (c2 c3 : Circuit)
    (hp : Parsed c) (hlink : c.linkAll = some c2) (hrun : c.setupCircuit fuel = some c3) :
    c2.gates.length = c.gates.length ∧
    (∀ g < c.gates.length, List.Forall₂ (IsBranch c3) (c2.preds g) (c3.preds g)) ∧
    ∀ level : Nat → Nat, WellFormed c2 level →
      WellFormed c3 (splitLevel level c3 c.gates.length) ∧
      ∀ (a0 b0 a b : Circuit) (K K3 : Nat), SameGraph c2 a0 → SameGraph c3 b0 →
        NoFault a0 → NoFault b0 → InputsSet a0 →
        (∀ (g : Nat) (ga gb : Gate), a0.gates[g]? = some ga → b0.gates[g]? = some gb →
          ga.gateType = GATE_PI → gb.gateValue = ga.gateValue) →
        simFullCircuit K a0 = some a → simFullCircuit K3 b0 = some b →
        ∀ g < c.gates.length, b.getValue g = a.getValue g := by
  obtain ⟨c2x, hlinkx, hpass, _⟩ := setupCircuit_spec hrun
  rw [hlink, Option.some.injEq] at hlinkx
  subst hlinkx
  obtain ⟨c1, hres, hlg, _⟩ := linkAll_spec hlink
  obtain ⟨hlen2, hinv⟩ := splitInv_start hp hres hlg
  rw [← hlen2] at hinv ⊢
  have hs := fanoutPass_splitOf hinv hpass
  refine ⟨rfl, hs.1.1, ?_⟩
  intro level hwf
  refine ⟨wellFormed_split hwf hs, ?_⟩
  intro a0 b0 a b K K3 hga hgb hna hnb hin hpi hsa hsb g hg
  exact split_simulation (hwf.of_sameGraph hga) (hs.split_congr hga hgb) hna hnb hin hpi hsa
    hsb g
    (by rw [hga.graph_length]; exact hg)

/-- C33 on the netlist `Y = AND(A, A)`: after `setupCircuit` the two predecessors of `Y` are
the branches `A_0` and `A_1` of `A`, in this order. -/
theorem C33_fanout_split_preserves_function_witness :
    twiceNetlist.setupCircuit 4 = some twiceCircuit ∧
    ∀ g < 2, List.Forall₂ (IsBranch twiceCircuit) (twiceLinked.preds g)
      (twiceCircuit.preds g) :=
  ⟨by decide,
    (C33_fanout_split_preserves_function twiceNetlist 4 twiceLinked twiceCircuit (by decide)
      (by decide) (by decide)).2.1⟩



/-! ## The search on a circuit with a two-input BUFF gate -/

/-- On `Y = BUFF(B, A)` with `A` stuck-at-0 and `A = D`, a call of `podemRecursion` with the
D-frontier `[Y]` assigns X to `B` and recurses on the same state, so no recursion fuel gives a
result. -/
theorem buff_loop :
    ∀ fuel, podemRecursion 2 fuel (buffPodem LOGIC_D LOGIC_X LOGIC_X [2]) = none := by
  intro fuel
  induction fuel with
  | zero => rfl
  | succ fuel ih =>
    have hao : anyOutputDetects (buffPodem LOGIC_D LOGIC_X LOGIC_X [2]).myCircuit
        (buffPodem LOGIC_D LOGIC_X LOGIC_X [2]).myCircuit.outputGates = some false := by
      decide
    have hgo : getObjective (buffPodem LOGIC_D LOGIC_X LOGIC_X [2])
        = some (buffPodem LOGIC_D LOGIC_X LOGIC_X [2], some (some 1, LOGIC_X)) := by decide
    have hbt : backtrace 2 (buffPodem LOGIC_D LOGIC_X LOGIC_X [2]).myCircuit 1 LOGIC_X
        = some (1, LOGIC_X) := by decide
    have has : assignAndSimulate 2 (buffPodem LOGIC_D LOGIC_X LOGIC_X [2]) 1 LOGIC_X
        = some (buffPodem LOGIC_D LOGIC_X LOGIC_X [2]) := by decide
    simp only [podemRecursion, hao, hgo, hbt, has, ih]

theorem buff_diverges :
    ∀ fuel, podemRecursion 2 fuel (buffPodem LOGIC_X LOGIC_X LOGIC_X []) = none := by
  intro fuel
  cases fuel with
  | zero => rfl
  | succ fuel =>
    have hao : anyOutputDetects (buffPodem LOGIC_X LOGIC_X LOGIC_X []).myCircuit
        (buffPodem LOGIC_X LOGIC_X LOGIC_X []).myCircuit.outputGates = some false := by
      decide
    have hgo : getObjective (buffPodem LOGIC_X LOGIC_X LOGIC_X [])
        = some (buffPodem LOGIC_X LOGIC_X LOGIC_X [], some (some 0, LOGIC_ONE)) := by decide
    have hbt : backtrace 2 (buffPodem LOGIC_X LOGIC_X LOGIC_X []).myCircuit 0 LOGIC_ONE
        = some (0, LOGIC_ONE) := by decide
    have has : assignAndSimulate 2 (buffPodem LOGIC_X LOGIC_X LOGIC_X []) 0 LOGIC_ONE
        = some (buffPodem LOGIC_D LOGIC_X LOGIC_X []) := by decide
    have hrec : podemRecursion 2 fuel (buffPodem LOGIC_D LOGIC_X LOGIC_X []) = none := by
      cases fuel with
      | zero => rfl
      | succ fuel =>
        have hao2 : anyOutputDetects (buffPodem LOGIC_D LOGIC_X LOGIC_X []).myCircuit
            (buffPodem LOGIC_D LOGIC_X LOGIC_X []).myCircuit.outputGates = some false := by
          decide
        have hgo2 : getObjective (buffPodem LOGIC_D LOGIC_X LOGIC_X [])
            = some (buffPodem LOGIC_D LOGIC_X LOGIC_X [2], some (some 1, LOGIC_X)) := by
          decide
        have hbt2 : backtrace 2 (buffPodem LOGIC_D LOGIC_X LOGIC_X [2]).myCircuit 1 LOGIC_X
            = some (1, LOGIC_X) := by decide
        have has2 : assignAndSimulate 2 (buffPodem LOGIC_D LOGIC_X LOGIC_X [2]) 1 LOGIC_X
            = some (buffPodem LOGIC_D LOGIC_X LOGIC_X [2]) := by decide
        simp only [podemRecursion, hao2, hgo2, hbt2, has2, buff_loop fuel]
    simp only [podemRecursion, hao, hgo, hbt, has, hrec]

/-- C18 fails as stated: the netlist `Y = BUFF(B, A)` passes `setupCircuit` and is acyclic
and well formed; for `A` stuck-at-0 the search sets `A = 1`, finds the BUFF gate `Y` on the
D-frontier, takes `B` with the value X as objective, assigns X to `B`, and recurses on the
same state: `podemRecursion` returns for no recursion fuel. -/
theorem C18_two_input_buffer_counterexample :
    buffNetlist.setupCircuit 3 = some (buffState LOGIC_UNSET LOGIC_UNSET LOGIC_UNSET NOFAULT) ∧
    WellFormed (buffState LOGIC_UNSET LOGIC_UNSET LOGIC_UNSET NOFAULT) buffLevel ∧
    setupFault (buffState LOGIC_UNSET LOGIC_UNSET LOGIC_UNSET NOFAULT) "A" FAULT_SA0
      = some (buffPodem LOGIC_X LOGIC_X LOGIC_X []) ∧
    assignAndSimulate 2 (buffPodem LOGIC_D LOGIC_X LOGIC_X [2]) 1 LOGIC_X
      = some (buffPodem LOGIC_D LOGIC_X LOGIC_X [2]) ∧
    ∀ fuel, podemRecursion 2 fuel (buffPodem LOGIC_X LOGIC_X LOGIC_X []) = none :=
  ⟨by decide, by decide, by decide, by decide, buff_diverges⟩

end PODEM
